import Mathlib

/-!
# Mode timeline, Riccati flow map and foot normal constraint of ocs2

A shallow embedding of three parts of the repository.

* `ocs2_switched_model_interface/logic/implementation/SwitchedModelLogicRulesBase.h`:
  the mode timeline (`subsystemsSequence_`, `eventTimes_`), its editing operations
  `insertModeSequenceTemplate`, `rewind`, `tileModeSequenceTemplate`, the bookkeeping
  done by `update`, and the two queries `getContactFlags` / `getMotionPhaseLogics`.
* `ocs2_slq/PartialRiccatiEquations.h`: `convert2Vector`, `convert2Matrix`, `computeFlowMap`
  and `makePSD`.
* `ocs2_switched_model_interface/src/constraint/FootNormalConstraint.cpp`: `getValue` and
  `getLinearApproximation`.

Modelling conventions.
* `scalar_t` (a C++ `double`) is modelled by the rationals; the binary64 numbers are the
  rationals that `round64` (IEEE 754 round to nearest, ties to even) leaves fixed. Overflow to
  infinity and NaN are not modelled. The Riccati equations and the PSD correction are stated
  over an arbitrary (ordered) field.
* The editing operations of the timeline come in two models. In the exact one
  (`tileModeSequenceTemplate`, `insertModeSequenceTemplate`, `rewind`) the sums of the source are
  not rounded. In the rounded one (`rounded.tileModeSequenceTemplate`,
  `rounded.insertModeSequenceTemplate`, `rounded.rewind`) every sum and difference the source
  computes (lines 223, 296, 297) and the literal `0.001` (line 217) are rounded by a function
  `fl`; with `fl = round64` this is the arithmetic of the program, and with the identity it is
  the exact model (`rounded_insertModeSequenceTemplate_id`, `rounded_rewind_id`). What depends
  on the value of a sum (the order of the event times, the start-time error, the number of
  passes of the tiling loop and its termination, `rewind` after an insertion or after `rewind`)
  is stated in the rounded model.
* `size_t` mode numbers are natural numbers.
* A call either returns, throws a `std::runtime_error`, or runs into undefined behaviour
  (`back()`, `front()` or `erase` applied outside the range of a vector); the three are
  kept apart by `Outcome`.
* The `while` loop of `tileModeSequenceTemplate` is run with a fuel bound; `none` means that
  the bound was reached before the loop condition became false.
* What the sources use but do not define (`ModeNumber::STANCE`, `modeNumber2StanceLeg`,
  the feet planner, the precomputation, the eigen solver of the Eigen library) is a parameter.
-/

namespace switched_model

/-- The scalar type of the header; a `double` in the source, a rational number here (see
`round64` for the rounding of binary64 arithmetic). -/
abbrev scalar_t := ℚ

/-- The type `contact_flag_t` of the source, a `std::array<bool, 4>`. -/
abbrev contact_flag_t := Bool × Bool × Bool × Bool

/-- The `std::runtime_error`s thrown in the header, one constructor per `throw`. -/
inductive RuntimeError where
  /-- "The requested index ... refers to an out-of-bound motion phase." -/
  | outOfBoundMotionPhase (index : Nat)
  /-- "The number of the subsystems in the user-defined template should be equal to the number
  of the template switching times minus 1." -/
  | templateSizeMismatch
  /-- "The initial time for template-tiling is not greater than the last event time." -/
  | tilingStartNotGreater
  /-- "Not a square matrix: makePSD() method is for square matrix." -/
  | notSquareMatrix
  deriving DecidableEq, Repr

/-- How a call ends: normal return, a thrown `std::runtime_error`, or undefined behaviour. -/
inductive Outcome (α : Type) where
  | returned (a : α)
  | raised (e : RuntimeError)
  | undefined
  deriving DecidableEq, Repr

/-- What the header takes from elsewhere: the mode number `ModeNumber::STANCE`, the function
`modeNumber2StanceLeg`, and `planSingleMode` of the feet planner (here a function of the slot
index, the mode sequence and the event times, with the planned feet references as value). -/
structure Collaborators (F : Type) where
  STANCE : Nat
  modeNumber2StanceLeg : Nat → contact_flag_t
  planSingleMode : Nat → List Nat → List scalar_t → F

/-- The type `logic_template_type`: a relative mode pattern. -/
structure logic_template_type where
  templateSubsystemsSequence_ : List Nat
  templateSwitchingTimes_ : List scalar_t
  deriving DecidableEq, Repr

/-- The data members of `SwitchedModelLogicRulesBase` and of its base class that the modelled
member functions read or write. An entry `none` of `feetReferencePtrStock_` is a
default-constructed (not yet planned) array of feet references. -/
structure SwitchedModelLogicRulesBase (F : Type) where
  subsystemsSequence_ : List Nat
  eventTimes_ : List scalar_t
  modeSequenceTemplate_ : logic_template_type
  phaseTransitionStanceTime_ : scalar_t
  contactFlagsStock_ : List contact_flag_t
  feetReferencePtrStock_ : List (Option F)
  feetReferenceUpdatedStock_ : List Bool
  deriving DecidableEq, Repr

/-- The binary search of `std::lower_bound` over `[first, first + len)`: halve the range,
compare the middle element with `val`, continue right of it when it is smaller and left of it
otherwise. The first argument bounds the number of halvings (`len` of them always suffice). -/
def lowerBoundLoop (xs : List scalar_t) (val : scalar_t) : Nat → Nat → Nat → Nat
  | 0, first, _ => first
  | fuel + 1, first, len =>
    if len = 0 then first
    else
      match xs[first + len / 2]? with
      | some v =>
        if v < val then lowerBoundLoop xs val fuel (first + len / 2 + 1) (len - len / 2 - 1)
        else lowerBoundLoop xs val fuel first (len / 2)
      | none => first

/-- The index `std::lower_bound(xs.begin(), xs.end(), val) - xs.begin()`. -/
def lower_bound (xs : List scalar_t) (val : scalar_t) : Nat :=
  lowerBoundLoop xs val xs.length 0 xs.length

/-- The effect of `std::vector::resize(n)`: keep the first `n` entries, pad with `d`. -/
def resize {α : Type} (xs : List α) (n : Nat) (d : α) : List α :=
  xs.take n ++ List.replicate (n - xs.length) d

/-- The member function `update()` (lines 104-117): one contact flag per mode, the feet
reference stock resized to the number of modes, every slot marked as not yet planned. -/
def update {F : Type} (E : Collaborators F) (self : SwitchedModelLogicRulesBase F) :
    SwitchedModelLogicRulesBase F :=
  let numSubsystems := self.subsystemsSequence_.length
  { self with
    contactFlagsStock_ := self.subsystemsSequence_.map E.modeNumber2StanceLeg
    feetReferencePtrStock_ := resize self.feetReferencePtrStock_ numSubsystems none
    feetReferenceUpdatedStock_ := List.replicate numSubsystems false }

/-- Modelled from the spec: `BASE::setModeSequence` is not part of the sources; by the comment
at its call site ("this will also call the update method") it stores the two sequences and
calls `update()`. -/
def setModeSequence {F : Type} (E : Collaborators F) (self : SwitchedModelLogicRulesBase F)
    (subsystemsSequence : List Nat) (eventTimes : List scalar_t) :
    SwitchedModelLogicRulesBase F :=
  update E { self with subsystemsSequence_ := subsystemsSequence, eventTimes_ := eventTimes }

/-- The member function `setMotionConstraints` (lines 88-99); the end-effector constraints it
also stores are not read by any modelled function and are left out. -/
def setMotionConstraints {F : Type} (E : Collaborators F) (self : SwitchedModelLogicRulesBase F)
    (subsystemsSequence : List Nat) (eventTimes : List scalar_t) :
    SwitchedModelLogicRulesBase F :=
  setModeSequence E self subsystemsSequence eventTimes

/-- The member function `getContactFlags` (lines 132-142). -/
def getContactFlags {F : Type} (self : SwitchedModelLogicRulesBase F) (index : Nat) :
    Outcome contact_flag_t :=
  if index ≥ self.contactFlagsStock_.length then
    .raised (.outOfBoundMotionPhase index)
  else
    match self.contactFlagsStock_[index]? with
    | some contactFlags => .returned contactFlags
    | none => .undefined

/-- The member function `getMotionPhaseLogics` (lines 147-171), run by one thread: the new
state of the object, the contact flags and the feet references of slot `index`. Reading a
stock vector beyond its size is undefined behaviour. -/
def getMotionPhaseLogics {F : Type} (E : Collaborators F) (self : SwitchedModelLogicRulesBase F)
    (index : Nat) : Outcome (SwitchedModelLogicRulesBase F × contact_flag_t × Option F) :=
  if index ≥ self.contactFlagsStock_.length then
    .raised (.outOfBoundMotionPhase index)
  else
    match self.contactFlagsStock_[index]?, self.feetReferenceUpdatedStock_[index]? with
    | some contactFlags, some updated =>
      if updated = false then
        if index < self.feetReferencePtrStock_.length then
          let planned := E.planSingleMode index self.subsystemsSequence_ self.eventTimes_
          .returned
            ({ self with
                feetReferencePtrStock_ := self.feetReferencePtrStock_.set index (some planned)
                feetReferenceUpdatedStock_ := self.feetReferenceUpdatedStock_.set index true },
              contactFlags, some planned)
        else .undefined
      else
        match self.feetReferencePtrStock_[index]? with
        | some feetReferencePtr => .returned (self, contactFlags, feetReferencePtr)
        | none => .undefined
    | _, _ => .undefined

/-- The `for` loop of `tileModeSequenceTemplate` (lines 293-298), from index `i` on with
`k` rounds to go: push the mode `i` of the template, then push the last event time plus the
length of the template phase `i`. -/
def tileForLoop {F : Type} (tmpl : logic_template_type) :
    Nat → Nat → SwitchedModelLogicRulesBase F → Outcome (SwitchedModelLogicRulesBase F)
  | 0, _, self => .returned self
  | k + 1, i, self =>
    match tmpl.templateSubsystemsSequence_[i]?, tmpl.templateSwitchingTimes_[i + 1]?,
        tmpl.templateSwitchingTimes_[i]?, self.eventTimes_.getLast? with
    | some mode, some t1, some t0, some last =>
      tileForLoop tmpl k (i + 1)
        { self with
          subsystemsSequence_ := self.subsystemsSequence_ ++ [mode]
          eventTimes_ := self.eventTimes_ ++ [last + (t1 - t0)] }
    | _, _, _, _ => .undefined

/-- The `while` loop of `tileModeSequenceTemplate` (lines 291-300) with a bound on the number
of times its condition is tested; `none` when the bound is reached. -/
def tileWhileLoop {F : Type} (tmpl : logic_template_type) (finalTime : scalar_t) :
    Nat → SwitchedModelLogicRulesBase F → Option (Outcome (SwitchedModelLogicRulesBase F))
  | 0, _ => none
  | fuel + 1, self =>
    match self.eventTimes_.getLast? with
    | none => some .undefined
    | some last =>
      if last < finalTime then
        match tileForLoop tmpl tmpl.templateSubsystemsSequence_.length 0 self with
        | .returned self1 => tileWhileLoop tmpl finalTime fuel self1
        | .raised e => some (.raised e)
        | .undefined => some .undefined
      else some (.returned self)

/-- The member function `tileModeSequenceTemplate` (lines 266-304). -/
def tileModeSequenceTemplate {F : Type} (E : Collaborators F) (fuel : Nat)
    (self : SwitchedModelLogicRulesBase F) (modeSequenceTemplate : logic_template_type)
    (startTime finalTime : scalar_t) : Option (Outcome (SwitchedModelLogicRulesBase F)) :=
  let numTemplateSubsystems := modeSequenceTemplate.templateSubsystemsSequence_.length
  if numTemplateSubsystems = 0 then some (.returned self)
  else if modeSequenceTemplate.templateSwitchingTimes_.length ≠ numTemplateSubsystems + 1 then
    some (.raised .templateSizeMismatch)
  else
    match self.eventTimes_.getLast? with
    | none => some .undefined
    | some last =>
      if startTime ≤ last then some (.raised .tilingStartNotGreater)
      else
        match tileWhileLoop modeSequenceTemplate finalTime fuel
            { self with eventTimes_ := self.eventTimes_ ++ [startTime] } with
        | some (.returned self1) =>
          some (.returned
            { self1 with subsystemsSequence_ := self1.subsystemsSequence_ ++ [E.STANCE] })
        | other => other

/-- Lines 202-210 of `insertModeSequenceTemplate`: find the index of the first event time not
below `startTime` and erase the old logic from there. Erasing from `begin() + index + 1` in a
mode sequence shorter than that is undefined behaviour. -/
def insertTruncate {F : Type} (self : SwitchedModelLogicRulesBase F) (startTime : scalar_t) :
    Outcome (SwitchedModelLogicRulesBase F) :=
  let index := lower_bound self.eventTimes_ startTime
  if index < self.eventTimes_.length then
    if index + 1 ≤ self.subsystemsSequence_.length then
      .returned
        { self with
          eventTimes_ := self.eventTimes_.take index
          subsystemsSequence_ := self.subsystemsSequence_.take (index + 1) }
    else .undefined
  else .returned self

/-- The local variable `phaseTransitionStanceTime` of `insertModeSequenceTemplate`
(lines 213-215). -/
def transitionStanceTime {F : Type} (E : Collaborators F) (self : SwitchedModelLogicRulesBase F) :
    scalar_t :=
  if self.subsystemsSequence_.length > 0 ∧ self.subsystemsSequence_.getLast? = some E.STANCE then 0
  else self.phaseTransitionStanceTime_

/-- Lines 217-220 of `insertModeSequenceTemplate`: add an intermediate stance phase when the
transition time exceeds `0.001`. -/
def insertTransition {F : Type} (E : Collaborators F) (self : SwitchedModelLogicRulesBase F)
    (startTime : scalar_t) : SwitchedModelLogicRulesBase F :=
  if transitionStanceTime E self > 1 / 1000 then
    { self with
      eventTimes_ := self.eventTimes_ ++ [startTime]
      subsystemsSequence_ := self.subsystemsSequence_ ++ [E.STANCE] }
  else self

/-- The member function `insertModeSequenceTemplate` (lines 196-227). -/
def insertModeSequenceTemplate {F : Type} (E : Collaborators F) (fuel : Nat)
    (self : SwitchedModelLogicRulesBase F) (modeSequenceTemplate : logic_template_type)
    (startTime finalTime : scalar_t) : Option (Outcome (SwitchedModelLogicRulesBase F)) :=
  match insertTruncate self startTime with
  | .returned self1 =>
    match tileModeSequenceTemplate E fuel (insertTransition E self1 startTime)
        modeSequenceTemplate (startTime + transitionStanceTime E self1) finalTime with
    | some (.returned self2) => some (.returned (update E self2))
    | other => other
  | .raised e => some (.raised e)
  | .undefined => some .undefined

/-- Lines 237-247 of `rewind`: find the index of the first event time not below
`lowerBoundTime`; when it is positive, erase the events and modes before position `index - 1`
and set the first remaining mode to stance. -/
def rewindTruncate {F : Type} (E : Collaborators F) (self : SwitchedModelLogicRulesBase F)
    (lowerBoundTime : scalar_t) : Outcome (SwitchedModelLogicRulesBase F) :=
  let index := lower_bound self.eventTimes_ lowerBoundTime
  if index > 0 then
    if index - 1 ≤ self.subsystemsSequence_.length then
      match self.subsystemsSequence_.drop (index - 1) with
      | [] => .undefined
      | _ :: rest =>
        .returned
          { self with
            eventTimes_ := self.eventTimes_.drop (index - 1)
            subsystemsSequence_ := E.STANCE :: rest }
    else .undefined
  else .returned self

/-- The member function `rewind` (lines 232-261); the template tiled is the one stored in the
base class (`modeSequenceTemplate()`). -/
def rewind {F : Type} (E : Collaborators F) (fuel : Nat) (self : SwitchedModelLogicRulesBase F)
    (lowerBoundTime upperBoundTime : scalar_t) :
    Option (Outcome (SwitchedModelLogicRulesBase F)) :=
  match rewindTruncate E self lowerBoundTime with
  | .returned self1 =>
    match self1.eventTimes_.getLast? with
    | none => some .undefined
    | some tilingStartTime =>
      if self1.subsystemsSequence_ = [] then some .undefined
      else
        match tileModeSequenceTemplate E fuel
            { self1 with
              eventTimes_ := self1.eventTimes_.dropLast
              subsystemsSequence_ := self1.subsystemsSequence_.dropLast }
            self1.modeSequenceTemplate_ tilingStartTime upperBoundTime with
        | some (.returned self2) => some (.returned (update E self2))
        | other => other
  | .raised e => some (.raised e)
  | .undefined => some .undefined

/-- The object with the modes `ms` and the event times `ts` pushed at the back of its
timeline (a name for the shape of the results of the tiling loops). -/
def pushed {F : Type} (self : SwitchedModelLogicRulesBase F) (ms : List Nat)
    (ts : List scalar_t) : SwitchedModelLogicRulesBase F :=
  { self with
    subsystemsSequence_ := self.subsystemsSequence_ ++ ms
    eventTimes_ := self.eventTimes_ ++ ts }

/-- The invariant of the data model on the lengths: one mode more than event times. -/
def LengthInvariant {F : Type} (self : SwitchedModelLogicRulesBase F) : Prop :=
  self.subsystemsSequence_.length = self.eventTimes_.length + 1

/-- Strictly increasing times. -/
def StrictlyIncreasing (ts : List scalar_t) : Prop :=
  ts.Pairwise (fun a b => a < b)

instance {F : Type} (self : SwitchedModelLogicRulesBase F) : Decidable (LengthInvariant self) :=
  inferInstanceAs (Decidable (_ = _))

instance (ts : List scalar_t) : Decidable (StrictlyIncreasing ts) :=
  inferInstanceAs (Decidable (List.Pairwise _ ts))

/-- A template is well formed when it has one switching time more than modes. -/
def WellFormedTemplate (tmpl : logic_template_type) : Prop :=
  tmpl.templateSwitchingTimes_.length = tmpl.templateSubsystemsSequence_.length + 1

instance (tmpl : logic_template_type) : Decidable (WellFormedTemplate tmpl) :=
  inferInstanceAs (Decidable (_ = _))

/-- Apply a function to the value of a normal return. -/
def Outcome.map {α β : Type} (g : α → β) : Outcome α → Outcome β
  | .returned a => .returned (g a)
  | .raised e => .raised e
  | .undefined => .undefined

/-- The part of a timeline that lies before `startTime`: the event times below `startTime`
and, with `k` their number, the modes at the indices `0..k`. -/
def keptTimeline {F : Type} (self : SwitchedModelLogicRulesBase F) (startTime : scalar_t) :
    SwitchedModelLogicRulesBase F :=
  { self with
    eventTimes_ := self.eventTimes_.filter (fun t => t < startTime)
    subsystemsSequence_ := self.subsystemsSequence_.take
      ((self.eventTimes_.filter (fun t => t < startTime)).length + 1) }

/-- The member function `getMotionPhaseLogics` (lines 147-171) with a record of its calls of
`planSingleMode`: next to the outcome, the slot indices the planner was invoked for during the
call (line 164). -/
def getMotionPhaseLogicsTraced {F : Type} (E : Collaborators F)
    (self : SwitchedModelLogicRulesBase F) (index : Nat) :
    Outcome (SwitchedModelLogicRulesBase F × contact_flag_t × Option F) × List Nat :=
  if index ≥ self.contactFlagsStock_.length then
    (.raised (.outOfBoundMotionPhase index), [])
  else
    match self.contactFlagsStock_[index]?, self.feetReferenceUpdatedStock_[index]? with
    | some contactFlags, some updated =>
      if updated = false then
        if index < self.feetReferencePtrStock_.length then
          let planned := E.planSingleMode index self.subsystemsSequence_ self.eventTimes_
          (.returned
            ({ self with
                feetReferencePtrStock_ := self.feetReferencePtrStock_.set index (some planned)
                feetReferenceUpdatedStock_ := self.feetReferenceUpdatedStock_.set index true },
              contactFlags, some planned), [index])
        else (.undefined, [])
      else
        match self.feetReferencePtrStock_[index]? with
        | some feetReferencePtr => (.returned (self, contactFlags, feetReferencePtr), [])
        | none => (.undefined, [])
    | _, _ => (.undefined, [])

/-- The object after a sequence of `getMotionPhaseLogics` calls with the given slot indices; a
call that does not return leaves the object as it was. -/
def stateAfterCalls {F : Type} (E : Collaborators F) :
    SwitchedModelLogicRulesBase F → List Nat → SwitchedModelLogicRulesBase F
  | self, [] => self
  | self, index :: rest =>
    match getMotionPhaseLogics E self index with
    | .returned (self1, _, _) => stateAfterCalls E self1 rest
    | _ => stateAfterCalls E self rest

/-- The object holds the timeline and contact flags of `update E x`, its stocks have one entry
per mode, and exactly the slots in `planned` are marked as planned, each holding what the
planner returns for it. -/
def PlannedSlots {F : Type} (E : Collaborators F) (x : SwitchedModelLogicRulesBase F)
    (planned : List Nat) (self : SwitchedModelLogicRulesBase F) : Prop :=
  self.subsystemsSequence_ = x.subsystemsSequence_ ∧ self.eventTimes_ = x.eventTimes_ ∧
  self.contactFlagsStock_ = x.subsystemsSequence_.map E.modeNumber2StanceLeg ∧
  self.feetReferenceUpdatedStock_.length = x.subsystemsSequence_.length ∧
  self.feetReferencePtrStock_.length = x.subsystemsSequence_.length ∧
  ∀ j, j < x.subsystemsSequence_.length →
    (j ∈ planned → self.feetReferenceUpdatedStock_[j]? = some true ∧
      self.feetReferencePtrStock_[j]? =
        some (some (E.planSingleMode j x.subsystemsSequence_ x.eventTimes_))) ∧
    (j ∉ planned → self.feetReferenceUpdatedStock_[j]? = some false)

/-- The switching time `s_i` of a template (`0` beyond the end of the list). -/
def switchingTime (tmpl : logic_template_type) (i : Nat) : scalar_t :=
  (tmpl.templateSwitchingTimes_[i]?).getD 0

/-- The period `T = s_n - s_0` of a template with `n` modes. -/
def templatePeriod (tmpl : logic_template_type) : scalar_t :=
  switchingTime tmpl tmpl.templateSubsystemsSequence_.length - switchingTime tmpl 0

/-- The event times that `k` tilings of the template from `startTime` add after `startTime`:
`startTime + j * T + (s_(i+1) - s_0)` for `j = 0..k-1`, `i = 0..n-1`. -/
def tiledEventTimes (tmpl : logic_template_type) (startTime : scalar_t) (k : Nat) :
    List scalar_t :=
  (List.range k).flatMap fun j =>
    (List.range tmpl.templateSubsystemsSequence_.length).map fun i =>
      startTime + j * templatePeriod tmpl + (switchingTime tmpl (i + 1) - switchingTime tmpl 0)

/-- The modes of `k` repetitions of the template. -/
def tiledModes (tmpl : logic_template_type) (k : Nat) : List Nat :=
  (List.replicate k tmpl.templateSubsystemsSequence_).flatten

/-- The type `vector3_t` of the source. -/
abbrev vector3_t := Fin 3 → scalar_t

/-- The struct `FootNormalConstraintMatrix` (FootPhase.h, lines 15-23): the linear constraint
`A_p * p_world + A_v * v_world + b = 0`, with `A_p` and `A_v` of size 1 x 3. -/
structure FootNormalConstraintMatrix where
  positionMatrix : Matrix (Fin 1) (Fin 3) scalar_t
  velocityMatrix : Matrix (Fin 1) (Fin 3) scalar_t
  constant : scalar_t

/-- What `FootNormalConstraint` reads from `SwitchedModelPreComputation` (not part of the
sources), per leg: the normal constraint, the foot position and velocity in the origin frame,
and their derivatives with respect to a state of dimension `nx` and an input of dimension
`nu`. -/
structure SwitchedModelPreComputation (nx nu : Nat) where
  getFootNormalConstraintInWorldFrame : Nat → FootNormalConstraintMatrix
  footPositionInOriginFrame : Nat → vector3_t
  footVelocityInOriginFrame : Nat → vector3_t
  footPositionInOriginFrameStateDerivative : Nat → Matrix (Fin 3) (Fin nx) scalar_t
  footVelocityInOriginFrameDerivative_dfdx : Nat → Matrix (Fin 3) (Fin nx) scalar_t
  footVelocityInOriginFrameDerivative_dfdu : Nat → Matrix (Fin 3) (Fin nu) scalar_t

/-- The member function `FootNormalConstraint::getValue` (FootNormalConstraint.cpp, lines
20-31) of the constraint of leg `legNumber_`: a vector with the one entry
`positionMatrix.dot(o_footPosition) + velocityMatrix.dot(o_footVelocity) + constant`. -/
def FootNormalConstraint.getValue {nx nu : Nat} (legNumber_ : Nat) (_time : scalar_t)
    (_state : Fin nx → scalar_t) (_input : Fin nu → scalar_t)
    (preComp : SwitchedModelPreComputation nx nu) : Fin 1 → scalar_t :=
  let normalConstraint := preComp.getFootNormalConstraintInWorldFrame legNumber_
  let o_footPosition := preComp.footPositionInOriginFrame legNumber_
  let o_footVelocity := preComp.footVelocityInOriginFrame legNumber_
  fun _ =>
    Matrix.dotProduct (normalConstraint.positionMatrix 0) o_footPosition +
      Matrix.dotProduct (normalConstraint.velocityMatrix 0) o_footVelocity +
      normalConstraint.constant

/-- The value of the linear normal constraint `A_p * p + A_v * v + b`, written out over the
three coordinates. -/
def normalConstraintValue (A_p A_v : Matrix (Fin 1) (Fin 3) scalar_t) (b : scalar_t)
    (p v : vector3_t) : scalar_t :=
  (A_p 0 0 * p 0 + A_p 0 1 * p 1 + A_p 0 2 * p 2) +
    (A_v 0 0 * v 0 + A_v 0 1 * v 1 + A_v 0 2 * v 2) + b

/-- Eigen's `inverse()` of a square matrix over a field: the adjugate divided by the
determinant. -/
def eigenInverse {K : Type} [Field K] {n : Nat} (M : Matrix (Fin n) (Fin n) K) :
    Matrix (Fin n) (Fin n) K :=
  (M.det)⁻¹ • M.adjugate

/-- The static member function `PartialRiccatiEquations::convert2Vector` (lines 59-73): the
entries of `Sm` column by column (entry `j * n + i` is `Sm(i, j)`), then `Sv`, then `s`. -/
def PartialRiccatiEquations.convert2Vector {K : Type} {n : Nat}
    (Sm : Matrix (Fin n) (Fin n) K) (Sv : Matrix (Fin n) (Fin 1) K)
    (s : Matrix (Fin 1) (Fin 1) K) : Fin (n * n + n + 1) → K :=
  fun k =>
    if h : k.val < n * n then
      Sm ⟨k.val % n, Nat.mod_lt _ (Nat.pos_of_ne_zero (fun h0 => by
          have h2 : n * n = 0 := by simp [h0]
          omega))⟩
        ⟨k.val / n, Nat.div_lt_of_lt_mul h⟩
    else if h1 : k.val < n * n + n then
      Sv ⟨k.val - n * n, by omega⟩ 0
    else s 0 0

/-- The static member function `PartialRiccatiEquations::convert2Matrix` (lines 75-88). -/
def PartialRiccatiEquations.convert2Matrix {K : Type} {n : Nat}
    (allSs : Fin (n * n + n + 1) → K) :
    Matrix (Fin n) (Fin n) K × Matrix (Fin n) (Fin 1) K × Matrix (Fin 1) (Fin 1) K :=
  (fun i j => allSs ⟨j.val * n + i.val, by
      have hi := i.isLt
      have hj : j.val + 1 ≤ n := j.isLt
      have h1 : (j.val + 1) * n ≤ n * n := Nat.mul_le_mul_right n hj
      rw [Nat.add_mul, Nat.one_mul] at h1
      omega⟩,
    fun i _ => allSs ⟨n * n + i.val, by omega⟩,
    fun _ _ => allSs ⟨n * n + n, by omega⟩)

/-- The data members of `PartialRiccatiEquations` (lines 188-200), as set by `setData`. -/
structure PartialRiccatiEquations (K : Type) (STATE_DIM INPUT_DIM : Nat) where
  timeStart_ : K
  timeFinal_ : K
  Am_ : Matrix (Fin STATE_DIM) (Fin STATE_DIM) K
  Bm_ : Matrix (Fin STATE_DIM) (Fin INPUT_DIM) K
  q_ : Matrix (Fin 1) (Fin 1) K
  Qv_ : Matrix (Fin STATE_DIM) (Fin 1) K
  Qm_ : Matrix (Fin STATE_DIM) (Fin STATE_DIM) K
  Rv_ : Matrix (Fin INPUT_DIM) (Fin 1) K
  Rm_ : Matrix (Fin INPUT_DIM) (Fin INPUT_DIM) K
  Pm_ : Matrix (Fin INPUT_DIM) (Fin STATE_DIM) K

/-- The member function `PartialRiccatiEquations::computeFlowMap` (lines 129-156). -/
def PartialRiccatiEquations.computeFlowMap {K : Type} [Field K] {STATE_DIM INPUT_DIM : Nat}
    (self : PartialRiccatiEquations K STATE_DIM INPUT_DIM) (_t : K)
    (state : Fin (STATE_DIM * STATE_DIM + STATE_DIM + 1) → K) :
    Fin (STATE_DIM * STATE_DIM + STATE_DIM + 1) → K :=
  let Sm := (PartialRiccatiEquations.convert2Matrix state).1
  let Sv := (PartialRiccatiEquations.convert2Matrix state).2.1
  let dSmdt0 := self.Qm_ + self.Am_.transpose * Sm + Sm.transpose * self.Am_ -
    (self.Pm_ + self.Bm_.transpose * Sm).transpose * eigenInverse self.Rm_ *
      (self.Pm_ + self.Bm_.transpose * Sm)
  let dSmdt := (dSmdt0 + dSmdt0.transpose).map (fun a => a * (1 / 2))
  let dSvdt := self.Qv_ + self.Am_.transpose * Sv -
    (self.Pm_ + self.Bm_.transpose * Sm).transpose * eigenInverse self.Rm_ *
      (self.Rv_ + self.Bm_.transpose * Sv)
  let dsdt := self.q_ -
    ((1 / 2 : K) • (self.Rv_ + self.Bm_.transpose * Sv).transpose) * eigenInverse self.Rm_ *
      (self.Rv_ + self.Bm_.transpose * Sv)
  let dSmdz := (self.timeFinal_ - self.timeStart_) • dSmdt
  let dSvdz := (self.timeFinal_ - self.timeStart_) • dSvdt
  let dsdz := (self.timeFinal_ - self.timeStart_) • dsdt
  PartialRiccatiEquations.convert2Vector dSmdz dSvdz dsdz

/-- The Riccati derivative `dSm/dt` in the words of the specification, with `RmInv` the inverse
of `Rm`: `sym(Qm + Am^T Sm + Sm^T Am - (Pm + Bm^T Sm)^T Rm^-1 (Pm + Bm^T Sm))`, where
`sym(X) = (X + X^T) / 2`. -/
def riccati_dSmdt {K : Type} [Field K] {n m : Nat} (self : PartialRiccatiEquations K n m)
    (RmInv : Matrix (Fin m) (Fin m) K) (Sm : Matrix (Fin n) (Fin n) K) :
    Matrix (Fin n) (Fin n) K :=
  let X := self.Qm_ + self.Am_.transpose * Sm + Sm.transpose * self.Am_ -
    (self.Pm_ + self.Bm_.transpose * Sm).transpose * (RmInv * (self.Pm_ + self.Bm_.transpose * Sm))
  (1 / 2 : K) • (X + X.transpose)

/-- The Riccati derivative `dSv/dt` in the words of the specification:
`Qv + Am^T Sv - (Pm + Bm^T Sm)^T Rm^-1 (Rv + Bm^T Sv)`. -/
def riccati_dSvdt {K : Type} [Field K] {n m : Nat} (self : PartialRiccatiEquations K n m)
    (RmInv : Matrix (Fin m) (Fin m) K) (Sm : Matrix (Fin n) (Fin n) K)
    (Sv : Matrix (Fin n) (Fin 1) K) : Matrix (Fin n) (Fin 1) K :=
  self.Qv_ + self.Am_.transpose * Sv -
    (self.Pm_ + self.Bm_.transpose * Sm).transpose * (RmInv * (self.Rv_ + self.Bm_.transpose * Sv))

/-- The Riccati derivative `ds/dt` in the words of the specification:
`q - 1/2 (Rv + Bm^T Sv)^T Rm^-1 (Rv + Bm^T Sv)`. -/
def riccati_dsdt {K : Type} [Field K] {n m : Nat} (self : PartialRiccatiEquations K n m)
    (RmInv : Matrix (Fin m) (Fin m) K) (Sv : Matrix (Fin n) (Fin 1) K) :
    Matrix (Fin 1) (Fin 1) K :=
  self.q_ - (1 / 2 : K) •
    ((self.Rv_ + self.Bm_.transpose * Sv).transpose *
      (RmInv * (self.Rv_ + self.Bm_.transpose * Sv)))

/-- What `makePSD` reads from an `Eigen::SelfAdjointEigenSolver`: the eigenvalues and the
matrix whose columns are the eigenvectors. -/
structure SelfAdjointEigenSolver (K : Type) (n : Nat) where
  eigenvalues : Fin n → K
  eigenvectors : Matrix (Fin n) (Fin n) K

/-- The loop of `makePSD` (lines 173-178) over the entries `j = 0, 1, ...` of `lambda`: a
negative entry sets the flag and is replaced by zero. -/
def clipNegativeEigenvalues {K : Type} [LinearOrderedField K] {n : Nat} (lambda : Fin n → K) :
    Bool × (Fin n → K) :=
  (List.finRange n).foldl
    (fun (acc : Bool × (Fin n → K)) j =>
      if acc.2 j < 0 then (true, Function.update acc.2 j 0) else acc)
    (false, lambda)

/-- The body of `makePSD` (lines 170-185) on a square matrix, with the eigen solver of the
Eigen library as a parameter: the returned flag and the matrix left in `squareMatrix`. -/
def makePSDSquare {K : Type} [LinearOrderedField K]
    (solver : (n : Nat) → Matrix (Fin n) (Fin n) K → SelfAdjointEigenSolver K n) {n : Nat}
    (squareMatrix : Matrix (Fin n) (Fin n) K) : Bool × Matrix (Fin n) (Fin n) K :=
  let eig := solver n squareMatrix
  let clipped := clipNegativeEigenvalues eig.eigenvalues
  let hasNegativeEigenValue := clipped.1
  let lambda := clipped.2
  if hasNegativeEigenValue then
    (hasNegativeEigenValue,
      eig.eigenvectors * Matrix.diagonal lambda * eigenInverse eig.eigenvectors)
  else (hasNegativeEigenValue, squareMatrix)

/-- The member function `PartialRiccatiEquations::makePSD` (lines 165-186) on a matrix with
`r` rows and `c` columns: it throws unless `r = c`. -/
def makePSD {K : Type} [LinearOrderedField K]
    (solver : (n : Nat) → Matrix (Fin n) (Fin n) K → SelfAdjointEigenSolver K n) {r c : Nat}
    (squareMatrix : Matrix (Fin r) (Fin c) K) : Outcome (Bool × Matrix (Fin r) (Fin c) K) :=
  if h : r = c then
    let result := makePSDSquare solver (squareMatrix.submatrix id (Fin.cast h))
    .returned (result.1, result.2.submatrix id (Fin.cast h.symm))
  else .raised .notSquareMatrix

/-- An eigen solver for worked examples, exact on diagonal matrices: the diagonal entries as
eigenvalues and the unit vectors as eigenvectors. -/
def diagonalSolver (n : Nat) (A : Matrix (Fin n) (Fin n) ℚ) : SelfAdjointEigenSolver ℚ n :=
  ⟨fun i => A i i, 1⟩

/-- An indefinite symmetric matrix for worked examples: eigenvalues `-1` and `2`. -/
def exampleIndefinite : Matrix (Fin 2) (Fin 2) ℚ := Matrix.diagonal ![-1, 2]

/-- The struct `VectorFunctionLinearApproximation` of ocs2 (not part of the sources), as
`getLinearApproximation` fills it: the value `f` and the derivatives `dfdx`, `dfdu` of a
function with `ny` components of a state of dimension `nx` and an input of dimension `nu`. -/
structure VectorFunctionLinearApproximation (ny nx nu : Nat) where
  f : Fin ny → scalar_t
  dfdx : Matrix (Fin ny) (Fin nx) scalar_t
  dfdu : Matrix (Fin ny) (Fin nu) scalar_t

/-- The member function `FootNormalConstraint::getLinearApproximation`
(FootNormalConstraint.cpp, lines 33-55) of the constraint of leg `legNumber_`. -/
def FootNormalConstraint.getLinearApproximation {nx nu : Nat} (legNumber_ : Nat)
    (_time : scalar_t) (_state : Fin nx → scalar_t) (_input : Fin nu → scalar_t)
    (preComp : SwitchedModelPreComputation nx nu) : VectorFunctionLinearApproximation 1 nx nu :=
  let normalConstraint := preComp.getFootNormalConstraintInWorldFrame legNumber_
  let o_footPosition := preComp.footPositionInOriginFrame legNumber_
  let o_footPositionDerivative := preComp.footPositionInOriginFrameStateDerivative legNumber_
  let o_footVelocity := preComp.footVelocityInOriginFrame legNumber_
  let o_footVelocityDerivative_dfdx := preComp.footVelocityInOriginFrameDerivative_dfdx legNumber_
  let o_footVelocityDerivative_dfdu := preComp.footVelocityInOriginFrameDerivative_dfdu legNumber_
  { f := fun _ =>
      Matrix.dotProduct (normalConstraint.positionMatrix 0) o_footPosition +
        Matrix.dotProduct (normalConstraint.velocityMatrix 0) o_footVelocity +
        normalConstraint.constant
    dfdx := normalConstraint.positionMatrix * o_footPositionDerivative +
      normalConstraint.velocityMatrix * o_footVelocityDerivative_dfdx
    dfdu := normalConstraint.velocityMatrix * o_footVelocityDerivative_dfdu }

/-- A precomputation for worked examples with two states and one input: the foot position is
`(x_0, x_1, 0)`, the foot velocity `(x_1, u_0, 0)`, and the normal constraint is
`p_2 + p_0 + v_1 - 1 = 0` with `A_p = (1, 0, 1)`, `A_v = (0, 1, 0)`, `b = -1`. -/
def examplePreComputation (x : Fin 2 → scalar_t) (u : Fin 1 → scalar_t) :
    SwitchedModelPreComputation 2 1 where
  getFootNormalConstraintInWorldFrame _ := ⟨!![1, 0, 1], !![0, 1, 0], -1⟩
  footPositionInOriginFrame _ := ![x 0, x 1, 0]
  footVelocityInOriginFrame _ := ![x 1, u 0, 0]
  footPositionInOriginFrameStateDerivative _ := !![1, 0; 0, 1; 0, 0]
  footVelocityInOriginFrameDerivative_dfdx _ := !![0, 1; 0, 0; 0, 0]
  footVelocityInOriginFrameDerivative_dfdu _ := !![0; 1; 0]

/-- Riccati coefficients of a system with one state and one input, on the segment from `0`
to `1`, with the negative state cost `Qm = -1` and all couplings zero. -/
def exampleNegativeRiccati : PartialRiccatiEquations ℚ 1 1 where
  timeStart_ := 0
  timeFinal_ := 1
  Am_ := !![0]
  Bm_ := !![0]
  q_ := !![0]
  Qv_ := !![0]
  Qm_ := !![-1]
  Rv_ := !![0]
  Rm_ := !![1]
  Pm_ := !![0]

/-- The object as a call of `insertModeSequenceTemplate` (lines 196-227) leaves it when the call
ends by a return or by a throw. Both throws of `tileModeSequenceTemplate` (lines 279-285) come
before its first write, so a throw leaves the object as the tiling step received it: truncated
(lines 207-210) and with the transition phase pushed (lines 217-220), `update()` (line 226) not
run. `none` when the call does not end in one of these two ways. -/
def insertModeSequenceTemplateObject {F : Type} (E : Collaborators F) (fuel : Nat)
    (self : SwitchedModelLogicRulesBase F) (modeSequenceTemplate : logic_template_type)
    (startTime finalTime : scalar_t) : Option (SwitchedModelLogicRulesBase F) :=
  match insertTruncate self startTime with
  | .returned self1 =>
    match tileModeSequenceTemplate E fuel (insertTransition E self1 startTime)
        modeSequenceTemplate (startTime + transitionStanceTime E self1) finalTime with
    | some (.returned self2) => some (update E self2)
    | some (.raised _) => some (insertTransition E self1 startTime)
    | _ => none
  | _ => none

/-- Round a rational number to the nearest integer, a tie to the even one. -/
def roundHalfEven (y : ℚ) : ℤ :=
  if y - ⌊y⌋ < 1 / 2 then ⌊y⌋
  else if 1 / 2 < y - ⌊y⌋ then ⌊y⌋ + 1
  else if ⌊y⌋ % 2 = 0 then ⌊y⌋ else ⌊y⌋ + 1

/-- The exponent of the unit in the last place of the binary64 format at a positive magnitude
`x`: 52 below the exponent of `x`, and `-1074` throughout the subnormal range. -/
def ulpExponent (x : ℚ) : ℤ :=
  max (Int.log 2 x) (-1022) - 52

/-- The binary64 number nearest to the non-negative rational `x` (a tie goes to the even
significand). The exponent range is not bounded above: overflow to infinity is left out. -/
def roundMagnitude (x : ℚ) : ℚ :=
  roundHalfEven (x / 2 ^ ulpExponent x) * 2 ^ ulpExponent x

/-- The rounding of IEEE 754 binary64 arithmetic (a C++ `double`) in the default mode, round to
nearest, ties to even: the result of an operation is `round64` of its exact value. -/
def round64 (x : ℚ) : ℚ :=
  if x < 0 then -roundMagnitude (-x) else roundMagnitude x

/-- What the properties of the rounded model use of a rounding `fl`: it is monotone, it leaves
its own values (the representable numbers) fixed, and zero is representable. -/
def IsRounding (fl : scalar_t → scalar_t) : Prop :=
  Monotone fl ∧ (∀ x, fl (fl x) = fl x) ∧ fl 0 = 0

/-- The `for` loop of `tileModeSequenceTemplate` (lines 293-298) in floating-point arithmetic
with the rounding `fl`: `deltaTime` is the rounded difference of the two switching times
(line 296) and the pushed event time the rounded sum `back() + deltaTime` (line 297). -/
def rounded.tileForLoop {F : Type} (fl : scalar_t → scalar_t) (tmpl : logic_template_type) :
    Nat → Nat → SwitchedModelLogicRulesBase F → Outcome (SwitchedModelLogicRulesBase F)
  | 0, _, self => .returned self
  | k + 1, i, self =>
    match tmpl.templateSubsystemsSequence_[i]?, tmpl.templateSwitchingTimes_[i + 1]?,
        tmpl.templateSwitchingTimes_[i]?, self.eventTimes_.getLast? with
    | some mode, some t1, some t0, some last =>
      rounded.tileForLoop fl tmpl k (i + 1)
        { self with
          subsystemsSequence_ := self.subsystemsSequence_ ++ [mode]
          eventTimes_ := self.eventTimes_ ++ [fl (last + fl (t1 - t0))] }
    | _, _, _, _ => .undefined

/-- The `while` loop of `tileModeSequenceTemplate` (lines 291-300) in floating-point arithmetic,
with a bound on the number of times its condition is tested; `none` when the bound is
reached. -/
def rounded.tileWhileLoop {F : Type} (fl : scalar_t → scalar_t) (tmpl : logic_template_type)
    (finalTime : scalar_t) :
    Nat → SwitchedModelLogicRulesBase F → Option (Outcome (SwitchedModelLogicRulesBase F))
  | 0, _ => none
  | fuel + 1, self =>
    match self.eventTimes_.getLast? with
    | none => some .undefined
    | some last =>
      if last < finalTime then
        match rounded.tileForLoop fl tmpl tmpl.templateSubsystemsSequence_.length 0 self with
        | .returned self1 => rounded.tileWhileLoop fl tmpl finalTime fuel self1
        | .raised e => some (.raised e)
        | .undefined => some .undefined
      else some (.returned self)

/-- The member function `tileModeSequenceTemplate` (lines 266-304) in floating-point
arithmetic with the rounding `fl`. -/
def rounded.tileModeSequenceTemplate {F : Type} (fl : scalar_t → scalar_t) (E : Collaborators F)
    (fuel : Nat) (self : SwitchedModelLogicRulesBase F)
    (modeSequenceTemplate : logic_template_type) (startTime finalTime : scalar_t) :
    Option (Outcome (SwitchedModelLogicRulesBase F)) :=
  let numTemplateSubsystems := modeSequenceTemplate.templateSubsystemsSequence_.length
  if numTemplateSubsystems = 0 then some (.returned self)
  else if modeSequenceTemplate.templateSwitchingTimes_.length ≠ numTemplateSubsystems + 1 then
    some (.raised .templateSizeMismatch)
  else
    match self.eventTimes_.getLast? with
    | none => some .undefined
    | some last =>
      if startTime ≤ last then some (.raised .tilingStartNotGreater)
      else
        match rounded.tileWhileLoop fl modeSequenceTemplate finalTime fuel
            { self with eventTimes_ := self.eventTimes_ ++ [startTime] } with
        | some (.returned self1) =>
          some (.returned
            { self1 with subsystemsSequence_ := self1.subsystemsSequence_ ++ [E.STANCE] })
        | other => other

/-- Lines 217-220 of `insertModeSequenceTemplate` in floating-point arithmetic: the literal
`0.001` of the comparison is the rounded `1/1000`. -/
def rounded.insertTransition {F : Type} (fl : scalar_t → scalar_t) (E : Collaborators F)
    (self : SwitchedModelLogicRulesBase F) (startTime : scalar_t) :
    SwitchedModelLogicRulesBase F :=
  if transitionStanceTime E self > fl (1 / 1000) then
    { self with
      eventTimes_ := self.eventTimes_ ++ [startTime]
      subsystemsSequence_ := self.subsystemsSequence_ ++ [E.STANCE] }
  else self

/-- The member function `insertModeSequenceTemplate` (lines 196-227) in floating-point
arithmetic with the rounding `fl`: the tiling starts at the rounded sum
`startTime + phaseTransitionStanceTime` (line 223). -/
def rounded.insertModeSequenceTemplate {F : Type} (fl : scalar_t → scalar_t)
    (E : Collaborators F) (fuel : Nat) (self : SwitchedModelLogicRulesBase F)
    (modeSequenceTemplate : logic_template_type) (startTime finalTime : scalar_t) :
    Option (Outcome (SwitchedModelLogicRulesBase F)) :=
  match insertTruncate self startTime with
  | .returned self1 =>
    match rounded.tileModeSequenceTemplate fl E fuel (rounded.insertTransition fl E self1 startTime)
        modeSequenceTemplate (fl (startTime + transitionStanceTime E self1)) finalTime with
    | some (.returned self2) => some (.returned (update E self2))
    | other => other
  | .raised e => some (.raised e)
  | .undefined => some .undefined

/-- The member function `rewind` (lines 232-261) in floating-point arithmetic with the
rounding `fl`. -/
def rounded.rewind {F : Type} (fl : scalar_t → scalar_t) (E : Collaborators F) (fuel : Nat)
    (self : SwitchedModelLogicRulesBase F) (lowerBoundTime upperBoundTime : scalar_t) :
    Option (Outcome (SwitchedModelLogicRulesBase F)) :=
  match rewindTruncate E self lowerBoundTime with
  | .returned self1 =>
    match self1.eventTimes_.getLast? with
    | none => some .undefined
    | some tilingStartTime =>
      if self1.subsystemsSequence_ = [] then some .undefined
      else
        match rounded.tileModeSequenceTemplate fl E fuel
            { self1 with
              eventTimes_ := self1.eventTimes_.dropLast
              subsystemsSequence_ := self1.subsystemsSequence_.dropLast }
            self1.modeSequenceTemplate_ tilingStartTime upperBoundTime with
        | some (.returned self2) => some (.returned (update E self2))
        | other => other
  | .raised e => some (.raised e)
  | .undefined => some .undefined

/-- The event times one pass of the `for` loop pushes after the last event time `b`, for the
`k` template phases from phase `i` on: each is the rounded sum of its predecessor and the rounded
length of the phase. -/
def passTimes (fl : scalar_t → scalar_t) (tmpl : logic_template_type) :
    Nat → Nat → scalar_t → List scalar_t
  | 0, _, _ => []
  | k + 1, i, b =>
    fl (b + fl (switchingTime tmpl (i + 1) - switchingTime tmpl i)) ::
      passTimes fl tmpl k (i + 1)
        (fl (b + fl (switchingTime tmpl (i + 1) - switchingTime tmpl i)))

/-- The last event time after one pass of the `for` loop that starts with last event time
`b`. -/
def passEnd (fl : scalar_t → scalar_t) (tmpl : logic_template_type) (b : scalar_t) : scalar_t :=
  ((passTimes fl tmpl tmpl.templateSubsystemsSequence_.length 0 b).getLast?).getD b

/-- The event times that `k` passes of the `for` loop push after the last event time `b`. -/
def runningTimes (fl : scalar_t → scalar_t) (tmpl : logic_template_type) :
    Nat → scalar_t → List scalar_t
  | 0, _ => []
  | k + 1, b =>
    passTimes fl tmpl tmpl.templateSubsystemsSequence_.length 0 b ++
      runningTimes fl tmpl k (passEnd fl tmpl b)

/-- Event times that are non-decreasing and representable (left fixed by the rounding). -/
def SortedRepresentable (fl : scalar_t → scalar_t) (ts : List scalar_t) : Prop :=
  ts.Pairwise (fun a b => a ≤ b) ∧ ∀ t ∈ ts, fl t = t

/-- A collaborator set for worked examples: `STANCE` is mode 15, all four legs in contact. -/
def exampleCollaborators : Collaborators Nat where
  STANCE := 15
  modeNumber2StanceLeg m := (m / 8 % 2 == 1, m / 4 % 2 == 1, m / 2 % 2 == 1, m % 2 == 1)
  planSingleMode index _ _ := index

/-- An object with the given timeline, stored template and transition time, and empty stocks. -/
def mkRules (modes : List Nat) (events : List scalar_t) (tmpl : logic_template_type)
    (transition : scalar_t) : SwitchedModelLogicRulesBase Nat where
  subsystemsSequence_ := modes
  eventTimes_ := events
  modeSequenceTemplate_ := tmpl
  phaseTransitionStanceTime_ := transition
  contactFlagsStock_ := []
  feetReferencePtrStock_ := []
  feetReferenceUpdatedStock_ := []

/-- The template of the worked examples: a stance phase of length `0.2` followed by a swing
phase (mode 7) of length `0.4`. -/
def exampleTemplate : logic_template_type :=
  ⟨[15, 7], [0, 1 / 5, 3 / 5]⟩

/-- A timeline with one event at `-1`, standing before and after it. -/
def exampleRules : SwitchedModelLogicRulesBase Nat :=
  mkRules [15, 15] [-1] exampleTemplate (2 / 5)

/-- The object `exampleRules` after `exampleTemplate` was inserted from `0` to `1`. -/
def exampleInserted : SwitchedModelLogicRulesBase Nat where
  subsystemsSequence_ := [15, 15, 15, 7, 15, 7, 15]
  eventTimes_ := [-1, 0, 1 / 5, 3 / 5, 4 / 5, 6 / 5]
  modeSequenceTemplate_ := exampleTemplate
  phaseTransitionStanceTime_ := 2 / 5
  contactFlagsStock_ :=
    [(true, true, true, true), (true, true, true, true), (true, true, true, true),
      (false, true, true, true), (true, true, true, true), (false, true, true, true),
      (true, true, true, true)]
  feetReferencePtrStock_ := [none, none, none, none, none, none, none]
  feetReferenceUpdatedStock_ := [false, false, false, false, false, false, false]

/-- The object `exampleInserted` after `exampleTemplate` was inserted once more, from `0.2`
to `1`: the events from `0.2` on are replaced. -/
def exampleReinserted : SwitchedModelLogicRulesBase Nat where
  subsystemsSequence_ := [15, 15, 15, 15, 7, 15, 7, 15]
  eventTimes_ := [-1, 0, 1 / 5, 2 / 5, 4 / 5, 1, 7 / 5]
  modeSequenceTemplate_ := exampleTemplate
  phaseTransitionStanceTime_ := 2 / 5
  contactFlagsStock_ :=
    [(true, true, true, true), (true, true, true, true), (true, true, true, true),
      (true, true, true, true), (false, true, true, true), (true, true, true, true),
      (false, true, true, true), (true, true, true, true)]
  feetReferencePtrStock_ := [none, none, none, none, none, none, none, none]
  feetReferenceUpdatedStock_ := [false, false, false, false, false, false, false, false]

/-- A template without modes and without switching times. -/
def emptyTemplate : logic_template_type :=
  ⟨[], []⟩

/-- A valid timeline that starts in a trot-like mode (3) and has no event before `0.5`. -/
def exampleTrot : SwitchedModelLogicRulesBase Nat :=
  mkRules [3, 7, 15] [1, 2] exampleTemplate (2 / 5)

/-- The object `exampleTrot` after `rewind(0.5, 3)`. -/
def exampleTrotRewound : SwitchedModelLogicRulesBase Nat where
  subsystemsSequence_ := [3, 7, 15, 7, 15, 7, 15]
  eventTimes_ := [1, 2, 11 / 5, 13 / 5, 14 / 5, 16 / 5]
  modeSequenceTemplate_ := exampleTemplate
  phaseTransitionStanceTime_ := 2 / 5
  contactFlagsStock_ :=
    [(false, false, true, true), (false, true, true, true), (true, true, true, true),
      (false, true, true, true), (true, true, true, true), (false, true, true, true),
      (true, true, true, true)]
  feetReferencePtrStock_ := [none, none, none, none, none, none, none]
  feetReferenceUpdatedStock_ := [false, false, false, false, false, false, false]

/-- A valid timeline with the single event `1`, with no template stored. -/
def exampleNoTemplate : SwitchedModelLogicRulesBase Nat :=
  mkRules [15, 15] [1] emptyTemplate (2 / 5)

/-- The object `exampleNoTemplate` after `rewind(5, 10)`: no event time is left. -/
def exampleNoTemplateRewound : SwitchedModelLogicRulesBase Nat where
  subsystemsSequence_ := [15]
  eventTimes_ := []
  modeSequenceTemplate_ := emptyTemplate
  phaseTransitionStanceTime_ := 2 / 5
  contactFlagsStock_ := [(true, true, true, true)]
  feetReferencePtrStock_ := [none]
  feetReferenceUpdatedStock_ := [false]

/-- A valid timeline with two events before `0`. -/
def exampleHistory : SwitchedModelLogicRulesBase Nat :=
  mkRules [7, 7, 15] [-2, -1] exampleTemplate (2 / 5)

/-- The object `exampleHistory` after `exampleTemplate` was inserted from `0` to `1`. -/
def exampleHistoryInserted : SwitchedModelLogicRulesBase Nat where
  subsystemsSequence_ := [7, 7, 15, 15, 7, 15, 7, 15]
  eventTimes_ := [-2, -1, 0, 1 / 5, 3 / 5, 4 / 5, 6 / 5]
  modeSequenceTemplate_ := exampleTemplate
  phaseTransitionStanceTime_ := 2 / 5
  contactFlagsStock_ :=
    [(false, true, true, true), (false, true, true, true), (true, true, true, true),
      (true, true, true, true), (false, true, true, true), (true, true, true, true),
      (false, true, true, true), (true, true, true, true)]
  feetReferencePtrStock_ := [none, none, none, none, none, none, none, none]
  feetReferenceUpdatedStock_ := [false, false, false, false, false, false, false, false]

/-- The empty timeline: no event times and no modes, default transition time `0.4`. -/
def exampleEmpty : SwitchedModelLogicRulesBase Nat :=
  mkRules [] [] emptyTemplate (2 / 5)

/-- The object `exampleEmpty` after `exampleTemplate` was inserted from `0` to `1`. -/
def exampleEmptyInserted : SwitchedModelLogicRulesBase Nat where
  subsystemsSequence_ := [15, 15, 7, 15]
  eventTimes_ := [0, 2 / 5, 3 / 5, 1]
  modeSequenceTemplate_ := emptyTemplate
  phaseTransitionStanceTime_ := 2 / 5
  contactFlagsStock_ :=
    [(true, true, true, true), (true, true, true, true), (false, true, true, true),
      (true, true, true, true)]
  feetReferencePtrStock_ := [none, none, none, none]
  feetReferenceUpdatedStock_ := [false, false, false, false]

/-- The timeline without event times whose single mode is stance. -/
def exampleStanding : SwitchedModelLogicRulesBase Nat :=
  mkRules [15] [] emptyTemplate (2 / 5)

/-- Riccati coefficients of a system with one state and one input, on the segment from `0`
to `2`, with `Rm = 2`. -/
def exampleRiccati : PartialRiccatiEquations ℚ 1 1 where
  timeStart_ := 0
  timeFinal_ := 2
  Am_ := !![1]
  Bm_ := !![1]
  q_ := !![0]
  Qv_ := !![0]
  Qm_ := !![1]
  Rv_ := !![0]
  Rm_ := !![2]
  Pm_ := !![0]

/-- A well-formed template with a single mode whose two switching times coincide: its period
is zero. -/
def exampleZeroPeriodTemplate : logic_template_type :=
  ⟨[7], [0, 0]⟩

/-- A malformed template: two modes but only two switching times. -/
def exampleMalformedTemplate : logic_template_type :=
  ⟨[15, 7], [0, 1 / 5]⟩

/-- A valid timeline with the single event `1`, a swing mode (7) before it and stance after
it, with no template stored. -/
def exampleSwingNoTemplate : SwitchedModelLogicRulesBase Nat :=
  mkRules [7, 15] [1] emptyTemplate (2 / 5)

/-- A valid timeline with the events `1` and `2`, with no template stored. -/
def exampleGaitNoTemplate : SwitchedModelLogicRulesBase Nat :=
  mkRules [7, 3, 15] [1, 2] emptyTemplate (2 / 5)

/-- A template with strictly increasing switching times whose second phase has the length
`2 ^ (-53)`, half a unit in the last place of the numbers between `1` and `2`: the third
switching time is `1/2 + 2 ^ (-53)`, the binary64 number next above `1/2`. -/
def exampleAbsorbedTemplate : logic_template_type :=
  ⟨[15, 7], [0, 1 / 2, 4503599627370497 / 9007199254740992]⟩

/-- A valid timeline standing before and after the event `0`, with `exampleAbsorbedTemplate`
stored as last-known template and the transition time `0.5`. -/
def exampleUnit : SwitchedModelLogicRulesBase Nat :=
  mkRules [15, 15] [0] exampleAbsorbedTemplate (1 / 2)

/-- The object `exampleUnit` after `exampleAbsorbedTemplate` was inserted from `1` to `1.25` in
binary64 arithmetic: the last two event times coincide. -/
def exampleUnitInserted : SwitchedModelLogicRulesBase Nat where
  subsystemsSequence_ := [15, 15, 15, 7, 15]
  eventTimes_ := [0, 1, 3 / 2, 3 / 2]
  modeSequenceTemplate_ := exampleAbsorbedTemplate
  phaseTransitionStanceTime_ := 1 / 2
  contactFlagsStock_ :=
    [(true, true, true, true), (true, true, true, true), (true, true, true, true),
      (false, true, true, true), (true, true, true, true)]
  feetReferencePtrStock_ := [none, none, none, none, none]
  feetReferenceUpdatedStock_ := [false, false, false, false, false]

/-- A valid timeline with the events `0` and `1` and a swing phase (mode 7) between them, with
`exampleAbsorbedTemplate` stored as last-known template and the transition time `0.5`. -/
def exampleUnitGait : SwitchedModelLogicRulesBase Nat :=
  mkRules [15, 7, 15] [0, 1] exampleAbsorbedTemplate (1 / 2)

/-- The object `exampleUnitGait` after `rewind(0.5, 1.25)` in binary64 arithmetic: the last two
event times coincide. -/
def exampleUnitRewound : SwitchedModelLogicRulesBase Nat where
  subsystemsSequence_ := [15, 7, 15, 7, 15]
  eventTimes_ := [0, 1, 3 / 2, 3 / 2]
  modeSequenceTemplate_ := exampleAbsorbedTemplate
  phaseTransitionStanceTime_ := 1 / 2
  contactFlagsStock_ :=
    [(true, true, true, true), (false, true, true, true), (true, true, true, true),
      (false, true, true, true), (true, true, true, true)]
  feetReferencePtrStock_ := [none, none, none, none, none]
  feetReferenceUpdatedStock_ := [false, false, false, false, false]

/-- The object `exampleUnitGait` after `exampleAbsorbedTemplate` was inserted from `0.5` to
`1.25` in binary64 arithmetic: the event `1` is erased, a transition stance phase starts at
`0.5` and the tiling starts at `1`. -/
def exampleUnitGaitInserted : SwitchedModelLogicRulesBase Nat where
  subsystemsSequence_ := [15, 7, 15, 15, 7, 15]
  eventTimes_ := [0, 1 / 2, 1, 3 / 2, 3 / 2]
  modeSequenceTemplate_ := exampleAbsorbedTemplate
  phaseTransitionStanceTime_ := 1 / 2
  contactFlagsStock_ :=
    [(true, true, true, true), (false, true, true, true), (true, true, true, true),
      (true, true, true, true), (false, true, true, true), (true, true, true, true)]
  feetReferencePtrStock_ := [none, none, none, none, none, none]
  feetReferenceUpdatedStock_ := [false, false, false, false, false, false]

/-- A valid timeline with the single event `0`, a stance phase before it and a swing phase
(mode 7) after it, and the transition time `0.5`. -/
def exampleSwingAfter : SwitchedModelLogicRulesBase Nat :=
  mkRules [15, 7] [0] exampleAbsorbedTemplate (1 / 2)

/-- The object `exampleSwingAfter` with a transition stance phase appended at `10 ^ 16`. -/
def exampleSwingAfterTransition : SwitchedModelLogicRulesBase Nat :=
  mkRules [15, 7, 15] [0, 10 ^ 16] exampleAbsorbedTemplate (1 / 2)

/-- A valid timeline with the events `1` and `3` and a swing phase (mode 7) between them, with
no template stored and the transition time `0.5`. -/
def exampleSwingBetween : SwitchedModelLogicRulesBase Nat :=
  mkRules [15, 7, 15] [1, 3] emptyTemplate (1 / 2)

/-- The object `exampleSwingBetween` after the empty template was inserted at `2`: the event
`3` is erased and a transition stance phase starts at `2`. -/
def exampleSwingBetweenInserted : SwitchedModelLogicRulesBase Nat where
  subsystemsSequence_ := [15, 7, 15]
  eventTimes_ := [1, 2]
  modeSequenceTemplate_ := emptyTemplate
  phaseTransitionStanceTime_ := 1 / 2
  contactFlagsStock_ :=
    [(true, true, true, true), (false, true, true, true), (true, true, true, true)]
  feetReferencePtrStock_ := [none, none, none]
  feetReferenceUpdatedStock_ := [false, false, false]

/-- The object `exampleSwingBetweenInserted` after `rewind(2, 10)`: the event `2` and the
stance mode after it are gone. -/
def exampleSwingBetweenRewound : SwitchedModelLogicRulesBase Nat where
  subsystemsSequence_ := [15, 7]
  eventTimes_ := [1]
  modeSequenceTemplate_ := emptyTemplate
  phaseTransitionStanceTime_ := 1 / 2
  contactFlagsStock_ := [(true, true, true, true), (false, true, true, true)]
  feetReferencePtrStock_ := [none, none]
  feetReferenceUpdatedStock_ := [false, false]

/-- A template with one swing phase (mode 7) whose length is the binary64 number nearest to
`0.1`. -/
def exampleTenthTemplate : logic_template_type :=
  ⟨[7], [0, 3602879701896397 / 36028797018963968]⟩

/-- A template with one swing phase (mode 7) of length `1`. -/
def exampleUnitPeriodTemplate : logic_template_type :=
  ⟨[7], [0, 1]⟩

/-- A template whose switching times are binary fractions: a stance phase of length `0.25`
followed by a swing phase (mode 7) of length `0.5`. -/
def exampleDyadicTemplate : logic_template_type :=
  ⟨[15, 7], [0, 1 / 4, 3 / 4]⟩

/-- A valid timeline standing before and after the event `0`, with `exampleDyadicTemplate`
stored as last-known template and the transition time `0.5`. -/
def exampleDyadic : SwitchedModelLogicRulesBase Nat :=
  mkRules [15, 15] [0] exampleDyadicTemplate (1 / 2)

/-- The object `exampleDyadic` after `exampleDyadicTemplate` was inserted from `1` to `1.25`:
every sum is a binary64 number, so the result is the same in exact and in binary64
arithmetic. -/
def exampleDyadicInserted : SwitchedModelLogicRulesBase Nat where
  subsystemsSequence_ := [15, 15, 15, 7, 15]
  eventTimes_ := [0, 1, 5 / 4, 7 / 4]
  modeSequenceTemplate_ := exampleDyadicTemplate
  phaseTransitionStanceTime_ := 1 / 2
  contactFlagsStock_ :=
    [(true, true, true, true), (true, true, true, true), (true, true, true, true),
      (false, true, true, true), (true, true, true, true)]
  feetReferencePtrStock_ := [none, none, none, none, none]
  feetReferenceUpdatedStock_ := [false, false, false, false, false]

/-! ### The binary search -/

theorem pairwise_getElem? {α : Type} {R : α → α → Prop} {l : List α} (h : l.Pairwise R)
    {i j : Nat} {a b : α} (hi : l[i]? = some a) (hj : l[j]? = some b) (hij : i < j) : R a b := by
  obtain ⟨hi1, rfl⟩ := List.getElem?_eq_some_iff.mp hi
  obtain ⟨hj1, rfl⟩ := List.getElem?_eq_some_iff.mp hj
  exact List.pairwise_iff_getElem.mp h i j hi1 hj1 hij

theorem lowerBoundLoop_bounds (xs : List scalar_t) (val : scalar_t) :
    ∀ fuel first len, first + len ≤ xs.length →
      first ≤ lowerBoundLoop xs val fuel first len ∧
        lowerBoundLoop xs val fuel first len ≤ first + len := by
  intro fuel
  induction fuel with
  | zero => intro first len _; simp [lowerBoundLoop]
  | succ n ih =>
    intro first len h
    unfold lowerBoundLoop
    split_ifs with h0
    · omega
    · split
      · split_ifs
        · have := ih (first + len / 2 + 1) (len - len / 2 - 1) (by omega); omega
        · have := ih first (len / 2) (by omega); omega
      · omega

theorem lower_bound_le_length (xs : List scalar_t) (val : scalar_t) :
    lower_bound xs val ≤ xs.length := by
  have := lowerBoundLoop_bounds xs val xs.length 0 xs.length (by omega)
  simpa [lower_bound] using this.2

theorem lowerBoundLoop_spec (xs : List scalar_t) (val : scalar_t)
    (hs : xs.Pairwise (fun a b => a ≤ b)) :
    ∀ fuel first len, len ≤ fuel → first + len ≤ xs.length →
      (∀ i a, xs[i]? = some a → i < first → a < val) →
      (∀ i a, xs[i]? = some a → first + len ≤ i → val ≤ a) →
      ∀ i a, xs[i]? = some a → (a < val ↔ i < lowerBoundLoop xs val fuel first len) := by
  intro fuel
  induction fuel with
  | zero =>
    intro first len hlen _ hlo hhi i a hia
    have h0 : len = 0 := by omega
    subst h0
    simp only [lowerBoundLoop]
    constructor
    · intro hlt
      by_contra hc
      exact absurd hlt (not_lt.mpr (hhi i a hia (by omega)))
    · exact hlo i a hia
  | succ n ih =>
    intro first len hlen hbound hlo hhi i a hia
    unfold lowerBoundLoop
    split_ifs with h0
    · subst h0
      constructor
      · intro hlt
        by_contra hc
        exact absurd hlt (not_lt.mpr (hhi i a hia (by omega)))
      · exact hlo i a hia
    · split
      · rename_i v hv
        split_ifs with hlt
        · refine ih (first + len / 2 + 1) (len - len / 2 - 1) (by omega) (by omega) ?_ ?_ i a hia
          · intro j b hjb hj
            rcases Nat.lt_or_ge j (first + len / 2) with h1 | h1
            · exact lt_of_le_of_lt (pairwise_getElem? hs hjb hv h1) hlt
            · have : j = first + len / 2 := by omega
              subst this
              rw [hv] at hjb
              cases hjb
              exact hlt
          · intro j b hjb hj
            exact hhi j b hjb (by omega)
        · refine ih first (len / 2) (by omega) (by omega) hlo ?_ i a hia
          intro j b hjb hj
          rcases Nat.eq_or_lt_of_le hj with h1 | h1
          · subst h1
            rw [hv] at hjb
            cases hjb
            exact not_lt.mp hlt
          · exact le_trans (not_lt.mp hlt) (pairwise_getElem? hs hv hjb h1)
      · rename_i hnone
        have := List.getElem?_eq_none_iff.mp hnone
        omega

/-- On sorted event times `lower_bound` is the number of event times below `val`: the entry at
position `i` is below `val` exactly when `i` is below the returned index. -/
theorem lower_bound_spec {xs : List scalar_t} (hs : xs.Pairwise (fun a b => a ≤ b))
    (val : scalar_t) {i : Nat} {a : scalar_t} (hia : xs[i]? = some a) :
    a < val ↔ i < lower_bound xs val := by
  unfold lower_bound
  refine lowerBoundLoop_spec xs val hs xs.length 0 xs.length le_rfl (by omega) ?_ ?_ i a hia
  · intro j b _ hj; omega
  · intro j b hjb hj
    have := (List.getElem?_eq_some_iff.mp hjb).1
    omega

theorem StrictlyIncreasing.sorted {ts : List scalar_t} (h : StrictlyIncreasing ts) :
    ts.Pairwise (fun a b => a ≤ b) :=
  List.Pairwise.imp (fun hab => le_of_lt hab) h

/-! ### The tiling loops -/

theorem pushed_nil {F : Type} (self : SwitchedModelLogicRulesBase F) : pushed self [] [] = self := by
  simp [pushed]

theorem pushed_pushed {F : Type} (self : SwitchedModelLogicRulesBase F) (ms ms1 : List Nat)
    (ts ts1 : List scalar_t) :
    pushed (pushed self ms ts) ms1 ts1 = pushed self (ms ++ ms1) (ts ++ ts1) := by
  simp [pushed]

theorem strictlyIncreasing_push {ts : List scalar_t} {x : scalar_t} (h : StrictlyIncreasing ts)
    (hx : ∀ last, ts.getLast? = some last → last < x) : StrictlyIncreasing (ts ++ [x]) := by
  unfold StrictlyIncreasing at *
  rw [← List.chain'_iff_pairwise] at *
  refine List.Chain'.append h (List.chain'_singleton x) ?_
  intro a ha b hb
  simp only [List.head?_cons, Option.mem_def, Option.some.injEq] at hb
  subst hb
  exact hx a ha

theorem tileForLoop_returned {F : Type} (tmpl : logic_template_type) :
    ∀ (k i : Nat) (self self1 : SwitchedModelLogicRulesBase F),
      tileForLoop tmpl k i self = .returned self1 →
      ∃ ts, self1 = pushed self ((tmpl.templateSubsystemsSequence_.drop i).take k) ts ∧
        ts.length = k ∧
        (StrictlyIncreasing tmpl.templateSwitchingTimes_ →
          StrictlyIncreasing self.eventTimes_ → StrictlyIncreasing self1.eventTimes_) := by
  intro k
  induction k with
  | zero =>
    intro i self self1 h
    simp only [tileForLoop, Outcome.returned.injEq] at h
    subst h
    exact ⟨[], by simp [pushed], rfl, fun _ h => h⟩
  | succ k ih =>
    intro i self self1 h
    unfold tileForLoop at h
    split at h
    · rename_i mode t1 t0 last hm h1 h0 hlast
      obtain ⟨ts, hts, hlen, hchain⟩ := ih _ _ _ h
      refine ⟨(last + (t1 - t0)) :: ts, ?_, by simp [hlen], ?_⟩
      · rw [hts]
        have hi : i < tmpl.templateSubsystemsSequence_.length :=
          (List.getElem?_eq_some_iff.mp hm).1
        have hd : tmpl.templateSubsystemsSequence_.drop i =
            mode :: tmpl.templateSubsystemsSequence_.drop (i + 1) := by
          rw [List.drop_eq_getElem_cons hi]
          congr 1
          exact (List.getElem?_eq_some_iff.mp hm).2
        rw [hd]
        simp [pushed]
      · intro hinc hself
        refine hchain hinc (strictlyIncreasing_push hself ?_)
        intro last1 hlast1
        rw [hlast] at hlast1
        cases hlast1
        have : t0 < t1 := pairwise_getElem? hinc h0 h1 (Nat.lt_succ_self i)
        linarith
    · cases h

theorem tileWhileLoop_returned {F : Type} (tmpl : logic_template_type) (finalTime : scalar_t) :
    ∀ (fuel : Nat) (self self1 : SwitchedModelLogicRulesBase F),
      tileWhileLoop tmpl finalTime fuel self = some (.returned self1) →
      ∃ ms ts, self1 = pushed self ms ts ∧ ms.length = ts.length ∧
        (∃ b, self1.eventTimes_.getLast? = some b ∧ finalTime ≤ b) ∧
        (StrictlyIncreasing tmpl.templateSwitchingTimes_ →
          StrictlyIncreasing self.eventTimes_ → StrictlyIncreasing self1.eventTimes_) := by
  intro fuel
  induction fuel with
  | zero => intro self self1 h; simp [tileWhileLoop] at h
  | succ n ih =>
    intro self self1 h
    unfold tileWhileLoop at h
    split at h
    · cases h
    · rename_i last hlast
      split_ifs at h with hlt
      · split at h
        · rename_i self2 hfor
          obtain ⟨ts, hts, hlen, hchain⟩ := tileForLoop_returned tmpl _ _ _ _ hfor
          obtain ⟨ms1, ts1, h1, hlen1, hb, hchain1⟩ := ih _ _ h
          refine ⟨tmpl.templateSubsystemsSequence_ ++ ms1, ts ++ ts1, ?_, ?_, hb, ?_⟩
          · rw [h1, hts, pushed_pushed]
            simp
          · simp [hlen, hlen1]
          · intro hinc hself
            exact hchain1 hinc (hchain hinc hself)
        · cases h
        · cases h
      · simp only [Option.some.injEq, Outcome.returned.injEq] at h
        subst h
        exact ⟨[], [], (pushed_nil _).symm, rfl, ⟨last, hlast, not_lt.mp hlt⟩, fun _ h => h⟩

theorem getLast?_append_cons {α : Type} (xs ts : List α) (s : α) :
    (xs ++ s :: ts).getLast? = (s :: ts).getLast? := by
  rw [List.getLast?_append]
  cases h : (s :: ts).getLast? with
  | none => simp at h
  | some b => simp

theorem tileModeSequenceTemplate_returned {F : Type} (E : Collaborators F) (fuel : Nat)
    (self self1 : SwitchedModelLogicRulesBase F) (tmpl : logic_template_type)
    (startTime finalTime : scalar_t)
    (h : tileModeSequenceTemplate E fuel self tmpl startTime finalTime = some (.returned self1)) :
    (tmpl.templateSubsystemsSequence_ = [] ∧ self1 = self) ∨
    (tmpl.templateSubsystemsSequence_ ≠ [] ∧
      tmpl.templateSwitchingTimes_.length = tmpl.templateSubsystemsSequence_.length + 1 ∧
      ∃ last ms ts, self.eventTimes_.getLast? = some last ∧ last < startTime ∧
        self1 = pushed self (ms ++ [E.STANCE]) (startTime :: ts) ∧ ms.length = ts.length ∧
        (∃ b, (startTime :: ts).getLast? = some b ∧ finalTime ≤ b) ∧
        (StrictlyIncreasing tmpl.templateSwitchingTimes_ →
          StrictlyIncreasing self.eventTimes_ → StrictlyIncreasing self1.eventTimes_)) := by
  unfold tileModeSequenceTemplate at h
  simp only at h
  split_ifs at h with h0 h1
  · left
    simp only [Option.some.injEq, Outcome.returned.injEq] at h
    exact ⟨List.length_eq_zero.mp h0, h.symm⟩
  · cases h
  · right
    refine ⟨fun hc => h0 (by simp [hc]), not_not.mp h1, ?_⟩
    split at h
    · cases h
    · rename_i last hlast
      split_ifs at h with hle
      · cases h
      split at h
      · rename_i self2 hwhile
        simp only [Option.some.injEq, Outcome.returned.injEq] at h
        obtain ⟨ms, ts, hshape, hlen, ⟨b, hb, hfb⟩, hinc⟩ := tileWhileLoop_returned _ _ _ _ _ hwhile
        refine ⟨last, ms, ts, hlast, not_le.mp hle, ?_, hlen, ⟨b, ?_, hfb⟩, ?_⟩
        · rw [← h, hshape]
          simp [pushed]
        · rw [hshape] at hb
          simpa [pushed, getLast?_append_cons] using hb
        · intro ht hs
          have h2 := hinc ht (strictlyIncreasing_push hs (by
            intro l hl
            rw [hlast] at hl
            cases hl
            exact not_le.mp hle))
          rw [← h]
          exact h2
      · rename_i hne
        rw [h] at hne
        exact absurd rfl (hne self1)

/-! ### Inversion of `insertModeSequenceTemplate` and `rewind` -/

theorem insertModeSequenceTemplate_returned {F : Type} {E : Collaborators F} {fuel : Nat}
    {self r : SwitchedModelLogicRulesBase F} {tmpl : logic_template_type}
    {startTime finalTime : scalar_t}
    (h : insertModeSequenceTemplate E fuel self tmpl startTime finalTime = some (.returned r)) :
    ∃ self1 self2, insertTruncate self startTime = .returned self1 ∧
      tileModeSequenceTemplate E fuel (insertTransition E self1 startTime) tmpl
        (startTime + transitionStanceTime E self1) finalTime = some (.returned self2) ∧
      r = update E self2 := by
  unfold insertModeSequenceTemplate at h
  split at h
  · rename_i self1 h1
    split at h
    · rename_i self2 h2
      simp only [Option.some.injEq, Outcome.returned.injEq] at h
      exact ⟨self1, self2, h1, h2, h.symm⟩
    · rename_i hne
      rw [h] at hne
      exact absurd rfl (hne r)
  · cases h
  · cases h

theorem rewind_returned {F : Type} {E : Collaborators F} {fuel : Nat}
    {self r : SwitchedModelLogicRulesBase F} {lowerBoundTime upperBoundTime : scalar_t}
    (h : rewind E fuel self lowerBoundTime upperBoundTime = some (.returned r)) :
    ∃ self1 tilingStartTime self2, rewindTruncate E self lowerBoundTime = .returned self1 ∧
      self1.eventTimes_.getLast? = some tilingStartTime ∧ self1.subsystemsSequence_ ≠ [] ∧
      tileModeSequenceTemplate E fuel
        { self1 with
          eventTimes_ := self1.eventTimes_.dropLast
          subsystemsSequence_ := self1.subsystemsSequence_.dropLast }
        self1.modeSequenceTemplate_ tilingStartTime upperBoundTime = some (.returned self2) ∧
      r = update E self2 := by
  unfold rewind at h
  split at h
  · rename_i self1 h1
    split at h
    · cases h
    · rename_i t ht
      split_ifs at h with hm
      · cases h
      · split at h
        · rename_i self2 h2
          simp only [Option.some.injEq, Outcome.returned.injEq] at h
          exact ⟨self1, t, self2, h1, ht, hm, h2, h.symm⟩
        · rename_i hne
          rw [h] at hne
          exact absurd rfl (hne r)
  · cases h
  · cases h

theorem insertTruncate_returned {F : Type} {self self1 : SwitchedModelLogicRulesBase F}
    {startTime : scalar_t} (h : insertTruncate self startTime = .returned self1) :
    (self.eventTimes_.length ≤ lower_bound self.eventTimes_ startTime ∧ self1 = self) ∨
    (lower_bound self.eventTimes_ startTime < self.eventTimes_.length ∧
      lower_bound self.eventTimes_ startTime + 1 ≤ self.subsystemsSequence_.length ∧
      self1 = { self with
        eventTimes_ := self.eventTimes_.take (lower_bound self.eventTimes_ startTime)
        subsystemsSequence_ :=
          self.subsystemsSequence_.take (lower_bound self.eventTimes_ startTime + 1) }) := by
  unfold insertTruncate at h
  simp only at h
  split_ifs at h with h1 h2
  · right
    simp only [Outcome.returned.injEq] at h
    exact ⟨h1, h2, h.symm⟩
  · left
    simp only [Outcome.returned.injEq] at h
    exact ⟨not_lt.mp h1, h.symm⟩

theorem rewindTruncate_returned {F : Type} {E : Collaborators F}
    {self self1 : SwitchedModelLogicRulesBase F} {lowerBoundTime : scalar_t}
    (h : rewindTruncate E self lowerBoundTime = .returned self1) :
    (lower_bound self.eventTimes_ lowerBoundTime = 0 ∧ self1 = self) ∨
    (0 < lower_bound self.eventTimes_ lowerBoundTime ∧
      ∃ first rest,
        self.subsystemsSequence_.drop (lower_bound self.eventTimes_ lowerBoundTime - 1) =
          first :: rest ∧
        self1 = { self with
          eventTimes_ := self.eventTimes_.drop (lower_bound self.eventTimes_ lowerBoundTime - 1)
          subsystemsSequence_ := E.STANCE :: rest }) := by
  unfold rewindTruncate at h
  simp only at h
  split_ifs at h with h1 h2
  · right
    split at h
    · cases h
    · rename_i first rest hd
      simp only [Outcome.returned.injEq] at h
      exact ⟨h1, first, rest, hd, h.symm⟩
  · left
    simp only [Outcome.returned.injEq] at h
    exact ⟨by omega, h.symm⟩

theorem lengthInvariant_insertTruncate {F : Type} {self self1 : SwitchedModelLogicRulesBase F}
    {startTime : scalar_t} (h : insertTruncate self startTime = .returned self1)
    (hinv : LengthInvariant self) : LengthInvariant self1 := by
  rcases insertTruncate_returned h with ⟨_, rfl⟩ | ⟨h1, h2, rfl⟩
  · exact hinv
  · unfold LengthInvariant at *
    simp only [List.length_take]
    omega

theorem lengthInvariant_insertTransition {F : Type} (E : Collaborators F)
    {self : SwitchedModelLogicRulesBase F} (startTime : scalar_t) (hinv : LengthInvariant self) :
    LengthInvariant (insertTransition E self startTime) := by
  unfold insertTransition
  split_ifs
  · unfold LengthInvariant at *
    simp [hinv]
  · exact hinv

theorem lengthInvariant_tileModeSequenceTemplate {F : Type} {E : Collaborators F} {fuel : Nat}
    {self self1 : SwitchedModelLogicRulesBase F} {tmpl : logic_template_type}
    {startTime finalTime : scalar_t}
    (h : tileModeSequenceTemplate E fuel self tmpl startTime finalTime = some (.returned self1))
    (hinv : LengthInvariant self) : LengthInvariant self1 := by
  rcases tileModeSequenceTemplate_returned E fuel self self1 tmpl startTime finalTime h with
    ⟨_, rfl⟩ | ⟨_, _, last, ms, ts, _, _, rfl, hlen, _, _⟩
  · exact hinv
  · unfold LengthInvariant at *
    simp [pushed, hinv, hlen]
    omega

theorem lengthInvariant_update {F : Type} (E : Collaborators F)
    {self : SwitchedModelLogicRulesBase F} (hinv : LengthInvariant self) :
    LengthInvariant (update E self) := hinv

theorem lengthInvariant_rewindTruncate {F : Type} {E : Collaborators F}
    {self self1 : SwitchedModelLogicRulesBase F} {lowerBoundTime : scalar_t}
    (h : rewindTruncate E self lowerBoundTime = .returned self1)
    (hinv : LengthInvariant self) : LengthInvariant self1 := by
  rcases rewindTruncate_returned h with ⟨_, rfl⟩ | ⟨h1, first, rest, hd, rfl⟩
  · exact hinv
  · unfold LengthInvariant at *
    have := congrArg List.length hd
    have hle := lower_bound_le_length self.eventTimes_ lowerBoundTime
    simp only [List.length_drop, List.length_cons] at this ⊢
    omega

/-- C1. For every timeline with one mode more than event times and every template (the empty
one and the one stored for `rewind` included), whenever `insertModeSequenceTemplate` or `rewind`
returns normally the resulting timeline again has one mode more than event times. -/
theorem C1_length_invariant_preserved {F : Type} (E : Collaborators F) (fuel : Nat)
    (self : SwitchedModelLogicRulesBase F) (hinv : LengthInvariant self) :
    (∀ tmpl startTime finalTime r,
      insertModeSequenceTemplate E fuel self tmpl startTime finalTime = some (.returned r) →
        LengthInvariant r) ∧
    (∀ lowerBoundTime upperBoundTime r,
      rewind E fuel self lowerBoundTime upperBoundTime = some (.returned r) →
        LengthInvariant r) := by
  constructor
  · intro tmpl startTime finalTime r h
    obtain ⟨self1, self2, h1, h2, rfl⟩ := insertModeSequenceTemplate_returned h
    exact lengthInvariant_update E (lengthInvariant_tileModeSequenceTemplate h2
      (lengthInvariant_insertTransition E startTime (lengthInvariant_insertTruncate h1 hinv)))
  · intro lowerBoundTime upperBoundTime r h
    obtain ⟨self1, t, self2, h1, ht, hm, h2, rfl⟩ := rewind_returned h
    have hinv1 := lengthInvariant_rewindTruncate h1 hinv
    refine lengthInvariant_update E (lengthInvariant_tileModeSequenceTemplate h2 ?_)
    have hpos : 0 < self1.eventTimes_.length := by
      rcases hl : self1.eventTimes_ with _ | ⟨a, l⟩
      · rw [hl] at ht; cases ht
      · simp
    unfold LengthInvariant at *
    simp only [List.length_dropLast]
    omega

/-! ### Sortedness of the event times -/

theorem insertTruncate_lt {F : Type} {self self1 : SwitchedModelLogicRulesBase F}
    {startTime : scalar_t} (h : insertTruncate self startTime = .returned self1)
    (hs : self.eventTimes_.Pairwise (fun a b => a ≤ b)) :
    ∀ t ∈ self1.eventTimes_, t < startTime := by
  intro t ht
  obtain ⟨i, hi⟩ := List.getElem?_of_mem ht
  rcases insertTruncate_returned h with ⟨h1, rfl⟩ | ⟨h1, h2, rfl⟩
  · refine (lower_bound_spec hs startTime hi).mpr ?_
    have := (List.getElem?_eq_some_iff.mp hi).1
    omega
  · simp only [List.getElem?_take] at hi
    split_ifs at hi with hlt
    exact (lower_bound_spec hs startTime hi).mpr hlt

theorem strictlyIncreasing_insertTruncate {F : Type} {self self1 : SwitchedModelLogicRulesBase F}
    {startTime : scalar_t} (h : insertTruncate self startTime = .returned self1)
    (hs : StrictlyIncreasing self.eventTimes_) : StrictlyIncreasing self1.eventTimes_ := by
  rcases insertTruncate_returned h with ⟨_, rfl⟩ | ⟨_, _, rfl⟩
  · exact hs
  · exact List.Pairwise.sublist (List.take_sublist _ _) hs

theorem strictlyIncreasing_insertTransition {F : Type} (E : Collaborators F)
    {self : SwitchedModelLogicRulesBase F} {startTime : scalar_t}
    (hs : StrictlyIncreasing self.eventTimes_) (hlt : ∀ t ∈ self.eventTimes_, t < startTime) :
    StrictlyIncreasing (insertTransition E self startTime).eventTimes_ := by
  unfold insertTransition
  split_ifs
  · exact strictlyIncreasing_push hs (fun last hl => hlt last (List.mem_of_getLast?_eq_some hl))
  · exact hs

theorem strictlyIncreasing_tileModeSequenceTemplate {F : Type} {E : Collaborators F}
    {fuel : Nat} {self self1 : SwitchedModelLogicRulesBase F} {tmpl : logic_template_type}
    {startTime finalTime : scalar_t}
    (h : tileModeSequenceTemplate E fuel self tmpl startTime finalTime = some (.returned self1))
    (ht : StrictlyIncreasing tmpl.templateSwitchingTimes_)
    (hs : StrictlyIncreasing self.eventTimes_) : StrictlyIncreasing self1.eventTimes_ := by
  rcases tileModeSequenceTemplate_returned E fuel self self1 tmpl startTime finalTime h with
    ⟨_, rfl⟩ | ⟨_, _, last, ms, ts, _, _, _, _, _, hinc⟩
  · exact hs
  · exact hinc ht hs

theorem strictlyIncreasing_rewindTruncate {F : Type} {E : Collaborators F}
    {self self1 : SwitchedModelLogicRulesBase F} {lowerBoundTime : scalar_t}
    (h : rewindTruncate E self lowerBoundTime = .returned self1)
    (hs : StrictlyIncreasing self.eventTimes_) : StrictlyIncreasing self1.eventTimes_ := by
  rcases rewindTruncate_returned h with ⟨_, rfl⟩ | ⟨_, _, _, _, rfl⟩
  · exact hs
  · exact List.Pairwise.sublist (List.drop_sublist _ _) hs

/-- With exact sums: for every timeline whose event times are strictly increasing and every
template whose switching times are strictly increasing (for `rewind`: the template stored in
the object), whenever `insertModeSequenceTemplate` or `rewind` returns normally the resulting event times
are strictly increasing. -/
theorem strictlyIncreasing_preserved_exact {F : Type} (E : Collaborators F) (fuel : Nat)
    (self : SwitchedModelLogicRulesBase F) (hs : StrictlyIncreasing self.eventTimes_) :
    (∀ tmpl startTime finalTime r, StrictlyIncreasing tmpl.templateSwitchingTimes_ →
      insertModeSequenceTemplate E fuel self tmpl startTime finalTime = some (.returned r) →
        StrictlyIncreasing r.eventTimes_) ∧
    (∀ lowerBoundTime upperBoundTime r,
      StrictlyIncreasing self.modeSequenceTemplate_.templateSwitchingTimes_ →
      rewind E fuel self lowerBoundTime upperBoundTime = some (.returned r) →
        StrictlyIncreasing r.eventTimes_) := by
  constructor
  · intro tmpl startTime finalTime r ht h
    obtain ⟨self1, self2, h1, h2, rfl⟩ := insertModeSequenceTemplate_returned h
    show StrictlyIncreasing self2.eventTimes_
    exact strictlyIncreasing_tileModeSequenceTemplate h2 ht
      (strictlyIncreasing_insertTransition E (strictlyIncreasing_insertTruncate h1 hs)
        (insertTruncate_lt h1 hs.sorted))
  · intro lowerBoundTime upperBoundTime r ht h
    obtain ⟨self1, t, self2, h1, _, _, h2, rfl⟩ := rewind_returned h
    have hs1 := strictlyIncreasing_rewindTruncate h1 hs
    have htmpl : self1.modeSequenceTemplate_ = self.modeSequenceTemplate_ := by
      rcases rewindTruncate_returned h1 with ⟨_, rfl⟩ | ⟨_, _, _, _, rfl⟩ <;> rfl
    rw [htmpl] at h2
    show StrictlyIncreasing self2.eventTimes_
    exact strictlyIncreasing_tileModeSequenceTemplate h2 ht
      (List.Pairwise.sublist (List.dropLast_sublist _) hs1)

/-! ### The end of a tiled timeline -/

theorem tileModeSequenceTemplate_last {F : Type} {E : Collaborators F}
    {fuel : Nat} {self self1 : SwitchedModelLogicRulesBase F} {tmpl : logic_template_type}
    {startTime finalTime : scalar_t}
    (h : tileModeSequenceTemplate E fuel self tmpl startTime finalTime = some (.returned self1))
    (hne : tmpl.templateSubsystemsSequence_ ≠ []) :
    (∃ b, self1.eventTimes_.getLast? = some b ∧ finalTime ≤ b) ∧
      self1.subsystemsSequence_.getLast? = some E.STANCE := by
  rcases tileModeSequenceTemplate_returned E fuel self self1 tmpl startTime finalTime h with
    ⟨h0, _⟩ | ⟨_, _, last, ms, ts, _, _, rfl, _, ⟨b, hb, hfb⟩, _⟩
  · exact absurd h0 hne
  · refine ⟨⟨b, ?_, hfb⟩, ?_⟩
    · simpa [pushed, getLast?_append_cons] using hb
    · simp [pushed, ← List.append_assoc, List.getLast?_concat]

/-- C3. For every non-empty well-formed template, when `insertModeSequenceTemplate` returns
the last event time is at least `finalTime` and the last mode is `STANCE`; likewise, with such
a template stored in the object, when `rewind` returns the last event time is at least
`upperBoundTime` and the last mode is `STANCE`. -/
theorem C3_last_event_and_mode {F : Type} (E : Collaborators F) (fuel : Nat)
    (self : SwitchedModelLogicRulesBase F) :
    (∀ tmpl startTime finalTime r, tmpl.templateSubsystemsSequence_ ≠ [] →
      WellFormedTemplate tmpl →
      insertModeSequenceTemplate E fuel self tmpl startTime finalTime = some (.returned r) →
        (∃ b, r.eventTimes_.getLast? = some b ∧ finalTime ≤ b) ∧
          r.subsystemsSequence_.getLast? = some E.STANCE) ∧
    (∀ lowerBoundTime upperBoundTime r,
      self.modeSequenceTemplate_.templateSubsystemsSequence_ ≠ [] →
      WellFormedTemplate self.modeSequenceTemplate_ →
      rewind E fuel self lowerBoundTime upperBoundTime = some (.returned r) →
        (∃ b, r.eventTimes_.getLast? = some b ∧ upperBoundTime ≤ b) ∧
          r.subsystemsSequence_.getLast? = some E.STANCE) := by
  constructor
  · intro tmpl startTime finalTime r hne _ h
    obtain ⟨self1, self2, _, h2, rfl⟩ := insertModeSequenceTemplate_returned h
    have h3 := tileModeSequenceTemplate_last h2 hne
    exact h3
  · intro lowerBoundTime upperBoundTime r hne _ h
    obtain ⟨self1, t, self2, h1, _, _, h2, rfl⟩ := rewind_returned h
    have htmpl : self1.modeSequenceTemplate_ = self.modeSequenceTemplate_ := by
      rcases rewindTruncate_returned h1 with ⟨_, rfl⟩ | ⟨_, _, _, _, rfl⟩ <;> rfl
    rw [htmpl] at h2
    have h3 := tileModeSequenceTemplate_last h2 hne
    exact h3

/-! ### Worked examples -/

theorem insert_exampleRules :
    insertModeSequenceTemplate exampleCollaborators 3 exampleRules exampleTemplate 0 1 =
      some (.returned exampleInserted) := by
  norm_num [insertModeSequenceTemplate, insertTruncate, lower_bound, lowerBoundLoop,
    exampleRules, exampleTemplate, exampleInserted, mkRules, insertTransition,
    transitionStanceTime, tileModeSequenceTemplate, tileWhileLoop, tileForLoop, update, resize,
    exampleCollaborators, List.replicate]

theorem rewind_exampleInserted :
    rewind exampleCollaborators 3 exampleInserted 0 1 = some (.returned exampleInserted) := by
  norm_num [rewind, rewindTruncate, lower_bound, lowerBoundLoop,
    exampleTemplate, exampleInserted, tileModeSequenceTemplate, tileWhileLoop, tileForLoop,
    update, resize, exampleCollaborators, List.replicate]
  rfl

theorem C1_length_invariant_preserved_witness :
    LengthInvariant exampleRules ∧ LengthInvariant exampleInserted ∧
      LengthInvariant exampleInserted :=
  ⟨by decide,
    (C1_length_invariant_preserved exampleCollaborators 3 exampleRules (by decide)).1
      exampleTemplate 0 1 exampleInserted insert_exampleRules,
    (C1_length_invariant_preserved exampleCollaborators 3 exampleInserted (by decide)).2
      0 1 exampleInserted rewind_exampleInserted⟩

theorem strictlyIncreasing_exampleTemplate :
    StrictlyIncreasing exampleTemplate.templateSwitchingTimes_ := by
  norm_num [StrictlyIncreasing, exampleTemplate]

theorem strictlyIncreasing_exampleRules : StrictlyIncreasing exampleRules.eventTimes_ := by
  norm_num [StrictlyIncreasing, exampleRules, mkRules]

theorem strictlyIncreasing_exampleInserted :
    StrictlyIncreasing exampleInserted.eventTimes_ := by
  norm_num [StrictlyIncreasing, exampleInserted]

theorem strictlyIncreasing_preserved_exact_example :
    StrictlyIncreasing exampleInserted.eventTimes_ ∧
      StrictlyIncreasing exampleInserted.eventTimes_ :=
  ⟨(strictlyIncreasing_preserved_exact exampleCollaborators 3 exampleRules
      strictlyIncreasing_exampleRules).1
      exampleTemplate 0 1 exampleInserted strictlyIncreasing_exampleTemplate insert_exampleRules,
    (strictlyIncreasing_preserved_exact exampleCollaborators 3 exampleInserted
      strictlyIncreasing_exampleInserted).2
      0 1 exampleInserted strictlyIncreasing_exampleTemplate rewind_exampleInserted⟩

theorem C3_last_event_and_mode_witness :
    ((∃ b, exampleInserted.eventTimes_.getLast? = some b ∧ (1 : scalar_t) ≤ b) ∧
      exampleInserted.subsystemsSequence_.getLast? = some exampleCollaborators.STANCE) ∧
    ((∃ b, exampleInserted.eventTimes_.getLast? = some b ∧ (1 : scalar_t) ≤ b) ∧
      exampleInserted.subsystemsSequence_.getLast? = some exampleCollaborators.STANCE) :=
  ⟨(C3_last_event_and_mode exampleCollaborators 3 exampleRules).1
      exampleTemplate 0 1 exampleInserted (by decide) (by decide) insert_exampleRules,
    (C3_last_event_and_mode exampleCollaborators 3 exampleInserted).2
      0 1 exampleInserted (by decide) (by decide) rewind_exampleInserted⟩

/-! ### Thrown errors -/

theorem tileForLoop_ne_raised {F : Type} (tmpl : logic_template_type) :
    ∀ (k i : Nat) (self : SwitchedModelLogicRulesBase F) (e : RuntimeError),
      tileForLoop tmpl k i self ≠ .raised e := by
  intro k
  induction k with
  | zero => intro i self e h; simp [tileForLoop] at h
  | succ k ih =>
    intro i self e h
    unfold tileForLoop at h
    split at h
    · exact ih _ _ _ h
    · cases h

theorem tileWhileLoop_ne_raised {F : Type} (tmpl : logic_template_type) (finalTime : scalar_t) :
    ∀ (fuel : Nat) (self : SwitchedModelLogicRulesBase F) (e : RuntimeError),
      tileWhileLoop tmpl finalTime fuel self ≠ some (.raised e) := by
  intro fuel
  induction fuel with
  | zero => intro self e h; simp [tileWhileLoop] at h
  | succ n ih =>
    intro self e h
    unfold tileWhileLoop at h
    split at h
    · cases h
    · split_ifs at h
      · split at h
        · exact ih _ _ h
        · rename_i e1 hfor
          exact tileForLoop_ne_raised _ _ _ _ _ hfor
        · cases h
      · cases h

theorem tileModeSequenceTemplate_raised {F : Type} {E : Collaborators F} {fuel : Nat}
    {self : SwitchedModelLogicRulesBase F} {tmpl : logic_template_type}
    {startTime finalTime : scalar_t} {e : RuntimeError}
    (h : tileModeSequenceTemplate E fuel self tmpl startTime finalTime = some (.raised e)) :
    tmpl.templateSubsystemsSequence_ ≠ [] ∧
      ((e = .templateSizeMismatch ∧ ¬ WellFormedTemplate tmpl) ∨
        (e = .tilingStartNotGreater ∧ WellFormedTemplate tmpl ∧
          ∃ last, self.eventTimes_.getLast? = some last ∧ startTime ≤ last)) := by
  unfold tileModeSequenceTemplate at h
  simp only at h
  split_ifs at h with h0 h1
  · cases h
  · simp only [Option.some.injEq, Outcome.raised.injEq] at h
    exact ⟨fun hc => h0 (by simp [hc]), Or.inl ⟨h.symm, h1⟩⟩
  · refine ⟨fun hc => h0 (by simp [hc]), Or.inr ?_⟩
    split at h
    · cases h
    · rename_i last hlast
      split_ifs at h with hle
      · simp only [Option.some.injEq, Outcome.raised.injEq] at h
        exact ⟨h.symm, not_not.mp h1, last, hlast, hle⟩
      · split at h
        · cases h
        · rename_i hne
          exact absurd h (tileWhileLoop_ne_raised _ _ _ _ _)

/-- The tiling step throws its start-time error whenever the template is non-empty and well
formed and the start time is not above the last event time. -/
theorem tileModeSequenceTemplate_tilingStartNotGreater {F : Type} (E : Collaborators F)
    (fuel : Nat) (self : SwitchedModelLogicRulesBase F) (tmpl : logic_template_type)
    (startTime finalTime last : scalar_t) (hne : tmpl.templateSubsystemsSequence_ ≠ [])
    (hwf : WellFormedTemplate tmpl) (hlast : self.eventTimes_.getLast? = some last)
    (hle : startTime ≤ last) :
    tileModeSequenceTemplate E fuel self tmpl startTime finalTime =
      some (.raised .tilingStartNotGreater) := by
  unfold tileModeSequenceTemplate
  have h0 : tmpl.templateSubsystemsSequence_.length ≠ 0 := fun hc => hne (List.length_eq_zero.mp hc)
  unfold WellFormedTemplate at hwf
  simp [h0, hwf, hlast, hle]

theorem insertModeSequenceTemplate_raised {F : Type} {E : Collaborators F} {fuel : Nat}
    {self : SwitchedModelLogicRulesBase F} {tmpl : logic_template_type}
    {startTime finalTime : scalar_t} {e : RuntimeError}
    (h : insertModeSequenceTemplate E fuel self tmpl startTime finalTime = some (.raised e)) :
    ∃ self1, insertTruncate self startTime = .returned self1 ∧
      tileModeSequenceTemplate E fuel (insertTransition E self1 startTime) tmpl
        (startTime + transitionStanceTime E self1) finalTime = some (.raised e) := by
  unfold insertModeSequenceTemplate at h
  split at h
  · rename_i self1 h1
    split at h
    · cases h
    · exact ⟨self1, h1, h⟩
  · rename_i e1 h1
    unfold insertTruncate at h1
    simp only at h1
    split_ifs at h1
  · cases h

theorem transitionStanceTime_nonneg {F : Type} (E : Collaborators F)
    (self : SwitchedModelLogicRulesBase F) (h : 0 ≤ self.phaseTransitionStanceTime_) :
    0 ≤ transitionStanceTime E self := by
  unfold transitionStanceTime
  split_ifs
  · exact le_rfl
  · exact h

theorem insertTransition_lt {F : Type} (E : Collaborators F)
    {self : SwitchedModelLogicRulesBase F} {startTime : scalar_t}
    (h0 : 0 ≤ transitionStanceTime E self) (hlt : ∀ t ∈ self.eventTimes_, t < startTime) :
    ∀ last, (insertTransition E self startTime).eventTimes_.getLast? = some last →
      last < startTime + transitionStanceTime E self := by
  intro last hlast
  unfold insertTransition at hlast
  split_ifs at hlast with h1
  · simp only [List.getLast?_concat, Option.some.injEq] at hlast
    subst hlast
    linarith
  · have := hlt last (List.mem_of_getLast?_eq_some hlast)
    linarith

/-- With exact sums, the start-time error is an error of the tiling step:
`tileModeSequenceTemplate` throws it for every non-empty well-formed template whenever its
start time is not strictly greater than the last event time of the timeline it is applied to.
`insertModeSequenceTemplate` erases the event times at or after `startTime` before it tiles, so
on a timeline with sorted event times and a non-negative `phaseTransitionStanceTime_` it never
throws this error, whatever `startTime` is. -/
theorem startTimeError_exact {F : Type} (E : Collaborators F) (fuel : Nat)
    (self : SwitchedModelLogicRulesBase F) (tmpl : logic_template_type)
    (startTime finalTime : scalar_t) :
    (∀ last, tmpl.templateSubsystemsSequence_ ≠ [] → WellFormedTemplate tmpl →
      self.eventTimes_.getLast? = some last → startTime ≤ last →
      tileModeSequenceTemplate E fuel self tmpl startTime finalTime =
        some (.raised .tilingStartNotGreater)) ∧
    (self.eventTimes_.Pairwise (fun a b => a ≤ b) → 0 ≤ self.phaseTransitionStanceTime_ →
      insertModeSequenceTemplate E fuel self tmpl startTime finalTime ≠
        some (.raised .tilingStartNotGreater)) := by
  constructor
  · intro last hne hwf hlast hle
    exact tileModeSequenceTemplate_tilingStartNotGreater E fuel self tmpl startTime finalTime
      last hne hwf hlast hle
  · intro hs h0 h
    obtain ⟨self1, h1, h2⟩ := insertModeSequenceTemplate_raised h
    obtain ⟨_, h3 | ⟨_, _, last, hlast, hle⟩⟩ := tileModeSequenceTemplate_raised h2
    · cases h3.1
    · have hp : self1.phaseTransitionStanceTime_ = self.phaseTransitionStanceTime_ := by
        rcases insertTruncate_returned h1 with ⟨_, rfl⟩ | ⟨_, _, rfl⟩ <;> rfl
      have := insertTransition_lt E (transitionStanceTime_nonneg E self1 (hp ▸ h0))
        (insertTruncate_lt h1 hs) last hlast
      exact absurd hle (not_le.mpr this)

theorem getLast?_exampleInserted : exampleInserted.eventTimes_.getLast? = some (6 / 5) := by
  simp [exampleInserted]

theorem sorted_exampleInserted :
    exampleInserted.eventTimes_.Pairwise (fun a b => a ≤ b) :=
  strictlyIncreasing_exampleInserted.sorted

/-- With exact sums: the last event time of `exampleInserted` is `1.2`, the start time `0.2` is
not greater, and `insertModeSequenceTemplate` returns normally. -/
theorem insert_exampleInserted_again :
    exampleInserted.eventTimes_.getLast? = some (6 / 5) ∧ ¬ ((6 : scalar_t) / 5 < 1 / 5) ∧
      insertModeSequenceTemplate exampleCollaborators 3 exampleInserted exampleTemplate (1 / 5) 1 =
        some (.returned exampleReinserted) := by
  refine ⟨getLast?_exampleInserted, by norm_num, ?_⟩
  norm_num [insertModeSequenceTemplate, insertTruncate, lower_bound, lowerBoundLoop,
    exampleTemplate, exampleInserted, exampleReinserted, insertTransition,
    transitionStanceTime, tileModeSequenceTemplate, tileWhileLoop, tileForLoop, update, resize,
    exampleCollaborators, List.replicate]

theorem startTimeError_exact_example :
    tileModeSequenceTemplate exampleCollaborators 3 exampleInserted exampleTemplate (1 / 5) 1 =
        some (.raised .tilingStartNotGreater) ∧
      insertModeSequenceTemplate exampleCollaborators 3 exampleInserted exampleTemplate (1 / 5) 1 ≠
        some (.raised .tilingStartNotGreater) :=
  ⟨(startTimeError_exact exampleCollaborators 3 exampleInserted exampleTemplate (1 / 5) 1).1
      (6 / 5) (by decide) (by decide) getLast?_exampleInserted (by norm_num),
    (startTimeError_exact exampleCollaborators 3 exampleInserted exampleTemplate (1 / 5) 1).2
      sorted_exampleInserted (by norm_num [exampleInserted])⟩

theorem insertTruncate_of_lengthInvariant {F : Type} (self : SwitchedModelLogicRulesBase F)
    (startTime : scalar_t) (hinv : LengthInvariant self) :
    ∃ self1, insertTruncate self startTime = .returned self1 := by
  unfold insertTruncate
  simp only
  unfold LengthInvariant at hinv
  split_ifs with h1 h2
  · exact ⟨_, rfl⟩
  · omega
  · exact ⟨_, rfl⟩

/-- C5 (amended). For every timeline with one mode more than event times and every non-empty
template whose number of switching times differs from its number of modes plus one,
`insertModeSequenceTemplate` throws the template-size error. A template without modes is
accepted whatever its number of switching times. -/
theorem C5_template_size_error {F : Type} (E : Collaborators F) (fuel : Nat)
    (self : SwitchedModelLogicRulesBase F) (tmpl : logic_template_type)
    (startTime finalTime : scalar_t) (hinv : LengthInvariant self)
    (hne : tmpl.templateSubsystemsSequence_ ≠ [])
    (hsize : tmpl.templateSwitchingTimes_.length ≠ tmpl.templateSubsystemsSequence_.length + 1) :
    insertModeSequenceTemplate E fuel self tmpl startTime finalTime =
      some (.raised .templateSizeMismatch) := by
  obtain ⟨self1, h1⟩ := insertTruncate_of_lengthInvariant self startTime hinv
  have h0 : tmpl.templateSubsystemsSequence_.length ≠ 0 :=
    fun hc => hne (List.length_eq_zero.mp hc)
  unfold insertModeSequenceTemplate
  rw [h1]
  simp [tileModeSequenceTemplate, h0, hsize]

/-- C5 (as stated) fails: the template without modes and without switching times has a number
of switching times (0) different from its number of modes plus one (1), and
`insertModeSequenceTemplate` returns normally. -/
theorem C5_counterexample :
    emptyTemplate.templateSwitchingTimes_.length ≠
        emptyTemplate.templateSubsystemsSequence_.length + 1 ∧
      insertModeSequenceTemplate exampleCollaborators 3 exampleRules emptyTemplate 0 1 =
        some (.returned (update exampleCollaborators exampleRules)) := by
  refine ⟨by decide, ?_⟩
  norm_num [insertModeSequenceTemplate, insertTruncate, lower_bound, lowerBoundLoop,
    exampleRules, emptyTemplate, mkRules, insertTransition,
    transitionStanceTime, tileModeSequenceTemplate, exampleCollaborators]

theorem C5_template_size_error_witness :
    insertModeSequenceTemplate exampleCollaborators 3 exampleRules ⟨[15, 7], [0, 1 / 5]⟩ 0 1 =
      some (.raised .templateSizeMismatch) :=
  C5_template_size_error exampleCollaborators 3 exampleRules ⟨[15, 7], [0, 1 / 5]⟩ 0 1
    (by decide) (by decide) (by decide)

/-! ### The queries after `update` -/

theorem length_resize {α : Type} (xs : List α) (n : Nat) (d : α) : (resize xs n d).length = n := by
  simp only [resize, List.length_append, List.length_take, List.length_replicate]
  omega

theorem getContactFlags_update {F : Type} (E : Collaborators F)
    (self : SwitchedModelLogicRulesBase F) (index : Nat) :
    getContactFlags (update E self) index =
      match self.subsystemsSequence_[index]? with
      | some mode => .returned (E.modeNumber2StanceLeg mode)
      | none => .raised (.outOfBoundMotionPhase index) := by
  unfold getContactFlags update
  simp only [List.length_map, ge_iff_le, List.getElem?_map]
  split_ifs with h
  · rw [List.getElem?_eq_none h]
  · obtain ⟨mode, hmode⟩ : ∃ mode, self.subsystemsSequence_[index]? = some mode :=
      ⟨_, List.getElem?_eq_getElem (not_le.mp h)⟩
    simp [hmode]

theorem getMotionPhaseLogics_update {F : Type} (E : Collaborators F)
    (self : SwitchedModelLogicRulesBase F) (index : Nat) :
    (self.subsystemsSequence_.length ≤ index →
      getMotionPhaseLogics E (update E self) index = .raised (.outOfBoundMotionPhase index)) ∧
    (∀ mode, self.subsystemsSequence_[index]? = some mode →
      ∃ r1 feet, getMotionPhaseLogics E (update E self) index =
        .returned (r1, E.modeNumber2StanceLeg mode, feet)) := by
  constructor
  · intro h
    unfold getMotionPhaseLogics update
    simp [h]
  · intro mode hmode
    have hlt : index < self.subsystemsSequence_.length := (List.getElem?_eq_some_iff.mp hmode).1
    unfold getMotionPhaseLogics update
    simp only [List.length_map, ge_iff_le, List.getElem?_map, hmode, Option.map_some',
      length_resize]
    rw [if_neg (not_le.mpr hlt), List.getElem?_replicate, if_pos hlt]
    simp only [↓reduceIte, hlt]
    exact ⟨_, _, rfl⟩

theorem exists_update_of_updated {F : Type} {E : Collaborators F}
    {r : SwitchedModelLogicRulesBase F}
    (hupd : (∃ self modes events, r = setMotionConstraints E self modes events) ∨
      (∃ fuel self tmpl startTime finalTime,
        insertModeSequenceTemplate E fuel self tmpl startTime finalTime = some (.returned r)) ∨
      (∃ fuel self lowerBoundTime upperBoundTime,
        rewind E fuel self lowerBoundTime upperBoundTime = some (.returned r))) :
    ∃ self, r = update E self := by
  rcases hupd with ⟨self, modes, events, rfl⟩ | ⟨fuel, self, tmpl, s, f, h⟩ | ⟨fuel, self, lo, up, h⟩
  · exact ⟨_, rfl⟩
  · obtain ⟨_, self2, _, _, rfl⟩ := insertModeSequenceTemplate_returned h
    exact ⟨_, rfl⟩
  · obtain ⟨_, _, self2, _, _, _, _, rfl⟩ := rewind_returned h
    exact ⟨_, rfl⟩

/-- C6. After the timeline has been updated by `setMotionConstraints`,
`insertModeSequenceTemplate` or `rewind`, `getContactFlags(index)` and
`getMotionPhaseLogics(index)` throw exactly when `index` is at least the number of modes of the
timeline (the error names the index); for every other index both return, and the contact flags
they return are `modeNumber2StanceLeg` of the mode in slot `index`. -/
theorem C6_phase_queries {F : Type} (E : Collaborators F) (r : SwitchedModelLogicRulesBase F)
    (index : Nat)
    (hupd : (∃ self modes events, r = setMotionConstraints E self modes events) ∨
      (∃ fuel self tmpl startTime finalTime,
        insertModeSequenceTemplate E fuel self tmpl startTime finalTime = some (.returned r)) ∨
      (∃ fuel self lowerBoundTime upperBoundTime,
        rewind E fuel self lowerBoundTime upperBoundTime = some (.returned r))) :
    ((∃ e, getContactFlags r index = .raised e) ↔ r.subsystemsSequence_.length ≤ index) ∧
    ((∃ e, getMotionPhaseLogics E r index = .raised e) ↔ r.subsystemsSequence_.length ≤ index) ∧
    (r.subsystemsSequence_.length ≤ index →
      getContactFlags r index = .raised (.outOfBoundMotionPhase index) ∧
        getMotionPhaseLogics E r index = .raised (.outOfBoundMotionPhase index)) ∧
    (∀ mode, r.subsystemsSequence_[index]? = some mode →
      getContactFlags r index = .returned (E.modeNumber2StanceLeg mode) ∧
        ∃ r1 feet, getMotionPhaseLogics E r index =
          .returned (r1, E.modeNumber2StanceLeg mode, feet)) := by
  obtain ⟨self, rfl⟩ := exists_update_of_updated hupd
  have hmodes : (update E self).subsystemsSequence_ = self.subsystemsSequence_ := rfl
  rw [hmodes]
  have hc := getContactFlags_update E self index
  obtain ⟨hm1, hm2⟩ := getMotionPhaseLogics_update E self index
  rcases hget : self.subsystemsSequence_[index]? with _ | mode
  · have hle : self.subsystemsSequence_.length ≤ index := List.getElem?_eq_none_iff.mp hget
    rw [hget] at hc
    refine ⟨⟨fun _ => hle, fun _ => ⟨_, hc⟩⟩, ⟨fun _ => hle, fun _ => ⟨_, hm1 hle⟩⟩,
      fun _ => ⟨hc, hm1 hle⟩, ?_⟩
    intro mode hmode
    cases hmode
  · have hlt : index < self.subsystemsSequence_.length := (List.getElem?_eq_some_iff.mp hget).1
    rw [hget] at hc
    obtain ⟨r1, feet, hm⟩ := hm2 mode hget
    refine ⟨⟨?_, fun h => absurd hlt (not_lt.mpr h)⟩, ⟨?_, fun h => absurd hlt (not_lt.mpr h)⟩,
      fun h => absurd hlt (not_lt.mpr h), ?_⟩
    · rintro ⟨e, he⟩
      rw [hc] at he
      cases he
    · rintro ⟨e, he⟩
      rw [hm] at he
      cases he
    · intro mode1 hmode1
      cases hmode1
      exact ⟨hc, r1, feet, hm⟩

theorem C6_phase_queries_witness :
    getContactFlags exampleInserted 3 = .returned (false, true, true, true) ∧
      getContactFlags exampleInserted 7 = .raised (.outOfBoundMotionPhase 7) ∧
      getMotionPhaseLogics exampleCollaborators exampleInserted 7 =
        .raised (.outOfBoundMotionPhase 7) :=
  ⟨((C6_phase_queries exampleCollaborators exampleInserted 3
      (Or.inr (Or.inl ⟨3, exampleRules, exampleTemplate, 0, 1, insert_exampleRules⟩))).2.2.2
      7 rfl).1,
    (C6_phase_queries exampleCollaborators exampleInserted 7
      (Or.inr (Or.inl ⟨3, exampleRules, exampleTemplate, 0, 1, insert_exampleRules⟩))).2.2.1
      (by decide)⟩

/-! ### The start of a rewound timeline -/

theorem lower_bound_pos {xs : List scalar_t} (hs : xs.Pairwise (fun a b => a ≤ b))
    {val : scalar_t} (h : ∃ t ∈ xs, t < val) : 0 < lower_bound xs val := by
  obtain ⟨t, ht, hlt⟩ := h
  obtain ⟨i, hi⟩ := List.getElem?_of_mem ht
  have := (lower_bound_spec hs val hi).mp hlt
  omega

theorem rewindTruncate_of_pos {F : Type} {E : Collaborators F}
    {self self1 : SwitchedModelLogicRulesBase F} {lowerBoundTime : scalar_t}
    (h : rewindTruncate E self lowerBoundTime = .returned self1)
    (hpos : 0 < lower_bound self.eventTimes_ lowerBoundTime) :
    self1 = { self with
      eventTimes_ := self.eventTimes_.drop (lower_bound self.eventTimes_ lowerBoundTime - 1)
      subsystemsSequence_ := E.STANCE ::
        self.subsystemsSequence_.drop (lower_bound self.eventTimes_ lowerBoundTime - 1 + 1) } := by
  rcases rewindTruncate_returned h with ⟨h0, _⟩ | ⟨_, first, rest, hd, rfl⟩
  · omega
  · have : rest = self.subsystemsSequence_.drop
        (lower_bound self.eventTimes_ lowerBoundTime - 1 + 1) := by
      rw [← List.drop_drop, hd]
      rfl
    rw [this]

theorem length_pos_of_getLast? {α : Type} {xs : List α} {a : α} (h : xs.getLast? = some a) :
    0 < xs.length := by
  rcases xs with _ | ⟨b, l⟩
  · cases h
  · simp

/-- C7 (amended). For every valid timeline (one mode more than event times, strictly increasing
event times) in which some event time is strictly less than `lowerBoundTime`, when `rewind`
returns the first mode of the resulting timeline is `STANCE`. -/
theorem C7_rewind_first_mode_stance {F : Type} (E : Collaborators F) (fuel : Nat)
    (self r : SwitchedModelLogicRulesBase F) (lowerBoundTime upperBoundTime : scalar_t)
    (hinv : LengthInvariant self) (hs : StrictlyIncreasing self.eventTimes_)
    (hlt : ∃ t ∈ self.eventTimes_, t < lowerBoundTime)
    (h : rewind E fuel self lowerBoundTime upperBoundTime = some (.returned r)) :
    r.subsystemsSequence_.head? = some E.STANCE := by
  obtain ⟨self1, t, self2, h1, ht, _, h2, rfl⟩ := rewind_returned h
  have hinv1 := lengthInvariant_rewindTruncate h1 hinv
  have h1eq := rewindTruncate_of_pos h1 (lower_bound_pos hs.sorted hlt)
  have hpos := length_pos_of_getLast? ht
  unfold LengthInvariant at hinv1
  obtain ⟨rest, hrest⟩ : ∃ rest, self1.subsystemsSequence_ = E.STANCE :: rest := by
    rw [h1eq]
    exact ⟨_, rfl⟩
  have hrest_ne : rest ≠ [] := by
    intro hc
    rw [hrest, hc] at hinv1
    simp only [List.length_singleton] at hinv1
    omega
  obtain ⟨a, l, hal⟩ := List.exists_cons_of_ne_nil hrest_ne
  have hdl : self1.subsystemsSequence_.dropLast = E.STANCE :: (a :: l).dropLast := by
    rw [hrest, hal]
    rfl
  show self2.subsystemsSequence_.head? = some E.STANCE
  rcases tileModeSequenceTemplate_returned E fuel _ self2 _ _ _ h2 with
    ⟨_, rfl⟩ | ⟨_, _, last, ms, ts, _, _, rfl, _, _, _⟩
  · simp [hdl]
  · simp [pushed, hdl]

/-- C7 (as stated) fails: `exampleTrot` is a valid timeline without an event before `0.5`;
`rewind(0.5, 3)` returns and the first mode is still mode 3, not `STANCE`. -/
theorem C7_counterexample :
    LengthInvariant exampleTrot ∧ StrictlyIncreasing exampleTrot.eventTimes_ ∧
      rewind exampleCollaborators 3 exampleTrot (1 / 2) 3 = some (.returned exampleTrotRewound) ∧
      exampleTrotRewound.subsystemsSequence_.head? ≠ some exampleCollaborators.STANCE := by
  refine ⟨by decide, by norm_num [StrictlyIncreasing, exampleTrot, mkRules], ?_, by decide⟩
  norm_num [rewind, rewindTruncate, lower_bound, lowerBoundLoop, exampleTrot, mkRules,
    exampleTemplate, exampleTrotRewound, tileModeSequenceTemplate, tileWhileLoop, tileForLoop,
    update, resize, exampleCollaborators, List.replicate]
  rfl

theorem C7_rewind_first_mode_stance_witness :
    exampleInserted.subsystemsSequence_.head? = some exampleCollaborators.STANCE :=
  C7_rewind_first_mode_stance exampleCollaborators 3 exampleInserted exampleInserted 0 1
    (by decide) strictlyIncreasing_exampleInserted
    ⟨-1, by simp [exampleInserted], by norm_num⟩ rewind_exampleInserted

theorem rewindTruncate_template {F : Type} {E : Collaborators F}
    {self self1 : SwitchedModelLogicRulesBase F} {lowerBoundTime : scalar_t}
    (h : rewindTruncate E self lowerBoundTime = .returned self1) :
    self1.modeSequenceTemplate_ = self.modeSequenceTemplate_ := by
  rcases rewindTruncate_returned h with ⟨_, rfl⟩ | ⟨_, _, _, _, rfl⟩ <;> rfl

/-- C8 (amended). For every timeline with strictly increasing event times in which some event
time is strictly less than `lowerBoundTime`, and with a non-empty template stored, when `rewind`
returns the first event time is the greatest old event time `g` strictly less than
`lowerBoundTime`: with `k` the position of `g`, the new event times are the old ones from
position `k` on, none removed, followed by what the tiling added; and when the old timeline has
one mode more than event times, the new modes are `STANCE`, then the old modes from position
`k + 1` on without the last one, followed by what the tiling added. -/
theorem C8_rewind_keeps_from_preceding_event {F : Type} (E : Collaborators F) (fuel : Nat)
    (self r : SwitchedModelLogicRulesBase F) (lowerBoundTime upperBoundTime : scalar_t)
    (hs : StrictlyIncreasing self.eventTimes_)
    (hlt : ∃ t ∈ self.eventTimes_, t < lowerBoundTime)
    (hne : self.modeSequenceTemplate_.templateSubsystemsSequence_ ≠ [])
    (h : rewind E fuel self lowerBoundTime upperBoundTime = some (.returned r)) :
    ∃ k g, self.eventTimes_[k]? = some g ∧ g < lowerBoundTime ∧
      (∀ t ∈ self.eventTimes_, t < lowerBoundTime → t ≤ g) ∧
      r.eventTimes_.head? = some g ∧
      (∃ added, r.eventTimes_ = self.eventTimes_.drop k ++ added) ∧
      (LengthInvariant self → ∃ added, r.subsystemsSequence_ =
        E.STANCE :: (self.subsystemsSequence_.drop (k + 1)).dropLast ++ added) := by
  obtain ⟨self1, t, self2, h1, ht, _, h2, rfl⟩ := rewind_returned h
  have hpos := lower_bound_pos hs.sorted hlt
  have h1eq := rewindTruncate_of_pos h1 hpos
  have htmpl := rewindTruncate_template h1
  have hle := lower_bound_le_length self.eventTimes_ lowerBoundTime
  have hk : lower_bound self.eventTimes_ lowerBoundTime - 1 < self.eventTimes_.length := by omega
  obtain ⟨g, hg⟩ : ∃ g, self.eventTimes_[lower_bound self.eventTimes_ lowerBoundTime - 1]? =
      some g := ⟨_, List.getElem?_eq_getElem hk⟩
  refine ⟨lower_bound self.eventTimes_ lowerBoundTime - 1, g, hg, ?_, ?_, ?_⟩
  · exact (lower_bound_spec hs.sorted lowerBoundTime hg).mpr (by omega)
  · intro t1 ht1 hlt1
    obtain ⟨i, hi⟩ := List.getElem?_of_mem ht1
    have hi1 := (lower_bound_spec hs.sorted lowerBoundTime hi).mp hlt1
    rcases Nat.lt_or_ge i (lower_bound self.eventTimes_ lowerBoundTime - 1) with h3 | h3
    · exact le_of_lt (pairwise_getElem? hs hi hg h3)
    · have h4 : i = lower_bound self.eventTimes_ lowerBoundTime - 1 := by omega
      subst h4
      rw [hg] at hi
      cases hi
      exact le_rfl
  · rw [htmpl] at h2
    rcases tileModeSequenceTemplate_returned E fuel _ self2 _ _ _ h2 with
      ⟨h0, _⟩ | ⟨_, _, last, ms, ts, _, _, hshape, _, _, _⟩
    · exact absurd h0 hne
    · have hev : (update E self2).eventTimes_ =
          self.eventTimes_.drop (lower_bound self.eventTimes_ lowerBoundTime - 1) ++ ts := by
        show self2.eventTimes_ = _
        rw [hshape]
        simp only [pushed]
        have hcat := List.dropLast_append_getLast? t ht
        rw [h1eq] at hcat
        simp only at hcat
        rw [h1eq]
        simp only
        rw [← hcat]
        simp
      refine ⟨?_, ⟨ts, hev⟩, ?_⟩
      · rw [hev, List.head?_append_of_ne_nil]
        · rw [List.head?_drop]
          exact hg
        · intro hc
          have := congrArg List.length hc
          simp only [List.length_drop, List.length_nil] at this
          omega
      · intro hinv
        unfold LengthInvariant at hinv
        refine ⟨ms ++ [E.STANCE], ?_⟩
        show self2.subsystemsSequence_ = _
        rw [hshape]
        simp only [pushed]
        rw [h1eq]
        simp only
        have hne1 : self.subsystemsSequence_.drop
            (lower_bound self.eventTimes_ lowerBoundTime - 1 + 1) ≠ [] := by
          intro hc
          have := congrArg List.length hc
          simp only [List.length_drop, List.length_nil] at this
          omega
        obtain ⟨a, l, hal⟩ := List.exists_cons_of_ne_nil hne1
        rw [hal]
        rfl

/-- C8 (as stated) fails: in `exampleNoTemplate` the event time `1` is below `5`, but after
`rewind(5, 10)` no event time is left, so there is no first event time. -/
theorem C8_counterexample :
    StrictlyIncreasing exampleNoTemplate.eventTimes_ ∧
      (1 : scalar_t) ∈ exampleNoTemplate.eventTimes_ ∧ (1 : scalar_t) < 5 ∧
      rewind exampleCollaborators 3 exampleNoTemplate 5 10 =
        some (.returned exampleNoTemplateRewound) ∧
      exampleNoTemplateRewound.eventTimes_.head? = none := by
  refine ⟨by norm_num [StrictlyIncreasing, exampleNoTemplate, mkRules],
    by simp [exampleNoTemplate, mkRules], by norm_num, ?_, rfl⟩
  norm_num [rewind, rewindTruncate, lower_bound, lowerBoundLoop, exampleNoTemplate, mkRules,
    emptyTemplate, exampleNoTemplateRewound, tileModeSequenceTemplate,
    update, resize, exampleCollaborators, List.replicate]
  intro hc
  cases hc

theorem C8_rewind_keeps_from_preceding_event_witness :
    ∃ k g, exampleInserted.eventTimes_[k]? = some g ∧ g < 0 ∧
      (∀ t ∈ exampleInserted.eventTimes_, t < 0 → t ≤ g) ∧
      exampleInserted.eventTimes_.head? = some g ∧
      (∃ added, exampleInserted.eventTimes_ = exampleInserted.eventTimes_.drop k ++ added) ∧
      (LengthInvariant exampleInserted → ∃ added, exampleInserted.subsystemsSequence_ =
        exampleCollaborators.STANCE ::
          (exampleInserted.subsystemsSequence_.drop (k + 1)).dropLast ++ added) :=
  C8_rewind_keeps_from_preceding_event exampleCollaborators 3 exampleInserted exampleInserted 0 1
    strictlyIncreasing_exampleInserted ⟨-1, by simp [exampleInserted], by norm_num⟩
    (by decide) rewind_exampleInserted

/-! ### Rewinding right after an insertion -/

theorem resize_resize {α : Type} (xs : List α) (n : Nat) (d : α) :
    resize (resize xs n d) n d = resize xs n d := by
  have hlen := length_resize xs n d
  generalize resize xs n d = ys at hlen
  unfold resize
  rw [hlen, Nat.sub_self, List.replicate_zero, List.append_nil,
    List.take_of_length_le (by omega)]

theorem update_update {F : Type} (E : Collaborators F) (self : SwitchedModelLogicRulesBase F) :
    update E (update E self) = update E self := by
  unfold update
  simp only [resize_resize]

theorem le_getLast_of_strictlyIncreasing {xs : List scalar_t} {a b : scalar_t}
    (hs : StrictlyIncreasing xs) (hb : xs.getLast? = some b) (ha : a ∈ xs) : a ≤ b := by
  obtain ⟨ys, rfl⟩ := List.getLast?_eq_some_iff.mp hb
  unfold StrictlyIncreasing at hs
  rw [List.pairwise_append] at hs
  rcases List.mem_append.mp ha with h1 | h1
  · exact le_of_lt (hs.2.2 a h1 b (by simp))
  · simp only [List.mem_singleton] at h1
    exact le_of_eq h1

theorem tileModeSequenceTemplate_fuel_ne_zero {F : Type} {E : Collaborators F} {fuel : Nat}
    {self self1 : SwitchedModelLogicRulesBase F} {tmpl : logic_template_type}
    {startTime finalTime : scalar_t}
    (h : tileModeSequenceTemplate E fuel self tmpl startTime finalTime = some (.returned self1))
    (hne : tmpl.templateSubsystemsSequence_ ≠ []) : fuel ≠ 0 := by
  rintro rfl
  have h0 : tmpl.templateSubsystemsSequence_.length ≠ 0 :=
    fun hc => hne (List.length_eq_zero.mp hc)
  unfold tileModeSequenceTemplate at h
  simp only [h0, ↓reduceIte, tileWhileLoop] at h
  split_ifs at h
  · cases h
  · split at h
    · cases h
    · split_ifs at h
      cases h

theorem rewindTruncate_of_lengthInvariant {F : Type} (E : Collaborators F)
    (self : SwitchedModelLogicRulesBase F) (lowerBoundTime : scalar_t)
    (hinv : LengthInvariant self) :
    ∃ self1, rewindTruncate E self lowerBoundTime = .returned self1 := by
  have hle := lower_bound_le_length self.eventTimes_ lowerBoundTime
  unfold LengthInvariant at hinv
  unfold rewindTruncate
  simp only
  split_ifs with h1 h2
  · split
    · rename_i hd
      have := congrArg List.length hd
      simp only [List.length_drop, List.length_nil] at this
      omega
    · exact ⟨_, rfl⟩
  · omega
  · exact ⟨_, rfl⟩

/-- Tiling from the last event time of a timeline that already reaches `finalTime` and ends in
stance, after that last event and mode were erased, gives the timeline back. -/
theorem tileModeSequenceTemplate_restore {F : Type} (E : Collaborators F) (n : Nat)
    (q : SwitchedModelLogicRulesBase F) (tmpl : logic_template_type)
    (finalTime b p : scalar_t) (hne : tmpl.templateSubsystemsSequence_ ≠ [])
    (hwf : WellFormedTemplate tmpl) (hb : q.eventTimes_.getLast? = some b)
    (hp : q.eventTimes_.dropLast.getLast? = some p) (hpb : p < b) (hfb : finalTime ≤ b)
    (hm : q.subsystemsSequence_.getLast? = some E.STANCE) :
    tileModeSequenceTemplate E (n + 1)
        { q with
          eventTimes_ := q.eventTimes_.dropLast
          subsystemsSequence_ := q.subsystemsSequence_.dropLast }
        tmpl b finalTime = some (.returned q) := by
  have h0 : tmpl.templateSubsystemsSequence_.length ≠ 0 :=
    fun hc => hne (List.length_eq_zero.mp hc)
  unfold WellFormedTemplate at hwf
  have he := List.dropLast_append_getLast? b hb
  have hmm := List.dropLast_append_getLast? E.STANCE hm
  unfold tileModeSequenceTemplate
  simp only [h0, ↓reduceIte, hwf, ne_eq, not_true_eq_false, hp, not_le.mpr hpb, he]
  unfold tileWhileLoop
  simp only [hb, not_lt.mpr hfb, ↓reduceIte, hmm]

theorem exists_before_last {xs : List scalar_t} {b : scalar_t} (hs : StrictlyIncreasing xs)
    (hlen : 2 ≤ xs.length) (hb : xs.getLast? = some b) :
    ∃ p, xs.dropLast.getLast? = some p ∧ p < b := by
  obtain ⟨ys, rfl⟩ := List.getLast?_eq_some_iff.mp hb
  simp only [List.length_append, List.length_singleton] at hlen
  have hys : ys ≠ [] := by
    intro hc
    rw [hc] at hlen
    simp at hlen
  refine ⟨ys.getLast hys, by simp [List.getLast?_eq_getLast _ hys], ?_⟩
  unfold StrictlyIncreasing at hs
  rw [List.pairwise_append] at hs
  exact hs.2.2 _ (List.getLast_mem hys) b (by simp)

/-- On a timeline that already reaches `upperBoundTime`, ends in stance and has its last event
time at or after `lowerBoundTime`, erasing the last phase and tiling again restores it: `rewind`
does what its truncation step does. -/
theorem rewind_of_reaching {F : Type} (E : Collaborators F) (n : Nat)
    (r : SwitchedModelLogicRulesBase F) (lowerBoundTime upperBoundTime b : scalar_t)
    (hinv : LengthInvariant r) (hs : StrictlyIncreasing r.eventTimes_)
    (hne : r.modeSequenceTemplate_.templateSubsystemsSequence_ ≠ [])
    (hwf : WellFormedTemplate r.modeSequenceTemplate_)
    (hb : r.eventTimes_.getLast? = some b) (hub : upperBoundTime ≤ b)
    (hlb : lowerBoundTime ≤ b) (hlen : 2 ≤ r.eventTimes_.length)
    (hm : r.subsystemsSequence_.getLast? = some E.STANCE) :
    ∃ q, rewindTruncate E r lowerBoundTime = .returned q ∧
      rewind E (n + 1) r lowerBoundTime upperBoundTime = some (.returned (update E q)) := by
  obtain ⟨q, hq⟩ := rewindTruncate_of_lengthInvariant E r lowerBoundTime hinv
  refine ⟨q, hq, ?_⟩
  have htmpl := rewindTruncate_template hq
  have hle := lower_bound_le_length r.eventTimes_ lowerBoundTime
  have hidx : lower_bound r.eventTimes_ lowerBoundTime < r.eventTimes_.length := by
    have hget : r.eventTimes_[r.eventTimes_.length - 1]? = some b := by
      rw [← hb, List.getLast?_eq_getElem?]
    have := (lower_bound_spec hs.sorted lowerBoundTime hget).not.mp (not_lt.mpr hlb)
    omega
  have hfacts : StrictlyIncreasing q.eventTimes_ ∧ 2 ≤ q.eventTimes_.length ∧
      q.eventTimes_.getLast? = some b ∧ q.subsystemsSequence_.getLast? = some E.STANCE := by
    rcases rewindTruncate_returned hq with ⟨_, rfl⟩ | ⟨hpos, _⟩
    · exact ⟨hs, hlen, hb, hm⟩
    · have hqeq := rewindTruncate_of_pos hq hpos
      rw [hqeq]
      refine ⟨List.Pairwise.sublist (List.drop_sublist _ _) hs, ?_, ?_, ?_⟩
      · simp only [List.length_drop]
        omega
      · simp only [List.getLast?_drop]
        rw [if_neg (by omega)]
        exact hb
      · simp only [List.getLast?_cons, List.getLast?_drop]
        split_ifs
        · rfl
        · rw [hm]
          rfl
  obtain ⟨hsq, hlenq, hbq, hmq⟩ := hfacts
  obtain ⟨p, hp, hpb⟩ := exists_before_last hsq hlenq hbq
  have hmne : q.subsystemsSequence_ ≠ [] := by
    intro hc
    rw [hc] at hmq
    cases hmq
  unfold rewind
  rw [hq]
  simp only [hbq, hmne, ↓reduceIte]
  rw [tileModeSequenceTemplate_restore E n q q.modeSequenceTemplate_ upperBoundTime b p
    (htmpl ▸ hne) (htmpl ▸ hwf) hbq hp hpb hub hmq]

theorem insertTruncate_fields {F : Type} {self self1 : SwitchedModelLogicRulesBase F}
    {startTime : scalar_t} (h : insertTruncate self startTime = .returned self1) :
    self1.modeSequenceTemplate_ = self.modeSequenceTemplate_ ∧
      self1.phaseTransitionStanceTime_ = self.phaseTransitionStanceTime_ := by
  rcases insertTruncate_returned h with ⟨_, rfl⟩ | ⟨_, _, rfl⟩ <;> exact ⟨rfl, rfl⟩

theorem insertTransition_template {F : Type} (E : Collaborators F)
    (self : SwitchedModelLogicRulesBase F) (startTime : scalar_t) :
    (insertTransition E self startTime).modeSequenceTemplate_ = self.modeSequenceTemplate_ := by
  unfold insertTransition
  split_ifs <;> rfl

/-- With exact sums: for every valid timeline (one mode more than event times, strictly
increasing event times) with a non-negative `phaseTransitionStanceTime_` and every non-empty
template with strictly increasing switching times that is also the template stored in the object: when
`insertModeSequenceTemplate(template, startTime, finalTime)` returns, `rewind(startTime,
finalTime)` returns too, and it leaves the inserted timeline from the last event before
`startTime` on: with `index` the number of event times of the inserted timeline below
`startTime`, the event times at the positions before `index - 1` and their modes are dropped,
the first remaining mode is set to `STANCE` when `index > 0`, and all later event times and
modes are those of the inserted timeline. When `index = 0`, or `index = 1` and the inserted
timeline starts in `STANCE`, the object after `rewind` equals the object after the insertion. -/
theorem insert_then_rewind_exact {F : Type} (E : Collaborators F) (fuel : Nat)
    (self r : SwitchedModelLogicRulesBase F) (tmpl : logic_template_type)
    (startTime finalTime : scalar_t)
    (hinv : LengthInvariant self) (hs : StrictlyIncreasing self.eventTimes_)
    (h0 : 0 ≤ self.phaseTransitionStanceTime_)
    (hne : tmpl.templateSubsystemsSequence_ ≠ [])
    (ht : StrictlyIncreasing tmpl.templateSwitchingTimes_)
    (hstored : self.modeSequenceTemplate_ = tmpl)
    (h : insertModeSequenceTemplate E fuel self tmpl startTime finalTime = some (.returned r)) :
    ∃ r1, rewind E fuel r startTime finalTime = some (.returned r1) ∧
      r1.eventTimes_ = r.eventTimes_.drop (lower_bound r.eventTimes_ startTime - 1) ∧
      r1.subsystemsSequence_.tail =
        r.subsystemsSequence_.drop (lower_bound r.eventTimes_ startTime - 1 + 1) ∧
      (0 < lower_bound r.eventTimes_ startTime →
        r1.subsystemsSequence_.head? = some E.STANCE) ∧
      (lower_bound r.eventTimes_ startTime = 0 ∨
        (lower_bound r.eventTimes_ startTime = 1 ∧
          r.subsystemsSequence_.head? = some E.STANCE) → r1 = r) := by
  obtain ⟨self1, self2, h1, h2, rfl⟩ := insertModeSequenceTemplate_returned h
  have hinv0 := lengthInvariant_insertTransition E startTime (lengthInvariant_insertTruncate h1 hinv)
  have hinv2 := lengthInvariant_tileModeSequenceTemplate h2 hinv0
  have hs0 := strictlyIncreasing_insertTransition E (strictlyIncreasing_insertTruncate h1 hs)
    (insertTruncate_lt h1 hs.sorted)
  have hs2 := strictlyIncreasing_tileModeSequenceTemplate h2 ht hs0
  obtain ⟨n, rfl⟩ := Nat.exists_eq_succ_of_ne_zero (tileModeSequenceTemplate_fuel_ne_zero h2 hne)
  obtain ⟨⟨b, hb, hfb⟩, hm⟩ := tileModeSequenceTemplate_last h2 hne
  rcases tileModeSequenceTemplate_returned E _ _ self2 _ _ _ h2 with
    ⟨hc, _⟩ | ⟨_, hwf, last, ms, ts, hlast, _, hshape, _, _, _⟩
  · exact absurd hc hne
  have htmpl2 : self2.modeSequenceTemplate_ = tmpl := by
    rw [hshape]
    show (insertTransition E self1 startTime).modeSequenceTemplate_ = tmpl
    rw [insertTransition_template, (insertTruncate_fields h1).1, hstored]
  have hstart : startTime + transitionStanceTime E self1 ∈ self2.eventTimes_ := by
    rw [hshape]
    simp [pushed]
  have hsb : startTime ≤ b := by
    have h3 := le_getLast_of_strictlyIncreasing hs2 hb hstart
    have h4 := transitionStanceTime_nonneg E self1 ((insertTruncate_fields h1).2 ▸ h0)
    linarith
  have hlen2 : 2 ≤ self2.eventTimes_.length := by
    have := length_pos_of_getLast? hlast
    rw [hshape]
    simp only [pushed, List.length_append, List.length_cons]
    omega
  obtain ⟨q, hq, hrew⟩ := rewind_of_reaching E n (update E self2) startTime finalTime b hinv2 hs2
    (by show self2.modeSequenceTemplate_.templateSubsystemsSequence_ ≠ []; rw [htmpl2]; exact hne)
    (by show WellFormedTemplate self2.modeSequenceTemplate_; rw [htmpl2]; exact hwf)
    hb hfb hsb hlen2 hm
  refine ⟨update E q, hrew, ?_⟩
  rcases rewindTruncate_returned hq with ⟨hidx, rfl⟩ | ⟨hpos, _⟩
  · rw [hidx]
    refine ⟨rfl, ?_, fun hc => absurd hc (lt_irrefl 0), fun _ => update_update E self2⟩
    show self2.subsystemsSequence_.tail = self2.subsystemsSequence_.drop 1
    simp
  · have hqeq := rewindTruncate_of_pos hq hpos
    refine ⟨by rw [hqeq]; rfl, by rw [hqeq]; rfl, fun _ => by rw [hqeq]; rfl, ?_⟩
    rintro (hc | ⟨h1idx, hhead⟩)
    · omega
    · rw [hqeq, h1idx]
      have hmodes : E.STANCE :: (update E self2).subsystemsSequence_.drop (1 - 1 + 1) =
          (update E self2).subsystemsSequence_ := by
        rcases hml : (update E self2).subsystemsSequence_ with _ | ⟨a, l⟩
        · rw [hml] at hhead
          cases hhead
        · rw [hml] at hhead
          simp only [List.head?_cons, Option.some.injEq] at hhead
          rw [hhead]
          rfl
      simp only [Nat.sub_self, List.drop_zero]
      rw [hmodes]
      exact update_update E self2

theorem insert_exampleHistory :
    insertModeSequenceTemplate exampleCollaborators 3 exampleHistory exampleTemplate 0 1 =
      some (.returned exampleHistoryInserted) := by
  norm_num [insertModeSequenceTemplate, insertTruncate, lower_bound, lowerBoundLoop,
    exampleHistory, exampleTemplate, exampleHistoryInserted, mkRules, insertTransition,
    transitionStanceTime, tileModeSequenceTemplate, tileWhileLoop, tileForLoop, update, resize,
    exampleCollaborators, List.replicate]

/-- With exact sums, `rewind` after an insertion need not leave the whole object as it was.
First, `exampleHistory` has two events before `0`: after inserting
`exampleTemplate` from `0` to `1`, `rewind(0, 1)` drops the first event and mode and sets the
mode before `0` to stance, so event times and modes differ from those after the insertion
alone. Second, with the empty template the insertion leaves the event time `1` of
`exampleNoTemplate` in place while `rewind(5, 10)` after it leaves no event time. -/
theorem insert_then_rewind_exact_limits :
    (insertModeSequenceTemplate exampleCollaborators 3 exampleHistory exampleTemplate 0 1 =
        some (.returned exampleHistoryInserted) ∧
      rewind exampleCollaborators 3 exampleHistoryInserted 0 1 =
        some (.returned exampleInserted) ∧
      exampleInserted.eventTimes_ ≠ exampleHistoryInserted.eventTimes_ ∧
      exampleInserted.subsystemsSequence_ ≠ exampleHistoryInserted.subsystemsSequence_) ∧
    (insertModeSequenceTemplate exampleCollaborators 3 exampleNoTemplate emptyTemplate 5 10 =
        some (.returned (update exampleCollaborators exampleNoTemplate)) ∧
      rewind exampleCollaborators 3 (update exampleCollaborators exampleNoTemplate) 5 10 =
        some (.returned exampleNoTemplateRewound) ∧
      exampleNoTemplateRewound.eventTimes_ ≠
        (update exampleCollaborators exampleNoTemplate).eventTimes_) := by
  refine ⟨⟨insert_exampleHistory, ?_, by simp [exampleInserted, exampleHistoryInserted],
    by simp [exampleInserted, exampleHistoryInserted]⟩, ?_, ?_,
    by simp [exampleNoTemplateRewound, exampleNoTemplate, update, mkRules]⟩
  · norm_num [rewind, rewindTruncate, lower_bound, lowerBoundLoop,
      exampleTemplate, exampleInserted, exampleHistoryInserted, tileModeSequenceTemplate,
      tileWhileLoop, tileForLoop, update, resize, exampleCollaborators, List.replicate]
    rfl
  · norm_num [insertModeSequenceTemplate, insertTruncate, lower_bound, lowerBoundLoop,
      exampleNoTemplate, emptyTemplate, mkRules, insertTransition,
      transitionStanceTime, tileModeSequenceTemplate, exampleCollaborators]
  · norm_num [rewind, rewindTruncate, lower_bound, lowerBoundLoop, exampleNoTemplate, mkRules,
      emptyTemplate, exampleNoTemplateRewound, tileModeSequenceTemplate,
      update, resize, exampleCollaborators, List.replicate]
    intro hc
    cases hc

theorem insert_then_rewind_exact_example :
    ∃ r1, rewind exampleCollaborators 3 exampleInserted 0 1 = some (.returned r1) ∧
      r1.eventTimes_ =
        exampleInserted.eventTimes_.drop (lower_bound exampleInserted.eventTimes_ 0 - 1) ∧
      r1.subsystemsSequence_.tail =
        exampleInserted.subsystemsSequence_.drop
          (lower_bound exampleInserted.eventTimes_ 0 - 1 + 1) ∧
      (0 < lower_bound exampleInserted.eventTimes_ 0 →
        r1.subsystemsSequence_.head? = some exampleCollaborators.STANCE) ∧
      (lower_bound exampleInserted.eventTimes_ 0 = 0 ∨
        (lower_bound exampleInserted.eventTimes_ 0 = 1 ∧
          exampleInserted.subsystemsSequence_.head? = some exampleCollaborators.STANCE) →
        r1 = exampleInserted) :=
  insert_then_rewind_exact exampleCollaborators 3 exampleRules exampleInserted exampleTemplate 0 1
    (by decide) strictlyIncreasing_exampleRules (by norm_num [exampleRules, mkRules])
    (by decide) strictlyIncreasing_exampleTemplate rfl insert_exampleRules

/-! ### The end-to-end scenario -/

theorem lowerBoundLoop_of_forall_lt (xs : List scalar_t) (val : scalar_t)
    (hall : ∀ t ∈ xs, t < val) :
    ∀ fuel first len, len ≤ fuel → first + len ≤ xs.length →
      lowerBoundLoop xs val fuel first len = first + len := by
  intro fuel
  induction fuel with
  | zero =>
    intro first len hlen _
    have : len = 0 := by omega
    subst this
    simp [lowerBoundLoop]
  | succ n ih =>
    intro first len hlen hbound
    unfold lowerBoundLoop
    split_ifs with h0
    · omega
    · split
      · rename_i v hv
        rw [if_pos (hall v (List.getElem?_mem hv)),
          ih (first + len / 2 + 1) (len - len / 2 - 1) (by omega) (by omega)]
        omega
      · rename_i hnone
        have := List.getElem?_eq_none_iff.mp hnone
        omega

theorem lower_bound_of_forall_lt (xs : List scalar_t) (val : scalar_t)
    (hall : ∀ t ∈ xs, t < val) : lower_bound xs val = xs.length := by
  unfold lower_bound
  rw [lowerBoundLoop_of_forall_lt xs val hall xs.length 0 xs.length le_rfl (by omega)]
  omega

/-- C10 (amended). Starting from a timeline that has at least one event time, all of them
before `0.0`, and that ends in `STANCE`, inserting the template with modes
`[STANCE, SWING_LEG1]` and offsets `[0.0, 0.2, 0.6]` at `startTime = 0.0` with
`finalTime = 1.0` returns (the loop condition is tested three times) and appends to the timeline
exactly the five event times `0.0, 0.2, 0.6, 0.8, 1.2`, the fifth one `>= 1.0`, and the five
modes `[STANCE, SWING_LEG1, STANCE, SWING_LEG1, STANCE]`. -/
theorem C10_scenario {F : Type} (E : Collaborators F) (fuel : Nat)
    (self : SwitchedModelLogicRulesBase F) (SWING_LEG1 : Nat) (hfuel : 3 ≤ fuel)
    (hne : self.eventTimes_ ≠ []) (hall : ∀ t ∈ self.eventTimes_, t < 0)
    (hm : self.subsystemsSequence_.getLast? = some E.STANCE) :
    insertModeSequenceTemplate E fuel self ⟨[E.STANCE, SWING_LEG1], [0, 1 / 5, 3 / 5]⟩ 0 1 =
      some (.returned (update E (pushed self
        [E.STANCE, SWING_LEG1, E.STANCE, SWING_LEG1, E.STANCE] [0, 1 / 5, 3 / 5, 4 / 5, 6 / 5]))) := by
  obtain ⟨n, rfl⟩ : ∃ n, fuel = n + 3 := ⟨fuel - 3, by omega⟩
  obtain ⟨last, hlast⟩ : ∃ last, self.eventTimes_.getLast? = some last := by
    rcases hl : self.eventTimes_.getLast? with _ | last
    · exact absurd (List.getLast?_eq_none_iff.mp hl) hne
    · exact ⟨last, rfl⟩
  have hlt : last < 0 := hall last (List.mem_of_getLast?_eq_some hlast)
  have hmne : self.subsystemsSequence_ ≠ [] := by
    intro hc
    rw [hc] at hm
    cases hm
  have htr : insertTruncate self 0 = .returned self := by
    unfold insertTruncate
    simp [lower_bound_of_forall_lt _ _ hall]
  have htst : transitionStanceTime E self = 0 := by
    unfold transitionStanceTime
    simp [hm, List.length_pos.mpr hmne]
  have hit : insertTransition E self 0 = self := by
    unfold insertTransition
    rw [htst]
    norm_num
  unfold insertModeSequenceTemplate
  rw [htr]
  simp only [hit, htst]
  norm_num [tileModeSequenceTemplate, tileWhileLoop, tileForLoop, hlast, not_le.mpr hlt, pushed]

/-- C10 (as stated) fails. From the empty timeline (no modes, no event times, transition time
`0.4`) the insertion first adds a transition stance phase at `0.0` and tiles from `0.4`: four
event times `0.0, 0.4, 0.6, 1.0` and the modes `[STANCE, STANCE, SWING_LEG1, STANCE]`. From the
timeline without event times whose only mode is `STANCE` the tiling step reads the last element
of the empty list of event times. -/
theorem C10_counterexample :
    insertModeSequenceTemplate exampleCollaborators 3 exampleEmpty exampleTemplate 0 1 =
        some (.returned exampleEmptyInserted) ∧
      exampleEmptyInserted.eventTimes_ = [0, 2 / 5, 3 / 5, 1] ∧
      exampleEmptyInserted.subsystemsSequence_ = [15, 15, 7, 15] ∧
      insertModeSequenceTemplate exampleCollaborators 3 exampleStanding exampleTemplate 0 1 =
        some .undefined := by
  refine ⟨?_, rfl, rfl, ?_⟩
  · norm_num [insertModeSequenceTemplate, insertTruncate, lower_bound, lowerBoundLoop,
      exampleEmpty, exampleTemplate, exampleEmptyInserted, emptyTemplate, mkRules,
      insertTransition, transitionStanceTime, tileModeSequenceTemplate, tileWhileLoop,
      tileForLoop, update, resize, exampleCollaborators, List.replicate]
  · norm_num [insertModeSequenceTemplate, insertTruncate, lower_bound, lowerBoundLoop,
      exampleStanding, exampleTemplate, emptyTemplate, mkRules,
      insertTransition, transitionStanceTime, tileModeSequenceTemplate, exampleCollaborators]

theorem C10_scenario_witness :
    insertModeSequenceTemplate exampleCollaborators 3 exampleRules ⟨[15, 7], [0, 1 / 5, 3 / 5]⟩
        0 1 =
      some (.returned (update exampleCollaborators (pushed exampleRules
        [15, 7, 15, 7, 15] [0, 1 / 5, 3 / 5, 4 / 5, 6 / 5]))) :=
  C10_scenario exampleCollaborators 3 exampleRules 7 le_rfl
    (by simp [exampleRules, mkRules]) (by norm_num [exampleRules, mkRules]) rfl

/-! ### The fuel bound does not change results -/

theorem tileWhileLoop_fuel_mono {F : Type} (tmpl : logic_template_type) (finalTime : scalar_t) :
    ∀ (fuel : Nat) (self : SwitchedModelLogicRulesBase F)
      (o : Outcome (SwitchedModelLogicRulesBase F)),
      tileWhileLoop tmpl finalTime fuel self = some o →
      ∀ k, tileWhileLoop tmpl finalTime (fuel + k) self = some o := by
  intro fuel
  induction fuel with
  | zero => intro self o h; simp [tileWhileLoop] at h
  | succ n ih =>
    intro self o h k
    rw [Nat.add_right_comm]
    unfold tileWhileLoop at h ⊢
    split
    · rename_i hl
      rw [hl] at h
      exact h
    · rename_i last hl
      rw [hl] at h
      simp only at h
      split_ifs at h ⊢ with hlt
      · split
        · rename_i self1 hfor
          rw [hfor] at h
          exact ih _ _ h k
        · rename_i e hfor
          rw [hfor] at h
          exact h
        · rename_i hfor
          rw [hfor] at h
          exact h
      · exact h

theorem tileModeSequenceTemplate_fuel_mono {F : Type} (E : Collaborators F) (fuel k : Nat)
    (self : SwitchedModelLogicRulesBase F) (tmpl : logic_template_type)
    (startTime finalTime : scalar_t) (o : Outcome (SwitchedModelLogicRulesBase F))
    (h : tileModeSequenceTemplate E fuel self tmpl startTime finalTime = some o) :
    tileModeSequenceTemplate E (fuel + k) self tmpl startTime finalTime = some o := by
  unfold tileModeSequenceTemplate at h ⊢
  simp only at h ⊢
  split_ifs at h ⊢ with h0 h1
  · exact h
  · exact h
  · split
    · rename_i hl
      rw [hl] at h
      exact h
    · rename_i last hl
      rw [hl] at h
      simp only at h
      split_ifs at h ⊢ with hle
      · exact h
      · rcases hw : tileWhileLoop tmpl finalTime fuel
            { self with eventTimes_ := self.eventTimes_ ++ [startTime] } with _ | o1
        · rw [hw] at h
          cases h
        · rw [hw] at h
          rw [tileWhileLoop_fuel_mono tmpl finalTime fuel _ o1 hw k]
          exact h

/-- More fuel never changes what `insertModeSequenceTemplate` and `rewind` do: once a fuel
bound gives an outcome, every larger bound gives the same outcome. -/
theorem insert_rewind_fuel_mono {F : Type} (E : Collaborators F) (fuel k : Nat)
    (self : SwitchedModelLogicRulesBase F) (o : Outcome (SwitchedModelLogicRulesBase F)) :
    (∀ tmpl startTime finalTime,
      insertModeSequenceTemplate E fuel self tmpl startTime finalTime = some o →
      insertModeSequenceTemplate E (fuel + k) self tmpl startTime finalTime = some o) ∧
    (∀ lowerBoundTime upperBoundTime,
      rewind E fuel self lowerBoundTime upperBoundTime = some o →
      rewind E (fuel + k) self lowerBoundTime upperBoundTime = some o) := by
  constructor
  · intro tmpl startTime finalTime h
    unfold insertModeSequenceTemplate at h ⊢
    rcases h1 : insertTruncate self startTime with self1 | e | _
    · rw [h1] at h
      simp only at h ⊢
      rcases ht : tileModeSequenceTemplate E fuel (insertTransition E self1 startTime) tmpl
          (startTime + transitionStanceTime E self1) finalTime with _ | o1
      · rw [ht] at h
        cases h
      · rw [ht] at h
        rw [tileModeSequenceTemplate_fuel_mono E fuel k _ _ _ _ o1 ht]
        exact h
    · rw [h1] at h
      exact h
    · rw [h1] at h
      exact h
  · intro lowerBoundTime upperBoundTime h
    unfold rewind at h ⊢
    rcases h1 : rewindTruncate E self lowerBoundTime with self1 | e | _
    · rw [h1] at h
      simp only at h ⊢
      rcases hl : self1.eventTimes_.getLast? with _ | t
      · rw [hl] at h
        exact h
      · rw [hl] at h
        simp only at h ⊢
        split_ifs at h ⊢ with hm
        · exact h
        · rcases ht : tileModeSequenceTemplate E fuel
              { self1 with
                eventTimes_ := self1.eventTimes_.dropLast
                subsystemsSequence_ := self1.subsystemsSequence_.dropLast }
              self1.modeSequenceTemplate_ t upperBoundTime with _ | o1
          · rw [ht] at h
            cases h
          · rw [ht] at h
            rw [tileModeSequenceTemplate_fuel_mono E fuel k _ _ _ _ o1 ht]
            exact h
    · rw [h1] at h
      exact h
    · rw [h1] at h
      exact h

/-! ### What an insertion keeps -/

theorem take_lower_bound_eq_filter {xs : List scalar_t} (hs : xs.Pairwise (fun a b => a ≤ b))
    (val : scalar_t) :
    xs.take (lower_bound xs val) = xs.filter (fun t => t < val) := by
  conv_rhs => rw [← List.take_append_drop (lower_bound xs val) xs]
  rw [List.filter_append]
  have h1 : (xs.take (lower_bound xs val)).filter (fun t => t < val) =
      xs.take (lower_bound xs val) := by
    rw [List.filter_eq_self]
    intro a ha
    obtain ⟨i, hi⟩ := List.getElem?_of_mem ha
    rw [List.getElem?_take] at hi
    split_ifs at hi with hlt
    simpa using (lower_bound_spec hs val hi).mpr hlt
  have h2 : (xs.drop (lower_bound xs val)).filter (fun t => t < val) = [] := by
    rw [List.filter_eq_nil_iff]
    intro a ha
    obtain ⟨i, hi⟩ := List.getElem?_of_mem ha
    rw [List.getElem?_drop] at hi
    have := (lower_bound_spec hs val hi).not.mpr (by omega)
    simpa using this
  rw [h1, h2, List.append_nil]

theorem length_filter_lt_eq_lower_bound {xs : List scalar_t}
    (hs : xs.Pairwise (fun a b => a ≤ b)) (val : scalar_t) :
    (xs.filter (fun t => t < val)).length = lower_bound xs val := by
  rw [← take_lower_bound_eq_filter hs val, List.length_take]
  exact Nat.min_eq_left (lower_bound_le_length xs val)

theorem insertTruncate_eventTimes {F : Type} {self self1 : SwitchedModelLogicRulesBase F}
    {startTime : scalar_t} (h : insertTruncate self startTime = .returned self1)
    (hs : self.eventTimes_.Pairwise (fun a b => a ≤ b)) :
    self1.eventTimes_ = self.eventTimes_.filter (fun t => t < startTime) := by
  rw [← take_lower_bound_eq_filter hs startTime]
  rcases insertTruncate_returned h with ⟨h1, rfl⟩ | ⟨_, _, rfl⟩
  · exact (List.take_of_length_le h1).symm
  · rfl

theorem insertTruncate_eq_keptTimeline {F : Type} {self self1 : SwitchedModelLogicRulesBase F}
    {startTime : scalar_t} (h : insertTruncate self startTime = .returned self1)
    (hs : self.eventTimes_.Pairwise (fun a b => a ≤ b)) (hinv : LengthInvariant self) :
    self1 = keptTimeline self startTime := by
  have hk := length_filter_lt_eq_lower_bound hs startTime
  have hf := take_lower_bound_eq_filter hs startTime
  unfold keptTimeline
  rw [hk, ← hf]
  unfold LengthInvariant at hinv
  rcases insertTruncate_returned h with ⟨h1, rfl⟩ | ⟨_, _, rfl⟩
  · rw [List.take_of_length_le h1, List.take_of_length_le (by omega)]
  · rfl

theorem insertTruncate_keptTimeline {F : Type} (self : SwitchedModelLogicRulesBase F)
    (startTime : scalar_t) :
    insertTruncate (keptTimeline self startTime) startTime =
      .returned (keptTimeline self startTime) := by
  have hall : ∀ t ∈ (keptTimeline self startTime).eventTimes_, t < startTime := by
    intro t ht
    simpa using (List.mem_filter.mp ht).2
  unfold insertTruncate
  simp only [lower_bound_of_forall_lt _ _ hall, lt_irrefl, ↓reduceIte]

theorem insertTransition_pushed {F : Type} (E : Collaborators F)
    (self : SwitchedModelLogicRulesBase F) (startTime : scalar_t) :
    ∃ ms ts, insertTransition E self startTime = pushed self ms ts := by
  unfold insertTransition
  split_ifs
  · exact ⟨[E.STANCE], [startTime], rfl⟩
  · exact ⟨[], [], (pushed_nil self).symm⟩

theorem tileModeSequenceTemplate_pushed {F : Type} {E : Collaborators F} {fuel : Nat}
    {self self1 : SwitchedModelLogicRulesBase F} {tmpl : logic_template_type}
    {startTime finalTime : scalar_t}
    (h : tileModeSequenceTemplate E fuel self tmpl startTime finalTime = some (.returned self1)) :
    ∃ ms ts, self1 = pushed self ms ts := by
  rcases tileModeSequenceTemplate_returned E fuel self self1 tmpl startTime finalTime h with
    ⟨_, rfl⟩ | ⟨_, _, last, ms, ts, _, _, rfl, _, _, _⟩
  · exact ⟨[], [], (pushed_nil _).symm⟩
  · exact ⟨_, _, rfl⟩

/-- C11. For every timeline with sorted event times, when `insertModeSequenceTemplate` returns:
the new event times are the old event times strictly below `startTime`, in their order,
followed by added ones; with `k` the number of old event times below `startTime`, the old modes
at the indices `0..k` are a prefix of the new modes; and every old event time at or after
`startTime` and, in a timeline with one mode more than event times, every mode after index `k`
is discarded: the call returns the same object when it is made on the kept part alone. -/
theorem C11_insert_frame {F : Type} (E : Collaborators F) (fuel : Nat)
    (self r : SwitchedModelLogicRulesBase F) (tmpl : logic_template_type)
    (startTime finalTime : scalar_t) (hs : self.eventTimes_.Pairwise (fun a b => a ≤ b))
    (h : insertModeSequenceTemplate E fuel self tmpl startTime finalTime = some (.returned r)) :
    (∃ addedTimes,
      r.eventTimes_ = self.eventTimes_.filter (fun t => t < startTime) ++ addedTimes) ∧
    (∃ addedModes, r.subsystemsSequence_ = self.subsystemsSequence_.take
      ((self.eventTimes_.filter (fun t => t < startTime)).length + 1) ++ addedModes) ∧
    (LengthInvariant self →
      insertModeSequenceTemplate E fuel (keptTimeline self startTime) tmpl startTime finalTime =
        some (.returned r)) := by
  obtain ⟨self1, self2, h1, h2, rfl⟩ := insertModeSequenceTemplate_returned h
  obtain ⟨ms1, ts1, htr⟩ := insertTransition_pushed E self1 startTime
  obtain ⟨ms2, ts2, hti⟩ := tileModeSequenceTemplate_pushed h2
  rw [htr, pushed_pushed] at hti
  have hk := length_filter_lt_eq_lower_bound hs startTime
  refine ⟨⟨ts1 ++ ts2, ?_⟩, ?_, ?_⟩
  · show self2.eventTimes_ = _
    rw [hti, ← insertTruncate_eventTimes h1 hs]
    rfl
  · show ∃ addedModes, self2.subsystemsSequence_ = _
    rw [hti, hk]
    rcases insertTruncate_returned h1 with ⟨_, rfl⟩ | ⟨_, _, rfl⟩
    · refine ⟨self1.subsystemsSequence_.drop (lower_bound self1.eventTimes_ startTime + 1) ++
        (ms1 ++ ms2), ?_⟩
      simp only [pushed]
      rw [← List.append_assoc (List.take _ _) (List.drop _ _), List.take_append_drop]
    · exact ⟨ms1 ++ ms2, rfl⟩
  · intro hinv
    have hkept := insertTruncate_eq_keptTimeline h1 hs hinv
    have h3 := insertTruncate_keptTimeline self startTime
    rw [← hkept] at h3 ⊢
    unfold insertModeSequenceTemplate at h ⊢
    rw [h1] at h
    rw [h3]
    exact h

theorem insert_exampleInserted :
    insertModeSequenceTemplate exampleCollaborators 3 exampleInserted exampleTemplate (1 / 5) 1 =
      some (.returned exampleReinserted) := by
  norm_num [insertModeSequenceTemplate, insertTruncate, lower_bound, lowerBoundLoop,
    exampleTemplate, exampleInserted, exampleReinserted, insertTransition,
    transitionStanceTime, tileModeSequenceTemplate, tileWhileLoop, tileForLoop, update, resize,
    exampleCollaborators, List.replicate]

theorem C11_insert_frame_witness :
    (∃ addedTimes, exampleReinserted.eventTimes_ =
      exampleInserted.eventTimes_.filter (fun t => t < 1 / 5) ++ addedTimes) ∧
    (∃ addedModes, exampleReinserted.subsystemsSequence_ =
      exampleInserted.subsystemsSequence_.take
        ((exampleInserted.eventTimes_.filter (fun t => t < 1 / 5)).length + 1) ++ addedModes) ∧
    (LengthInvariant exampleInserted →
      insertModeSequenceTemplate exampleCollaborators 3 (keptTimeline exampleInserted (1 / 5))
        exampleTemplate (1 / 5) 1 = some (.returned exampleReinserted)) :=
  C11_insert_frame exampleCollaborators 3 exampleInserted exampleReinserted exampleTemplate
    (1 / 5) 1 sorted_exampleInserted insert_exampleInserted

/-! ### The transition stance phase -/

theorem insertModeSequenceTemplate_eq_map {F : Type} (E : Collaborators F) (fuel : Nat)
    {self self1 : SwitchedModelLogicRulesBase F} (tmpl : logic_template_type)
    (startTime finalTime : scalar_t) (h1 : insertTruncate self startTime = .returned self1) :
    insertModeSequenceTemplate E fuel self tmpl startTime finalTime =
      Option.map (Outcome.map (update E))
        (tileModeSequenceTemplate E fuel (insertTransition E self1 startTime) tmpl
          (startTime + transitionStanceTime E self1) finalTime) := by
  unfold insertModeSequenceTemplate
  rw [h1]
  simp only
  rcases tileModeSequenceTemplate E fuel (insertTransition E self1 startTime) tmpl
      (startTime + transitionStanceTime E self1) finalTime with _ | o
  · rfl
  · cases o <;> rfl

theorem getMotionPhaseLogicsTraced_fst {F : Type} (E : Collaborators F)
    (self : SwitchedModelLogicRulesBase F) (index : Nat) :
    (getMotionPhaseLogicsTraced E self index).1 = getMotionPhaseLogics E self index := by
  unfold getMotionPhaseLogicsTraced getMotionPhaseLogics
  by_cases h : index ≥ self.contactFlagsStock_.length
  · rw [if_pos h, if_pos h]
  · rw [if_neg h, if_neg h]
    rcases self.contactFlagsStock_[index]? with _ | contactFlags
    · rfl
    · rcases self.feetReferenceUpdatedStock_[index]? with _ | updated
      · rfl
      · simp only
        by_cases hu : updated = false
        · rw [if_pos hu, if_pos hu]
          by_cases hl : index < self.feetReferencePtrStock_.length
          · rw [if_pos hl, if_pos hl]
          · rw [if_neg hl, if_neg hl]
        · rw [if_neg hu, if_neg hu]
          rcases self.feetReferencePtrStock_[index]? with _ | p <;> rfl

theorem plannedSlots_update {F : Type} (E : Collaborators F)
    (x : SwitchedModelLogicRulesBase F) : PlannedSlots E x [] (update E x) := by
  unfold PlannedSlots
  refine ⟨rfl, rfl, rfl, by simp [update], by simp [update, length_resize], ?_⟩
  intro j hj
  refine ⟨fun h => absurd h (List.not_mem_nil j), fun _ => ?_⟩
  simp [update, List.getElem?_replicate, hj]

theorem plannedSlots_congr {F : Type} {E : Collaborators F}
    {x self : SwitchedModelLogicRulesBase F} {P Q : List Nat}
    (hPQ : ∀ j, j < x.subsystemsSequence_.length → (j ∈ P ↔ j ∈ Q))
    (h : PlannedSlots E x P self) : PlannedSlots E x Q self := by
  unfold PlannedSlots at h ⊢
  obtain ⟨h1, h2, h3, h4, h5, h6⟩ := h
  refine ⟨h1, h2, h3, h4, h5, fun j hj => ⟨fun hq => (h6 j hj).1 ((hPQ j hj).mpr hq),
    fun hq => (h6 j hj).2 (fun hp => hq ((hPQ j hj).mp hp))⟩⟩

theorem getMotionPhaseLogicsTraced_of_plannedSlots {F : Type} {E : Collaborators F}
    {x self : SwitchedModelLogicRulesBase F} {P : List Nat} (h : PlannedSlots E x P self)
    (index : Nat) :
    (x.subsystemsSequence_.length ≤ index →
      getMotionPhaseLogicsTraced E self index = (.raised (.outOfBoundMotionPhase index), [])) ∧
    (∀ mode, x.subsystemsSequence_[index]? = some mode → index ∈ P →
      getMotionPhaseLogicsTraced E self index =
        (.returned (self, E.modeNumber2StanceLeg mode,
          some (E.planSingleMode index x.subsystemsSequence_ x.eventTimes_)), [])) ∧
    (∀ mode, x.subsystemsSequence_[index]? = some mode → index ∉ P →
      ∃ self1, PlannedSlots E x (index :: P) self1 ∧
        getMotionPhaseLogicsTraced E self index =
          (.returned (self1, E.modeNumber2StanceLeg mode,
            some (E.planSingleMode index x.subsystemsSequence_ x.eventTimes_)), [index])) := by
  unfold PlannedSlots at h
  obtain ⟨h1, h2, h3, h4, h5, h6⟩ := h
  refine ⟨fun hle => ?_, fun mode hmode hin => ?_, fun mode hmode hnin => ?_⟩
  · unfold getMotionPhaseLogicsTraced
    rw [if_pos (by rw [h3, List.length_map]; exact hle)]
  · have hlt : index < x.subsystemsSequence_.length := (List.getElem?_eq_some_iff.mp hmode).1
    obtain ⟨hu, hp⟩ := (h6 index hlt).1 hin
    unfold getMotionPhaseLogicsTraced
    rw [if_neg (by rw [h3, List.length_map]; omega)]
    simp [h3, hmode, hu, hp]
  · have hlt : index < x.subsystemsSequence_.length := (List.getElem?_eq_some_iff.mp hmode).1
    have hu := (h6 index hlt).2 hnin
    refine ⟨{ self with
        feetReferencePtrStock_ := self.feetReferencePtrStock_.set index
          (some (E.planSingleMode index x.subsystemsSequence_ x.eventTimes_))
        feetReferenceUpdatedStock_ := self.feetReferenceUpdatedStock_.set index true }, ?_, ?_⟩
    · unfold PlannedSlots
      refine ⟨h1, h2, h3, by simp [h4], by simp [h5], fun j hj => ?_⟩
      by_cases hji : j = index
      · subst hji
        refine ⟨fun _ => ⟨?_, ?_⟩, fun hc => absurd (List.mem_cons_self _ _) hc⟩
        · simp [List.getElem?_set, h4, hj]
        · simp [List.getElem?_set, h5, hj]
      · have hne : index ≠ j := fun hc => hji hc.symm
        refine ⟨fun hin => ?_, fun hnin1 => ?_⟩
        · have hjP : j ∈ P := by
            rcases List.mem_cons.mp hin with hc | hc
            · exact absurd hc hji
            · exact hc
          simpa [List.getElem?_set, hne] using (h6 j hj).1 hjP
        · have hjP : j ∉ P := fun hc => hnin1 (List.mem_cons_of_mem _ hc)
          simpa [List.getElem?_set, hne] using (h6 j hj).2 hjP
    · unfold getMotionPhaseLogicsTraced
      rw [if_neg (by rw [h3, List.length_map]; omega)]
      have hm : x.subsystemsSequence_[index] = mode := (List.getElem?_eq_some_iff.mp hmode).2
      simp [h3, hmode, hu, h5, hlt, h1, h2, hm]

theorem plannedSlots_stateAfterCalls {F : Type} (E : Collaborators F)
    (x : SwitchedModelLogicRulesBase F) :
    ∀ (calls : List Nat) (self : SwitchedModelLogicRulesBase F) (P : List Nat),
      PlannedSlots E x P self → PlannedSlots E x (P ++ calls) (stateAfterCalls E self calls) := by
  intro calls
  induction calls with
  | nil => intro self P h; simpa [stateAfterCalls] using h
  | cons index rest ih =>
    intro self P h
    obtain ⟨hraise, hin, hnin⟩ := getMotionPhaseLogicsTraced_of_plannedSlots h index
    have hassoc : P ++ index :: rest = (P ++ [index]) ++ rest := by simp
    rw [hassoc]
    unfold stateAfterCalls
    rw [← getMotionPhaseLogicsTraced_fst]
    rcases hget : x.subsystemsSequence_[index]? with _ | mode
    · have hle : x.subsystemsSequence_.length ≤ index := List.getElem?_eq_none_iff.mp hget
      rw [hraise hle]
      refine ih self _ (plannedSlots_congr (fun j hj => ?_) h)
      simp only [List.mem_append, List.mem_singleton]
      constructor
      · exact fun hp => Or.inl hp
      · rintro (hp | hp)
        · exact hp
        · omega
    · by_cases hP : index ∈ P
      · rw [hin mode hget hP]
        refine ih self _ (plannedSlots_congr (fun j _ => ?_) h)
        simp only [List.mem_append, List.mem_singleton]
        constructor
        · exact fun hp => Or.inl hp
        · rintro (hp | hp)
          · exact hp
          · exact hp ▸ hP
      · obtain ⟨self1, hpl, hcall⟩ := hnin mode hget hP
        rw [hcall]
        refine ih self1 _ (plannedSlots_congr (fun j _ => ?_) hpl)
        rw [List.mem_append, List.mem_singleton, List.mem_cons]
        exact or_comm

/-- C13. Take the object right after `update()` and any sequence `calls` of
`getMotionPhaseLogics` calls on it, none of them followed by another update. A further call with
slot `index` invokes the planner exactly when `index` is in range and no earlier call of the
sequence had this index, that is, at the first successful call with that index and never again.
Every later call with that index returns the foot references the planner produced for the slot
and leaves the object as it is. -/
theorem C13_plan_once {F : Type} (E : Collaborators F) (x : SwitchedModelLogicRulesBase F)
    (calls : List Nat) (index : Nat) :
    (getMotionPhaseLogicsTraced E (stateAfterCalls E (update E x) calls) index).1 =
      getMotionPhaseLogics E (stateAfterCalls E (update E x) calls) index ∧
    (getMotionPhaseLogicsTraced E (stateAfterCalls E (update E x) calls) index).2 =
      (if index < x.subsystemsSequence_.length ∧ index ∉ calls then [index] else []) ∧
    (index < x.subsystemsSequence_.length → index ∈ calls →
      ∃ flags, getMotionPhaseLogics E (stateAfterCalls E (update E x) calls) index =
        .returned (stateAfterCalls E (update E x) calls, flags,
          some (E.planSingleMode index x.subsystemsSequence_ x.eventTimes_))) ∧
    (index < x.subsystemsSequence_.length → index ∉ calls →
      ∃ self1 flags, getMotionPhaseLogics E (stateAfterCalls E (update E x) calls) index =
        .returned (self1, flags,
          some (E.planSingleMode index x.subsystemsSequence_ x.eventTimes_))) := by
  have hpl := plannedSlots_stateAfterCalls E x calls (update E x) [] (plannedSlots_update E x)
  rw [List.nil_append] at hpl
  obtain ⟨hraise, hin, hnin⟩ := getMotionPhaseLogicsTraced_of_plannedSlots hpl index
  refine ⟨getMotionPhaseLogicsTraced_fst E _ index, ?_, ?_, ?_⟩
  · rcases hget : x.subsystemsSequence_[index]? with _ | mode
    · have hle : x.subsystemsSequence_.length ≤ index := List.getElem?_eq_none_iff.mp hget
      rw [hraise hle, if_neg (fun hc => absurd hc.1 (not_lt.mpr hle))]
    · have hlt : index < x.subsystemsSequence_.length := (List.getElem?_eq_some_iff.mp hget).1
      by_cases hc : index ∈ calls
      · rw [hin mode hget hc, if_neg (fun h => h.2 hc)]
      · obtain ⟨self1, _, hcall⟩ := hnin mode hget hc
        rw [hcall, if_pos ⟨hlt, hc⟩]
  · intro hlt hc
    obtain ⟨mode, hmode⟩ : ∃ mode, x.subsystemsSequence_[index]? = some mode :=
      ⟨_, List.getElem?_eq_getElem hlt⟩
    refine ⟨E.modeNumber2StanceLeg mode, ?_⟩
    rw [← getMotionPhaseLogicsTraced_fst, hin mode hmode hc]
  · intro hlt hc
    obtain ⟨mode, hmode⟩ : ∃ mode, x.subsystemsSequence_[index]? = some mode :=
      ⟨_, List.getElem?_eq_getElem hlt⟩
    obtain ⟨self1, _, hcall⟩ := hnin mode hmode hc
    refine ⟨self1, E.modeNumber2StanceLeg mode, ?_⟩
    rw [← getMotionPhaseLogicsTraced_fst, hcall]

theorem C13_plan_once_witness :
    (∃ flags, getMotionPhaseLogics exampleCollaborators
        (stateAfterCalls exampleCollaborators (update exampleCollaborators exampleRules) [1, 0, 1])
        1 =
      .returned
        (stateAfterCalls exampleCollaborators (update exampleCollaborators exampleRules) [1, 0, 1],
          flags,
          some (exampleCollaborators.planSingleMode 1 exampleRules.subsystemsSequence_
            exampleRules.eventTimes_))) ∧
    (∃ self1 flags, getMotionPhaseLogics exampleCollaborators
        (stateAfterCalls exampleCollaborators (update exampleCollaborators exampleRules) [0]) 1 =
      .returned (self1, flags,
        some (exampleCollaborators.planSingleMode 1 exampleRules.subsystemsSequence_
          exampleRules.eventTimes_))) :=
  ⟨(C13_plan_once exampleCollaborators exampleRules [1, 0, 1] 1).2.2.1 (by decide) (by decide),
    (C13_plan_once exampleCollaborators exampleRules [0] 1).2.2.2 (by decide) (by decide)⟩

/-! ### Tiling a template without modes -/

/-- C20. If the template has no modes, `tileModeSequenceTemplate` returns, for every fuel,
number of template switching times, `startTime` and `finalTime`, and the object it returns is
the object it was called on: no event time and no mode is added, so the last mode of the
timeline stays the last one. -/
theorem C20_tile_empty_template {F : Type} (E : Collaborators F) (fuel : Nat)
    (self : SwitchedModelLogicRulesBase F) (tmpl : logic_template_type)
    (startTime finalTime : scalar_t) (h : tmpl.templateSubsystemsSequence_ = []) :
    tileModeSequenceTemplate E fuel self tmpl startTime finalTime = some (.returned self) := by
  unfold tileModeSequenceTemplate
  simp [h]

theorem C20_tile_empty_template_witness :
    tileModeSequenceTemplate exampleCollaborators 0 exampleRules ⟨[], [0, 1, 2]⟩ 0 1 =
      some (.returned exampleRules) :=
  C20_tile_empty_template exampleCollaborators 0 exampleRules ⟨[], [0, 1, 2]⟩ 0 1 rfl

/-! ### The closed form of the tiling -/

theorem switchingTime_of_lt {tmpl : logic_template_type} {i : Nat}
    (h : i < tmpl.templateSwitchingTimes_.length) :
    tmpl.templateSwitchingTimes_[i]? = some (switchingTime tmpl i) := by
  unfold switchingTime
  rw [List.getElem?_eq_getElem h]
  rfl

theorem tileForLoop_closed {F : Type} (tmpl : logic_template_type)
    (hwf : WellFormedTemplate tmpl) (b : scalar_t) :
    ∀ (k i : Nat) (self : SwitchedModelLogicRulesBase F),
      i + k = tmpl.templateSubsystemsSequence_.length →
      self.eventTimes_.getLast? = some (b + (switchingTime tmpl i - switchingTime tmpl 0)) →
      tileForLoop tmpl k i self =
        .returned (pushed self (tmpl.templateSubsystemsSequence_.drop i)
          ((List.range k).map fun l =>
            b + (switchingTime tmpl (i + l + 1) - switchingTime tmpl 0))) := by
  unfold WellFormedTemplate at hwf
  intro k
  induction k with
  | zero =>
    intro i self hik _
    simp only [Nat.add_zero] at hik
    simp [tileForLoop, hik, pushed]
  | succ k ih =>
    intro i self hik hlast
    have hi : i < tmpl.templateSubsystemsSequence_.length := by omega
    have hm : tmpl.templateSubsystemsSequence_[i]? = some (tmpl.templateSubsystemsSequence_[i]) :=
      List.getElem?_eq_getElem hi
    have h1 : tmpl.templateSwitchingTimes_[i + 1]? = some (switchingTime tmpl (i + 1)) :=
      switchingTime_of_lt (by omega)
    have h0 : tmpl.templateSwitchingTimes_[i]? = some (switchingTime tmpl i) :=
      switchingTime_of_lt (by omega)
    unfold tileForLoop
    simp only [hm, h1, h0, hlast]
    rw [ih (i + 1) _ (by omega) (by
      simp only [List.getLast?_concat, Option.some.injEq]
      ring)]
    have e1 : b + (switchingTime tmpl i - switchingTime tmpl 0) +
        (switchingTime tmpl (i + 1) - switchingTime tmpl i) =
        b + (switchingTime tmpl (i + 0 + 1) - switchingTime tmpl 0) := by
      rw [Nat.add_zero]
      ring
    have e2 : (List.range k).map (fun l =>
        b + (switchingTime tmpl (i + 1 + l + 1) - switchingTime tmpl 0)) =
        (List.range k).map ((fun l =>
          b + (switchingTime tmpl (i + l + 1) - switchingTime tmpl 0)) ∘ Nat.succ) := by
      apply List.map_congr_left
      intro l _
      simp only [Function.comp_apply, Nat.succ_eq_add_one]
      rw [show i + 1 + l + 1 = i + (l + 1) + 1 by omega]
    rw [List.range_succ_eq_map, List.map_cons, List.map_map, List.drop_eq_getElem_cons hi,
      e1, e2]
    simp only [pushed, List.append_assoc, List.singleton_append]

theorem tileForLoop_period {F : Type} (tmpl : logic_template_type)
    (hwf : WellFormedTemplate tmpl) (hne : tmpl.templateSubsystemsSequence_ ≠ [])
    (b : scalar_t) (self : SwitchedModelLogicRulesBase F)
    (hlast : self.eventTimes_.getLast? = some b) :
    ∃ self1, tileForLoop tmpl tmpl.templateSubsystemsSequence_.length 0 self = .returned self1 ∧
      self1 = pushed self tmpl.templateSubsystemsSequence_
        ((List.range tmpl.templateSubsystemsSequence_.length).map fun i =>
          b + (switchingTime tmpl (i + 1) - switchingTime tmpl 0)) ∧
      self1.eventTimes_.getLast? = some (b + templatePeriod tmpl) := by
  have h := tileForLoop_closed tmpl hwf b tmpl.templateSubsystemsSequence_.length 0 self
    (by omega) (by rw [hlast]; simp)
  simp only [Nat.zero_add, List.drop_zero] at h
  refine ⟨_, h, rfl, ?_⟩
  obtain ⟨m, hm⟩ := Nat.exists_eq_succ_of_ne_zero
    (fun hc => hne (List.length_eq_zero.mp hc))
  simp only [pushed, templatePeriod]
  rw [hm, List.range_succ, List.map_append, List.map_singleton, ← List.append_assoc,
    List.getLast?_concat]

theorem tileWhileLoop_closed {F : Type} (tmpl : logic_template_type)
    (hwf : WellFormedTemplate tmpl) (hne : tmpl.templateSubsystemsSequence_ ≠ [])
    (startTime finalTime : scalar_t) (k : Nat)
    (hmin : ∀ j, j < k → startTime + j * templatePeriod tmpl < finalTime)
    (hk : finalTime ≤ startTime + k * templatePeriod tmpl) :
    ∀ (d j : Nat) (self : SwitchedModelLogicRulesBase F) (fuel : Nat), j + d = k →
      self.eventTimes_.getLast? = some (startTime + j * templatePeriod tmpl) → d + 1 ≤ fuel →
      tileWhileLoop tmpl finalTime fuel self =
        some (.returned (pushed self
          (List.replicate d tmpl.templateSubsystemsSequence_).flatten
          ((List.range d).flatMap fun l =>
            (List.range tmpl.templateSubsystemsSequence_.length).map fun i =>
              startTime + ((j + l : Nat) : scalar_t) * templatePeriod tmpl +
                (switchingTime tmpl (i + 1) - switchingTime tmpl 0)))) := by
  intro d
  induction d with
  | zero =>
    intro j self fuel hjk hlast hfuel
    obtain ⟨f, rfl⟩ : ∃ f, fuel = f + 1 := ⟨fuel - 1, by omega⟩
    have hj : j = k := by omega
    subst hj
    unfold tileWhileLoop
    simp [hlast, not_lt.mpr hk, pushed]
  | succ d ih =>
    intro j self fuel hjk hlast hfuel
    obtain ⟨f, rfl⟩ : ∃ f, fuel = f + 1 := ⟨fuel - 1, by omega⟩
    have hlt := hmin j (by omega)
    obtain ⟨self1, hfor, hshape, hlast1⟩ := tileForLoop_period tmpl hwf hne _ self hlast
    unfold tileWhileLoop
    simp only [hlast, hlt, ↓reduceIte, hfor]
    rw [ih (j + 1) self1 f (by omega) (by rw [hlast1]; push_cast; ring_nf) (by omega), hshape,
      pushed_pushed]
    congr 3
    rw [List.range_succ_eq_map, List.flatMap_cons, List.flatMap_map]
    congr 1
    apply List.flatMap_congr
    intro l _
    apply List.map_congr_left
    intro i _
    simp only [Function.comp_apply, Nat.succ_eq_add_one]
    push_cast
    ring

/-- With exact sums: for every non-empty well-formed template with period `T = s_n - s_0 > 0`,
applied to a timeline whose last event time is below `startTime` (so that the call passes the check of line
284): there is a smallest natural number `k` with `startTime + k * T >= finalTime`, and with any
fuel above `k` `tileModeSequenceTemplate` returns the object with `startTime` followed by
`startTime + j * T + (s_(i+1) - s_0)` for `j = 0..k-1`, `i = 0..n-1` pushed to the event times,
and with `k` repetitions of the template modes followed by `STANCE` pushed to the modes. -/
theorem tile_closed_form_exact {F : Type} (E : Collaborators F)
    (self : SwitchedModelLogicRulesBase F) (tmpl : logic_template_type)
    (startTime finalTime last : scalar_t)
    (hne : tmpl.templateSubsystemsSequence_ ≠ []) (hwf : WellFormedTemplate tmpl)
    (hT : 0 < templatePeriod tmpl) (hlast : self.eventTimes_.getLast? = some last)
    (hlt : last < startTime) :
    ∃ k : Nat, finalTime ≤ startTime + k * templatePeriod tmpl ∧
      (∀ j : Nat, j < k → startTime + j * templatePeriod tmpl < finalTime) ∧
      (finalTime ≤ startTime → k = 0) ∧
      ∀ fuel, k + 1 ≤ fuel →
        tileModeSequenceTemplate E fuel self tmpl startTime finalTime =
          some (.returned (pushed self (tiledModes tmpl k ++ [E.STANCE])
            (startTime :: tiledEventTimes tmpl startTime k))) := by
  have hex : ∃ n : Nat, finalTime ≤ startTime + n * templatePeriod tmpl := by
    obtain ⟨n, hn⟩ := exists_nat_ge ((finalTime - startTime) / templatePeriod tmpl)
    refine ⟨n, ?_⟩
    have := (div_le_iff₀ hT).mp hn
    linarith
  have hk := Nat.find_spec hex
  have hmin : ∀ j : Nat, j < Nat.find hex → startTime + j * templatePeriod tmpl < finalTime :=
    fun j hj => not_le.mp (Nat.find_min hex hj)
  refine ⟨Nat.find hex, hk, hmin, ?_, ?_⟩
  · intro hfs
    by_contra hc
    have := hmin 0 (Nat.pos_of_ne_zero hc)
    simp only [Nat.cast_zero, zero_mul, add_zero] at this
    exact absurd hfs (not_le.mpr this)
  · intro fuel hfuel
    have h0 : tmpl.templateSubsystemsSequence_.length ≠ 0 :=
      fun hc => hne (List.length_eq_zero.mp hc)
    have hwf1 := hwf
    unfold WellFormedTemplate at hwf1
    have hloop := tileWhileLoop_closed tmpl hwf hne startTime finalTime (Nat.find hex) hmin hk
      (Nat.find hex) 0 { self with eventTimes_ := self.eventTimes_ ++ [startTime] } fuel
      (by omega) (by simp) hfuel
    unfold tileModeSequenceTemplate
    simp only [h0, ↓reduceIte, hwf1, ne_eq, not_true_eq_false, hlast, not_le.mpr hlt, hloop]
    simp [pushed, tiledModes, tiledEventTimes]

theorem tile_closed_form_exact_example :
    ∃ k : Nat, (1 : scalar_t) ≤ 0 + k * templatePeriod exampleTemplate ∧
      (∀ j : Nat, j < k → 0 + j * templatePeriod exampleTemplate < (1 : scalar_t)) ∧
      ((1 : scalar_t) ≤ 0 → k = 0) ∧
      ∀ fuel, k + 1 ≤ fuel →
        tileModeSequenceTemplate exampleCollaborators fuel exampleRules exampleTemplate 0 1 =
          some (.returned (pushed exampleRules
            (tiledModes exampleTemplate k ++ [exampleCollaborators.STANCE])
            (0 :: tiledEventTimes exampleTemplate 0 k))) :=
  tile_closed_form_exact exampleCollaborators exampleRules exampleTemplate 0 1 (-1)
    (by decide) (by decide)
    (by norm_num [templatePeriod, switchingTime, exampleTemplate])
    (by simp [exampleRules, mkRules]) (by norm_num)

/-! ### The foot normal constraint -/

/-- C17. For every foot position `p`, foot velocity `v` and normal-constraint matrices
`(A_p, A_v, b)` supplied by the precomputation for the leg, `FootNormalConstraint::getValue`
returns the one-element vector `[A_p * p + A_v * v + b]`; it is the zero vector exactly when
`A_p * p + A_v * v + b = 0`. -/
theorem C17_getValue {nx nu : Nat} (legNumber_ : Nat) (time : scalar_t)
    (state : Fin nx → scalar_t) (input : Fin nu → scalar_t)
    (preComp : SwitchedModelPreComputation nx nu) :
    FootNormalConstraint.getValue legNumber_ time state input preComp =
        (fun _ => normalConstraintValue
          (preComp.getFootNormalConstraintInWorldFrame legNumber_).positionMatrix
          (preComp.getFootNormalConstraintInWorldFrame legNumber_).velocityMatrix
          (preComp.getFootNormalConstraintInWorldFrame legNumber_).constant
          (preComp.footPositionInOriginFrame legNumber_)
          (preComp.footVelocityInOriginFrame legNumber_)) ∧
      (FootNormalConstraint.getValue legNumber_ time state input preComp = 0 ↔
        normalConstraintValue
          (preComp.getFootNormalConstraintInWorldFrame legNumber_).positionMatrix
          (preComp.getFootNormalConstraintInWorldFrame legNumber_).velocityMatrix
          (preComp.getFootNormalConstraintInWorldFrame legNumber_).constant
          (preComp.footPositionInOriginFrame legNumber_)
          (preComp.footVelocityInOriginFrame legNumber_) = 0) := by
  have hval : FootNormalConstraint.getValue legNumber_ time state input preComp =
      (fun _ => normalConstraintValue
        (preComp.getFootNormalConstraintInWorldFrame legNumber_).positionMatrix
        (preComp.getFootNormalConstraintInWorldFrame legNumber_).velocityMatrix
        (preComp.getFootNormalConstraintInWorldFrame legNumber_).constant
        (preComp.footPositionInOriginFrame legNumber_)
        (preComp.footVelocityInOriginFrame legNumber_)) := by
    funext i
    simp only [FootNormalConstraint.getValue, normalConstraintValue, Matrix.dotProduct,
      Fin.sum_univ_three]
  refine ⟨hval, ?_⟩
  rw [hval]
  constructor
  · intro h
    exact congrFun h 0
  · intro h
    funext i
    exact h

/-! ### The Riccati flow map -/

theorem convert2Matrix_convert2Vector {K : Type} {n : Nat}
    (Sm : Matrix (Fin n) (Fin n) K) (Sv : Matrix (Fin n) (Fin 1) K)
    (s : Matrix (Fin 1) (Fin 1) K) :
    PartialRiccatiEquations.convert2Matrix (PartialRiccatiEquations.convert2Vector Sm Sv s) =
      (Sm, Sv, s) := by
  unfold PartialRiccatiEquations.convert2Matrix PartialRiccatiEquations.convert2Vector
  refine Prod.ext ?_ (Prod.ext ?_ ?_)
  · funext i j
    have hi := i.isLt
    have hj : j.val + 1 ≤ n := j.isLt
    have h1 : (j.val + 1) * n ≤ n * n := Nat.mul_le_mul_right n hj
    rw [Nat.add_mul, Nat.one_mul] at h1
    have hlt : j.val * n + i.val < n * n := by omega
    simp only [hlt, ↓reduceDIte]
    congr 1
    · apply Fin.ext
      simp only
      rw [Nat.add_comm, Nat.add_mul_mod_self_right, Nat.mod_eq_of_lt hi]
    · apply Fin.ext
      simp only
      rw [Nat.add_comm, Nat.add_mul_div_right _ _ (by omega), Nat.div_eq_of_lt hi, Nat.zero_add]
  · funext i j
    have hi := i.isLt
    have h1 : ¬ (n * n + i.val < n * n) := by omega
    have h2 : n * n + i.val < n * n + n := by omega
    simp only [h1, h2, ↓reduceDIte]
    congr 1
    · apply Fin.ext
      simp
    · exact (Subsingleton.elim _ _)
  · funext i j
    have h1 : ¬ (n * n + n < n * n) := by omega
    have h2 : ¬ (n * n + n < n * n + n) := by omega
    simp only [h1, h2, ↓reduceDIte]
    congr 1 <;> exact (Subsingleton.elim _ _)

theorem eigenInverse_eq_of_mul_eq_one {K : Type} [Field K] {n : Nat}
    {A B : Matrix (Fin n) (Fin n) K} (h : A * B = 1) : eigenInverse A = B := by
  have h1 : eigenInverse A = A⁻¹ := by
    rw [eigenInverse, Matrix.inv_def, Ring.inverse_eq_inv']
  rw [h1]
  exact Matrix.inv_eq_right_inv h

theorem convert2Vector_zero {K : Type} [Field K] {n : Nat} :
    PartialRiccatiEquations.convert2Vector (0 : Matrix (Fin n) (Fin n) K) 0 0 = 0 := by
  funext k
  unfold PartialRiccatiEquations.convert2Vector
  split_ifs <;> rfl

theorem computeFlowMap_eq {K : Type} [Field K] {n m : Nat}
    (self : PartialRiccatiEquations K n m) (RmInv : Matrix (Fin m) (Fin m) K)
    (hRm : self.Rm_ * RmInv = 1) (t : K) (state : Fin (n * n + n + 1) → K) :
    PartialRiccatiEquations.computeFlowMap self t state =
      PartialRiccatiEquations.convert2Vector
        ((self.timeFinal_ - self.timeStart_) •
          riccati_dSmdt self RmInv (PartialRiccatiEquations.convert2Matrix state).1)
        ((self.timeFinal_ - self.timeStart_) •
          riccati_dSvdt self RmInv (PartialRiccatiEquations.convert2Matrix state).1
            (PartialRiccatiEquations.convert2Matrix state).2.1)
        ((self.timeFinal_ - self.timeStart_) •
          riccati_dsdt self RmInv (PartialRiccatiEquations.convert2Matrix state).2.1) := by
  have e1 : ∀ X : Matrix (Fin n) (Fin n) K,
      (X + X.transpose).map (fun a => a * (1 / 2)) = (1 / 2 : K) • (X + X.transpose) := by
    intro X
    ext i j
    simp only [Matrix.map_apply, Matrix.smul_apply, smul_eq_mul]
    ring
  unfold PartialRiccatiEquations.computeFlowMap riccati_dSmdt riccati_dSvdt riccati_dsdt
  simp only [eigenInverse_eq_of_mul_eq_one hRm, e1, Matrix.mul_assoc, Matrix.smul_mul]

/-- C16. For every coefficient set with `Rm` invertible (`RmInv` its inverse) and every stacked
state, `computeFlowMap` returns the stacked vector of `(timeFinal - timeStart)` times the
Riccati derivatives `dSm/dt`, `dSv/dt`, `ds/dt` of the specification, taken at the `(Sm, Sv, s)`
the state unstacks to; unstacking the result gives these three back; the result does not depend
on the time argument; and it is zero when `timeFinal = timeStart`. -/
theorem C16_computeFlowMap {K : Type} [Field K] {n m : Nat}
    (self : PartialRiccatiEquations K n m) (RmInv : Matrix (Fin m) (Fin m) K)
    (hRm : self.Rm_ * RmInv = 1) (t : K) (state : Fin (n * n + n + 1) → K) :
    PartialRiccatiEquations.computeFlowMap self t state =
      PartialRiccatiEquations.convert2Vector
        ((self.timeFinal_ - self.timeStart_) •
          riccati_dSmdt self RmInv (PartialRiccatiEquations.convert2Matrix state).1)
        ((self.timeFinal_ - self.timeStart_) •
          riccati_dSvdt self RmInv (PartialRiccatiEquations.convert2Matrix state).1
            (PartialRiccatiEquations.convert2Matrix state).2.1)
        ((self.timeFinal_ - self.timeStart_) •
          riccati_dsdt self RmInv (PartialRiccatiEquations.convert2Matrix state).2.1) ∧
    PartialRiccatiEquations.convert2Matrix (PartialRiccatiEquations.computeFlowMap self t state) =
      ((self.timeFinal_ - self.timeStart_) •
          riccati_dSmdt self RmInv (PartialRiccatiEquations.convert2Matrix state).1,
        (self.timeFinal_ - self.timeStart_) •
          riccati_dSvdt self RmInv (PartialRiccatiEquations.convert2Matrix state).1
            (PartialRiccatiEquations.convert2Matrix state).2.1,
        (self.timeFinal_ - self.timeStart_) •
          riccati_dsdt self RmInv (PartialRiccatiEquations.convert2Matrix state).2.1) ∧
    (∀ t1, PartialRiccatiEquations.computeFlowMap self t1 state =
      PartialRiccatiEquations.computeFlowMap self t state) ∧
    (self.timeFinal_ = self.timeStart_ →
      PartialRiccatiEquations.computeFlowMap self t state = 0) := by
  have h := computeFlowMap_eq self RmInv hRm t state
  refine ⟨h, ?_, fun t1 => rfl, fun heq => ?_⟩
  · rw [h, convert2Matrix_convert2Vector]
  · rw [h, heq, sub_self, zero_smul, zero_smul, zero_smul, convert2Vector_zero]

theorem mul_exampleRiccati : exampleRiccati.Rm_ * !![1 / 2] = 1 := by
  ext i j
  fin_cases i
  fin_cases j
  simp [exampleRiccati]

theorem C16_computeFlowMap_witness :
    PartialRiccatiEquations.computeFlowMap exampleRiccati 0 (fun _ => 1) =
      PartialRiccatiEquations.convert2Vector
        ((exampleRiccati.timeFinal_ - exampleRiccati.timeStart_) •
          riccati_dSmdt exampleRiccati !![1 / 2]
            (PartialRiccatiEquations.convert2Matrix (fun _ => 1)).1)
        ((exampleRiccati.timeFinal_ - exampleRiccati.timeStart_) •
          riccati_dSvdt exampleRiccati !![1 / 2]
            (PartialRiccatiEquations.convert2Matrix (fun _ => 1)).1
            (PartialRiccatiEquations.convert2Matrix (fun _ => 1)).2.1)
        ((exampleRiccati.timeFinal_ - exampleRiccati.timeStart_) •
          riccati_dsdt exampleRiccati !![1 / 2]
            (PartialRiccatiEquations.convert2Matrix (fun _ => 1)).2.1) :=
  (C16_computeFlowMap exampleRiccati !![1 / 2] mul_exampleRiccati 0 (fun _ => 1)).1

/-! ### The PSD correction -/

theorem clip_foldl {K : Type} [LinearOrderedField K] {n : Nat} :
    ∀ (l : List (Fin n)) (b : Bool) (lam : Fin n → K),
      l.foldl
          (fun (acc : Bool × (Fin n → K)) j =>
            if acc.2 j < 0 then (true, Function.update acc.2 j 0) else acc)
          (b, lam) =
        (b || l.any (fun j => decide (lam j < 0)),
          fun i => if i ∈ l ∧ lam i < 0 then 0 else lam i) := by
  intro l
  induction l with
  | nil => intro b lam; simp
  | cons j l ih =>
    intro b lam
    rw [List.foldl_cons]
    by_cases hj : lam j < 0
    · simp only [hj, ↓reduceIte]
      rw [ih]
      refine Prod.ext ?_ ?_
      · simp [hj]
      · funext i
        simp only [List.mem_cons]
        by_cases hij : i = j
        · subst hij
          simp [hj]
        · simp only [Function.update_noteq hij, hij, false_or]
    · simp only [hj, ↓reduceIte]
      rw [ih]
      refine Prod.ext ?_ ?_
      · simp [hj]
      · funext i
        simp only [List.mem_cons]
        by_cases hij : i = j
        · subst hij
          simp [hj]
        · simp only [hij, false_or]

theorem clipNegativeEigenvalues_eq {K : Type} [LinearOrderedField K] {n : Nat}
    (lambda : Fin n → K) :
    clipNegativeEigenvalues lambda =
      (decide (∃ j, lambda j < 0), fun i => max 0 (lambda i)) := by
  unfold clipNegativeEigenvalues
  rw [clip_foldl]
  refine Prod.ext ?_ ?_
  · rw [Bool.false_or, Bool.eq_iff_iff]
    simp only [List.any_eq_true, decide_eq_true_eq, List.mem_finRange, true_and]
  · funext i
    simp only [List.mem_finRange, true_and]
    split_ifs with h
    · exact (max_eq_left (le_of_lt h)).symm
    · exact (max_eq_right (not_lt.mp h)).symm

theorem makePSD_square {K : Type} [LinearOrderedField K]
    (solver : (n : Nat) → Matrix (Fin n) (Fin n) K → SelfAdjointEigenSolver K n) {n : Nat}
    (A : Matrix (Fin n) (Fin n) K) :
    makePSD solver A = .returned (makePSDSquare solver A) := by
  unfold makePSD
  rw [dif_pos rfl]
  simp only [Fin.cast_refl]
  rfl

theorem decomposition_of_eigen {K : Type} [Field K] {n : Nat}
    {M V : Matrix (Fin n) (Fin n) K} {d : Fin n → K}
    (hV : V.transpose * V = 1) (hM : M * V = V * Matrix.diagonal d) :
    M = V * Matrix.diagonal d * V.transpose := by
  have hV1 : V * V.transpose = 1 := Matrix.mul_eq_one_comm.mp hV
  calc M = M * (V * V.transpose) := by rw [hV1, Matrix.mul_one]
    _ = V * Matrix.diagonal d * V.transpose := by rw [← Matrix.mul_assoc, hM]

theorem symmetric_of_eigen {K : Type} [Field K] {n : Nat}
    {M V : Matrix (Fin n) (Fin n) K} {d : Fin n → K}
    (hV : V.transpose * V = 1) (hM : M * V = V * Matrix.diagonal d) : M.transpose = M := by
  have h := decomposition_of_eigen hV hM
  rw [h, Matrix.transpose_mul, Matrix.transpose_mul, Matrix.transpose_transpose,
    Matrix.diagonal_transpose, Matrix.mul_assoc]

theorem quadratic_form_of_eigen {K : Type} [Field K] {n : Nat}
    {M V : Matrix (Fin n) (Fin n) K} {d : Fin n → K}
    (hV : V.transpose * V = 1) (hM : M * V = V * Matrix.diagonal d) (x : Fin n → K) :
    Matrix.dotProduct x (M.mulVec x) =
      ∑ i, d i * (V.transpose.mulVec x i * V.transpose.mulVec x i) := by
  have h := decomposition_of_eigen hV hM
  rw [h, ← Matrix.mulVec_mulVec, ← Matrix.mulVec_mulVec, Matrix.dotProduct_mulVec,
    ← Matrix.mulVec_transpose]
  simp only [Matrix.dotProduct, Matrix.mulVec_diagonal]
  apply Finset.sum_congr rfl
  intro i _
  ring

theorem posSemidef_of_eigen {K : Type} [LinearOrderedField K] {n : Nat}
    {M V : Matrix (Fin n) (Fin n) K} {d : Fin n → K}
    (hV : V.transpose * V = 1) (hM : M * V = V * Matrix.diagonal d) (hd : ∀ i, 0 ≤ d i)
    (x : Fin n → K) : 0 ≤ Matrix.dotProduct x (M.mulVec x) := by
  rw [quadratic_form_of_eigen hV hM x]
  exact Finset.sum_nonneg (fun i _ => mul_nonneg (hd i) (mul_self_nonneg _))

theorem eigenvector_of_eigen {K : Type} [Field K] {n : Nat}
    {M V : Matrix (Fin n) (Fin n) K} {d : Fin n → K}
    (hV : V.transpose * V = 1) (hM : M * V = V * Matrix.diagonal d) (i : Fin n) :
    M.mulVec (fun r => V r i) = d i • (fun r => V r i) ∧ (fun r => V r i) ≠ 0 := by
  constructor
  · funext r
    have h := congrFun (congrFun hM r) i
    rw [Matrix.mul_diagonal] at h
    simp only [Matrix.mulVec, Matrix.dotProduct, Pi.smul_apply, smul_eq_mul]
    rw [mul_comm (d i)]
    exact h
  · intro hc
    have h := congrFun (congrFun hV i) i
    simp only [Matrix.mul_apply, Matrix.transpose_apply, Matrix.one_apply_eq] at h
    have h0 : ∀ r, V r i = 0 := fun r => congrFun hc r
    simp [h0] at h

theorem eigenvalue_of_eigen {K : Type} [Field K] {n : Nat}
    {M V : Matrix (Fin n) (Fin n) K} {d : Fin n → K}
    (hV : V.transpose * V = 1) (hM : M * V = V * Matrix.diagonal d)
    {mu : K} {w : Fin n → K} (hw : w ≠ 0) (hMw : M.mulVec w = mu • w) : ∃ i, mu = d i := by
  have hV1 : V * V.transpose = 1 := Matrix.mul_eq_one_comm.mp hV
  have hdec := decomposition_of_eigen hV hM
  have hu : V.transpose.mulVec w ≠ 0 := by
    intro hc
    apply hw
    have : V.mulVec (V.transpose.mulVec w) = w := by
      rw [Matrix.mulVec_mulVec, hV1, Matrix.one_mulVec]
    rw [← this, hc, Matrix.mulVec_zero]
  have hD : (Matrix.diagonal d).mulVec (V.transpose.mulVec w) = mu • V.transpose.mulVec w := by
    have h1 : V.transpose.mulVec (M.mulVec w) = mu • V.transpose.mulVec w := by
      rw [hMw, Matrix.mulVec_smul]
    rw [← h1, hdec, Matrix.mulVec_mulVec, Matrix.mulVec_mulVec]
    rw [← Matrix.mul_assoc, ← Matrix.mul_assoc, hV, Matrix.one_mul]
  obtain ⟨i, hi⟩ : ∃ i, V.transpose.mulVec w i ≠ 0 := by
    by_contra hc
    push_neg at hc
    exact hu (funext hc)
  refine ⟨i, ?_⟩
  have h2 := congrFun hD i
  simp only [Matrix.mulVec_diagonal, Pi.smul_apply, smul_eq_mul] at h2
  exact (mul_right_cancel₀ hi h2).symm

theorem makePSDSquare_eigen {K : Type} [LinearOrderedField K]
    (solver : (n : Nat) → Matrix (Fin n) (Fin n) K → SelfAdjointEigenSolver K n) {n : Nat}
    (A : Matrix (Fin n) (Fin n) K)
    (hV : (solver n A).eigenvectors.transpose * (solver n A).eigenvectors = 1)
    (hA : A * (solver n A).eigenvectors =
      (solver n A).eigenvectors * Matrix.diagonal (solver n A).eigenvalues) :
    (makePSDSquare solver A).1 = decide (∃ j, (solver n A).eigenvalues j < 0) ∧
    ((makePSDSquare solver A).1 = false → (makePSDSquare solver A).2 = A) ∧
    (makePSDSquare solver A).2 * (solver n A).eigenvectors =
      (solver n A).eigenvectors *
        Matrix.diagonal (fun i => max 0 ((solver n A).eigenvalues i)) := by
  have hV1 : (solver n A).eigenvectors * (solver n A).eigenvectors.transpose = 1 :=
    Matrix.mul_eq_one_comm.mp hV
  unfold makePSDSquare
  simp only [clipNegativeEigenvalues_eq]
  by_cases hneg : ∃ j, (solver n A).eigenvalues j < 0
  · have hd : decide (∃ j, (solver n A).eigenvalues j < 0) = true := decide_eq_true hneg
    rw [hd]
    refine ⟨rfl, fun hc => ?_, ?_⟩
    · have hc1 : true = false := hc
      cases hc1
    · show (solver n A).eigenvectors *
          Matrix.diagonal (fun i => max 0 ((solver n A).eigenvalues i)) *
          eigenInverse (solver n A).eigenvectors * (solver n A).eigenvectors = _
      rw [eigenInverse_eq_of_mul_eq_one hV1, Matrix.mul_assoc, hV, Matrix.mul_one]
  · have hd : decide (∃ j, (solver n A).eigenvalues j < 0) = false := decide_eq_false hneg
    rw [hd]
    refine ⟨rfl, fun _ => rfl, ?_⟩
    show A * (solver n A).eigenvectors = _
    have hmax : (fun i => max 0 ((solver n A).eigenvalues i)) = (solver n A).eigenvalues := by
      funext i
      exact max_eq_right (not_lt.mp (fun hc => hneg ⟨i, hc⟩))
    rw [hmax, hA]

/-- C14. Let the eigen solver return, for the square matrix `A`, orthonormal eigenvectors (the
columns of `V`, `V^T V = 1`) with eigenvalues `lambda_i` (`A V = V diag(lambda)`), as it does
for a symmetric matrix. Then `makePSD` returns, and the matrix it leaves is symmetric and
positive semi-definite; the columns of `V`, eigenvectors of `A` for the `lambda_i`, are
eigenvectors of it for the eigenvalues `max(0, lambda_i)`; and it has no other eigenvalues. -/
theorem C14_makePSD_eigenvalues {K : Type} [LinearOrderedField K]
    (solver : (n : Nat) → Matrix (Fin n) (Fin n) K → SelfAdjointEigenSolver K n) {n : Nat}
    (A : Matrix (Fin n) (Fin n) K)
    (hV : (solver n A).eigenvectors.transpose * (solver n A).eigenvectors = 1)
    (hA : A * (solver n A).eigenvectors =
      (solver n A).eigenvectors * Matrix.diagonal (solver n A).eigenvalues) :
    ∃ flag corrected, makePSD solver A = .returned (flag, corrected) ∧
      corrected.transpose = corrected ∧
      (∀ x : Fin n → K, 0 ≤ Matrix.dotProduct x (corrected.mulVec x)) ∧
      (∀ i, (fun r => (solver n A).eigenvectors r i) ≠ 0 ∧
        A.mulVec (fun r => (solver n A).eigenvectors r i) =
          (solver n A).eigenvalues i • (fun r => (solver n A).eigenvectors r i) ∧
        corrected.mulVec (fun r => (solver n A).eigenvectors r i) =
          max 0 ((solver n A).eigenvalues i) • (fun r => (solver n A).eigenvectors r i)) ∧
      (∀ (mu : K) (w : Fin n → K), w ≠ 0 → corrected.mulVec w = mu • w →
        ∃ i, mu = max 0 ((solver n A).eigenvalues i)) := by
  obtain ⟨_, _, hM⟩ := makePSDSquare_eigen solver A hV hA
  refine ⟨(makePSDSquare solver A).1, (makePSDSquare solver A).2, makePSD_square solver A,
    symmetric_of_eigen hV hM, posSemidef_of_eigen hV hM (fun i => le_max_left _ _),
    fun i => ⟨(eigenvector_of_eigen hV hA i).2, (eigenvector_of_eigen hV hA i).1,
      (eigenvector_of_eigen hV hM i).1⟩,
    fun mu w hw hmu => eigenvalue_of_eigen hV hM hw hmu⟩

/-- C15. Under the same contract of the eigen solver for the square matrix `A`, `makePSD`
raises no error; it returns `true` exactly when `A` has a strictly negative eigenvalue (which
is the case exactly when one of the computed `lambda_j` is negative); and when all eigenvalues
of `A` are `>= 0` it returns `false` and leaves the matrix unchanged. -/
theorem C15_makePSD_flag {K : Type} [LinearOrderedField K]
    (solver : (n : Nat) → Matrix (Fin n) (Fin n) K → SelfAdjointEigenSolver K n) {n : Nat}
    (A : Matrix (Fin n) (Fin n) K)
    (hV : (solver n A).eigenvectors.transpose * (solver n A).eigenvectors = 1)
    (hA : A * (solver n A).eigenvectors =
      (solver n A).eigenvectors * Matrix.diagonal (solver n A).eigenvalues) :
    ∃ flag corrected, makePSD solver A = .returned (flag, corrected) ∧
      (flag = true ↔ ∃ (mu : K) (w : Fin n → K), mu < 0 ∧ w ≠ 0 ∧ A.mulVec w = mu • w) ∧
      (flag = true ↔ ∃ j, (solver n A).eigenvalues j < 0) ∧
      ((∀ (mu : K) (w : Fin n → K), w ≠ 0 → A.mulVec w = mu • w → 0 ≤ mu) →
        flag = false ∧ corrected = A) := by
  obtain ⟨hflag, hsame, _⟩ := makePSDSquare_eigen solver A hV hA
  have hiff : (makePSDSquare solver A).1 = true ↔ ∃ j, (solver n A).eigenvalues j < 0 := by
    rw [hflag, decide_eq_true_eq]
  refine ⟨(makePSDSquare solver A).1, (makePSDSquare solver A).2, makePSD_square solver A,
    ?_, hiff, ?_⟩
  · rw [hiff]
    constructor
    · rintro ⟨j, hj⟩
      exact ⟨_, _, hj, (eigenvector_of_eigen hV hA j).2, (eigenvector_of_eigen hV hA j).1⟩
    · rintro ⟨mu, w, hmu, hw, hAw⟩
      obtain ⟨i, hi⟩ := eigenvalue_of_eigen hV hA hw hAw
      exact ⟨i, hi ▸ hmu⟩
  · intro hall
    have hf : (makePSDSquare solver A).1 = false := by
      rw [Bool.eq_false_iff]
      intro hc
      obtain ⟨j, hj⟩ := hiff.mp hc
      exact absurd (hall _ _ (eigenvector_of_eigen hV hA j).2 (eigenvector_of_eigen hV hA j).1)
        (not_le.mpr hj)
    exact ⟨hf, hsame hf⟩

theorem diagonalSolver_orthonormal (n : Nat) (A : Matrix (Fin n) (Fin n) ℚ) :
    (diagonalSolver n A).eigenvectors.transpose * (diagonalSolver n A).eigenvectors = 1 := by
  simp [diagonalSolver]

theorem diagonalSolver_diagonal {n : Nat} (d : Fin n → ℚ) :
    Matrix.diagonal d * (diagonalSolver n (Matrix.diagonal d)).eigenvectors =
      (diagonalSolver n (Matrix.diagonal d)).eigenvectors *
        Matrix.diagonal (diagonalSolver n (Matrix.diagonal d)).eigenvalues := by
  simp [diagonalSolver]

/-- Witness for C14 at the indefinite matrix `diag(-1, 2)` with its exact eigen decomposition. -/
theorem C14_makePSD_eigenvalues_witness :
    ((diagonalSolver 2 exampleIndefinite).eigenvectors.transpose *
        (diagonalSolver 2 exampleIndefinite).eigenvectors = 1 ∧
      exampleIndefinite * (diagonalSolver 2 exampleIndefinite).eigenvectors =
        (diagonalSolver 2 exampleIndefinite).eigenvectors *
          Matrix.diagonal (diagonalSolver 2 exampleIndefinite).eigenvalues) ∧
    ∃ flag corrected, makePSD diagonalSolver exampleIndefinite = .returned (flag, corrected) ∧
      corrected.transpose = corrected ∧
      (∀ x : Fin 2 → ℚ, 0 ≤ Matrix.dotProduct x (corrected.mulVec x)) ∧
      (∀ i, (fun r => (diagonalSolver 2 exampleIndefinite).eigenvectors r i) ≠ 0 ∧
        exampleIndefinite.mulVec (fun r => (diagonalSolver 2 exampleIndefinite).eigenvectors r i) =
          (diagonalSolver 2 exampleIndefinite).eigenvalues i •
            (fun r => (diagonalSolver 2 exampleIndefinite).eigenvectors r i) ∧
        corrected.mulVec (fun r => (diagonalSolver 2 exampleIndefinite).eigenvectors r i) =
          max 0 ((diagonalSolver 2 exampleIndefinite).eigenvalues i) •
            (fun r => (diagonalSolver 2 exampleIndefinite).eigenvectors r i)) ∧
      (∀ (mu : ℚ) (w : Fin 2 → ℚ), w ≠ 0 → corrected.mulVec w = mu • w →
        ∃ i, mu = max 0 ((diagonalSolver 2 exampleIndefinite).eigenvalues i)) :=
  ⟨⟨diagonalSolver_orthonormal 2 exampleIndefinite, diagonalSolver_diagonal ![-1, 2]⟩,
    C14_makePSD_eigenvalues diagonalSolver exampleIndefinite
      (diagonalSolver_orthonormal 2 exampleIndefinite) (diagonalSolver_diagonal ![-1, 2])⟩

/-- Witness for C15 at the indefinite matrix `diag(-1, 2)` with its exact eigen decomposition. -/
theorem C15_makePSD_flag_witness :
    ((diagonalSolver 2 exampleIndefinite).eigenvectors.transpose *
        (diagonalSolver 2 exampleIndefinite).eigenvectors = 1 ∧
      exampleIndefinite * (diagonalSolver 2 exampleIndefinite).eigenvectors =
        (diagonalSolver 2 exampleIndefinite).eigenvectors *
          Matrix.diagonal (diagonalSolver 2 exampleIndefinite).eigenvalues) ∧
    ∃ flag corrected, makePSD diagonalSolver exampleIndefinite = .returned (flag, corrected) ∧
      (flag = true ↔
        ∃ (mu : ℚ) (w : Fin 2 → ℚ), mu < 0 ∧ w ≠ 0 ∧ exampleIndefinite.mulVec w = mu • w) ∧
      (flag = true ↔ ∃ j, (diagonalSolver 2 exampleIndefinite).eigenvalues j < 0) ∧
      ((∀ (mu : ℚ) (w : Fin 2 → ℚ), w ≠ 0 → exampleIndefinite.mulVec w = mu • w → 0 ≤ mu) →
        flag = false ∧ corrected = exampleIndefinite) :=
  ⟨⟨diagonalSolver_orthonormal 2 exampleIndefinite, diagonalSolver_diagonal ![-1, 2]⟩,
    C15_makePSD_flag diagonalSolver exampleIndefinite
      (diagonalSolver_orthonormal 2 exampleIndefinite) (diagonalSolver_diagonal ![-1, 2])⟩

/-- The worked example evaluated: `diag(-1, 2)` is corrected to `diag(0, 2)` and the flag is set. -/
theorem makePSD_exampleIndefinite :
    makePSD diagonalSolver exampleIndefinite = .returned (true, Matrix.diagonal ![0, 2]) := by
  rw [makePSD_square]
  have h := clipNegativeEigenvalues_eq (diagonalSolver 2 exampleIndefinite).eigenvalues
  have hd : decide (∃ j, (diagonalSolver 2 exampleIndefinite).eigenvalues j < 0) = true :=
    decide_eq_true ⟨0, by simp [diagonalSolver, exampleIndefinite]⟩
  rw [hd] at h
  simp only [makePSDSquare, h, if_true]
  congr 2
  have hinv : eigenInverse (diagonalSolver 2 exampleIndefinite).eigenvectors = 1 :=
    eigenInverse_eq_of_mul_eq_one (by simp [diagonalSolver])
  rw [hinv]
  ext i j
  fin_cases i <;> fin_cases j <;>
    simp [diagonalSolver, exampleIndefinite, Matrix.diagonal_apply]

/-- Over the reals every symmetric matrix has an eigen decomposition meeting the contract of
the eigen solver: orthonormal eigenvectors `V` and eigenvalues `lambda` with
`A V = V diag(lambda)` (the spectral theorem). -/
theorem exists_eigen_of_symmetric {n : Nat} (A : Matrix (Fin n) (Fin n) ℝ)
    (hA : A.transpose = A) :
    ∃ sol : SelfAdjointEigenSolver ℝ n,
      sol.eigenvectors.transpose * sol.eigenvectors = 1 ∧
      A * sol.eigenvectors = sol.eigenvectors * Matrix.diagonal sol.eigenvalues := by
  have hH : A.IsHermitian := by
    rw [Matrix.IsHermitian, Matrix.conjTranspose_eq_transpose_of_trivial]; exact hA
  have h1 : star (hH.eigenvectorUnitary : Matrix (Fin n) (Fin n) ℝ) *
      (hH.eigenvectorUnitary : Matrix (Fin n) (Fin n) ℝ) = 1 :=
    unitary.coe_star_mul_self _
  have h2 : (hH.eigenvectorUnitary : Matrix (Fin n) (Fin n) ℝ) *
      star (hH.eigenvectorUnitary : Matrix (Fin n) (Fin n) ℝ) = 1 :=
    unitary.coe_mul_star_self _
  have h3 := hH.star_mul_self_mul_eq_diagonal
  refine ⟨⟨hH.eigenvalues, (hH.eigenvectorUnitary : Matrix (Fin n) (Fin n) ℝ)⟩, ?_, ?_⟩
  · rw [← Matrix.conjTranspose_eq_transpose_of_trivial]; exact h1
  · have h4 : (hH.eigenvectorUnitary : Matrix (Fin n) (Fin n) ℝ) *
        (star (hH.eigenvectorUnitary : Matrix (Fin n) (Fin n) ℝ) * A *
          (hH.eigenvectorUnitary : Matrix (Fin n) (Fin n) ℝ)) =
        (hH.eigenvectorUnitary : Matrix (Fin n) (Fin n) ℝ) *
          Matrix.diagonal (RCLike.ofReal ∘ hH.eigenvalues) := by rw [h3]
    rw [Matrix.mul_assoc, ← Matrix.mul_assoc, ← Matrix.mul_assoc, h2, Matrix.one_mul] at h4
    exact h4


/-! ### Stacking and unstacking the Riccati state -/

theorem convert2Vector_convert2Matrix {K : Type} {n : Nat} (allSs : Fin (n * n + n + 1) → K) :
    PartialRiccatiEquations.convert2Vector (PartialRiccatiEquations.convert2Matrix allSs).1
      (PartialRiccatiEquations.convert2Matrix allSs).2.1
      (PartialRiccatiEquations.convert2Matrix allSs).2.2 = allSs := by
  funext k
  have hk := k.isLt
  unfold PartialRiccatiEquations.convert2Vector PartialRiccatiEquations.convert2Matrix
  by_cases h1 : k.val < n * n
  · simp only [h1, ↓reduceDIte]
    congr 1
    apply Fin.ext
    simp only
    exact Nat.div_add_mod' k.val n
  · by_cases h2 : k.val < n * n + n
    · simp only [h1, h2, ↓reduceDIte]
      congr 1
      apply Fin.ext
      simp only
      omega
    · simp only [h1, h2, ↓reduceDIte]
      congr 1
      apply Fin.ext
      simp only
      omega

theorem convert2Vector_layout {K : Type} {n : Nat}
    (Sm : Matrix (Fin n) (Fin n) K) (Sv : Matrix (Fin n) (Fin 1) K)
    (s : Matrix (Fin 1) (Fin 1) K) (k : Fin (n * n + n + 1)) :
    (∀ i j : Fin n, k.val = j.val * n + i.val →
      PartialRiccatiEquations.convert2Vector Sm Sv s k = Sm i j) ∧
    (∀ i : Fin n, k.val = n * n + i.val →
      PartialRiccatiEquations.convert2Vector Sm Sv s k = Sv i 0) ∧
    (k.val = n * n + n → PartialRiccatiEquations.convert2Vector Sm Sv s k = s 0 0) := by
  have h := convert2Matrix_convert2Vector Sm Sv s
  unfold PartialRiccatiEquations.convert2Matrix at h
  simp only [Prod.mk.injEq] at h
  obtain ⟨h1, h2, h3⟩ := h
  refine ⟨fun i j hk => ?_, fun i hk => ?_, fun hk => ?_⟩
  · have e := congrFun (congrFun h1 i) j
    rw [← e]
    congr 1
    exact Fin.ext hk
  · have e := congrFun (congrFun h2 i) 0
    rw [← e]
    congr 1
    exact Fin.ext hk
  · have e := congrFun (congrFun h3 0) 0
    rw [← e]
    congr 1
    exact Fin.ext hk

/-- C24. `convert2Vector` and `convert2Matrix` are mutually inverse: unstacking the stacked
`(Sm, Sv, s)` gives `(Sm, Sv, s)` back for every `n x n` matrix `Sm` (symmetric or not), and
stacking the unstacked parts of a vector of length `n * n + n + 1` gives the vector back. The
stacked vector holds `Sm` column by column (entry `j * n + i` is `Sm(i, j)`), then `Sv` (entry
`n * n + i` is `Sv(i)`), then `s` as the last entry. -/
theorem C24_convert_inverse {K : Type} {n : Nat} :
    (∀ (Sm : Matrix (Fin n) (Fin n) K) (Sv : Matrix (Fin n) (Fin 1) K)
        (s : Matrix (Fin 1) (Fin 1) K),
      PartialRiccatiEquations.convert2Matrix (PartialRiccatiEquations.convert2Vector Sm Sv s) =
        (Sm, Sv, s)) ∧
    (∀ allSs : Fin (n * n + n + 1) → K,
      PartialRiccatiEquations.convert2Vector (PartialRiccatiEquations.convert2Matrix allSs).1
        (PartialRiccatiEquations.convert2Matrix allSs).2.1
        (PartialRiccatiEquations.convert2Matrix allSs).2.2 = allSs) ∧
    (∀ (Sm : Matrix (Fin n) (Fin n) K) (Sv : Matrix (Fin n) (Fin 1) K)
        (s : Matrix (Fin 1) (Fin 1) K) (k : Fin (n * n + n + 1)),
      (∀ i j : Fin n, k.val = j.val * n + i.val →
        PartialRiccatiEquations.convert2Vector Sm Sv s k = Sm i j) ∧
      (∀ i : Fin n, k.val = n * n + i.val →
        PartialRiccatiEquations.convert2Vector Sm Sv s k = Sv i 0) ∧
      (k.val = n * n + n → PartialRiccatiEquations.convert2Vector Sm Sv s k = s 0 0)) :=
  ⟨convert2Matrix_convert2Vector, convert2Vector_convert2Matrix, convert2Vector_layout⟩

/-- Witness for C24 on a `2 x 2` matrix: the round trip, and entry `0 * 2 + 1` of the stacked
vector is `Sm(1, 0)`. -/
theorem C24_convert_inverse_witness :
    PartialRiccatiEquations.convert2Matrix
        (PartialRiccatiEquations.convert2Vector (!![1, 2; 3, 4] : Matrix (Fin 2) (Fin 2) ℚ)
          !![5; 6] !![7]) = (!![1, 2; 3, 4], !![5; 6], !![7]) ∧
      PartialRiccatiEquations.convert2Vector (!![1, 2; 3, 4] : Matrix (Fin 2) (Fin 2) ℚ)
          !![5; 6] !![7] ⟨1, by decide⟩ = (!![1, 2; 3, 4] : Matrix (Fin 2) (Fin 2) ℚ) 1 0 :=
  ⟨(@C24_convert_inverse ℚ 2).1 _ _ _,
    ((@C24_convert_inverse ℚ 2).2.2 _ _ _ ⟨1, by decide⟩).1 1 0 rfl⟩

/-! ### The stocks after an edit of the timeline -/

theorem getMotionPhaseLogicsTraced_update {F : Type} (E : Collaborators F)
    (self : SwitchedModelLogicRulesBase F) (index : Nat)
    (h : index < self.subsystemsSequence_.length) :
    ∃ r1 flags, getMotionPhaseLogicsTraced E (update E self) index =
      (.returned (r1, flags,
        some (E.planSingleMode index self.subsystemsSequence_ self.eventTimes_)), [index]) := by
  obtain ⟨mode, hmode⟩ : ∃ mode, self.subsystemsSequence_[index]? = some mode :=
    ⟨_, List.getElem?_eq_getElem h⟩
  have h1 : (update E self).contactFlagsStock_[index]? = some (E.modeNumber2StanceLeg mode) := by
    simp [update, hmode]
  have h2 : (update E self).feetReferenceUpdatedStock_[index]? = some false := by
    simp [update, h]
  have h3 : index < (update E self).feetReferencePtrStock_.length := by
    simp only [update, length_resize]
    exact h
  have h4 : ¬ index ≥ (update E self).contactFlagsStock_.length := by
    simp only [update, List.length_map]
    omega
  refine ⟨{ update E self with
      feetReferencePtrStock_ := (update E self).feetReferencePtrStock_.set index
        (some (E.planSingleMode index self.subsystemsSequence_ self.eventTimes_))
      feetReferenceUpdatedStock_ := (update E self).feetReferenceUpdatedStock_.set index true },
    E.modeNumber2StanceLeg mode, ?_⟩
  unfold getMotionPhaseLogicsTraced
  rw [if_neg h4, h1, h2]
  simp only [↓reduceIte, h3]
  rfl

/-- C21. After `insertModeSequenceTemplate` or `rewind` returns, the contact-flag list has
exactly one entry per mode of the new timeline (the flags of that mode), every slot is marked as
not yet planned, and for every in-range index the next `getMotionPhaseLogics` call invokes the
planner once, for that slot, on the new mode sequence and event times, and returns what the
planner produced. -/
theorem C21_stocks_after_edit {F : Type} (E : Collaborators F)
    (r : SwitchedModelLogicRulesBase F)
    (hupd : (∃ fuel self tmpl startTime finalTime,
        insertModeSequenceTemplate E fuel self tmpl startTime finalTime = some (.returned r)) ∨
      (∃ fuel self lowerBoundTime upperBoundTime,
        rewind E fuel self lowerBoundTime upperBoundTime = some (.returned r))) :
    r.contactFlagsStock_ = r.subsystemsSequence_.map E.modeNumber2StanceLeg ∧
    r.contactFlagsStock_.length = r.subsystemsSequence_.length ∧
    r.feetReferenceUpdatedStock_ = List.replicate r.subsystemsSequence_.length false ∧
    ∀ index, index < r.subsystemsSequence_.length →
      ∃ r1 flags, getMotionPhaseLogicsTraced E r index =
          (.returned (r1, flags,
            some (E.planSingleMode index r.subsystemsSequence_ r.eventTimes_)), [index]) ∧
        getMotionPhaseLogics E r index =
          .returned (r1, flags,
            some (E.planSingleMode index r.subsystemsSequence_ r.eventTimes_)) := by
  obtain ⟨self, rfl⟩ := exists_update_of_updated (Or.inr hupd)
  refine ⟨rfl, by simp [update], rfl, fun index hindex => ?_⟩
  obtain ⟨r1, flags, h⟩ := getMotionPhaseLogicsTraced_update E self index hindex
  refine ⟨r1, flags, h, ?_⟩
  rw [← getMotionPhaseLogicsTraced_fst, h]
  rfl

theorem C21_stocks_after_edit_witness :
    exampleInserted.contactFlagsStock_ =
        exampleInserted.subsystemsSequence_.map exampleCollaborators.modeNumber2StanceLeg ∧
    exampleInserted.contactFlagsStock_.length = exampleInserted.subsystemsSequence_.length ∧
    exampleInserted.feetReferenceUpdatedStock_ =
      List.replicate exampleInserted.subsystemsSequence_.length false ∧
    ∀ index, index < exampleInserted.subsystemsSequence_.length →
      ∃ r1 flags, getMotionPhaseLogicsTraced exampleCollaborators exampleInserted index =
          (.returned (r1, flags,
            some (exampleCollaborators.planSingleMode index exampleInserted.subsystemsSequence_
              exampleInserted.eventTimes_)), [index]) ∧
        getMotionPhaseLogics exampleCollaborators exampleInserted index =
          .returned (r1, flags,
            some (exampleCollaborators.planSingleMode index exampleInserted.subsystemsSequence_
              exampleInserted.eventTimes_)) :=
  C21_stocks_after_edit exampleCollaborators exampleInserted
    (Or.inl ⟨3, exampleRules, exampleTemplate, 0, 1, insert_exampleRules⟩)


/-! ### The linear approximation of the foot normal constraint -/

/-- C23. `FootNormalConstraint::getLinearApproximation` is the exact first-order model of
`getValue`: its `f` is `getValue` on the same precomputation, `dfdx` is
`A_p * (d footPosition/dx) + A_v * (d footVelocity/dx)`, `dfdu` is `A_v * (d footVelocity/du)`;
and whenever the precomputation at `(x', u')` has the same constraint matrices and the foot
position and velocity are the affine functions with those Jacobians, the constraint value at
`(x', u')` is `f + dfdx * (x' - x) + dfdu * (u' - u)`. -/
theorem C23_linear_approximation {nx nu : Nat} (legNumber_ : Nat) (time : scalar_t)
    (state : Fin nx → scalar_t) (input : Fin nu → scalar_t)
    (preComp : SwitchedModelPreComputation nx nu) :
    (FootNormalConstraint.getLinearApproximation legNumber_ time state input preComp).f =
      FootNormalConstraint.getValue legNumber_ time state input preComp ∧
    (FootNormalConstraint.getLinearApproximation legNumber_ time state input preComp).dfdx =
      (preComp.getFootNormalConstraintInWorldFrame legNumber_).positionMatrix *
          preComp.footPositionInOriginFrameStateDerivative legNumber_ +
        (preComp.getFootNormalConstraintInWorldFrame legNumber_).velocityMatrix *
          preComp.footVelocityInOriginFrameDerivative_dfdx legNumber_ ∧
    (FootNormalConstraint.getLinearApproximation legNumber_ time state input preComp).dfdu =
      (preComp.getFootNormalConstraintInWorldFrame legNumber_).velocityMatrix *
        preComp.footVelocityInOriginFrameDerivative_dfdu legNumber_ ∧
    ∀ (time1 : scalar_t) (state1 : Fin nx → scalar_t) (input1 : Fin nu → scalar_t)
      (preComp1 : SwitchedModelPreComputation nx nu),
      preComp1.getFootNormalConstraintInWorldFrame legNumber_ =
        preComp.getFootNormalConstraintInWorldFrame legNumber_ →
      preComp1.footPositionInOriginFrame legNumber_ =
        preComp.footPositionInOriginFrame legNumber_ +
          (preComp.footPositionInOriginFrameStateDerivative legNumber_).mulVec (state1 - state) →
      preComp1.footVelocityInOriginFrame legNumber_ =
        preComp.footVelocityInOriginFrame legNumber_ +
          (preComp.footVelocityInOriginFrameDerivative_dfdx legNumber_).mulVec (state1 - state) +
          (preComp.footVelocityInOriginFrameDerivative_dfdu legNumber_).mulVec (input1 - input) →
      FootNormalConstraint.getValue legNumber_ time1 state1 input1 preComp1 =
        (FootNormalConstraint.getLinearApproximation legNumber_ time state input preComp).f +
          (FootNormalConstraint.getLinearApproximation legNumber_ time state input
            preComp).dfdx.mulVec (state1 - state) +
          (FootNormalConstraint.getLinearApproximation legNumber_ time state input
            preComp).dfdu.mulVec (input1 - input) := by
  refine ⟨rfl, rfl, rfl, ?_⟩
  intro time1 state1 input1 preComp1 hn hp hv
  funext i
  have hi : i = 0 := Subsingleton.elim i 0
  subst hi
  simp only [FootNormalConstraint.getValue, FootNormalConstraint.getLinearApproximation, hn, hp,
    hv, Pi.add_apply, Matrix.add_mulVec, ← Matrix.mulVec_mulVec, Matrix.dotProduct_add]
  simp only [Matrix.mulVec]
  ring

theorem C23_linear_approximation_witness :
    FootNormalConstraint.getValue 0 1 ![3, 4] ![5] (examplePreComputation ![3, 4] ![5]) =
      (FootNormalConstraint.getLinearApproximation 0 0 ![1, 2] ![0]
          (examplePreComputation ![1, 2] ![0])).f +
        (FootNormalConstraint.getLinearApproximation 0 0 ![1, 2] ![0]
          (examplePreComputation ![1, 2] ![0])).dfdx.mulVec (![3, 4] - ![1, 2]) +
        (FootNormalConstraint.getLinearApproximation 0 0 ![1, 2] ![0]
          (examplePreComputation ![1, 2] ![0])).dfdu.mulVec (![5] - ![0]) :=
  (C23_linear_approximation 0 0 ![1, 2] ![0] (examplePreComputation ![1, 2] ![0])).2.2.2
    1 ![3, 4] ![5] (examplePreComputation ![3, 4] ![5]) rfl
    (by
      funext i
      fin_cases i <;> simp [examplePreComputation, Matrix.mulVec, Matrix.dotProduct,
        Fin.sum_univ_two, Matrix.vecHead, Matrix.vecTail])
    (by
      funext i
      fin_cases i <;> simp [examplePreComputation, Matrix.mulVec, Matrix.dotProduct,
        Fin.sum_univ_two, Matrix.vecHead, Matrix.vecTail])


/-! ### The flow map and the PSD correction -/

theorem computeFlowMap_eq_eigenInverse {K : Type} [Field K] {n m : Nat}
    (self : PartialRiccatiEquations K n m) (t : K) (state : Fin (n * n + n + 1) → K) :
    PartialRiccatiEquations.computeFlowMap self t state =
      PartialRiccatiEquations.convert2Vector
        ((self.timeFinal_ - self.timeStart_) •
          riccati_dSmdt self (eigenInverse self.Rm_)
            (PartialRiccatiEquations.convert2Matrix state).1)
        ((self.timeFinal_ - self.timeStart_) •
          riccati_dSvdt self (eigenInverse self.Rm_)
            (PartialRiccatiEquations.convert2Matrix state).1
            (PartialRiccatiEquations.convert2Matrix state).2.1)
        ((self.timeFinal_ - self.timeStart_) •
          riccati_dsdt self (eigenInverse self.Rm_)
            (PartialRiccatiEquations.convert2Matrix state).2.1) := by
  have e1 : ∀ X : Matrix (Fin n) (Fin n) K,
      (X + X.transpose).map (fun a => a * (1 / 2)) = (1 / 2 : K) • (X + X.transpose) := by
    intro X
    ext i j
    simp only [Matrix.map_apply, Matrix.smul_apply, smul_eq_mul]
    ring
  unfold PartialRiccatiEquations.computeFlowMap riccati_dSmdt riccati_dSvdt riccati_dsdt
  simp only [e1, Matrix.mul_assoc, Matrix.smul_mul]

theorem flowMap_exampleNegativeRiccati :
    (PartialRiccatiEquations.convert2Matrix
      (PartialRiccatiEquations.computeFlowMap exampleNegativeRiccati 0 (fun _ => 0))).1 =
      !![-1] := by
  rw [computeFlowMap_eq_eigenInverse, convert2Matrix_convert2Vector]
  have hinv : eigenInverse exampleNegativeRiccati.Rm_ = !![1] :=
    eigenInverse_eq_of_mul_eq_one (by
      ext i j
      fin_cases i
      fin_cases j
      simp [exampleNegativeRiccati])
  have hz : (!![0] : Matrix (Fin 1) (Fin 1) ℚ) = 0 := by
    ext i j
    fin_cases i
    fin_cases j
    rfl
  simp only [riccati_dSmdt, exampleNegativeRiccati, hz, Matrix.transpose_zero, Matrix.zero_mul,
    Matrix.mul_zero, add_zero, sub_zero]
  ext i j
  fin_cases i
  fin_cases j
  simp [Matrix.vecHead]
  norm_num

theorem makePSD_negative_one :
    makePSD diagonalSolver (!![-1] : Matrix (Fin 1) (Fin 1) ℚ) = .returned (true, !![0]) := by
  rw [makePSD_square]
  have h := clipNegativeEigenvalues_eq (diagonalSolver 1 !![-1]).eigenvalues
  have hd : decide (∃ j, (diagonalSolver 1 !![-1]).eigenvalues j < 0) = true :=
    decide_eq_true ⟨0, by simp [diagonalSolver]⟩
  rw [hd] at h
  simp only [makePSDSquare, h, if_true]
  congr 2
  have hinv : eigenInverse (diagonalSolver 1 !![-1]).eigenvectors = 1 :=
    eigenInverse_eq_of_mul_eq_one (by simp [diagonalSolver])
  rw [hinv]
  ext i j
  fin_cases i
  fin_cases j
  simp [diagonalSolver, Matrix.diagonal_apply]

/-- C22, counterexample. With the state cost `Qm = -1` on the segment from `0` to `1` the matrix
block of `computeFlowMap` is `[-1]`: it is not positive semi-definite, and `makePSD` applied to
it reports a negative eigenvalue and gives `[0]`, another matrix. -/
theorem C22_counterexample :
    (PartialRiccatiEquations.convert2Matrix
      (PartialRiccatiEquations.computeFlowMap exampleNegativeRiccati 0 (fun _ => 0))).1 =
        !![-1] ∧
    makePSD diagonalSolver (!![-1] : Matrix (Fin 1) (Fin 1) ℚ) = .returned (true, !![0]) ∧
    makePSD diagonalSolver (PartialRiccatiEquations.convert2Matrix
      (PartialRiccatiEquations.computeFlowMap exampleNegativeRiccati 0 (fun _ => 0))).1 ≠
      .returned (false, (PartialRiccatiEquations.convert2Matrix
        (PartialRiccatiEquations.computeFlowMap exampleNegativeRiccati 0 (fun _ => 0))).1) ∧
    (PartialRiccatiEquations.convert2Matrix
      (PartialRiccatiEquations.computeFlowMap exampleNegativeRiccati 0 (fun _ => 0))).1 ≠
        !![0] ∧
    ¬ (∀ x : Fin 1 → ℚ, 0 ≤ Matrix.dotProduct x
      ((PartialRiccatiEquations.convert2Matrix
        (PartialRiccatiEquations.computeFlowMap exampleNegativeRiccati 0
          (fun _ => 0))).1.mulVec x)) := by
  rw [flowMap_exampleNegativeRiccati, makePSD_negative_one]
  refine ⟨rfl, rfl, ?_, ?_, ?_⟩
  · intro h
    cases h
  · intro h
    have := congrFun (congrFun h 0) 0
    norm_num at this
  · intro h
    have := h ![1]
    norm_num [Matrix.dotProduct, Matrix.mulVec] at this

/-- C22, amended. `computeFlowMap` does not apply the PSD correction: its matrix block is
`(timeFinal - timeStart)` times the symmetrised Riccati derivative exactly as computed (with
Eigen's inverse of `Rm`). The block is symmetric, and exchanging `timeStart` and `timeFinal`
gives the negative of the block, so its eigenvalues are not clipped. -/
theorem C22_flow_map_unclipped {K : Type} [Field K] {n m : Nat}
    (self : PartialRiccatiEquations K n m) (t : K) (state : Fin (n * n + n + 1) → K) :
    (PartialRiccatiEquations.convert2Matrix
      (PartialRiccatiEquations.computeFlowMap self t state)).1 =
        (self.timeFinal_ - self.timeStart_) •
          riccati_dSmdt self (eigenInverse self.Rm_)
            (PartialRiccatiEquations.convert2Matrix state).1 ∧
    (PartialRiccatiEquations.convert2Matrix
      (PartialRiccatiEquations.computeFlowMap self t state)).1.transpose =
      (PartialRiccatiEquations.convert2Matrix
        (PartialRiccatiEquations.computeFlowMap self t state)).1 ∧
    (PartialRiccatiEquations.convert2Matrix
      (PartialRiccatiEquations.computeFlowMap
        { self with timeStart_ := self.timeFinal_, timeFinal_ := self.timeStart_ } t state)).1 =
      -(PartialRiccatiEquations.convert2Matrix
        (PartialRiccatiEquations.computeFlowMap self t state)).1 := by
  rw [computeFlowMap_eq_eigenInverse, computeFlowMap_eq_eigenInverse,
    convert2Matrix_convert2Vector, convert2Matrix_convert2Vector]
  refine ⟨rfl, ?_, ?_⟩
  · simp only [riccati_dSmdt, Matrix.transpose_smul, Matrix.transpose_add,
      Matrix.transpose_transpose]
    rw [add_comm]
  · simp only
    rw [← neg_sub self.timeFinal_ self.timeStart_, neg_smul]
    rfl


/-! ### Termination of the tiling loop -/

theorem tileModeSequenceTemplate_of_steps {F : Type} (E : Collaborators F)
    (self : SwitchedModelLogicRulesBase F) (tmpl : logic_template_type)
    (startTime finalTime last : scalar_t)
    (hne : tmpl.templateSubsystemsSequence_ ≠ []) (hwf : WellFormedTemplate tmpl)
    (hlast : self.eventTimes_.getLast? = some last) (hlt : last < startTime) (k : Nat)
    (hmin : ∀ j : Nat, j < k → startTime + j * templatePeriod tmpl < finalTime)
    (hk : finalTime ≤ startTime + k * templatePeriod tmpl) (fuel : Nat) (hfuel : k + 1 ≤ fuel) :
    tileModeSequenceTemplate E fuel self tmpl startTime finalTime =
      some (.returned (pushed self (tiledModes tmpl k ++ [E.STANCE])
        (startTime :: tiledEventTimes tmpl startTime k))) := by
  have h0 : tmpl.templateSubsystemsSequence_.length ≠ 0 :=
    fun hc => hne (List.length_eq_zero.mp hc)
  have hwf1 := hwf
  unfold WellFormedTemplate at hwf1
  have hloop := tileWhileLoop_closed tmpl hwf hne startTime finalTime k hmin hk
    k 0 { self with eventTimes_ := self.eventTimes_ ++ [startTime] } fuel
    (by omega) (by simp) hfuel
  unfold tileModeSequenceTemplate
  simp only [h0, ↓reduceIte, hwf1, ne_eq, not_true_eq_false, hlast, not_le.mpr hlt, hloop]
  simp [pushed, tiledModes, tiledEventTimes]

theorem exists_steps_of_pos (startTime finalTime T : scalar_t)
    (h : finalTime ≤ startTime ∨ 0 < T) :
    ∃ k : Nat, (∀ j : Nat, j < k → startTime + j * T < finalTime) ∧
      finalTime ≤ startTime + k * T := by
  rcases h with h | hT
  · exact ⟨0, fun j hj => absurd hj (Nat.not_lt_zero j), by simpa using h⟩
  · have hex : ∃ n : Nat, finalTime ≤ startTime + n * T := by
      obtain ⟨n, hn⟩ := exists_nat_ge ((finalTime - startTime) / T)
      refine ⟨n, ?_⟩
      have := (div_le_iff₀ hT).mp hn
      linarith
    exact ⟨Nat.find hex, fun j hj => not_le.mp (Nat.find_min hex hj), Nat.find_spec hex⟩

theorem tileModeSequenceTemplate_terminates {F : Type} (E : Collaborators F)
    (self : SwitchedModelLogicRulesBase F) (tmpl : logic_template_type)
    (startTime finalTime : scalar_t)
    (h : finalTime ≤ startTime ∨ 0 < templatePeriod tmpl) :
    ∃ fuel o, ∀ fuel1, fuel ≤ fuel1 →
      tileModeSequenceTemplate E fuel1 self tmpl startTime finalTime = some o := by
  by_cases hne : tmpl.templateSubsystemsSequence_ = []
  · exact ⟨0, .returned self, fun fuel1 _ => by
      unfold tileModeSequenceTemplate
      simp [hne]⟩
  have h0 : tmpl.templateSubsystemsSequence_.length ≠ 0 :=
    fun hc => hne (List.length_eq_zero.mp hc)
  by_cases hwf : WellFormedTemplate tmpl
  · rcases hlast : self.eventTimes_.getLast? with _ | last
    · exact ⟨0, .undefined, fun fuel1 _ => by
        unfold WellFormedTemplate at hwf
        unfold tileModeSequenceTemplate
        simp [h0, hwf, hlast]⟩
    · by_cases hlt : last < startTime
      · obtain ⟨k, hmin, hk⟩ := exists_steps_of_pos startTime finalTime _ h
        exact ⟨k + 1, _, fun fuel1 hfuel =>
          tileModeSequenceTemplate_of_steps E self tmpl startTime finalTime last hne hwf hlast
            hlt k hmin hk fuel1 hfuel⟩
      · exact ⟨0, .raised .tilingStartNotGreater, fun fuel1 _ =>
          tileModeSequenceTemplate_tilingStartNotGreater E fuel1 self tmpl startTime finalTime
            last hne hwf hlast (not_lt.mp hlt)⟩
  · exact ⟨0, .raised .templateSizeMismatch, fun fuel1 _ => by
      unfold WellFormedTemplate at hwf
      unfold tileModeSequenceTemplate
      simp [h0, hwf]⟩

theorem tileWhileLoop_diverges {F : Type} (tmpl : logic_template_type)
    (hwf : WellFormedTemplate tmpl) (hne : tmpl.templateSubsystemsSequence_ ≠ [])
    (hT : templatePeriod tmpl ≤ 0) (finalTime : scalar_t) :
    ∀ (fuel : Nat) (self : SwitchedModelLogicRulesBase F) (b : scalar_t),
      self.eventTimes_.getLast? = some b → b < finalTime →
      tileWhileLoop tmpl finalTime fuel self = none := by
  intro fuel
  induction fuel with
  | zero => intro self b _ _; rfl
  | succ fuel ih =>
    intro self b hlast hb
    obtain ⟨self1, hfor, _, hlast1⟩ := tileForLoop_period tmpl hwf hne b self hlast
    unfold tileWhileLoop
    simp only [hlast, hb, ↓reduceIte, hfor]
    exact ih self1 _ hlast1 (by linarith)

/-- With exact sums, the tiling loop of `tileModeSequenceTemplate` terminates for every input in
which `startTime >= finalTime` or the template period is strictly positive: from some fuel bound
on the call ends with one and the same outcome. For a non-empty well-formed template whose period
is `<= 0` and `startTime < finalTime`, a call that reaches the loop (last event time below
`startTime`) does not end within any bound: the loop never terminates. -/
theorem tiling_termination_exact {F : Type} (E : Collaborators F)
    (self : SwitchedModelLogicRulesBase F) (tmpl : logic_template_type)
    (startTime finalTime : scalar_t) :
    ((finalTime ≤ startTime ∨ 0 < templatePeriod tmpl) →
      ∃ fuel o, ∀ fuel1, fuel ≤ fuel1 →
        tileModeSequenceTemplate E fuel1 self tmpl startTime finalTime = some o) ∧
    (tmpl.templateSubsystemsSequence_ ≠ [] → WellFormedTemplate tmpl →
      templatePeriod tmpl ≤ 0 → startTime < finalTime →
      ∀ last, self.eventTimes_.getLast? = some last → last < startTime →
      ∀ fuel, tileModeSequenceTemplate E fuel self tmpl startTime finalTime = none) := by
  refine ⟨tileModeSequenceTemplate_terminates E self tmpl startTime finalTime, ?_⟩
  intro hne hwf hT hsf last hlast hlt fuel
  have h0 : tmpl.templateSubsystemsSequence_.length ≠ 0 :=
    fun hc => hne (List.length_eq_zero.mp hc)
  have hloop := tileWhileLoop_diverges tmpl hwf hne hT finalTime fuel
    { self with eventTimes_ := self.eventTimes_ ++ [startTime] } startTime (by simp) hsf
  unfold WellFormedTemplate at hwf
  unfold tileModeSequenceTemplate
  simp only [h0, ↓reduceIte, hwf, ne_eq, not_true_eq_false, hlast, not_le.mpr hlt, hloop]

theorem tiling_termination_exact_example :
    (∃ fuel o, ∀ fuel1, fuel ≤ fuel1 →
      tileModeSequenceTemplate exampleCollaborators fuel1 exampleRules exampleTemplate 0 1 =
        some o) ∧
    ∀ fuel, tileModeSequenceTemplate exampleCollaborators fuel exampleRules
      exampleZeroPeriodTemplate 0 1 = none :=
  ⟨(tiling_termination_exact exampleCollaborators exampleRules exampleTemplate 0 1).1
      (Or.inr (by norm_num [templatePeriod, switchingTime, exampleTemplate])),
    (tiling_termination_exact exampleCollaborators exampleRules exampleZeroPeriodTemplate 0 1).2
      (by decide) (by decide)
      (by norm_num [templatePeriod, switchingTime, exampleZeroPeriodTemplate])
      (by norm_num) (-1) (by simp [exampleRules, mkRules]) (by norm_num)⟩


/-! ### Reading the last event time -/

theorem tileWhileLoop_ne_undefined {F : Type} (tmpl : logic_template_type)
    (hwf : WellFormedTemplate tmpl) (hne : tmpl.templateSubsystemsSequence_ ≠ [])
    (finalTime : scalar_t) :
    ∀ (fuel : Nat) (self : SwitchedModelLogicRulesBase F) (b : scalar_t),
      self.eventTimes_.getLast? = some b →
      tileWhileLoop tmpl finalTime fuel self ≠ some .undefined := by
  intro fuel
  induction fuel with
  | zero =>
    intro self b _ hc
    cases hc
  | succ fuel ih =>
    intro self b hlast
    obtain ⟨self1, hfor, _, hlast1⟩ := tileForLoop_period tmpl hwf hne b self hlast
    unfold tileWhileLoop
    simp only [hlast, hfor]
    split_ifs
    · exact ih self1 _ hlast1
    · intro hc
      cases hc

theorem tileModeSequenceTemplate_ne_undefined {F : Type} (E : Collaborators F) (fuel : Nat)
    (self : SwitchedModelLogicRulesBase F) (tmpl : logic_template_type)
    (startTime finalTime last : scalar_t) (hlast : self.eventTimes_.getLast? = some last) :
    tileModeSequenceTemplate E fuel self tmpl startTime finalTime ≠ some .undefined := by
  unfold tileModeSequenceTemplate
  simp only [hlast]
  split_ifs with h0 hsize hle
  · intro hc
    cases hc
  · intro hc
    cases hc
  · intro hc
    cases hc
  · have hne : tmpl.templateSubsystemsSequence_ ≠ [] :=
      fun hc => h0 (by rw [hc]; rfl)
    have hwf : WellFormedTemplate tmpl := not_not.mp hsize
    have hloop := tileWhileLoop_ne_undefined tmpl hwf hne finalTime fuel
      { self with eventTimes_ := self.eventTimes_ ++ [startTime] } startTime (by simp)
    rcases hw : tileWhileLoop tmpl finalTime fuel
        { self with eventTimes_ := self.eventTimes_ ++ [startTime] } with _ | o
    · intro hc
      cases hc
    · cases o with
      | returned a =>
        intro hc
        cases hc
      | raised e =>
        intro hc
        cases hc
      | undefined => exact absurd hw hloop

theorem tileModeSequenceTemplate_undefined {F : Type} (E : Collaborators F) (fuel : Nat)
    (self : SwitchedModelLogicRulesBase F) (tmpl : logic_template_type)
    (startTime finalTime : scalar_t) (hne : tmpl.templateSubsystemsSequence_ ≠ [])
    (hwf : WellFormedTemplate tmpl) (hempty : self.eventTimes_ = []) :
    tileModeSequenceTemplate E fuel self tmpl startTime finalTime = some .undefined := by
  have h0 : tmpl.templateSubsystemsSequence_.length ≠ 0 :=
    fun hc => hne (List.length_eq_zero.mp hc)
  unfold WellFormedTemplate at hwf
  unfold tileModeSequenceTemplate
  simp [h0, hwf, hempty]

theorem rewind_eq_map {F : Type} (E : Collaborators F) (fuel : Nat)
    {self self1 : SwitchedModelLogicRulesBase F} (lowerBoundTime upperBoundTime : scalar_t)
    {tilingStartTime : scalar_t} (h1 : rewindTruncate E self lowerBoundTime = .returned self1)
    (ht : self1.eventTimes_.getLast? = some tilingStartTime)
    (hm : self1.subsystemsSequence_ ≠ []) :
    rewind E fuel self lowerBoundTime upperBoundTime =
      Option.map (Outcome.map (update E))
        (tileModeSequenceTemplate E fuel
          { self1 with
            eventTimes_ := self1.eventTimes_.dropLast
            subsystemsSequence_ := self1.subsystemsSequence_.dropLast }
          self1.modeSequenceTemplate_ tilingStartTime upperBoundTime) := by
  unfold rewind
  rw [h1]
  simp only [ht, hm, ↓reduceIte]
  rcases tileModeSequenceTemplate E fuel
      { self1 with
        eventTimes_ := self1.eventTimes_.dropLast
        subsystemsSequence_ := self1.subsystemsSequence_.dropLast }
      self1.modeSequenceTemplate_ tilingStartTime upperBoundTime with _ | o
  · rfl
  · cases o <;> rfl

theorem rewindTruncate_eventTimes {F : Type} {E : Collaborators F}
    {self self1 : SwitchedModelLogicRulesBase F} {lowerBoundTime : scalar_t}
    (h : rewindTruncate E self lowerBoundTime = .returned self1) :
    self1.eventTimes_ =
      self.eventTimes_.drop (lower_bound self.eventTimes_ lowerBoundTime - 1) := by
  rcases rewindTruncate_returned h with ⟨h0, rfl⟩ | ⟨hpos, _⟩
  · rw [h0]
    rfl
  · rw [rewindTruncate_of_pos h hpos]

theorem lower_bound_lt_length {xs : List scalar_t} (hs : xs.Pairwise (fun a b => a ≤ b))
    {val : scalar_t} (h : ∃ t ∈ xs, val ≤ t) : lower_bound xs val < xs.length := by
  obtain ⟨t, ht, hle⟩ := h
  obtain ⟨i, hi, rfl⟩ := List.getElem_of_mem ht
  have hget : xs[i]? = some xs[i] := List.getElem?_eq_getElem hi
  have := (lower_bound_spec hs val hget).not.mp (not_lt.mpr hle)
  omega

/-- C25. For every valid timeline with a non-empty well-formed last-known template: when the
timeline has at least two event times and some event time is `>= lowerBound`, `rewind` never
runs into undefined behaviour (no `back()` or `erase` on an empty list). When `lowerBound` is
greater than every event time, or the timeline has fewer than two events, the call is undefined:
with at least one event the truncation leaves exactly one event time, which `rewind` erases, and
the tiling step then reads `eventTimes_.back()` on the empty list; with no event at all the
list is already empty at the `back()` of `rewind` itself. -/
theorem C25_rewind_back_of_empty {F : Type} (E : Collaborators F)
    (self : SwitchedModelLogicRulesBase F) (lowerBoundTime upperBoundTime : scalar_t)
    (hinv : LengthInvariant self) (hs : StrictlyIncreasing self.eventTimes_)
    (hne : self.modeSequenceTemplate_.templateSubsystemsSequence_ ≠ [])
    (hwf : WellFormedTemplate self.modeSequenceTemplate_) :
    (2 ≤ self.eventTimes_.length → (∃ t ∈ self.eventTimes_, lowerBoundTime ≤ t) →
      ∀ fuel, rewind E fuel self lowerBoundTime upperBoundTime ≠ some .undefined) ∧
    (((∀ t ∈ self.eventTimes_, t < lowerBoundTime) ∨ self.eventTimes_.length < 2) →
      (∀ fuel, rewind E fuel self lowerBoundTime upperBoundTime = some .undefined) ∧
      (self.eventTimes_ ≠ [] →
        ∃ self1 tilingStartTime, rewindTruncate E self lowerBoundTime = .returned self1 ∧
          self1.eventTimes_ = [tilingStartTime] ∧
          ∀ fuel, tileModeSequenceTemplate E fuel
            { self1 with
              eventTimes_ := self1.eventTimes_.dropLast
              subsystemsSequence_ := self1.subsystemsSequence_.dropLast }
            self1.modeSequenceTemplate_ tilingStartTime upperBoundTime = some .undefined)) := by
  obtain ⟨self1, h1⟩ := rewindTruncate_of_lengthInvariant E self lowerBoundTime hinv
  have hev := rewindTruncate_eventTimes h1
  have htmpl := rewindTruncate_template h1
  have hinv1 := lengthInvariant_rewindTruncate h1 hinv
  have hm1 : self1.subsystemsSequence_ ≠ [] := by
    intro hc
    unfold LengthInvariant at hinv1
    rw [hc] at hinv1
    simp at hinv1
  have hle := lower_bound_le_length self.eventTimes_ lowerBoundTime
  constructor
  · intro hlen hge fuel
    have hidx := lower_bound_lt_length hs.sorted hge
    have hlen1 : 2 ≤ self1.eventTimes_.length := by
      rw [hev, List.length_drop]
      omega
    obtain ⟨t, ht⟩ : ∃ t, self1.eventTimes_.getLast? = some t := by
      rcases hl : self1.eventTimes_.getLast? with _ | t
      · rw [List.getLast?_eq_none_iff] at hl
        rw [hl] at hlen1
        simp at hlen1
      · exact ⟨t, rfl⟩
    obtain ⟨p, hp⟩ : ∃ p, self1.eventTimes_.dropLast.getLast? = some p := by
      rcases hl : self1.eventTimes_.dropLast.getLast? with _ | p
      · rw [List.getLast?_eq_none_iff] at hl
        have := congrArg List.length hl
        simp only [List.length_dropLast, List.length_nil] at this
        omega
      · exact ⟨p, rfl⟩
    rw [rewind_eq_map E fuel lowerBoundTime upperBoundTime h1 ht hm1]
    have hnu := tileModeSequenceTemplate_ne_undefined E fuel
      { self1 with
        eventTimes_ := self1.eventTimes_.dropLast
        subsystemsSequence_ := self1.subsystemsSequence_.dropLast }
      self1.modeSequenceTemplate_ t upperBoundTime p hp
    rcases hr : tileModeSequenceTemplate E fuel
        { self1 with
          eventTimes_ := self1.eventTimes_.dropLast
          subsystemsSequence_ := self1.subsystemsSequence_.dropLast }
        self1.modeSequenceTemplate_ t upperBoundTime with _ | o
    · intro hc
      cases hc
    · cases o with
      | returned a =>
        intro hc
        cases hc
      | raised e =>
        intro hc
        cases hc
      | undefined => exact absurd hr hnu
  · intro hcase
    have hone : self.eventTimes_ ≠ [] → ∃ t, self1.eventTimes_ = [t] := by
      intro hnonempty
      have hpos : 0 < self.eventTimes_.length := List.length_pos.mpr hnonempty
      have hlen1 : self1.eventTimes_.length = 1 := by
        rw [hev, List.length_drop]
        rcases hcase with hall | hshort
        · rw [lower_bound_of_forall_lt _ _ hall]
          omega
        · omega
      exact List.length_eq_one.mp hlen1
    have htile : ∀ t, self1.eventTimes_ = [t] → ∀ fuel, tileModeSequenceTemplate E fuel
        { self1 with
          eventTimes_ := self1.eventTimes_.dropLast
          subsystemsSequence_ := self1.subsystemsSequence_.dropLast }
        self1.modeSequenceTemplate_ t upperBoundTime = some .undefined := by
      intro t ht fuel
      exact tileModeSequenceTemplate_undefined E fuel _ _ _ _ (htmpl ▸ hne) (htmpl ▸ hwf)
        (by simp [ht])
    constructor
    · intro fuel
      by_cases hnonempty : self.eventTimes_ = []
      · have h0 : self1.eventTimes_ = [] := by
          rw [hev, hnonempty]
          rfl
        unfold rewind
        rw [h1]
        simp [h0]
      · obtain ⟨t, ht⟩ := hone hnonempty
        have hl : self1.eventTimes_.getLast? = some t := by
          rw [ht]
          rfl
        rw [rewind_eq_map E fuel lowerBoundTime upperBoundTime h1 hl hm1, htile t ht fuel]
        rfl
    · intro hnonempty
      obtain ⟨t, ht⟩ := hone hnonempty
      exact ⟨self1, t, h1, ht, htile t ht⟩

theorem C25_rewind_back_of_empty_witness :
    (∀ fuel, rewind exampleCollaborators fuel exampleInserted 0 1 ≠ some .undefined) ∧
      (∀ fuel, rewind exampleCollaborators fuel exampleRules 0 1 = some .undefined) :=
  ⟨(C25_rewind_back_of_empty exampleCollaborators exampleInserted 0 1 (by decide)
      strictlyIncreasing_exampleInserted (by decide) (by decide)).1 (by decide)
      ⟨0, by simp [exampleInserted], le_refl _⟩,
    ((C25_rewind_back_of_empty exampleCollaborators exampleRules 0 1 (by decide)
      strictlyIncreasing_exampleRules (by decide) (by decide)).2 (Or.inr (by decide))).1⟩

theorem rewind_fixed {F : Type} (E : Collaborators F) (n : Nat)
    (r : SwitchedModelLogicRulesBase F) (lowerBoundTime upperBoundTime b : scalar_t)
    (hinv : LengthInvariant r) (hs : StrictlyIncreasing r.eventTimes_)
    (hne : r.modeSequenceTemplate_.templateSubsystemsSequence_ ≠ [])
    (hwf : WellFormedTemplate r.modeSequenceTemplate_)
    (hb : r.eventTimes_.getLast? = some b) (hub : upperBoundTime ≤ b)
    (hlb : lowerBoundTime ≤ b) (hlen : 2 ≤ r.eventTimes_.length)
    (hm : r.subsystemsSequence_.getLast? = some E.STANCE) (hupd : update E r = r)
    (hidx : lower_bound r.eventTimes_ lowerBoundTime = 0 ∨
      (lower_bound r.eventTimes_ lowerBoundTime = 1 ∧
        r.subsystemsSequence_.head? = some E.STANCE)) :
    rewind E (n + 1) r lowerBoundTime upperBoundTime = some (.returned r) := by
  obtain ⟨q, hq, hrew⟩ := rewind_of_reaching E n r lowerBoundTime upperBoundTime b hinv hs hne hwf
    hb hub hlb hlen hm
  rw [hrew]
  have hqr : q = r := by
    rcases rewindTruncate_returned hq with ⟨_, rfl⟩ | ⟨hpos, _⟩
    · rfl
    · have hqeq := rewindTruncate_of_pos hq hpos
      rcases hidx with hc | ⟨h1idx, hhead⟩
      · omega
      · rw [hqeq, h1idx]
        rcases hml : r.subsystemsSequence_ with _ | ⟨a, l⟩
        · rw [hml] at hhead
          cases hhead
        · rw [hml] at hhead
          simp only [List.head?_cons, Option.some.injEq] at hhead
          cases r
          simp only at hml
          subst hml
          subst hhead
          rfl
  rw [hqr, hupd]

/-- With exact sums `rewind` is idempotent: for every valid timeline (one mode more than event
times, strictly increasing event times) on which `rewind(lowerBound, upperBound)` returns, with a
non-empty last-known template of strictly increasing switching times, a second
`rewind(lowerBound, upperBound)` returns as well and leaves the object, its event times and its
mode sequence in particular, exactly as it was after the first. -/
theorem rewind_idempotent_exact {F : Type} (E : Collaborators F) (fuel : Nat)
    (self r : SwitchedModelLogicRulesBase F) (lowerBoundTime upperBoundTime : scalar_t)
    (hinv : LengthInvariant self) (hs : StrictlyIncreasing self.eventTimes_)
    (hne : self.modeSequenceTemplate_.templateSubsystemsSequence_ ≠ [])
    (ht : StrictlyIncreasing self.modeSequenceTemplate_.templateSwitchingTimes_)
    (h : rewind E fuel self lowerBoundTime upperBoundTime = some (.returned r)) :
    ∃ r2, rewind E fuel r lowerBoundTime upperBoundTime = some (.returned r2) ∧
      r2.eventTimes_ = r.eventTimes_ ∧ r2.subsystemsSequence_ = r.subsystemsSequence_ ∧
      r2 = r := by
  obtain ⟨self1, tilingStart, self2, h1, hts, hm1, h2, rfl⟩ := rewind_returned h
  have hinv1 := lengthInvariant_rewindTruncate h1 hinv
  have hs1 := strictlyIncreasing_rewindTruncate h1 hs
  have htmpl1 := rewindTruncate_template h1
  have hev1 := rewindTruncate_eventTimes h1
  have hne1 : self1.modeSequenceTemplate_.templateSubsystemsSequence_ ≠ [] := htmpl1 ▸ hne
  have hlen1pos := length_pos_of_getLast? hts
  have hinvd : LengthInvariant
      { self1 with
        eventTimes_ := self1.eventTimes_.dropLast
        subsystemsSequence_ := self1.subsystemsSequence_.dropLast } := by
    unfold LengthInvariant at hinv1 ⊢
    simp only [List.length_dropLast]
    omega
  have hsd : StrictlyIncreasing self1.eventTimes_.dropLast :=
    List.Pairwise.sublist (List.dropLast_sublist _) hs1
  have hinv2 := lengthInvariant_tileModeSequenceTemplate h2 hinvd
  have hs2 := strictlyIncreasing_tileModeSequenceTemplate h2 (htmpl1 ▸ ht) hsd
  obtain ⟨n, rfl⟩ := Nat.exists_eq_succ_of_ne_zero (tileModeSequenceTemplate_fuel_ne_zero h2 hne1)
  obtain ⟨⟨b, hb, hfb⟩, hm⟩ := tileModeSequenceTemplate_last h2 hne1
  rcases tileModeSequenceTemplate_returned E _ _ self2 _ _ _ h2 with
    ⟨hc, _⟩ | ⟨_, hwf, last, ms, ts, hlast, _, hshape, _, _, _⟩
  · exact absurd hc hne1
  have hdl : self1.eventTimes_.dropLast.getLast? = some last := hlast
  have hlend : 0 < self1.eventTimes_.dropLast.length := length_pos_of_getLast? hdl
  have hlen1 : 2 ≤ self1.eventTimes_.length := by
    rw [List.length_dropLast] at hlend
    omega
  have hev2 : self2.eventTimes_ = self1.eventTimes_ ++ ts := by
    rw [hshape]
    show self1.eventTimes_.dropLast ++ tilingStart :: ts = self1.eventTimes_ ++ ts
    have := List.dropLast_append_getLast? tilingStart (by rw [hts]; rfl)
    rw [← List.singleton_append, ← List.append_assoc, this]
  have hmodes2 : self2.subsystemsSequence_ =
      self1.subsystemsSequence_.dropLast ++ (ms ++ [E.STANCE]) := by
    rw [hshape]
    rfl
  have htmpl2 : self2.modeSequenceTemplate_ = self1.modeSequenceTemplate_ := by
    rw [hshape]
    rfl
  have hlen2 : 2 ≤ self2.eventTimes_.length := by
    rw [hev2, List.length_append]
    omega
  have hle := lower_bound_le_length self.eventTimes_ lowerBoundTime
  have hlenself : self1.eventTimes_.length =
      self.eventTimes_.length - (lower_bound self.eventTimes_ lowerBoundTime - 1) := by
    rw [hev1, List.length_drop]
  have hidxlt : lower_bound self.eventTimes_ lowerBoundTime < self.eventTimes_.length := by
    omega
  -- the event at position `index` of the old timeline is not below the lower bound
  obtain ⟨e1, he1⟩ : ∃ e1, self.eventTimes_[lower_bound self.eventTimes_ lowerBoundTime]? =
      some e1 := ⟨_, List.getElem?_eq_getElem hidxlt⟩
  have he1ge : lowerBoundTime ≤ e1 :=
    not_lt.mp ((lower_bound_spec hs.sorted lowerBoundTime he1).not.mpr (lt_irrefl _))
  have hmem1 : e1 ∈ self2.eventTimes_ := by
    rw [hev2, hev1]
    apply List.mem_append_left
    have hmem := List.getElem?_mem he1
    obtain ⟨j, hj, hje⟩ := List.getElem_of_mem hmem
    have hj2 : self.eventTimes_[j]? = some e1 := by
      rw [List.getElem?_eq_getElem hj, hje]
    have hjidx : ¬ j < lower_bound self.eventTimes_ lowerBoundTime :=
      (lower_bound_spec hs.sorted lowerBoundTime hj2).not.mp (not_lt.mpr he1ge)
    have hx : (self.eventTimes_.drop (lower_bound self.eventTimes_ lowerBoundTime - 1))[
        j - (lower_bound self.eventTimes_ lowerBoundTime - 1)]? = some e1 := by
      rw [List.getElem?_drop, ← hj2]
      congr 1
      omega
    exact List.getElem?_mem hx
  have hlb : lowerBoundTime ≤ b :=
    le_trans he1ge (le_getLast_of_strictlyIncreasing hs2 hb hmem1)
  have hidx : lower_bound self2.eventTimes_ lowerBoundTime = 0 ∨
      (lower_bound self2.eventTimes_ lowerBoundTime = 1 ∧
        self2.subsystemsSequence_.head? = some E.STANCE) := by
    by_cases hi0 : lower_bound self.eventTimes_ lowerBoundTime = 0
    · left
      have hget : self2.eventTimes_[0]? = some e1 := by
        rw [hev2, List.getElem?_append_left (by omega), hev1, List.getElem?_drop, ← he1, hi0]
      have := (lower_bound_spec hs2.sorted lowerBoundTime hget).not.mp (not_lt.mpr he1ge)
      omega
    · right
      have hpos : 0 < lower_bound self.eventTimes_ lowerBoundTime := Nat.pos_of_ne_zero hi0
      obtain ⟨g, hg⟩ : ∃ g, self.eventTimes_[lower_bound self.eventTimes_ lowerBoundTime - 1]? =
          some g := ⟨_, List.getElem?_eq_getElem (by omega)⟩
      have hglt : g < lowerBoundTime :=
        (lower_bound_spec hs.sorted lowerBoundTime hg).mpr (by omega)
      have hget0 : self2.eventTimes_[0]? = some g := by
        rw [hev2, List.getElem?_append_left (by omega), hev1, List.getElem?_drop, ← hg]
        rfl
      have hget1 : self2.eventTimes_[1]? = some e1 := by
        rw [hev2, List.getElem?_append_left (by omega), hev1, List.getElem?_drop, ← he1]
        congr 1
        omega
      have h0 := (lower_bound_spec hs2.sorted lowerBoundTime hget0).mp hglt
      have h1n := (lower_bound_spec hs2.sorted lowerBoundTime hget1).not.mp (not_lt.mpr he1ge)
      refine ⟨by omega, ?_⟩
      have hself1 := rewindTruncate_of_pos h1 hpos
      have hmodes1 : self1.subsystemsSequence_ = E.STANCE ::
          self.subsystemsSequence_.drop
            (lower_bound self.eventTimes_ lowerBoundTime - 1 + 1) := by
        rw [hself1]
      have hrest : self.subsystemsSequence_.drop
          (lower_bound self.eventTimes_ lowerBoundTime - 1 + 1) ≠ [] := by
        intro hc
        have := congrArg List.length hc
        unfold LengthInvariant at hinv
        simp only [List.length_drop, List.length_nil] at this
        omega
      rw [hmodes2, hmodes1]
      rcases hd : self.subsystemsSequence_.drop
          (lower_bound self.eventTimes_ lowerBoundTime - 1 + 1) with _ | ⟨a, l⟩
      · exact absurd hd hrest
      · rfl
  have hfix := rewind_fixed E n (update E self2) lowerBoundTime upperBoundTime b hinv2 hs2
    (by show self2.modeSequenceTemplate_.templateSubsystemsSequence_ ≠ []
        rw [htmpl2]; exact hne1)
    (by show WellFormedTemplate self2.modeSequenceTemplate_
        rw [htmpl2]; exact hwf)
    hb hfb hlb hlen2 hm (update_update E self2) hidx
  exact ⟨update E self2, hfix, rfl, rfl, rfl⟩

theorem rewind_exampleHistoryInserted :
    rewind exampleCollaborators 3 exampleHistoryInserted 0 1 =
      some (.returned exampleInserted) := by
  norm_num [rewind, rewindTruncate, lower_bound, lowerBoundLoop,
    exampleTemplate, exampleInserted, exampleHistoryInserted, tileModeSequenceTemplate,
    tileWhileLoop, tileForLoop, update, resize, exampleCollaborators, List.replicate]
  rfl

theorem rewind_idempotent_exact_example :
    ∃ r2, rewind exampleCollaborators 3 exampleInserted 0 1 = some (.returned r2) ∧
      r2.eventTimes_ = exampleInserted.eventTimes_ ∧
      r2.subsystemsSequence_ = exampleInserted.subsystemsSequence_ ∧ r2 = exampleInserted :=
  rewind_idempotent_exact exampleCollaborators 3 exampleHistoryInserted exampleInserted 0 1
    (by decide) (by norm_num [StrictlyIncreasing, exampleHistoryInserted]) (by decide)
    strictlyIncreasing_exampleTemplate rewind_exampleHistoryInserted


/-! ### The object after a failed insertion -/

theorem tileModeSequenceTemplate_templateSizeMismatch {F : Type} (E : Collaborators F)
    (fuel : Nat) (self : SwitchedModelLogicRulesBase F) (tmpl : logic_template_type)
    (startTime finalTime : scalar_t) (hne : tmpl.templateSubsystemsSequence_ ≠ [])
    (hsize : tmpl.templateSwitchingTimes_.length ≠ tmpl.templateSubsystemsSequence_.length + 1) :
    tileModeSequenceTemplate E fuel self tmpl startTime finalTime =
      some (.raised .templateSizeMismatch) := by
  have h0 : tmpl.templateSubsystemsSequence_.length ≠ 0 :=
    fun hc => hne (List.length_eq_zero.mp hc)
  unfold tileModeSequenceTemplate
  simp [h0, hsize]

theorem insertTransition_stocks {F : Type} (E : Collaborators F)
    (self : SwitchedModelLogicRulesBase F) (startTime : scalar_t) :
    (insertTransition E self startTime).contactFlagsStock_ = self.contactFlagsStock_ ∧
      (insertTransition E self startTime).subsystemsSequence_.length ≤
        self.subsystemsSequence_.length + 1 := by
  unfold insertTransition
  split_ifs
  · exact ⟨rfl, by simp⟩
  · exact ⟨rfl, by omega⟩

/-- C28. The malformed-template error of `insertModeSequenceTemplate` is not atomic. For a valid
timeline whose contact-flag list has one entry per mode and which contains an event time
`>= startTime`, and a non-empty template whose number of switching times is not its number of
modes plus one, the call raises the template-size error after the event times `>= startTime` and
their modes were erased (and the transition phase possibly pushed); `update()` has not run, so
the contact-flag list is the old one. Its length differs from that of the mode sequence whenever
no transition phase was pushed or more than one event time was erased. -/
theorem C28_insert_error_not_atomic {F : Type} (E : Collaborators F) (fuel : Nat)
    (self : SwitchedModelLogicRulesBase F) (tmpl : logic_template_type)
    (startTime finalTime : scalar_t)
    (hinv : LengthInvariant self) (hs : StrictlyIncreasing self.eventTimes_)
    (hflags : self.contactFlagsStock_.length = self.subsystemsSequence_.length)
    (hge : ∃ t ∈ self.eventTimes_, startTime ≤ t)
    (hne : tmpl.templateSubsystemsSequence_ ≠ [])
    (hsize : tmpl.templateSwitchingTimes_.length ≠ tmpl.templateSubsystemsSequence_.length + 1) :
    insertModeSequenceTemplate E fuel self tmpl startTime finalTime =
      some (.raised .templateSizeMismatch) ∧
    ∃ self1, insertTruncate self startTime = .returned self1 ∧
      self1.eventTimes_ = self.eventTimes_.filter (fun t => t < startTime) ∧
      self1.subsystemsSequence_ =
        self.subsystemsSequence_.take (self1.eventTimes_.length + 1) ∧
      self1.eventTimes_.length < self.eventTimes_.length ∧
      insertModeSequenceTemplateObject E fuel self tmpl startTime finalTime =
        some (insertTransition E self1 startTime) ∧
      (insertTransition E self1 startTime).contactFlagsStock_ = self.contactFlagsStock_ ∧
      ((insertTransition E self1 startTime = self1 ∨
          self1.eventTimes_.length + 1 < self.eventTimes_.length) →
        (insertTransition E self1 startTime).contactFlagsStock_.length ≠
          (insertTransition E self1 startTime).subsystemsSequence_.length) := by
  obtain ⟨self1, h1⟩ := insertTruncate_of_lengthInvariant self startTime hinv
  have hidx := lower_bound_lt_length hs.sorted hge
  have hev := insertTruncate_eventTimes h1 hs.sorted
  have htile := tileModeSequenceTemplate_templateSizeMismatch E fuel
    (insertTransition E self1 startTime) tmpl (startTime + transitionStanceTime E self1)
    finalTime hne hsize
  have hshape : self1.eventTimes_ =
        self.eventTimes_.take (lower_bound self.eventTimes_ startTime) ∧
      self1.subsystemsSequence_ =
        self.subsystemsSequence_.take (lower_bound self.eventTimes_ startTime + 1) := by
    rcases insertTruncate_returned h1 with ⟨hle, _⟩ | ⟨_, _, rfl⟩
    · omega
    · exact ⟨rfl, rfl⟩
  have hlen1 : self1.eventTimes_.length = lower_bound self.eventTimes_ startTime := by
    rw [hshape.1, List.length_take]
    omega
  unfold LengthInvariant at hinv
  have hmlen1 : self1.subsystemsSequence_.length = lower_bound self.eventTimes_ startTime + 1 := by
    rw [hshape.2, List.length_take]
    omega
  obtain ⟨hstock, hmle⟩ := insertTransition_stocks E self1 startTime
  refine ⟨?_, self1, h1, hev, ?_, by omega, ?_, ?_, ?_⟩
  · rw [insertModeSequenceTemplate_eq_map E fuel tmpl startTime finalTime h1, htile]
    rfl
  · rw [hlen1]
    exact hshape.2
  · unfold insertModeSequenceTemplateObject
    rw [h1]
    simp only [htile]
  · rw [hstock]
    rcases insertTruncate_returned h1 with ⟨hle, _⟩ | ⟨_, _, rfl⟩
    · omega
    · rfl
  · intro hcase
    rw [hstock]
    have hflags1 : self1.contactFlagsStock_ = self.contactFlagsStock_ := by
      rcases insertTruncate_returned h1 with ⟨hle, _⟩ | ⟨_, _, rfl⟩
      · omega
      · rfl
    rw [hflags1, hflags]
    rcases hcase with hsame | hmore
    · rw [hsame]
      omega
    · omega

theorem insertObject_exampleInserted :
    insertModeSequenceTemplateObject exampleCollaborators 3 exampleInserted
        exampleMalformedTemplate (1 / 5) 1 =
      some { exampleInserted with
        eventTimes_ := [-1, 0]
        subsystemsSequence_ := [15, 15, 15] } := by
  norm_num [insertModeSequenceTemplateObject, insertTruncate, lower_bound, lowerBoundLoop,
    exampleInserted, exampleMalformedTemplate, insertTransition, transitionStanceTime,
    tileModeSequenceTemplate, exampleCollaborators]

theorem C28_insert_error_not_atomic_witness :
    (insertModeSequenceTemplate exampleCollaborators 3 exampleInserted exampleMalformedTemplate
        (1 / 5) 1 = some (.raised .templateSizeMismatch) ∧
    ∃ self1, insertTruncate exampleInserted (1 / 5) = .returned self1 ∧
      self1.eventTimes_ = exampleInserted.eventTimes_.filter (fun t => t < 1 / 5) ∧
      self1.subsystemsSequence_ =
        exampleInserted.subsystemsSequence_.take (self1.eventTimes_.length + 1) ∧
      self1.eventTimes_.length < exampleInserted.eventTimes_.length ∧
      insertModeSequenceTemplateObject exampleCollaborators 3 exampleInserted
          exampleMalformedTemplate (1 / 5) 1 =
        some (insertTransition exampleCollaborators self1 (1 / 5)) ∧
      (insertTransition exampleCollaborators self1 (1 / 5)).contactFlagsStock_ =
        exampleInserted.contactFlagsStock_ ∧
      ((insertTransition exampleCollaborators self1 (1 / 5) = self1 ∨
          self1.eventTimes_.length + 1 < exampleInserted.eventTimes_.length) →
        (insertTransition exampleCollaborators self1 (1 / 5)).contactFlagsStock_.length ≠
          (insertTransition exampleCollaborators self1 (1 / 5)).subsystemsSequence_.length)) ∧
    insertModeSequenceTemplateObject exampleCollaborators 3 exampleInserted
        exampleMalformedTemplate (1 / 5) 1 =
      some { exampleInserted with
        eventTimes_ := [-1, 0]
        subsystemsSequence_ := [15, 15, 15] } ∧
    exampleInserted.contactFlagsStock_.length = 7 :=
  ⟨C28_insert_error_not_atomic exampleCollaborators 3 exampleInserted exampleMalformedTemplate
      (1 / 5) 1 (by decide) strictlyIncreasing_exampleInserted (by decide)
      ⟨1 / 5, by simp [exampleInserted], le_refl _⟩ (by decide) (by decide),
    insertObject_exampleInserted, rfl⟩


/-! ### Rewinding without a template -/

theorem rewind_of_empty_template {F : Type} (E : Collaborators F)
    (self : SwitchedModelLogicRulesBase F) (lowerBoundTime : scalar_t)
    (hinv : LengthInvariant self)
    (hempty : self.modeSequenceTemplate_.templateSubsystemsSequence_ = [])
    (hnonempty : self.eventTimes_ ≠ []) :
    ∃ self1, rewindTruncate E self lowerBoundTime = .returned self1 ∧
      self1.eventTimes_ ≠ [] ∧ self1.subsystemsSequence_ ≠ [] ∧
      ∀ fuel upperBoundTime, rewind E fuel self lowerBoundTime upperBoundTime =
        some (.returned (update E
          { self1 with
            eventTimes_ := self1.eventTimes_.dropLast
            subsystemsSequence_ := self1.subsystemsSequence_.dropLast })) := by
  obtain ⟨self1, h1⟩ := rewindTruncate_of_lengthInvariant E self lowerBoundTime hinv
  have hev := rewindTruncate_eventTimes h1
  have htmpl := rewindTruncate_template h1
  have hinv1 := lengthInvariant_rewindTruncate h1 hinv
  have hle := lower_bound_le_length self.eventTimes_ lowerBoundTime
  have hpos : 0 < self.eventTimes_.length := List.length_pos.mpr hnonempty
  have hlen1 : 0 < self1.eventTimes_.length := by
    rw [hev, List.length_drop]
    omega
  have hm1 : self1.subsystemsSequence_ ≠ [] := by
    intro hc
    unfold LengthInvariant at hinv1
    rw [hc] at hinv1
    simp at hinv1
  have hev1 : self1.eventTimes_ ≠ [] := List.length_pos.mp hlen1
  refine ⟨self1, h1, hev1, hm1, fun fuel upperBoundTime => ?_⟩
  obtain ⟨t, ht⟩ : ∃ t, self1.eventTimes_.getLast? = some t := by
    rcases hl : self1.eventTimes_.getLast? with _ | t
    · exact absurd (List.getLast?_eq_none_iff.mp hl) hev1
    · exact ⟨t, rfl⟩
  rw [rewind_eq_map E fuel lowerBoundTime upperBoundTime h1 ht hm1]
  have htile : tileModeSequenceTemplate E fuel
      { self1 with
        eventTimes_ := self1.eventTimes_.dropLast
        subsystemsSequence_ := self1.subsystemsSequence_.dropLast }
      self1.modeSequenceTemplate_ t upperBoundTime =
      some (.returned
        { self1 with
          eventTimes_ := self1.eventTimes_.dropLast
          subsystemsSequence_ := self1.subsystemsSequence_.dropLast }) := by
    unfold tileModeSequenceTemplate
    simp [htmpl, hempty]
  rw [htile]
  rfl

/-- C30, counterexample. On the valid timeline with the modes `[7, 15]`, the single event `1`
and no template, `rewind(5, 10)` returns the timeline with the single mode `STANCE` and no event:
its last mode is the `STANCE` forced onto the kept phase, not the former second-to-last
mode `7`. -/
theorem C30_counterexample :
    LengthInvariant exampleSwingNoTemplate ∧
      StrictlyIncreasing exampleSwingNoTemplate.eventTimes_ ∧
      exampleSwingNoTemplate.modeSequenceTemplate_.templateSubsystemsSequence_ = [] ∧
      exampleSwingNoTemplate.subsystemsSequence_.dropLast.getLast? = some 7 ∧
      rewind exampleCollaborators 3 exampleSwingNoTemplate 5 10 =
        some (.returned exampleNoTemplateRewound) ∧
      exampleNoTemplateRewound.subsystemsSequence_.getLast? =
        some exampleCollaborators.STANCE ∧
      exampleNoTemplateRewound.subsystemsSequence_.getLast? ≠
        exampleSwingNoTemplate.subsystemsSequence_.dropLast.getLast? := by
  refine ⟨by decide, by simp [StrictlyIncreasing, exampleSwingNoTemplate, mkRules], rfl, rfl,
    ?_, rfl, by decide⟩
  norm_num [rewind, rewindTruncate, lower_bound, lowerBoundLoop, exampleSwingNoTemplate, mkRules,
    emptyTemplate, exampleNoTemplateRewound, tileModeSequenceTemplate,
    update, resize, exampleCollaborators, List.replicate]
  intro hc
  cases hc

/-- C30, amended. When the last-known template is empty, `rewind(lowerBound, upperBound)` on a
valid timeline with at least one event returns, whatever `upperBound` is, the timeline `self1`
left by the truncation step (the events from the last one before `lowerBound` on, the kept phase
forced to `STANCE`) without its last event time and without its last mode: nothing is added back
and no terminal `STANCE` is appended. When some event time is `>= lowerBound` the last mode is
the former second-to-last mode; when every event time is below `lowerBound` no event time is
left and the only mode left is the `STANCE` forced onto the kept phase. -/
theorem C30_rewind_empty_template {F : Type} (E : Collaborators F)
    (self : SwitchedModelLogicRulesBase F) (lowerBoundTime : scalar_t)
    (hinv : LengthInvariant self) (hs : StrictlyIncreasing self.eventTimes_)
    (hempty : self.modeSequenceTemplate_.templateSubsystemsSequence_ = [])
    (hnonempty : self.eventTimes_ ≠ []) :
    ∃ self1 r, rewindTruncate E self lowerBoundTime = .returned self1 ∧
      (∀ fuel upperBoundTime,
        rewind E fuel self lowerBoundTime upperBoundTime = some (.returned r)) ∧
      self1.eventTimes_ =
        self.eventTimes_.drop (lower_bound self.eventTimes_ lowerBoundTime - 1) ∧
      r.eventTimes_ = self1.eventTimes_.dropLast ∧
      r.subsystemsSequence_ = self1.subsystemsSequence_.dropLast ∧
      r.eventTimes_.length + 1 = self1.eventTimes_.length ∧
      r.subsystemsSequence_.length + 1 = self1.subsystemsSequence_.length ∧
      ((∃ t ∈ self.eventTimes_, lowerBoundTime ≤ t) →
        r.subsystemsSequence_.getLast? = self.subsystemsSequence_.dropLast.getLast?) ∧
      ((∀ t ∈ self.eventTimes_, t < lowerBoundTime) →
        r.eventTimes_ = [] ∧ r.subsystemsSequence_ = [E.STANCE]) := by
  obtain ⟨self1, h1, hev1, hm1, hrew⟩ :=
    rewind_of_empty_template E self lowerBoundTime hinv hempty hnonempty
  have hev := rewindTruncate_eventTimes h1
  have hle := lower_bound_le_length self.eventTimes_ lowerBoundTime
  have hpos : 0 < self.eventTimes_.length := List.length_pos.mpr hnonempty
  have hl1 : 0 < self1.eventTimes_.length := List.length_pos.mpr hev1
  have hl2 : 0 < self1.subsystemsSequence_.length := List.length_pos.mpr hm1
  unfold LengthInvariant at hinv
  refine ⟨self1, _, h1, hrew, hev, rfl, rfl, ?_, ?_, ?_, ?_⟩
  · show self1.eventTimes_.dropLast.length + 1 = self1.eventTimes_.length
    rw [List.length_dropLast]
    omega
  · show self1.subsystemsSequence_.dropLast.length + 1 = self1.subsystemsSequence_.length
    rw [List.length_dropLast]
    omega
  · intro hge
    have hidx := lower_bound_lt_length hs.sorted hge
    show self1.subsystemsSequence_.dropLast.getLast? = self.subsystemsSequence_.dropLast.getLast?
    rcases rewindTruncate_returned h1 with ⟨_, rfl⟩ | ⟨hp, _⟩
    · rfl
    · rw [rewindTruncate_of_pos h1 hp]
      show (E.STANCE :: self.subsystemsSequence_.drop
        (lower_bound self.eventTimes_ lowerBoundTime - 1 + 1)).dropLast.getLast? = _
      rw [List.getLast?_eq_getElem?, List.getLast?_eq_getElem?, List.dropLast_eq_take,
        List.dropLast_eq_take, List.getElem?_take, List.getElem?_take]
      simp only [List.length_take, List.length_cons, List.length_drop]
      rw [if_pos (by omega), if_pos (by omega)]
      have e1 : min (self.subsystemsSequence_.length -
          (lower_bound self.eventTimes_ lowerBoundTime - 1 + 1) + 1 - 1)
          (self.subsystemsSequence_.length -
            (lower_bound self.eventTimes_ lowerBoundTime - 1 + 1) + 1) - 1 =
          (self.subsystemsSequence_.length - 2 -
            (lower_bound self.eventTimes_ lowerBoundTime - 1 + 1)) + 1 := by
        omega
      rw [e1, List.getElem?_cons_succ, List.getElem?_drop]
      congr 1
      omega
  · intro hall
    have hidx := lower_bound_of_forall_lt _ _ hall
    have hp : 0 < lower_bound self.eventTimes_ lowerBoundTime := by omega
    have hself1 := rewindTruncate_of_pos h1 hp
    constructor
    · show self1.eventTimes_.dropLast = []
      apply List.length_eq_zero.mp
      rw [List.length_dropLast, hev, List.length_drop]
      omega
    · show self1.subsystemsSequence_.dropLast = [E.STANCE]
      rw [hself1]
      show (E.STANCE :: self.subsystemsSequence_.drop
        (lower_bound self.eventTimes_ lowerBoundTime - 1 + 1)).dropLast = [E.STANCE]
      have hone : (self.subsystemsSequence_.drop
          (lower_bound self.eventTimes_ lowerBoundTime - 1 + 1)).length = 1 := by
        rw [List.length_drop]
        omega
      obtain ⟨m, hm⟩ := List.length_eq_one.mp hone
      rw [hm]
      rfl

theorem C30_rewind_empty_template_witness :
    ∃ self1 r, rewindTruncate exampleCollaborators exampleGaitNoTemplate (3 / 2) =
        .returned self1 ∧
      (∀ fuel upperBoundTime,
        rewind exampleCollaborators fuel exampleGaitNoTemplate (3 / 2) upperBoundTime =
          some (.returned r)) ∧
      self1.eventTimes_ = exampleGaitNoTemplate.eventTimes_.drop
        (lower_bound exampleGaitNoTemplate.eventTimes_ (3 / 2) - 1) ∧
      r.eventTimes_ = self1.eventTimes_.dropLast ∧
      r.subsystemsSequence_ = self1.subsystemsSequence_.dropLast ∧
      r.eventTimes_.length + 1 = self1.eventTimes_.length ∧
      r.subsystemsSequence_.length + 1 = self1.subsystemsSequence_.length ∧
      ((∃ t ∈ exampleGaitNoTemplate.eventTimes_, (3 / 2 : scalar_t) ≤ t) →
        r.subsystemsSequence_.getLast? =
          exampleGaitNoTemplate.subsystemsSequence_.dropLast.getLast?) ∧
      ((∀ t ∈ exampleGaitNoTemplate.eventTimes_, t < (3 / 2 : scalar_t)) →
        r.eventTimes_ = [] ∧ r.subsystemsSequence_ = [exampleCollaborators.STANCE]) :=
  C30_rewind_empty_template exampleCollaborators exampleGaitNoTemplate (3 / 2) (by decide)
    (by norm_num [StrictlyIncreasing, exampleGaitNoTemplate, mkRules]) rfl (by decide)

theorem rewind_exampleGaitNoTemplate :
    rewind exampleCollaborators 1 exampleGaitNoTemplate (3 / 2) 10 =
      some (.returned (update exampleCollaborators
        (mkRules [15, 3] [1] emptyTemplate (2 / 5)))) := by
  norm_num [rewind, rewindTruncate, lower_bound, lowerBoundLoop, exampleGaitNoTemplate, mkRules,
    emptyTemplate, tileModeSequenceTemplate, exampleCollaborators]
  intro hc
  cases hc


/-! ### The rounding of binary64 arithmetic -/

theorem roundHalfEven_floor (y : ℚ) :
    roundHalfEven y = ⌊y⌋ ∨ roundHalfEven y = ⌊y⌋ + 1 := by
  unfold roundHalfEven
  split_ifs <;> simp

theorem roundHalfEven_intCast (n : ℤ) : roundHalfEven (n : ℚ) = n := by
  unfold roundHalfEven
  simp

theorem roundHalfEven_mono {y z : ℚ} (h : y ≤ z) : roundHalfEven y ≤ roundHalfEven z := by
  have hfl : ⌊y⌋ ≤ ⌊z⌋ := Int.floor_mono h
  rcases lt_or_eq_of_le hfl with hlt | heq
  · rcases roundHalfEven_floor y with h1 | h1 <;> rcases roundHalfEven_floor z with h2 | h2 <;>
      omega
  · unfold roundHalfEven
    rw [← heq]
    have hcast : ((⌊y⌋ : ℤ) : ℚ) = ((⌊z⌋ : ℤ) : ℚ) := by rw [heq]
    split_ifs <;> first | omega | (exfalso; linarith)

theorem roundHalfEven_eq {y : ℚ} {m : ℤ}
    (h : |y - m| < 1 / 2 ∨ (|y - m| = 1 / 2 ∧ m % 2 = 0)) : roundHalfEven y = m := by
  rcases h with h | ⟨h, hm⟩
  · rw [abs_lt] at h
    by_cases hc : (m : ℚ) ≤ y
    · have hf : ⌊y⌋ = m := Int.floor_eq_iff.mpr ⟨hc, by linarith⟩
      unfold roundHalfEven
      rw [hf, if_pos (by linarith)]
    · have hf : ⌊y⌋ = m - 1 := Int.floor_eq_iff.mpr ⟨by push_cast; linarith, by push_cast; linarith⟩
      unfold roundHalfEven
      rw [hf, if_neg (by push_cast; linarith), if_pos (by push_cast; linarith)]
      ring
  · rcases abs_eq (by norm_num : (0 : ℚ) ≤ 1 / 2) |>.mp h with h1 | h1
    · have hf : ⌊y⌋ = m := Int.floor_eq_iff.mpr ⟨by linarith, by linarith⟩
      unfold roundHalfEven
      rw [hf, if_neg (by linarith), if_neg (by linarith), if_pos hm]
    · have hf : ⌊y⌋ = m - 1 := Int.floor_eq_iff.mpr ⟨by push_cast; linarith, by push_cast; linarith⟩
      unfold roundHalfEven
      rw [hf, if_neg (by push_cast; linarith), if_neg (by push_cast; linarith),
        if_neg (by omega)]
      ring

theorem ulpExponent_eq {x : ℚ} {e : ℤ} (hx : 0 < x) (he : -1074 ≤ e)
    (hhi : x < 2 ^ (e + 53)) (hlo : e = -1074 ∨ (2 : ℚ) ^ (e + 52) ≤ x) :
    ulpExponent x = e := by
  have h2 : (1 : ℕ) < 2 := by norm_num
  have hlog : Int.log 2 x < e + 53 := by
    have := (Int.lt_zpow_iff_log_lt h2 hx).mp (by simpa using hhi)
    exact this
  unfold ulpExponent
  rcases hlo with rfl | hlo
  · rw [max_eq_right (by omega)]
    norm_num
  · have hle : e + 52 ≤ Int.log 2 x := (Int.zpow_le_iff_le_log h2 hx).mp (by simpa using hlo)
    rw [max_eq_left (by omega)]
    omega

theorem ulpExponent_spec {x : ℚ} (hx : 0 < x) :
    -1074 ≤ ulpExponent x ∧ x < 2 ^ (ulpExponent x + 53) ∧
      (ulpExponent x = -1074 ∨ (2 : ℚ) ^ (ulpExponent x + 52) ≤ x) := by
  have h2 : (1 : ℕ) < 2 := by norm_num
  have h1 : (2 : ℚ) ^ Int.log 2 x ≤ x := by simpa using Int.zpow_log_le_self h2 hx
  have h3 : x < (2 : ℚ) ^ (Int.log 2 x + 1) := by simpa using Int.lt_zpow_succ_log_self h2 x
  unfold ulpExponent
  rcases le_total (Int.log 2 x) (-1022) with h | h
  · rw [max_eq_right h]
    refine ⟨by norm_num, ?_, Or.inl (by norm_num)⟩
    exact lt_of_lt_of_le h3 (zpow_le_zpow_right₀ (by norm_num) (by omega))
  · rw [max_eq_left h]
    refine ⟨by omega, ?_, Or.inr ?_⟩
    · rw [show Int.log 2 x - 52 + 53 = Int.log 2 x + 1 by ring]
      exact h3
    · rw [show Int.log 2 x - 52 + 52 = Int.log 2 x by ring]
      exact h1

theorem roundMagnitude_zero : roundMagnitude 0 = 0 := by
  unfold roundMagnitude
  rw [zero_div, show (0 : ℚ) = ((0 : ℤ) : ℚ) by norm_num, roundHalfEven_intCast]
  simp

theorem roundMagnitude_eq {x : ℚ} {e m : ℤ} (hx : 0 < x) (he : -1074 ≤ e)
    (hhi : x < 2 ^ (e + 53)) (hlo : e = -1074 ∨ (2 : ℚ) ^ (e + 52) ≤ x)
    (hnear : |x / 2 ^ e - m| < 1 / 2 ∨ (|x / 2 ^ e - m| = 1 / 2 ∧ m % 2 = 0)) :
    roundMagnitude x = m * 2 ^ e := by
  unfold roundMagnitude
  rw [ulpExponent_eq hx he hhi hlo, roundHalfEven_eq hnear]

theorem roundMagnitude_bounds {x : ℚ} (hx : 0 < x) :
    0 ≤ roundHalfEven (x / 2 ^ ulpExponent x) ∧
      roundHalfEven (x / 2 ^ ulpExponent x) ≤ 2 ^ 53 ∧
      (ulpExponent x = -1074 ∨ 2 ^ 52 ≤ roundHalfEven (x / 2 ^ ulpExponent x)) := by
  obtain ⟨_, hhi, hlo⟩ := ulpExponent_spec hx
  have hq : (0 : ℚ) < 2 ^ ulpExponent x := zpow_pos (by norm_num) _
  refine ⟨?_, ?_, ?_⟩
  · have := roundHalfEven_mono (le_of_lt (div_pos hx hq))
    rwa [show (0 : ℚ) = ((0 : ℤ) : ℚ) by norm_num, roundHalfEven_intCast] at this
  · have hle : x / 2 ^ ulpExponent x ≤ (((2 : ℤ) ^ 53 : ℤ) : ℚ) := by
      rw [div_le_iff₀ hq]
      push_cast
      rw [zpow_add₀ (by norm_num : (2 : ℚ) ≠ 0)] at hhi
      have : (2 : ℚ) ^ (53 : ℤ) = 2 ^ 53 := by norm_cast
      rw [this] at hhi
      linarith
    have := roundHalfEven_mono hle
    rwa [roundHalfEven_intCast] at this
  · rcases hlo with h | h
    · exact Or.inl h
    · right
      have hle : (((2 : ℤ) ^ 52 : ℤ) : ℚ) ≤ x / 2 ^ ulpExponent x := by
        rw [le_div_iff₀ hq]
        push_cast
        rw [zpow_add₀ (by norm_num : (2 : ℚ) ≠ 0)] at h
        have : (2 : ℚ) ^ (52 : ℤ) = 2 ^ 52 := by norm_cast
        rw [this] at h
        linarith
      have := roundHalfEven_mono hle
      rwa [roundHalfEven_intCast] at this

theorem roundMagnitude_nonneg {x : ℚ} (hx : 0 ≤ x) : 0 ≤ roundMagnitude x := by
  rcases eq_or_lt_of_le hx with rfl | hpos
  · rw [roundMagnitude_zero]
  · unfold roundMagnitude
    have h := (roundMagnitude_bounds hpos).1
    have hq : (0 : ℚ) < 2 ^ ulpExponent x := zpow_pos (by norm_num) _
    exact mul_nonneg (by exact_mod_cast h) (le_of_lt hq)

theorem ulpExponent_mono {x y : ℚ} (hx : 0 < x) (h : x ≤ y) : ulpExponent x ≤ ulpExponent y := by
  unfold ulpExponent
  have : Int.log 2 x ≤ Int.log 2 y := Int.log_mono_right hx h
  omega

theorem roundMagnitude_mono {x y : ℚ} (hx : 0 ≤ x) (h : x ≤ y) :
    roundMagnitude x ≤ roundMagnitude y := by
  rcases eq_or_lt_of_le hx with rfl | hpos
  · rw [roundMagnitude_zero]
    exact roundMagnitude_nonneg h
  have hy : 0 < y := lt_of_lt_of_le hpos h
  have hexp := ulpExponent_mono hpos h
  rcases eq_or_lt_of_le hexp with heq | hlt
  · unfold roundMagnitude
    rw [← heq]
    have hq : (0 : ℚ) < 2 ^ ulpExponent x := zpow_pos (by norm_num) _
    have hdiv : x / 2 ^ ulpExponent x ≤ y / 2 ^ ulpExponent x :=
      div_le_div_of_nonneg_right h (le_of_lt hq)
    have := roundHalfEven_mono hdiv
    exact mul_le_mul_of_nonneg_right (by exact_mod_cast this) (le_of_lt hq)
  · obtain ⟨_, hx2, _⟩ := roundMagnitude_bounds hpos
    obtain ⟨_, _, hy3⟩ := roundMagnitude_bounds hy
    obtain ⟨hxe, _, _⟩ := ulpExponent_spec hpos
    have hy52 : 2 ^ 52 ≤ roundHalfEven (y / 2 ^ ulpExponent y) := by
      rcases hy3 with h0 | h0
      · omega
      · exact h0
    have hqx : (0 : ℚ) < 2 ^ ulpExponent x := zpow_pos (by norm_num) _
    have hqy : (0 : ℚ) < 2 ^ ulpExponent y := zpow_pos (by norm_num) _
    unfold roundMagnitude
    calc (roundHalfEven (x / 2 ^ ulpExponent x) : ℚ) * 2 ^ ulpExponent x
        ≤ (2 : ℚ) ^ (53 : ℤ) * 2 ^ ulpExponent x := by
          apply mul_le_mul_of_nonneg_right _ (le_of_lt hqx)
          have : (2 : ℚ) ^ (53 : ℤ) = ((2 ^ 53 : ℤ) : ℚ) := by norm_cast
          rw [this]
          exact_mod_cast hx2
      _ = (2 : ℚ) ^ (ulpExponent x + 1 + 52) := by
          rw [← zpow_add₀ (by norm_num : (2 : ℚ) ≠ 0)]
          congr 1
          ring
      _ ≤ (2 : ℚ) ^ (ulpExponent y + 52) :=
          zpow_le_zpow_right₀ (by norm_num) (by omega)
      _ = (2 : ℚ) ^ (52 : ℤ) * 2 ^ ulpExponent y := by
          rw [← zpow_add₀ (by norm_num : (2 : ℚ) ≠ 0)]
          congr 1
          ring
      _ ≤ (roundHalfEven (y / 2 ^ ulpExponent y) : ℚ) * 2 ^ ulpExponent y := by
          apply mul_le_mul_of_nonneg_right _ (le_of_lt hqy)
          have : (2 : ℚ) ^ (52 : ℤ) = ((2 ^ 52 : ℤ) : ℚ) := by norm_cast
          rw [this]
          exact_mod_cast hy52

theorem roundMagnitude_idem {x : ℚ} (hx : 0 ≤ x) :
    roundMagnitude (roundMagnitude x) = roundMagnitude x := by
  rcases eq_or_lt_of_le hx with rfl | hpos
  · rw [roundMagnitude_zero, roundMagnitude_zero]
  obtain ⟨hm0, hm53, hm52⟩ := roundMagnitude_bounds hpos
  obtain ⟨he, _, _⟩ := ulpExponent_spec hpos
  have hq : (0 : ℚ) < 2 ^ ulpExponent x := zpow_pos (by norm_num) _
  have hr : roundMagnitude x = (roundHalfEven (x / 2 ^ ulpExponent x) : ℚ) * 2 ^ ulpExponent x :=
    rfl
  rcases eq_or_lt_of_le hm0 with hzero | hmpos
  · rw [hr, ← hzero]
    simp [roundMagnitude_zero]
  have hrpos : 0 < roundMagnitude x := by
    rw [hr]
    exact mul_pos (by exact_mod_cast hmpos) hq
  rcases eq_or_lt_of_le hm53 with htop | hlt53
  · -- the rounding reached the next power of two
    have hval : roundMagnitude x = (2 : ℚ) ^ (ulpExponent x + 1 + 52) := by
      rw [hr, htop]
      have : (((2 : ℤ) ^ 53 : ℤ) : ℚ) = (2 : ℚ) ^ (53 : ℤ) := by norm_cast
      rw [this, ← zpow_add₀ (by norm_num : (2 : ℚ) ≠ 0)]
      congr 1
      ring
    have hres := @roundMagnitude_eq (roundMagnitude x) (ulpExponent x + 1) (2 ^ 52) hrpos
      (by omega)
      (by rw [hval]; exact zpow_lt_zpow_right₀ (by norm_num) (by omega))
      (Or.inr (le_of_eq hval.symm))
      (Or.inl (by
        rw [hval, show ulpExponent x + 1 + 52 = (52 : ℤ) + (ulpExponent x + 1) by ring,
          zpow_add₀ (by norm_num : (2 : ℚ) ≠ 0),
          mul_div_assoc, div_self (ne_of_gt (zpow_pos (by norm_num) _))]
        norm_num))
    have h52 : (((2 : ℤ) ^ 52 : ℤ) : ℚ) = (2 : ℚ) ^ (52 : ℤ) := by norm_cast
    rw [hres, hval, h52, ← zpow_add₀ (by norm_num : (2 : ℚ) ≠ 0)]
    congr 1
    ring
  · have hres := @roundMagnitude_eq (roundMagnitude x) (ulpExponent x)
      (roundHalfEven (x / 2 ^ ulpExponent x)) hrpos he
      (by
        rw [hr, zpow_add₀ (by norm_num : (2 : ℚ) ≠ 0), mul_comm ((2 : ℚ) ^ ulpExponent x)]
        apply mul_lt_mul_of_pos_right _ hq
        have : (2 : ℚ) ^ (53 : ℤ) = ((2 ^ 53 : ℤ) : ℚ) := by norm_cast
        rw [this]
        exact_mod_cast hlt53)
      (by
        rcases hm52 with h | h
        · exact Or.inl h
        · right
          rw [hr, zpow_add₀ (by norm_num : (2 : ℚ) ≠ 0), mul_comm ((2 : ℚ) ^ ulpExponent x)]
          apply mul_le_mul_of_nonneg_right _ (le_of_lt hq)
          have : (2 : ℚ) ^ (52 : ℤ) = ((2 ^ 52 : ℤ) : ℚ) := by norm_cast
          rw [this]
          exact_mod_cast h)
      (Or.inl (by
        rw [hr, mul_div_assoc, div_self (ne_of_gt hq), mul_one, sub_self, abs_zero]
        norm_num))
    rw [hres]
    rfl

theorem round64_of_nonneg {x : ℚ} (hx : 0 ≤ x) : round64 x = roundMagnitude x := by
  unfold round64
  rw [if_neg (not_lt.mpr hx)]

theorem round64_of_neg {x : ℚ} (hx : x < 0) : round64 x = -roundMagnitude (-x) := by
  unfold round64
  rw [if_pos hx]

theorem round64_zero : round64 0 = 0 := by
  rw [round64_of_nonneg (le_refl 0), roundMagnitude_zero]

theorem round64_mono : Monotone round64 := by
  intro x y h
  rcases lt_or_le x 0 with hx | hx
  · rcases lt_or_le y 0 with hy | hy
    · rw [round64_of_neg hx, round64_of_neg hy]
      exact neg_le_neg (roundMagnitude_mono (by linarith) (by linarith))
    · rw [round64_of_neg hx, round64_of_nonneg hy]
      have h1 : 0 ≤ roundMagnitude (-x) := roundMagnitude_nonneg (by linarith)
      have h2 := roundMagnitude_nonneg hy
      linarith
  · have hy : 0 ≤ y := le_trans hx h
    rw [round64_of_nonneg hx, round64_of_nonneg hy]
    exact roundMagnitude_mono hx h

theorem round64_idem (x : ℚ) : round64 (round64 x) = round64 x := by
  rcases lt_or_le x 0 with hx | hx
  · rw [round64_of_neg hx]
    have h1 : 0 ≤ roundMagnitude (-x) := roundMagnitude_nonneg (by linarith)
    rcases eq_or_lt_of_le h1 with h0 | hpos
    · rw [← h0, neg_zero, round64_zero]
    · rw [round64_of_neg (by linarith), neg_neg, roundMagnitude_idem (by linarith)]
  · rw [round64_of_nonneg hx, round64_of_nonneg (roundMagnitude_nonneg hx),
      roundMagnitude_idem hx]

theorem round64_eq {x : ℚ} {e m : ℤ} (hx : 0 < x) (he : -1074 ≤ e)
    (hhi : x < 2 ^ (e + 53)) (hlo : e = -1074 ∨ (2 : ℚ) ^ (e + 52) ≤ x)
    (hnear : |x / 2 ^ e - m| < 1 / 2 ∨ (|x / 2 ^ e - m| = 1 / 2 ∧ m % 2 = 0)) :
    round64 x = m * 2 ^ e := by
  rw [round64_of_nonneg (le_of_lt hx), roundMagnitude_eq hx he hhi hlo hnear]


theorem isRounding_round64 : IsRounding round64 :=
  ⟨round64_mono, round64_idem, round64_zero⟩

theorem isRounding_id : IsRounding (fun x => x) :=
  ⟨fun _ _ h => h, fun _ => rfl, rfl⟩

/-- An integer below `2 ^ 53` in magnitude times a power of two not below `2 ^ (-1074)` is a
binary64 number. -/
theorem round64_int_mul_zpow (n z : ℤ) (hn : |n| < 2 ^ 53) (hz : -1074 ≤ z) :
    round64 (n * 2 ^ z) = n * 2 ^ z := by
  have key : ∀ m : ℤ, 0 < m → m < 2 ^ 53 →
      roundMagnitude ((m : ℚ) * 2 ^ z) = (m : ℚ) * 2 ^ z := by
    intro m hm0 hm
    have hq : (0 : ℚ) < 2 ^ z := zpow_pos (by norm_num) _
    have hx : (0 : ℚ) < (m : ℚ) * 2 ^ z := mul_pos (by exact_mod_cast hm0) hq
    obtain ⟨he, hhi, hlo⟩ := ulpExponent_spec hx
    have hez : ulpExponent ((m : ℚ) * 2 ^ z) ≤ z := by
      rcases hlo with h | h
      · omega
      · by_contra hc
        have h1 : (2 : ℚ) ^ (z + 53) ≤ 2 ^ (ulpExponent ((m : ℚ) * 2 ^ z) + 52) :=
          zpow_le_zpow_right₀ (by norm_num) (by omega)
        have h2 : (m : ℚ) * 2 ^ z < 2 ^ (z + 53) := by
          rw [zpow_add₀ (by norm_num : (2 : ℚ) ≠ 0), mul_comm ((2 : ℚ) ^ z)]
          apply mul_lt_mul_of_pos_right _ hq
          have : (2 : ℚ) ^ (53 : ℤ) = ((2 ^ 53 : ℤ) : ℚ) := by norm_cast
          rw [this]
          exact_mod_cast hm
        linarith
    obtain ⟨d, hd⟩ : ∃ d : ℕ, z = ulpExponent ((m : ℚ) * 2 ^ z) + d :=
      ⟨(z - ulpExponent ((m : ℚ) * 2 ^ z)).toNat, by omega⟩
    have hdiv : (m : ℚ) * 2 ^ z / 2 ^ ulpExponent ((m : ℚ) * 2 ^ z) = ((m * 2 ^ d : ℤ) : ℚ) := by
      have hq2 : (0 : ℚ) < 2 ^ ulpExponent ((m : ℚ) * 2 ^ z) := zpow_pos (by norm_num) _
      rw [div_eq_iff (ne_of_gt hq2)]
      conv_lhs => rw [hd]
      rw [zpow_add₀ (by norm_num : (2 : ℚ) ≠ 0)]
      push_cast
      rw [zpow_natCast]
      ring
    unfold roundMagnitude
    rw [hdiv, roundHalfEven_intCast, ← hdiv,
      div_mul_cancel₀ _ (ne_of_gt (zpow_pos (by norm_num) _))]
  rcases lt_trichotomy n 0 with hneg | rfl | hpos
  · have hx : ((n : ℚ) * 2 ^ z) < 0 :=
      mul_neg_of_neg_of_pos (by exact_mod_cast hneg) (zpow_pos (by norm_num) _)
    rw [round64_of_neg hx]
    have := key (-n) (by omega) (by rw [abs_of_neg hneg] at hn; exact hn)
    push_cast at this
    rw [neg_mul] at this
    rw [this, neg_neg]
  · simp [round64_zero]
  · have hx : (0 : ℚ) ≤ (n : ℚ) * 2 ^ z :=
      le_of_lt (mul_pos (by exact_mod_cast hpos) (zpow_pos (by norm_num) _))
    rw [round64_of_nonneg hx]
    exact key n hpos (by rw [abs_of_pos hpos] at hn; exact hn)


/-! ### The rounded model

The member functions in floating-point arithmetic (`rounded.tileModeSequenceTemplate` and the
functions built on it) for an arbitrary rounding `fl`. With the identity as rounding they are the
functions of the exact model. -/

theorem rounded_tileForLoop_id {F : Type} (tmpl : logic_template_type) :
    ∀ (k i : Nat) (self : SwitchedModelLogicRulesBase F),
      rounded.tileForLoop (fun x => x) tmpl k i self = tileForLoop tmpl k i self := by
  intro k
  induction k with
  | zero => intro i self; rfl
  | succ k ih =>
    intro i self
    unfold rounded.tileForLoop tileForLoop
    split <;> simp_all

theorem rounded_tileWhileLoop_id {F : Type} (tmpl : logic_template_type) (finalTime : scalar_t) :
    ∀ (fuel : Nat) (self : SwitchedModelLogicRulesBase F),
      rounded.tileWhileLoop (fun x => x) tmpl finalTime fuel self =
        tileWhileLoop tmpl finalTime fuel self := by
  intro fuel
  induction fuel with
  | zero => intro self; rfl
  | succ fuel ih =>
    intro self
    unfold rounded.tileWhileLoop tileWhileLoop
    simp only [rounded_tileForLoop_id, ih]

theorem rounded_tileModeSequenceTemplate_id {F : Type} (E : Collaborators F) (fuel : Nat)
    (self : SwitchedModelLogicRulesBase F) (tmpl : logic_template_type)
    (startTime finalTime : scalar_t) :
    rounded.tileModeSequenceTemplate (fun x => x) E fuel self tmpl startTime finalTime =
      tileModeSequenceTemplate E fuel self tmpl startTime finalTime := by
  unfold rounded.tileModeSequenceTemplate tileModeSequenceTemplate
  simp only [rounded_tileWhileLoop_id]

theorem rounded_insertTransition_id {F : Type} (E : Collaborators F)
    (self : SwitchedModelLogicRulesBase F) (startTime : scalar_t) :
    rounded.insertTransition (fun x => x) E self startTime = insertTransition E self startTime :=
  rfl

theorem rounded_insertModeSequenceTemplate_id {F : Type} (E : Collaborators F) (fuel : Nat)
    (self : SwitchedModelLogicRulesBase F) (tmpl : logic_template_type)
    (startTime finalTime : scalar_t) :
    rounded.insertModeSequenceTemplate (fun x => x) E fuel self tmpl startTime finalTime =
      insertModeSequenceTemplate E fuel self tmpl startTime finalTime := by
  unfold rounded.insertModeSequenceTemplate insertModeSequenceTemplate
  simp only [rounded_tileModeSequenceTemplate_id, rounded_insertTransition_id]

theorem rounded_rewind_id {F : Type} (E : Collaborators F) (fuel : Nat)
    (self : SwitchedModelLogicRulesBase F) (lowerBoundTime upperBoundTime : scalar_t) :
    rounded.rewind (fun x => x) E fuel self lowerBoundTime upperBoundTime =
      rewind E fuel self lowerBoundTime upperBoundTime := by
  unfold rounded.rewind rewind
  simp only [rounded_tileModeSequenceTemplate_id]


theorem sortedRepresentable_push {fl : scalar_t → scalar_t} {ts : List scalar_t} {x : scalar_t}
    (h : SortedRepresentable fl ts) (hx : ∀ last, ts.getLast? = some last → last ≤ x)
    (hrep : fl x = x) : SortedRepresentable fl (ts ++ [x]) := by
  obtain ⟨hs, hr⟩ := h
  constructor
  · rw [← List.chain'_iff_pairwise] at *
    refine List.Chain'.append hs (List.chain'_singleton x) ?_
    intro a ha b hb
    simp only [List.head?_cons, Option.mem_def, Option.some.injEq] at hb
    subst hb
    exact hx a ha
  · intro t ht
    rcases List.mem_append.mp ht with h1 | h1
    · exact hr t h1
    · rw [List.mem_singleton.mp h1]
      exact hrep

theorem rounded_tileForLoop_returned {F : Type} (fl : scalar_t → scalar_t)
    (tmpl : logic_template_type) :
    ∀ (k i : Nat) (self self1 : SwitchedModelLogicRulesBase F),
      rounded.tileForLoop fl tmpl k i self = .returned self1 →
      ∃ ts, self1 = pushed self ((tmpl.templateSubsystemsSequence_.drop i).take k) ts ∧
        ts.length = k ∧
        (IsRounding fl → tmpl.templateSwitchingTimes_.Pairwise (fun a b => a ≤ b) →
          SortedRepresentable fl self.eventTimes_ →
            SortedRepresentable fl self1.eventTimes_) := by
  intro k
  induction k with
  | zero =>
    intro i self self1 h
    simp only [rounded.tileForLoop, Outcome.returned.injEq] at h
    subst h
    exact ⟨[], by simp [pushed], rfl, fun _ _ h => h⟩
  | succ k ih =>
    intro i self self1 h
    unfold rounded.tileForLoop at h
    split at h
    · rename_i mode t1 t0 last hm h1 h0 hlast
      obtain ⟨ts, hts, hlen, hchain⟩ := ih _ _ _ h
      refine ⟨fl (last + fl (t1 - t0)) :: ts, ?_, by simp [hlen], ?_⟩
      · rw [hts]
        have hi : i < tmpl.templateSubsystemsSequence_.length :=
          (List.getElem?_eq_some_iff.mp hm).1
        have hd : tmpl.templateSubsystemsSequence_.drop i =
            mode :: tmpl.templateSubsystemsSequence_.drop (i + 1) := by
          rw [List.drop_eq_getElem_cons hi]
          congr 1
          exact (List.getElem?_eq_some_iff.mp hm).2
        rw [hd]
        simp [pushed]
      · intro hfl hinc hself
        obtain ⟨hmono, hidem, hzero⟩ := hfl
        refine hchain ⟨hmono, hidem, hzero⟩ hinc (sortedRepresentable_push hself ?_ (hidem _))
        intro last1 hlast1
        rw [hlast] at hlast1
        cases hlast1
        have hle : t0 ≤ t1 := pairwise_getElem? hinc h0 h1 (Nat.lt_succ_self i)
        have hdelta : 0 ≤ fl (t1 - t0) := by
          have := hmono (show (0 : scalar_t) ≤ t1 - t0 by linarith)
          rwa [hzero] at this
        have hlastrep : fl last = last := hself.2 last (List.mem_of_getLast?_eq_some hlast)
        have := hmono (show last ≤ last + fl (t1 - t0) by linarith)
        rwa [hlastrep] at this
    · cases h

theorem rounded_tileWhileLoop_returned {F : Type} (fl : scalar_t → scalar_t)
    (tmpl : logic_template_type) (finalTime : scalar_t) :
    ∀ (fuel : Nat) (self self1 : SwitchedModelLogicRulesBase F),
      rounded.tileWhileLoop fl tmpl finalTime fuel self = some (.returned self1) →
      ∃ ms ts, self1 = pushed self ms ts ∧ ms.length = ts.length ∧
        (∃ b, self1.eventTimes_.getLast? = some b ∧ finalTime ≤ b) ∧
        (IsRounding fl → tmpl.templateSwitchingTimes_.Pairwise (fun a b => a ≤ b) →
          SortedRepresentable fl self.eventTimes_ →
            SortedRepresentable fl self1.eventTimes_) := by
  intro fuel
  induction fuel with
  | zero => intro self self1 h; simp [rounded.tileWhileLoop] at h
  | succ n ih =>
    intro self self1 h
    unfold rounded.tileWhileLoop at h
    split at h
    · cases h
    · rename_i last hlast
      split_ifs at h with hlt
      · split at h
        · rename_i self2 hfor
          obtain ⟨ts, hts, hlen, hchain⟩ := rounded_tileForLoop_returned fl tmpl _ _ _ _ hfor
          obtain ⟨ms1, ts1, h1, hlen1, hb, hchain1⟩ := ih _ _ h
          refine ⟨tmpl.templateSubsystemsSequence_ ++ ms1, ts ++ ts1, ?_, ?_, hb, ?_⟩
          · rw [h1, hts, pushed_pushed]
            simp
          · simp [hlen, hlen1]
          · intro hfl hinc hself
            exact hchain1 hfl hinc (hchain hfl hinc hself)
        · cases h
        · cases h
      · simp only [Option.some.injEq, Outcome.returned.injEq] at h
        subst h
        exact ⟨[], [], (pushed_nil _).symm, rfl, ⟨last, hlast, not_lt.mp hlt⟩, fun _ _ h => h⟩

theorem rounded_tileModeSequenceTemplate_returned {F : Type} (fl : scalar_t → scalar_t)
    (E : Collaborators F) (fuel : Nat)
    (self self1 : SwitchedModelLogicRulesBase F) (tmpl : logic_template_type)
    (startTime finalTime : scalar_t)
    (h : rounded.tileModeSequenceTemplate fl E fuel self tmpl startTime finalTime =
      some (.returned self1)) :
    (tmpl.templateSubsystemsSequence_ = [] ∧ self1 = self) ∨
    (tmpl.templateSubsystemsSequence_ ≠ [] ∧
      tmpl.templateSwitchingTimes_.length = tmpl.templateSubsystemsSequence_.length + 1 ∧
      ∃ last ms ts, self.eventTimes_.getLast? = some last ∧ last < startTime ∧
        self1 = pushed self (ms ++ [E.STANCE]) (startTime :: ts) ∧ ms.length = ts.length ∧
        (∃ b, (startTime :: ts).getLast? = some b ∧ finalTime ≤ b) ∧
        (IsRounding fl → tmpl.templateSwitchingTimes_.Pairwise (fun a b => a ≤ b) →
          fl startTime = startTime → SortedRepresentable fl self.eventTimes_ →
            SortedRepresentable fl self1.eventTimes_)) := by
  unfold rounded.tileModeSequenceTemplate at h
  simp only at h
  split_ifs at h with h0 h1
  · left
    simp only [Option.some.injEq, Outcome.returned.injEq] at h
    exact ⟨List.length_eq_zero.mp h0, h.symm⟩
  · cases h
  · right
    refine ⟨fun hc => h0 (by simp [hc]), not_not.mp h1, ?_⟩
    split at h
    · cases h
    · rename_i last hlast
      split_ifs at h with hle
      · cases h
      split at h
      · rename_i self2 hwhile
        simp only [Option.some.injEq, Outcome.returned.injEq] at h
        obtain ⟨ms, ts, hshape, hlen, ⟨b, hb, hfb⟩, hinc⟩ :=
          rounded_tileWhileLoop_returned fl _ _ _ _ _ hwhile
        refine ⟨last, ms, ts, hlast, not_le.mp hle, ?_, hlen, ⟨b, ?_, hfb⟩, ?_⟩
        · rw [← h, hshape]
          simp [pushed]
        · rw [hshape] at hb
          simpa [pushed, getLast?_append_cons] using hb
        · intro hfl ht hstart hs
          have h2 := hinc hfl ht (sortedRepresentable_push hs (by
            intro l hl
            rw [hlast] at hl
            cases hl
            exact le_of_lt (not_le.mp hle)) hstart)
          rw [← h]
          exact h2
      · rename_i hne
        rw [h] at hne
        exact absurd rfl (hne self1)

theorem rounded_insertModeSequenceTemplate_returned {F : Type} {fl : scalar_t → scalar_t}
    {E : Collaborators F} {fuel : Nat}
    {self r : SwitchedModelLogicRulesBase F} {tmpl : logic_template_type}
    {startTime finalTime : scalar_t}
    (h : rounded.insertModeSequenceTemplate fl E fuel self tmpl startTime finalTime =
      some (.returned r)) :
    ∃ self1 self2, insertTruncate self startTime = .returned self1 ∧
      rounded.tileModeSequenceTemplate fl E fuel (rounded.insertTransition fl E self1 startTime)
        tmpl (fl (startTime + transitionStanceTime E self1)) finalTime =
          some (.returned self2) ∧
      r = update E self2 := by
  unfold rounded.insertModeSequenceTemplate at h
  split at h
  · rename_i self1 h1
    split at h
    · rename_i self2 h2
      simp only [Option.some.injEq, Outcome.returned.injEq] at h
      exact ⟨self1, self2, h1, h2, h.symm⟩
    · rename_i hne
      rw [h] at hne
      exact absurd rfl (hne r)
  · cases h
  · cases h

theorem rounded_rewind_returned {F : Type} {fl : scalar_t → scalar_t} {E : Collaborators F}
    {fuel : Nat} {self r : SwitchedModelLogicRulesBase F}
    {lowerBoundTime upperBoundTime : scalar_t}
    (h : rounded.rewind fl E fuel self lowerBoundTime upperBoundTime = some (.returned r)) :
    ∃ self1 tilingStartTime self2, rewindTruncate E self lowerBoundTime = .returned self1 ∧
      self1.eventTimes_.getLast? = some tilingStartTime ∧ self1.subsystemsSequence_ ≠ [] ∧
      rounded.tileModeSequenceTemplate fl E fuel
        { self1 with
          eventTimes_ := self1.eventTimes_.dropLast
          subsystemsSequence_ := self1.subsystemsSequence_.dropLast }
        self1.modeSequenceTemplate_ tilingStartTime upperBoundTime = some (.returned self2) ∧
      r = update E self2 := by
  unfold rounded.rewind at h
  split at h
  · rename_i self1 h1
    split at h
    · cases h
    · rename_i t ht
      split_ifs at h with hm
      · cases h
      · split at h
        · rename_i self2 h2
          simp only [Option.some.injEq, Outcome.returned.injEq] at h
          exact ⟨self1, t, self2, h1, ht, hm, h2, h.symm⟩
        · rename_i hne
          rw [h] at hne
          exact absurd rfl (hne r)
  · cases h
  · cases h


theorem round64_thousandth : round64 (1 / 1000) = 1152921504606847 / 1152921504606846976 := by
  rw [@round64_eq (1 / 1000) (-62) 4611686018427388 (by norm_num) (by norm_num) (by norm_num)
    (Or.inr (by norm_num)) (Or.inl (by norm_num [abs_lt]))]
  norm_num

theorem round64_absorbed : round64 (3 / 2 + 1 / 2 ^ 53) = 3 / 2 := by
  rw [@round64_eq (3 / 2 + 1 / 2 ^ 53) (-52) (3 * 2 ^ 51) (by norm_num) (by norm_num)
    (by norm_num) (Or.inr (by norm_num)) (Or.inr ⟨by norm_num, by norm_num⟩)]
  norm_num

theorem round64_one : round64 1 = 1 := by
  have h := round64_int_mul_zpow 1 0 (by norm_num) (by norm_num)
  simpa using h

theorem round64_half : round64 (1 / 2) = 1 / 2 := by
  have h := round64_int_mul_zpow 1 (-1) (by norm_num) (by norm_num)
  norm_num at h ⊢
  exact h

theorem round64_three_halves : round64 (3 / 2) = 3 / 2 := by
  have h := round64_int_mul_zpow 3 (-1) (by norm_num) (by norm_num)
  norm_num at h ⊢
  exact h

theorem round64_tiny : round64 (1 / 2 ^ 53) = 1 / 2 ^ 53 := by
  have h := round64_int_mul_zpow 1 (-53) (by norm_num) (by norm_num)
  norm_num at h ⊢
  exact h


theorem insert_exampleUnit_of (fl : scalar_t → scalar_t)
    (e1 : fl (1 / 1000) = 1152921504606847 / 1152921504606846976)
    (e2 : fl (3 / 2 + 1 / 2 ^ 53) = 3 / 2) (e3 : fl 1 = 1) (e4 : fl (1 / 2) = 1 / 2)
    (e5 : fl (3 / 2) = 3 / 2) (e6 : fl (1 / 2 ^ 53) = 1 / 2 ^ 53) :
    rounded.insertModeSequenceTemplate fl exampleCollaborators 2 exampleUnit
      exampleAbsorbedTemplate 1 (5 / 4) = some (.returned exampleUnitInserted) := by
  norm_num at e1 e2 e3 e4 e5 e6
  norm_num [rounded.insertModeSequenceTemplate, insertTruncate, lower_bound, lowerBoundLoop,
    exampleUnit, mkRules, exampleAbsorbedTemplate, rounded.insertTransition,
    transitionStanceTime, rounded.tileModeSequenceTemplate, rounded.tileWhileLoop,
    rounded.tileForLoop, update, resize, exampleCollaborators, List.replicate,
    exampleUnitInserted, e1, e2, e3, e4, e5, e6]

theorem insert_exampleUnit :
    rounded.insertModeSequenceTemplate round64 exampleCollaborators 2 exampleUnit
      exampleAbsorbedTemplate 1 (5 / 4) = some (.returned exampleUnitInserted) :=
  insert_exampleUnit_of round64 round64_thousandth round64_absorbed round64_one round64_half
    round64_three_halves round64_tiny


/-! ### Sorted event times in the rounded model -/

theorem sortedRepresentable_sublist {fl : scalar_t → scalar_t} {xs ys : List scalar_t}
    (h : SortedRepresentable fl ys) (hsub : xs.Sublist ys) : SortedRepresentable fl xs :=
  ⟨List.Pairwise.sublist hsub h.1, fun t ht => h.2 t (hsub.subset ht)⟩

theorem insertTruncate_sublist {F : Type} {self self1 : SwitchedModelLogicRulesBase F}
    {startTime : scalar_t} (h : insertTruncate self startTime = .returned self1) :
    self1.eventTimes_.Sublist self.eventTimes_ := by
  rcases insertTruncate_returned h with ⟨_, rfl⟩ | ⟨_, _, rfl⟩
  · exact List.Sublist.refl _
  · exact List.take_sublist _ _

theorem rewindTruncate_sublist {F : Type} {E : Collaborators F}
    {self self1 : SwitchedModelLogicRulesBase F} {lowerBoundTime : scalar_t}
    (h : rewindTruncate E self lowerBoundTime = .returned self1) :
    self1.eventTimes_.Sublist self.eventTimes_ := by
  rw [rewindTruncate_eventTimes h]
  exact List.drop_sublist _ _

theorem rounded_insertTransition_sortedRepresentable {F : Type} {fl : scalar_t → scalar_t}
    (E : Collaborators F) {self : SwitchedModelLogicRulesBase F} {startTime : scalar_t}
    (h : SortedRepresentable fl self.eventTimes_) (hstart : fl startTime = startTime)
    (hlt : ∀ t ∈ self.eventTimes_, t < startTime) :
    SortedRepresentable fl (rounded.insertTransition fl E self startTime).eventTimes_ := by
  unfold rounded.insertTransition
  split_ifs
  · exact sortedRepresentable_push h
      (fun last hl => le_of_lt (hlt last (List.mem_of_getLast?_eq_some hl))) hstart
  · exact h

theorem rounded_insert_sortedRepresentable {F : Type} {fl : scalar_t → scalar_t}
    (hfl : IsRounding fl) {E : Collaborators F} {fuel : Nat}
    {self r : SwitchedModelLogicRulesBase F} {tmpl : logic_template_type}
    {startTime finalTime : scalar_t}
    (hs : SortedRepresentable fl self.eventTimes_)
    (ht : tmpl.templateSwitchingTimes_.Pairwise (fun a b => a ≤ b))
    (hstart : fl startTime = startTime)
    (h : rounded.insertModeSequenceTemplate fl E fuel self tmpl startTime finalTime =
      some (.returned r)) :
    SortedRepresentable fl r.eventTimes_ := by
  obtain ⟨self1, self2, h1, h2, rfl⟩ := rounded_insertModeSequenceTemplate_returned h
  have hs1 := sortedRepresentable_sublist hs (insertTruncate_sublist h1)
  have hs0 := rounded_insertTransition_sortedRepresentable E hs1 hstart
    (insertTruncate_lt h1 hs.1)
  rcases rounded_tileModeSequenceTemplate_returned fl E _ _ self2 _ _ _ h2 with
    ⟨_, rfl⟩ | ⟨_, _, _, _, _, _, _, _, _, _, hinc⟩
  · exact hs0
  · exact hinc hfl ht (hfl.2.1 _) hs0

theorem rounded_rewind_sortedRepresentable {F : Type} {fl : scalar_t → scalar_t}
    (hfl : IsRounding fl) {E : Collaborators F} {fuel : Nat}
    {self r : SwitchedModelLogicRulesBase F} {lowerBoundTime upperBoundTime : scalar_t}
    (hs : SortedRepresentable fl self.eventTimes_)
    (ht : self.modeSequenceTemplate_.templateSwitchingTimes_.Pairwise (fun a b => a ≤ b))
    (h : rounded.rewind fl E fuel self lowerBoundTime upperBoundTime = some (.returned r)) :
    SortedRepresentable fl r.eventTimes_ := by
  obtain ⟨self1, tilingStartTime, self2, h1, hts, _, h2, rfl⟩ := rounded_rewind_returned h
  have hs1 := sortedRepresentable_sublist hs (rewindTruncate_sublist h1)
  have hsd : SortedRepresentable fl self1.eventTimes_.dropLast :=
    sortedRepresentable_sublist hs1 (List.dropLast_sublist _)
  have htmpl := rewindTruncate_template h1
  rcases rounded_tileModeSequenceTemplate_returned fl E _ _ self2 _ _ _ h2 with
    ⟨_, rfl⟩ | ⟨_, _, _, _, _, _, _, _, _, _, hinc⟩
  · exact hsd
  · exact hinc hfl (htmpl ▸ ht) (hs1.2 _ (List.mem_of_getLast?_eq_some hts)) hsd


/-! ### Binary64 runs on the unit examples -/

theorem round64_next_half :
    round64 (4503599627370497 / 9007199254740992) = 4503599627370497 / 9007199254740992 := by
  have h := round64_int_mul_zpow 4503599627370497 (-53) (by norm_num) (by norm_num)
  norm_num at h ⊢
  exact h

theorem round64_five_quarters : round64 (5 / 4) = 5 / 4 := by
  have h := round64_int_mul_zpow 5 (-2) (by norm_num) (by norm_num)
  norm_num at h ⊢
  exact h

theorem rewind_exampleUnitGait_of (fl : scalar_t → scalar_t)
    (e2 : fl (3 / 2 + 1 / 2 ^ 53) = 3 / 2) (e4 : fl (1 / 2) = 1 / 2)
    (e5 : fl (3 / 2) = 3 / 2) (e6 : fl (1 / 2 ^ 53) = 1 / 2 ^ 53) :
    rounded.rewind fl exampleCollaborators 2 exampleUnitGait (1 / 2) (5 / 4) =
      some (.returned exampleUnitRewound) := by
  norm_num at e2 e4 e5 e6
  norm_num [rounded.rewind, rewindTruncate, lower_bound, lowerBoundLoop,
    exampleUnitGait, mkRules, exampleAbsorbedTemplate,
    rounded.tileModeSequenceTemplate, rounded.tileWhileLoop,
    rounded.tileForLoop, update, resize, exampleCollaborators, List.replicate,
    exampleUnitRewound, e2, e4, e5, e6]
  rfl

theorem rewind_exampleUnitGait :
    rounded.rewind round64 exampleCollaborators 2 exampleUnitGait (1 / 2) (5 / 4) =
      some (.returned exampleUnitRewound) :=
  rewind_exampleUnitGait_of round64 round64_absorbed round64_half
    round64_three_halves round64_tiny

theorem strictlyIncreasing_exampleAbsorbedTemplate :
    StrictlyIncreasing exampleAbsorbedTemplate.templateSwitchingTimes_ := by
  norm_num [StrictlyIncreasing, exampleAbsorbedTemplate]

theorem strictlyIncreasing_exampleUnit : StrictlyIncreasing exampleUnit.eventTimes_ := by
  norm_num [StrictlyIncreasing, exampleUnit, mkRules]

theorem strictlyIncreasing_exampleUnitGait : StrictlyIncreasing exampleUnitGait.eventTimes_ := by
  norm_num [StrictlyIncreasing, exampleUnitGait, mkRules]

theorem representable_exampleUnit : ∀ t ∈ exampleUnit.eventTimes_, round64 t = t := by
  intro t ht
  simp only [exampleUnit, mkRules, List.mem_singleton] at ht
  subst ht
  exact round64_zero

theorem representable_exampleUnitGait : ∀ t ∈ exampleUnitGait.eventTimes_, round64 t = t := by
  intro t ht
  simp only [exampleUnitGait, mkRules, List.mem_cons, List.mem_singleton, List.not_mem_nil,
    or_false] at ht
  rcases ht with rfl | rfl
  · exact round64_zero
  · exact round64_one

theorem representable_exampleAbsorbedTemplate :
    ∀ t ∈ exampleAbsorbedTemplate.templateSwitchingTimes_, round64 t = t := by
  intro t ht
  simp only [exampleAbsorbedTemplate, List.mem_cons, List.mem_singleton, List.not_mem_nil,
    or_false] at ht
  rcases ht with rfl | rfl | rfl
  · exact round64_zero
  · exact round64_half
  · exact round64_next_half

theorem not_strictlyIncreasing_exampleUnitInserted :
    ¬ StrictlyIncreasing exampleUnitInserted.eventTimes_ := by
  norm_num [StrictlyIncreasing, exampleUnitInserted]

/-! ### C2: the order of the event times -/

/-- C2 (as stated) fails in binary64 arithmetic. The event times of `exampleUnit` and the
switching times of `exampleAbsorbedTemplate` are strictly increasing binary64 numbers, and so
are the start time `1` and the final time `1.25`; `insertModeSequenceTemplate` returns normally
with the event times `0, 1, 1.5, 1.5`: the second phase of the template has the length
`2 ^ (-53)`, and `1.5 + 2 ^ (-53)` is rounded to `1.5`. -/
theorem C2_counterexample :
    StrictlyIncreasing exampleUnit.eventTimes_ ∧
      StrictlyIncreasing exampleAbsorbedTemplate.templateSwitchingTimes_ ∧
      (∀ t ∈ exampleUnit.eventTimes_, round64 t = t) ∧
      (∀ t ∈ exampleAbsorbedTemplate.templateSwitchingTimes_, round64 t = t) ∧
      round64 1 = 1 ∧ round64 (5 / 4) = 5 / 4 ∧
      rounded.insertModeSequenceTemplate round64 exampleCollaborators 2 exampleUnit
        exampleAbsorbedTemplate 1 (5 / 4) = some (.returned exampleUnitInserted) ∧
      exampleUnitInserted.eventTimes_ = [0, 1, 3 / 2, 3 / 2] ∧
      ¬ StrictlyIncreasing exampleUnitInserted.eventTimes_ :=
  ⟨strictlyIncreasing_exampleUnit, strictlyIncreasing_exampleAbsorbedTemplate,
    representable_exampleUnit, representable_exampleAbsorbedTemplate, round64_one,
    round64_five_quarters, insert_exampleUnit, rfl, not_strictlyIncreasing_exampleUnitInserted⟩

/-- C2 (amended). Let the sums of the tiling be rounded by a monotone idempotent rounding `fl`
with `fl 0 = 0` (binary64 rounding `round64` is one). For every timeline whose event times are
strictly increasing and representable and every template whose switching times are strictly
increasing (for `rewind`: the template stored in the object), whenever
`insertModeSequenceTemplate` (with a representable start time) or `rewind` returns normally the
resulting event times are non-decreasing. They are strictly increasing whenever the sums are
exact (`fl` the identity); with rounding, consecutive event times can coincide. -/
theorem C2_event_times_sorted (fl : scalar_t → scalar_t) (hfl : IsRounding fl) {F : Type}
    (E : Collaborators F) (fuel : Nat) (self : SwitchedModelLogicRulesBase F)
    (hs : StrictlyIncreasing self.eventTimes_) (hrep : ∀ t ∈ self.eventTimes_, fl t = t) :
    (∀ tmpl startTime finalTime r, StrictlyIncreasing tmpl.templateSwitchingTimes_ →
      fl startTime = startTime →
      rounded.insertModeSequenceTemplate fl E fuel self tmpl startTime finalTime =
        some (.returned r) →
        r.eventTimes_.Pairwise (fun a b => a ≤ b)) ∧
    (∀ lowerBoundTime upperBoundTime r,
      StrictlyIncreasing self.modeSequenceTemplate_.templateSwitchingTimes_ →
      rounded.rewind fl E fuel self lowerBoundTime upperBoundTime = some (.returned r) →
        r.eventTimes_.Pairwise (fun a b => a ≤ b)) ∧
    (∀ tmpl startTime finalTime r, StrictlyIncreasing tmpl.templateSwitchingTimes_ →
      rounded.insertModeSequenceTemplate (fun x => x) E fuel self tmpl startTime finalTime =
        some (.returned r) →
        StrictlyIncreasing r.eventTimes_) ∧
    (∀ lowerBoundTime upperBoundTime r,
      StrictlyIncreasing self.modeSequenceTemplate_.templateSwitchingTimes_ →
      rounded.rewind (fun x => x) E fuel self lowerBoundTime upperBoundTime =
        some (.returned r) →
        StrictlyIncreasing r.eventTimes_) := by
  have hsr : SortedRepresentable fl self.eventTimes_ := ⟨hs.sorted, hrep⟩
  refine ⟨?_, ?_, ?_, ?_⟩
  · intro tmpl startTime finalTime r ht hstart h
    exact (rounded_insert_sortedRepresentable hfl hsr ht.sorted hstart h).1
  · intro lowerBoundTime upperBoundTime r ht h
    exact (rounded_rewind_sortedRepresentable hfl hsr ht.sorted h).1
  · intro tmpl startTime finalTime r ht h
    rw [rounded_insertModeSequenceTemplate_id] at h
    exact (strictlyIncreasing_preserved_exact E fuel self hs).1 tmpl startTime finalTime r ht h
  · intro lowerBoundTime upperBoundTime r ht h
    rw [rounded_rewind_id] at h
    exact (strictlyIncreasing_preserved_exact E fuel self hs).2 lowerBoundTime upperBoundTime r
      ht h

theorem C2_event_times_sorted_witness :
    IsRounding round64 ∧ StrictlyIncreasing exampleUnit.eventTimes_ ∧
      (∀ t ∈ exampleUnit.eventTimes_, round64 t = t) ∧
      exampleUnitInserted.eventTimes_.Pairwise (fun a b => a ≤ b) :=
  ⟨isRounding_round64, strictlyIncreasing_exampleUnit, representable_exampleUnit,
    (C2_event_times_sorted round64 isRounding_round64 exampleCollaborators 2 exampleUnit
      strictlyIncreasing_exampleUnit representable_exampleUnit).1
      exampleAbsorbedTemplate 1 (5 / 4) exampleUnitInserted
      strictlyIncreasing_exampleAbsorbedTemplate round64_one insert_exampleUnit⟩


/-! ### The start-time error in the rounded model -/

theorem rounded_tileForLoop_ne_raised {F : Type} (fl : scalar_t → scalar_t)
    (tmpl : logic_template_type) :
    ∀ (k i : Nat) (self : SwitchedModelLogicRulesBase F) (e : RuntimeError),
      rounded.tileForLoop fl tmpl k i self ≠ .raised e := by
  intro k
  induction k with
  | zero => intro i self e h; simp [rounded.tileForLoop] at h
  | succ k ih =>
    intro i self e h
    unfold rounded.tileForLoop at h
    split at h
    · exact ih _ _ _ h
    · cases h

theorem rounded_tileWhileLoop_ne_raised {F : Type} (fl : scalar_t → scalar_t)
    (tmpl : logic_template_type) (finalTime : scalar_t) :
    ∀ (fuel : Nat) (self : SwitchedModelLogicRulesBase F) (e : RuntimeError),
      rounded.tileWhileLoop fl tmpl finalTime fuel self ≠ some (.raised e) := by
  intro fuel
  induction fuel with
  | zero => intro self e h; simp [rounded.tileWhileLoop] at h
  | succ n ih =>
    intro self e h
    unfold rounded.tileWhileLoop at h
    split at h
    · cases h
    · split_ifs at h
      · split at h
        · exact ih _ _ h
        · rename_i e1 hfor
          exact rounded_tileForLoop_ne_raised _ _ _ _ _ _ hfor
        · cases h
      · cases h

theorem rounded_tileModeSequenceTemplate_raised {F : Type} {fl : scalar_t → scalar_t}
    {E : Collaborators F} {fuel : Nat}
    {self : SwitchedModelLogicRulesBase F} {tmpl : logic_template_type}
    {startTime finalTime : scalar_t} {e : RuntimeError}
    (h : rounded.tileModeSequenceTemplate fl E fuel self tmpl startTime finalTime =
      some (.raised e)) :
    tmpl.templateSubsystemsSequence_ ≠ [] ∧
      ((e = .templateSizeMismatch ∧ ¬ WellFormedTemplate tmpl) ∨
        (e = .tilingStartNotGreater ∧ WellFormedTemplate tmpl ∧
          ∃ last, self.eventTimes_.getLast? = some last ∧ startTime ≤ last)) := by
  unfold rounded.tileModeSequenceTemplate at h
  simp only at h
  split_ifs at h with h0 h1
  · cases h
  · simp only [Option.some.injEq, Outcome.raised.injEq] at h
    exact ⟨fun hc => h0 (by simp [hc]), Or.inl ⟨h.symm, h1⟩⟩
  · refine ⟨fun hc => h0 (by simp [hc]), Or.inr ?_⟩
    split at h
    · cases h
    · rename_i last hlast
      split_ifs at h with hle
      · simp only [Option.some.injEq, Outcome.raised.injEq] at h
        exact ⟨h.symm, not_not.mp h1, last, hlast, hle⟩
      · split at h
        · cases h
        · rename_i other hother hne
          exact absurd h (rounded_tileWhileLoop_ne_raised _ _ _ _ _ _)

theorem rounded_tileModeSequenceTemplate_tilingStartNotGreater {F : Type}
    (fl : scalar_t → scalar_t) (E : Collaborators F)
    (fuel : Nat) (self : SwitchedModelLogicRulesBase F) (tmpl : logic_template_type)
    (startTime finalTime last : scalar_t) (hne : tmpl.templateSubsystemsSequence_ ≠ [])
    (hwf : WellFormedTemplate tmpl) (hlast : self.eventTimes_.getLast? = some last)
    (hle : startTime ≤ last) :
    rounded.tileModeSequenceTemplate fl E fuel self tmpl startTime finalTime =
      some (.raised .tilingStartNotGreater) := by
  unfold rounded.tileModeSequenceTemplate
  have h0 : tmpl.templateSubsystemsSequence_.length ≠ 0 := fun hc => hne (List.length_eq_zero.mp hc)
  unfold WellFormedTemplate at hwf
  simp [h0, hwf, hlast, hle]

theorem rounded_insertModeSequenceTemplate_raised {F : Type} {fl : scalar_t → scalar_t}
    {E : Collaborators F} {fuel : Nat}
    {self : SwitchedModelLogicRulesBase F} {tmpl : logic_template_type}
    {startTime finalTime : scalar_t} {e : RuntimeError}
    (h : rounded.insertModeSequenceTemplate fl E fuel self tmpl startTime finalTime =
      some (.raised e)) :
    ∃ self1, insertTruncate self startTime = .returned self1 ∧
      rounded.tileModeSequenceTemplate fl E fuel (rounded.insertTransition fl E self1 startTime)
        tmpl (fl (startTime + transitionStanceTime E self1)) finalTime = some (.raised e) := by
  unfold rounded.insertModeSequenceTemplate at h
  split at h
  · rename_i self1 h1
    split at h
    · cases h
    · exact ⟨self1, h1, h⟩
  · rename_i e1 h1
    unfold insertTruncate at h1
    simp only at h1
    split_ifs at h1
  · cases h


/-! ### C4: the start-time error -/

theorem round64_absorbed_half : round64 (10 ^ 16 + 1 / 2) = 10 ^ 16 := by
  rw [@round64_eq (10 ^ 16 + 1 / 2) 1 (5 * 10 ^ 15) (by norm_num) (by norm_num) (by norm_num)
    (Or.inr (by norm_num)) (Or.inl (by norm_num [abs_lt]))]
  norm_num

theorem insert_exampleUnitGait_of (fl : scalar_t → scalar_t)
    (e1 : fl (1 / 1000) = 1152921504606847 / 1152921504606846976)
    (e2 : fl (3 / 2 + 1 / 2 ^ 53) = 3 / 2) (e3 : fl 1 = 1) (e4 : fl (1 / 2) = 1 / 2)
    (e5 : fl (3 / 2) = 3 / 2) (e6 : fl (1 / 2 ^ 53) = 1 / 2 ^ 53) :
    rounded.insertModeSequenceTemplate fl exampleCollaborators 2 exampleUnitGait
      exampleAbsorbedTemplate (1 / 2) (5 / 4) = some (.returned exampleUnitGaitInserted) := by
  norm_num at e1 e2 e3 e4 e5 e6
  norm_num [rounded.insertModeSequenceTemplate, insertTruncate, lower_bound, lowerBoundLoop,
    exampleUnitGait, mkRules, exampleAbsorbedTemplate, rounded.insertTransition,
    transitionStanceTime, rounded.tileModeSequenceTemplate, rounded.tileWhileLoop,
    rounded.tileForLoop, update, resize, exampleCollaborators, List.replicate,
    exampleUnitGaitInserted, e1, e2, e3, e4, e5, e6]

theorem insert_exampleUnitGait :
    rounded.insertModeSequenceTemplate round64 exampleCollaborators 2 exampleUnitGait
      exampleAbsorbedTemplate (1 / 2) (5 / 4) = some (.returned exampleUnitGaitInserted) :=
  insert_exampleUnitGait_of round64 round64_thousandth round64_absorbed round64_one round64_half
    round64_three_halves round64_tiny

theorem getLast?_exampleUnitGait : exampleUnitGait.eventTimes_.getLast? = some 1 := by
  simp [exampleUnitGait, mkRules]

theorem insertTruncate_exampleSwingAfter :
    insertTruncate exampleSwingAfter (10 ^ 16) = .returned exampleSwingAfter := by
  norm_num [insertTruncate, lower_bound, lowerBoundLoop, exampleSwingAfter, mkRules]

theorem transitionStanceTime_exampleSwingAfter :
    transitionStanceTime exampleCollaborators exampleSwingAfter = 1 / 2 := by
  norm_num [transitionStanceTime, exampleSwingAfter, mkRules, exampleCollaborators]

theorem insertTransition_exampleSwingAfter_of (fl : scalar_t → scalar_t)
    (e1 : fl (1 / 1000) = 1152921504606847 / 1152921504606846976) :
    rounded.insertTransition fl exampleCollaborators exampleSwingAfter (10 ^ 16) =
      exampleSwingAfterTransition := by
  norm_num at e1
  norm_num [rounded.insertTransition, transitionStanceTime, exampleSwingAfter,
    exampleSwingAfterTransition, mkRules, exampleCollaborators, e1]

theorem getLast?_exampleSwingAfterTransition :
    (rounded.insertTransition round64 exampleCollaborators exampleSwingAfter
      (10 ^ 16)).eventTimes_.getLast? = some (10 ^ 16) := by
  rw [insertTransition_exampleSwingAfter_of round64 round64_thousandth]
  simp [exampleSwingAfterTransition, mkRules]

theorem tilingStart_exampleSwingAfter :
    round64 (10 ^ 16 + transitionStanceTime exampleCollaborators exampleSwingAfter) ≤ 10 ^ 16 := by
  rw [transitionStanceTime_exampleSwingAfter, round64_absorbed_half]

/-- C4 (as stated) fails: the last event time of `exampleUnitGait` is `1`, the start time `0.5`
is not greater, and `insertModeSequenceTemplate` returns normally (the event `1` is erased
before the tiling step). -/
theorem C4_counterexample :
    exampleUnitGait.eventTimes_.getLast? = some 1 ∧ ¬ ((1 : scalar_t) < 1 / 2) ∧
      rounded.insertModeSequenceTemplate round64 exampleCollaborators 2 exampleUnitGait
        exampleAbsorbedTemplate (1 / 2) (5 / 4) = some (.returned exampleUnitGaitInserted) :=
  ⟨getLast?_exampleUnitGait, by norm_num, insert_exampleUnitGait⟩

/-- C4 (amended). The start-time error is raised by the tiling step:
`tileModeSequenceTemplate` throws it for every non-empty well-formed template whenever its
start time is not strictly greater than the last event time of the timeline it is applied to.
`insertModeSequenceTemplate` tiles after it has erased the event times at or after `startTime`
and appended the optional transition phase, so it throws this error exactly when the template
is non-empty and well formed and the rounded tiling start `startTime + phaseTransitionStanceTime`
is not strictly greater than the last event time left at that point. -/
theorem C4_start_time_error (fl : scalar_t → scalar_t) {F : Type} (E : Collaborators F)
    (fuel : Nat) (self : SwitchedModelLogicRulesBase F) (tmpl : logic_template_type)
    (startTime finalTime : scalar_t) :
    (∀ last, tmpl.templateSubsystemsSequence_ ≠ [] → WellFormedTemplate tmpl →
      self.eventTimes_.getLast? = some last → startTime ≤ last →
      rounded.tileModeSequenceTemplate fl E fuel self tmpl startTime finalTime =
        some (.raised .tilingStartNotGreater)) ∧
    (rounded.insertModeSequenceTemplate fl E fuel self tmpl startTime finalTime =
        some (.raised .tilingStartNotGreater) ↔
      ∃ self1 last, insertTruncate self startTime = .returned self1 ∧
        tmpl.templateSubsystemsSequence_ ≠ [] ∧ WellFormedTemplate tmpl ∧
        (rounded.insertTransition fl E self1 startTime).eventTimes_.getLast? = some last ∧
        fl (startTime + transitionStanceTime E self1) ≤ last) := by
  constructor
  · intro last hne hwf hlast hle
    exact rounded_tileModeSequenceTemplate_tilingStartNotGreater fl E fuel self tmpl startTime
      finalTime last hne hwf hlast hle
  · constructor
    · intro h
      obtain ⟨self1, h1, h2⟩ := rounded_insertModeSequenceTemplate_raised h
      obtain ⟨hne, h3 | ⟨_, hwf, last, hlast, hle⟩⟩ := rounded_tileModeSequenceTemplate_raised h2
      · cases h3.1
      · exact ⟨self1, last, h1, hne, hwf, hlast, hle⟩
    · rintro ⟨self1, last, h1, hne, hwf, hlast, hle⟩
      unfold rounded.insertModeSequenceTemplate
      rw [h1]
      simp only
      rw [rounded_tileModeSequenceTemplate_tilingStartNotGreater fl E fuel _ tmpl _ finalTime
        last hne hwf hlast hle]

theorem C4_start_time_error_witness :
    rounded.tileModeSequenceTemplate round64 exampleCollaborators 2 exampleUnitGait
        exampleAbsorbedTemplate (1 / 2) (5 / 4) = some (.raised .tilingStartNotGreater) ∧
      rounded.insertModeSequenceTemplate round64 exampleCollaborators 2 exampleSwingAfter
        exampleAbsorbedTemplate (10 ^ 16) (10 ^ 16 + 4) = some (.raised .tilingStartNotGreater) :=
  ⟨(C4_start_time_error round64 exampleCollaborators 2 exampleUnitGait exampleAbsorbedTemplate
      (1 / 2) (5 / 4)).1 1 (by decide) (by decide) getLast?_exampleUnitGait (by norm_num),
    (C4_start_time_error round64 exampleCollaborators 2 exampleSwingAfter
      exampleAbsorbedTemplate (10 ^ 16) (10 ^ 16 + 4)).2.mpr
      ⟨exampleSwingAfter, 10 ^ 16, insertTruncate_exampleSwingAfter, by decide, by decide,
        getLast?_exampleSwingAfterTransition, tilingStart_exampleSwingAfter⟩⟩


/-! ### The running sums of the tiling loop -/

theorem passTimes_length (fl : scalar_t → scalar_t) (tmpl : logic_template_type) :
    ∀ (k i : Nat) (b : scalar_t), (passTimes fl tmpl k i b).length = k := by
  intro k
  induction k with
  | zero => intro i b; rfl
  | succ k ih => intro i b; simp [passTimes, ih]

theorem rounded_tileForLoop_passTimes {F : Type} (fl : scalar_t → scalar_t)
    (tmpl : logic_template_type) (hwf : WellFormedTemplate tmpl) :
    ∀ (k i : Nat) (self : SwitchedModelLogicRulesBase F) (b : scalar_t),
      i + k = tmpl.templateSubsystemsSequence_.length →
      self.eventTimes_.getLast? = some b →
      rounded.tileForLoop fl tmpl k i self =
        .returned (pushed self (tmpl.templateSubsystemsSequence_.drop i)
          (passTimes fl tmpl k i b)) := by
  unfold WellFormedTemplate at hwf
  intro k
  induction k with
  | zero =>
    intro i self b hik _
    simp only [Nat.add_zero] at hik
    simp [rounded.tileForLoop, passTimes, hik, pushed]
  | succ k ih =>
    intro i self b hik hlast
    have hi : i < tmpl.templateSubsystemsSequence_.length := by omega
    have hm : tmpl.templateSubsystemsSequence_[i]? = some (tmpl.templateSubsystemsSequence_[i]) :=
      List.getElem?_eq_getElem hi
    have h1 : tmpl.templateSwitchingTimes_[i + 1]? = some (switchingTime tmpl (i + 1)) :=
      switchingTime_of_lt (by omega)
    have h0 : tmpl.templateSwitchingTimes_[i]? = some (switchingTime tmpl i) :=
      switchingTime_of_lt (by omega)
    unfold rounded.tileForLoop
    simp only [hm, h1, h0, hlast]
    rw [ih (i + 1) _ (fl (b + fl (switchingTime tmpl (i + 1) - switchingTime tmpl i)))
      (by omega) (by simp only [List.getLast?_concat])]
    rw [List.drop_eq_getElem_cons hi]
    simp only [passTimes, pushed, List.append_assoc, List.singleton_append]

theorem getLast?_append_getD (xs ys : List scalar_t) (b : scalar_t)
    (h : xs.getLast? = some b) : (xs ++ ys).getLast? = some (ys.getLast?.getD b) := by
  rw [List.getLast?_append, h]
  cases ys.getLast? <;> rfl

theorem rounded_tileForLoop_pass {F : Type} (fl : scalar_t → scalar_t)
    (tmpl : logic_template_type) (hwf : WellFormedTemplate tmpl)
    (self : SwitchedModelLogicRulesBase F) (b : scalar_t)
    (hlast : self.eventTimes_.getLast? = some b) :
    rounded.tileForLoop fl tmpl tmpl.templateSubsystemsSequence_.length 0 self =
        .returned (pushed self tmpl.templateSubsystemsSequence_
          (passTimes fl tmpl tmpl.templateSubsystemsSequence_.length 0 b)) ∧
      (pushed self tmpl.templateSubsystemsSequence_
        (passTimes fl tmpl tmpl.templateSubsystemsSequence_.length 0 b)).eventTimes_.getLast? =
        some (passEnd fl tmpl b) := by
  have h := rounded_tileForLoop_passTimes fl tmpl hwf tmpl.templateSubsystemsSequence_.length 0
    self b (by omega) hlast
  simp only [List.drop_zero] at h
  exact ⟨h, getLast?_append_getD _ _ b hlast⟩

theorem rounded_tileWhileLoop_running {F : Type} (fl : scalar_t → scalar_t)
    (tmpl : logic_template_type) (hwf : WellFormedTemplate tmpl) (finalTime : scalar_t) :
    ∀ (d : Nat) (self : SwitchedModelLogicRulesBase F) (b : scalar_t) (fuel : Nat),
      self.eventTimes_.getLast? = some b →
      (∀ j, j < d → (passEnd fl tmpl)^[j] b < finalTime) →
      finalTime ≤ (passEnd fl tmpl)^[d] b → d + 1 ≤ fuel →
      rounded.tileWhileLoop fl tmpl finalTime fuel self =
        some (.returned (pushed self (tiledModes tmpl d) (runningTimes fl tmpl d b))) := by
  intro d
  induction d with
  | zero =>
    intro self b fuel hlast _ hk hfuel
    obtain ⟨f, rfl⟩ : ∃ f, fuel = f + 1 := ⟨fuel - 1, by omega⟩
    simp only [Function.iterate_zero, id_eq] at hk
    unfold rounded.tileWhileLoop
    simp [hlast, not_lt.mpr hk, pushed, tiledModes, runningTimes]
  | succ d ih =>
    intro self b fuel hlast hmin hk hfuel
    obtain ⟨f, rfl⟩ : ∃ f, fuel = f + 1 := ⟨fuel - 1, by omega⟩
    have hlt : b < finalTime := by
      have := hmin 0 (by omega)
      simpa using this
    obtain ⟨hfor, hlast1⟩ := rounded_tileForLoop_pass fl tmpl hwf self b hlast
    unfold rounded.tileWhileLoop
    simp only [hlast, hlt, ↓reduceIte, hfor]
    rw [ih _ (passEnd fl tmpl b) f hlast1
      (fun j hj => by
        have := hmin (j + 1) (by omega)
        rwa [Function.iterate_succ_apply] at this)
      (by rwa [Function.iterate_succ_apply] at hk) (by omega), pushed_pushed]
    simp [tiledModes, runningTimes, List.replicate_succ]

theorem rounded_tileModeSequenceTemplate_running {F : Type} (fl : scalar_t → scalar_t)
    (E : Collaborators F) (self : SwitchedModelLogicRulesBase F) (tmpl : logic_template_type)
    (startTime finalTime last : scalar_t)
    (hne : tmpl.templateSubsystemsSequence_ ≠ []) (hwf : WellFormedTemplate tmpl)
    (hlast : self.eventTimes_.getLast? = some last) (hlt : last < startTime) (k : Nat)
    (hmin : ∀ j : Nat, j < k → (passEnd fl tmpl)^[j] startTime < finalTime)
    (hk : finalTime ≤ (passEnd fl tmpl)^[k] startTime) (fuel : Nat) (hfuel : k + 1 ≤ fuel) :
    rounded.tileModeSequenceTemplate fl E fuel self tmpl startTime finalTime =
      some (.returned (pushed self (tiledModes tmpl k ++ [E.STANCE])
        (startTime :: runningTimes fl tmpl k startTime))) := by
  have h0 : tmpl.templateSubsystemsSequence_.length ≠ 0 :=
    fun hc => hne (List.length_eq_zero.mp hc)
  have hwf1 := hwf
  unfold WellFormedTemplate at hwf1
  have hloop := rounded_tileWhileLoop_running fl tmpl hwf finalTime k
    { self with eventTimes_ := self.eventTimes_ ++ [startTime] } startTime fuel
    (by simp) hmin hk hfuel
  unfold rounded.tileModeSequenceTemplate
  simp only [h0, ↓reduceIte, hwf1, ne_eq, not_true_eq_false, hlast, not_le.mpr hlt, hloop]
  simp [pushed]

theorem passTimes_getLast_mono {fl : scalar_t → scalar_t} (hmono : Monotone fl)
    (tmpl : logic_template_type) :
    ∀ (k i : Nat) (b c : scalar_t), b ≤ c →
      ((passTimes fl tmpl k i b).getLast?).getD b ≤ ((passTimes fl tmpl k i c).getLast?).getD c := by
  intro k
  induction k with
  | zero => intro i b c h; simpa [passTimes] using h
  | succ k ih =>
    intro i b c h
    simp only [passTimes, List.getLast?_cons, Option.getD_some]
    exact ih (i + 1) _ _ (hmono (by linarith))

theorem passEnd_mono {fl : scalar_t → scalar_t} (hmono : Monotone fl)
    (tmpl : logic_template_type) : Monotone (passEnd fl tmpl) :=
  fun b c h => passTimes_getLast_mono hmono tmpl _ 0 b c h

theorem rounded_tileWhileLoop_diverges {F : Type} {fl : scalar_t → scalar_t}
    (hmono : Monotone fl) (tmpl : logic_template_type) (hwf : WellFormedTemplate tmpl)
    (finalTime c : scalar_t) (hc : c < finalTime) (hstall : passEnd fl tmpl c ≤ c) :
    ∀ (fuel : Nat) (self : SwitchedModelLogicRulesBase F) (b : scalar_t),
      self.eventTimes_.getLast? = some b → b ≤ c →
      rounded.tileWhileLoop fl tmpl finalTime fuel self = none := by
  intro fuel
  induction fuel with
  | zero => intro self b _ _; rfl
  | succ fuel ih =>
    intro self b hlast hb
    obtain ⟨hfor, hlast1⟩ := rounded_tileForLoop_pass fl tmpl hwf self b hlast
    unfold rounded.tileWhileLoop
    simp only [hlast, lt_of_le_of_lt hb hc, ↓reduceIte, hfor]
    exact ih _ _ hlast1 (le_trans (passEnd_mono hmono tmpl hb) hstall)

theorem rounded_tileModeSequenceTemplate_diverges {F : Type} {fl : scalar_t → scalar_t}
    (hmono : Monotone fl) (E : Collaborators F) (self : SwitchedModelLogicRulesBase F)
    (tmpl : logic_template_type) (startTime finalTime last : scalar_t)
    (hne : tmpl.templateSubsystemsSequence_ ≠ []) (hwf : WellFormedTemplate tmpl)
    (hlast : self.eventTimes_.getLast? = some last) (hlt : last < startTime)
    (hsf : startTime < finalTime) (hstall : passEnd fl tmpl startTime ≤ startTime) (fuel : Nat) :
    rounded.tileModeSequenceTemplate fl E fuel self tmpl startTime finalTime = none := by
  have h0 : tmpl.templateSubsystemsSequence_.length ≠ 0 :=
    fun hc => hne (List.length_eq_zero.mp hc)
  have hloop := rounded_tileWhileLoop_diverges hmono tmpl hwf finalTime startTime hsf hstall fuel
    { self with eventTimes_ := self.eventTimes_ ++ [startTime] } startTime (by simp) le_rfl
  unfold WellFormedTemplate at hwf
  unfold rounded.tileModeSequenceTemplate
  simp only [h0, ↓reduceIte, hwf, ne_eq, not_true_eq_false, hlast, not_le.mpr hlt, hloop]

theorem rounded_tileModeSequenceTemplate_terminates {F : Type} (fl : scalar_t → scalar_t)
    (E : Collaborators F) (self : SwitchedModelLogicRulesBase F) (tmpl : logic_template_type)
    (startTime finalTime : scalar_t)
    (h : ∃ k : Nat, finalTime ≤ (passEnd fl tmpl)^[k] startTime) :
    ∃ fuel o, ∀ fuel1, fuel ≤ fuel1 →
      rounded.tileModeSequenceTemplate fl E fuel1 self tmpl startTime finalTime = some o := by
  by_cases hne : tmpl.templateSubsystemsSequence_ = []
  · exact ⟨0, .returned self, fun fuel1 _ => by
      unfold rounded.tileModeSequenceTemplate
      simp [hne]⟩
  have h0 : tmpl.templateSubsystemsSequence_.length ≠ 0 :=
    fun hc => hne (List.length_eq_zero.mp hc)
  by_cases hwf : WellFormedTemplate tmpl
  · rcases hlast : self.eventTimes_.getLast? with _ | last
    · exact ⟨0, .undefined, fun fuel1 _ => by
        unfold WellFormedTemplate at hwf
        unfold rounded.tileModeSequenceTemplate
        simp [h0, hwf, hlast]⟩
    · by_cases hlt : last < startTime
      · exact ⟨Nat.find h + 1, _, fun fuel1 hfuel =>
          rounded_tileModeSequenceTemplate_running fl E self tmpl startTime finalTime last hne
            hwf hlast hlt (Nat.find h) (fun j hj => not_le.mp (Nat.find_min h hj))
            (Nat.find_spec h) fuel1 hfuel⟩
      · exact ⟨0, .raised .tilingStartNotGreater, fun fuel1 _ =>
          rounded_tileModeSequenceTemplate_tilingStartNotGreater fl E fuel1 self tmpl startTime
            finalTime last hne hwf hlast (not_lt.mp hlt)⟩
  · exact ⟨0, .raised .templateSizeMismatch, fun fuel1 _ => by
      unfold WellFormedTemplate at hwf
      unfold rounded.tileModeSequenceTemplate
      simp [h0, hwf]⟩


/-! ### Binary64 sums of the phase length nearest to 0.1 -/

theorem round64_tenth :
    round64 (3602879701896397 / 36028797018963968) = 3602879701896397 / 36028797018963968 := by
  have h := round64_int_mul_zpow 3602879701896397 (-55) (by norm_num) (by norm_num)
  norm_num at h ⊢
  exact h

theorem round64_tenth_sum2 :
    round64 (3602879701896397 / 18014398509481984) = 3602879701896397 / 18014398509481984 := by
  rw [@round64_eq (3602879701896397 / 18014398509481984) (-55) 7205759403792794 (by norm_num) (by norm_num)
    (by norm_num) (Or.inr (by norm_num)) (Or.inl (by norm_num [abs_lt]))]
  norm_num

theorem round64_tenth_sum3 :
    round64 (10808639105689191 / 36028797018963968) = 1351079888211149 / 4503599627370496 := by
  rw [@round64_eq (10808639105689191 / 36028797018963968) (-54) 5404319552844596 (by norm_num) (by norm_num)
    (by norm_num) (Or.inr (by norm_num)) (Or.inr ⟨by norm_num [abs_eq], by norm_num⟩)]
  norm_num

theorem round64_tenth_sum4 :
    round64 (14411518807585589 / 36028797018963968) = 3602879701896397 / 9007199254740992 := by
  rw [@round64_eq (14411518807585589 / 36028797018963968) (-54) 7205759403792794 (by norm_num) (by norm_num)
    (by norm_num) (Or.inr (by norm_num)) (Or.inr ⟨by norm_num [abs_eq], by norm_num⟩)]
  norm_num

theorem round64_tenth_sum5 :
    round64 (18014398509481985 / 36028797018963968) = 1 / 2 := by
  rw [@round64_eq (18014398509481985 / 36028797018963968) (-53) 4503599627370496 (by norm_num) (by norm_num)
    (by norm_num) (Or.inr (by norm_num)) (Or.inl (by norm_num [abs_lt]))]
  norm_num

theorem round64_tenth_sum6 :
    round64 (21617278211378381 / 36028797018963968) = 5404319552844595 / 9007199254740992 := by
  rw [@round64_eq (21617278211378381 / 36028797018963968) (-53) 5404319552844595 (by norm_num) (by norm_num)
    (by norm_num) (Or.inr (by norm_num)) (Or.inl (by norm_num [abs_lt]))]
  norm_num

theorem round64_tenth_sum7 :
    round64 (25220157913274777 / 36028797018963968) = 3152519739159347 / 4503599627370496 := by
  rw [@round64_eq (25220157913274777 / 36028797018963968) (-53) 6305039478318694 (by norm_num) (by norm_num)
    (by norm_num) (Or.inr (by norm_num)) (Or.inl (by norm_num [abs_lt]))]
  norm_num

theorem round64_tenth_sum8 :
    round64 (28823037615171173 / 36028797018963968) = 7205759403792793 / 9007199254740992 := by
  rw [@round64_eq (28823037615171173 / 36028797018963968) (-53) 7205759403792793 (by norm_num) (by norm_num)
    (by norm_num) (Or.inr (by norm_num)) (Or.inl (by norm_num [abs_lt]))]
  norm_num

theorem round64_tenth_sum9 :
    round64 (32425917317067569 / 36028797018963968) = 2026619832316723 / 2251799813685248 := by
  rw [@round64_eq (32425917317067569 / 36028797018963968) (-53) 8106479329266892 (by norm_num) (by norm_num)
    (by norm_num) (Or.inr (by norm_num)) (Or.inl (by norm_num [abs_lt]))]
  norm_num


/-! ### C19: the event times of a tiling -/

theorem tile_exampleTenth_of (fl : scalar_t → scalar_t)
    (e1 : fl (3602879701896397 / 36028797018963968) = 3602879701896397 / 36028797018963968)
    (e2 : fl (3602879701896397 / 18014398509481984) = 3602879701896397 / 18014398509481984)
    (e3 : fl (10808639105689191 / 36028797018963968) = 1351079888211149 / 4503599627370496)
    (e4 : fl (14411518807585589 / 36028797018963968) = 3602879701896397 / 9007199254740992)
    (e5 : fl (18014398509481985 / 36028797018963968) = 1 / 2)
    (e6 : fl (21617278211378381 / 36028797018963968) = 5404319552844595 / 9007199254740992)
    (e7 : fl (25220157913274777 / 36028797018963968) = 3152519739159347 / 4503599627370496)
    (e8 : fl (28823037615171173 / 36028797018963968) = 7205759403792793 / 9007199254740992)
    (e9 : fl (32425917317067569 / 36028797018963968) = 2026619832316723 / 2251799813685248) :
    rounded.tileModeSequenceTemplate fl exampleCollaborators 10 exampleRules exampleTenthTemplate
        0 (3602879701896397 / 4503599627370496) =
      some (.returned (pushed exampleRules [7, 7, 7, 7, 7, 7, 7, 7, 7, 15]
        [0, 3602879701896397 / 36028797018963968, 3602879701896397 / 18014398509481984, 1351079888211149 / 4503599627370496, 3602879701896397 / 9007199254740992, 1 / 2, 5404319552844595 / 9007199254740992, 3152519739159347 / 4503599627370496, 7205759403792793 / 9007199254740992, 2026619832316723 / 2251799813685248])) := by
  norm_num at e1 e2 e3 e4 e5 e6 e7 e8 e9
  norm_num [rounded.tileModeSequenceTemplate, rounded.tileWhileLoop, rounded.tileForLoop,
    exampleRules, mkRules, exampleTenthTemplate, exampleCollaborators, pushed,
    e1, e2, e3, e4, e5, e6, e7, e8, e9]

theorem tile_exampleTenth :
    rounded.tileModeSequenceTemplate round64 exampleCollaborators 10 exampleRules
        exampleTenthTemplate 0 (3602879701896397 / 4503599627370496) =
      some (.returned (pushed exampleRules [7, 7, 7, 7, 7, 7, 7, 7, 7, 15]
        [0, 3602879701896397 / 36028797018963968, 3602879701896397 / 18014398509481984, 1351079888211149 / 4503599627370496, 3602879701896397 / 9007199254740992, 1 / 2, 5404319552844595 / 9007199254740992, 3152519739159347 / 4503599627370496, 7205759403792793 / 9007199254740992, 2026619832316723 / 2251799813685248])) :=
  tile_exampleTenth_of round64 round64_tenth round64_tenth_sum2 round64_tenth_sum3 round64_tenth_sum4 round64_tenth_sum5 round64_tenth_sum6 round64_tenth_sum7 round64_tenth_sum8 round64_tenth_sum9

theorem passEnd_exampleTenthTemplate (b : scalar_t) :
    passEnd round64 exampleTenthTemplate b = round64 (b + 3602879701896397 / 36028797018963968) := by
  have h : passEnd round64 exampleTenthTemplate b =
      round64 (b + round64 (3602879701896397 / 36028797018963968 - 0)) := rfl
  rw [h, sub_zero, round64_tenth]

theorem tenth_iterate_0 : (passEnd round64 exampleTenthTemplate)^[0] 0 = 0 := rfl

theorem tenth_iterate_1 :
    (passEnd round64 exampleTenthTemplate)^[1] 0 = 3602879701896397 / 36028797018963968 := by
  rw [Function.iterate_succ_apply', tenth_iterate_0, passEnd_exampleTenthTemplate,
    show (0 : scalar_t) + 3602879701896397 / 36028797018963968 = 3602879701896397 / 36028797018963968 by norm_num, round64_tenth]

theorem tenth_iterate_2 :
    (passEnd round64 exampleTenthTemplate)^[2] 0 = 3602879701896397 / 18014398509481984 := by
  rw [Function.iterate_succ_apply', tenth_iterate_1, passEnd_exampleTenthTemplate,
    show (3602879701896397 / 36028797018963968 : scalar_t) + 3602879701896397 / 36028797018963968 = 3602879701896397 / 18014398509481984 by norm_num, round64_tenth_sum2]

theorem tenth_iterate_3 :
    (passEnd round64 exampleTenthTemplate)^[3] 0 = 1351079888211149 / 4503599627370496 := by
  rw [Function.iterate_succ_apply', tenth_iterate_2, passEnd_exampleTenthTemplate,
    show (3602879701896397 / 18014398509481984 : scalar_t) + 3602879701896397 / 36028797018963968 = 10808639105689191 / 36028797018963968 by norm_num, round64_tenth_sum3]

theorem tenth_iterate_4 :
    (passEnd round64 exampleTenthTemplate)^[4] 0 = 3602879701896397 / 9007199254740992 := by
  rw [Function.iterate_succ_apply', tenth_iterate_3, passEnd_exampleTenthTemplate,
    show (1351079888211149 / 4503599627370496 : scalar_t) + 3602879701896397 / 36028797018963968 = 14411518807585589 / 36028797018963968 by norm_num, round64_tenth_sum4]

theorem tenth_iterate_5 :
    (passEnd round64 exampleTenthTemplate)^[5] 0 = 1 / 2 := by
  rw [Function.iterate_succ_apply', tenth_iterate_4, passEnd_exampleTenthTemplate,
    show (3602879701896397 / 9007199254740992 : scalar_t) + 3602879701896397 / 36028797018963968 = 18014398509481985 / 36028797018963968 by norm_num, round64_tenth_sum5]

theorem tenth_iterate_6 :
    (passEnd round64 exampleTenthTemplate)^[6] 0 = 5404319552844595 / 9007199254740992 := by
  rw [Function.iterate_succ_apply', tenth_iterate_5, passEnd_exampleTenthTemplate,
    show (1 / 2 : scalar_t) + 3602879701896397 / 36028797018963968 = 21617278211378381 / 36028797018963968 by norm_num, round64_tenth_sum6]

theorem tenth_iterate_7 :
    (passEnd round64 exampleTenthTemplate)^[7] 0 = 3152519739159347 / 4503599627370496 := by
  rw [Function.iterate_succ_apply', tenth_iterate_6, passEnd_exampleTenthTemplate,
    show (5404319552844595 / 9007199254740992 : scalar_t) + 3602879701896397 / 36028797018963968 = 25220157913274777 / 36028797018963968 by norm_num, round64_tenth_sum7]

theorem tenth_iterate_8 :
    (passEnd round64 exampleTenthTemplate)^[8] 0 = 7205759403792793 / 9007199254740992 := by
  rw [Function.iterate_succ_apply', tenth_iterate_7, passEnd_exampleTenthTemplate,
    show (3152519739159347 / 4503599627370496 : scalar_t) + 3602879701896397 / 36028797018963968 = 28823037615171173 / 36028797018963968 by norm_num, round64_tenth_sum8]

theorem tenth_iterate_9 :
    (passEnd round64 exampleTenthTemplate)^[9] 0 = 2026619832316723 / 2251799813685248 := by
  rw [Function.iterate_succ_apply', tenth_iterate_8, passEnd_exampleTenthTemplate,
    show (7205759403792793 / 9007199254740992 : scalar_t) + 3602879701896397 / 36028797018963968 = 32425917317067569 / 36028797018963968 by norm_num, round64_tenth_sum9]

theorem tenth_iterate_lt (j : Nat) (hj : j < 9) :
    (passEnd round64 exampleTenthTemplate)^[j] 0 < 3602879701896397 / 4503599627370496 := by
  interval_cases j
  · rw [tenth_iterate_0]; norm_num
  · rw [tenth_iterate_1]; norm_num
  · rw [tenth_iterate_2]; norm_num
  · rw [tenth_iterate_3]; norm_num
  · rw [tenth_iterate_4]; norm_num
  · rw [tenth_iterate_5]; norm_num
  · rw [tenth_iterate_6]; norm_num
  · rw [tenth_iterate_7]; norm_num
  · rw [tenth_iterate_8]; norm_num

theorem tenth_iterate_ge :
    (3602879701896397 / 4503599627370496 : scalar_t) ≤ (passEnd round64 exampleTenthTemplate)^[9] 0 := by
  rw [tenth_iterate_9]
  norm_num


theorem round64_eight_tenths :
    round64 (3602879701896397 / 4503599627370496) = 3602879701896397 / 4503599627370496 := by
  have h := round64_int_mul_zpow 3602879701896397 (-52) (by norm_num) (by norm_num)
  norm_num at h ⊢
  exact h

theorem templatePeriod_exampleTenthTemplate :
    templatePeriod exampleTenthTemplate = 3602879701896397 / 36028797018963968 := by
  norm_num [templatePeriod, switchingTime, exampleTenthTemplate]

theorem getLast?_exampleRules : exampleRules.eventTimes_.getLast? = some (-1) := by
  simp [exampleRules, mkRules]

/-- C19 (as stated) fails in binary64 arithmetic. The template `exampleTenthTemplate` has one
phase whose length `T` is the binary64 number nearest to `0.1`; the final time is the binary64
number `8 * T` nearest to `0.8`, and `8` is the smallest `k` with `0 + k * T >= finalTime`. The
tiling from `0` makes nine passes, not eight: the eighth running sum is `0.7999999999999999`,
below the final time, and the last event time is `0.8999999999999999`. -/
theorem C19_counterexample :
    exampleTenthTemplate.templateSubsystemsSequence_ ≠ [] ∧
      WellFormedTemplate exampleTenthTemplate ∧ 0 < templatePeriod exampleTenthTemplate ∧
      round64 (templatePeriod exampleTenthTemplate) = templatePeriod exampleTenthTemplate ∧
      round64 (3602879701896397 / 4503599627370496) = 3602879701896397 / 4503599627370496 ∧
      (3602879701896397 / 4503599627370496 : scalar_t) ≤
        0 + (8 : Nat) * templatePeriod exampleTenthTemplate ∧
      (∀ j : Nat, j < 8 → 0 + (j : scalar_t) * templatePeriod exampleTenthTemplate <
        3602879701896397 / 4503599627370496) ∧
      rounded.tileModeSequenceTemplate round64 exampleCollaborators 10 exampleRules
          exampleTenthTemplate 0 (3602879701896397 / 4503599627370496) =
        some (.returned (pushed exampleRules [7, 7, 7, 7, 7, 7, 7, 7, 7, 15]
          [0, 3602879701896397 / 36028797018963968, 3602879701896397 / 18014398509481984,
            1351079888211149 / 4503599627370496, 3602879701896397 / 9007199254740992, 1 / 2,
            5404319552844595 / 9007199254740992, 3152519739159347 / 4503599627370496,
            7205759403792793 / 9007199254740992, 2026619832316723 / 2251799813685248])) ∧
      (tiledModes exampleTenthTemplate 8 ++ [exampleCollaborators.STANCE]).length = 9 ∧
      (0 :: tiledEventTimes exampleTenthTemplate 0 8).getLast? =
        some (3602879701896397 / 4503599627370496) := by
  refine ⟨by decide, by decide, ?_, ?_, round64_eight_tenths, ?_, ?_, tile_exampleTenth, ?_, ?_⟩
  · rw [templatePeriod_exampleTenthTemplate]; norm_num
  · rw [templatePeriod_exampleTenthTemplate]; exact round64_tenth
  · rw [templatePeriod_exampleTenthTemplate]; norm_num
  · intro j hj
    rw [templatePeriod_exampleTenthTemplate]
    interval_cases j <;> norm_num
  · simp [tiledModes, exampleTenthTemplate]
  · norm_num [tiledEventTimes, templatePeriod, switchingTime, exampleTenthTemplate,
      List.range_succ, List.flatMap]

/-- C19 (amended). For every non-empty well-formed template with modes `m_0..m_(n-1)` and
switching times `s_0..s_n`, applied to a timeline whose last event time is below `startTime`,
the sums being rounded by `fl`: `tileModeSequenceTemplate` appends to the event times
`startTime` followed by the running sums of `k` passes, each event time being the rounded sum
`fl (previous + fl (s_(i+1) - s_i))` of the event time before it and the rounded length of the
phase, and appends to the modes `k` repetitions of `m_0..m_(n-1)` followed by `STANCE`, where
`k` is the smallest number of passes after which the last event time is at least `finalTime`
(`k = 0` when `startTime >= finalTime`). When the sums are exact (`fl` the identity) and the
period `T = s_n - s_0` is positive, the event times after `startTime` are
`startTime + j * T + (s_(i+1) - s_0)` for `j = 0..k-1`, `i = 0..n-1`, and `k` is the smallest
natural number with `startTime + k * T >= finalTime`. -/
theorem C19_tile_running_sums (fl : scalar_t → scalar_t) {F : Type} (E : Collaborators F)
    (self : SwitchedModelLogicRulesBase F) (tmpl : logic_template_type)
    (startTime finalTime last : scalar_t)
    (hne : tmpl.templateSubsystemsSequence_ ≠ []) (hwf : WellFormedTemplate tmpl)
    (hlast : self.eventTimes_.getLast? = some last) (hlt : last < startTime) :
    (∀ k : Nat, (∀ j : Nat, j < k → (passEnd fl tmpl)^[j] startTime < finalTime) →
      finalTime ≤ (passEnd fl tmpl)^[k] startTime →
      ∀ fuel, k + 1 ≤ fuel →
        rounded.tileModeSequenceTemplate fl E fuel self tmpl startTime finalTime =
          some (.returned (pushed self (tiledModes tmpl k ++ [E.STANCE])
            (startTime :: runningTimes fl tmpl k startTime)))) ∧
    (finalTime ≤ startTime → ∀ fuel, 1 ≤ fuel →
      rounded.tileModeSequenceTemplate fl E fuel self tmpl startTime finalTime =
        some (.returned (pushed self [E.STANCE] [startTime]))) ∧
    (0 < templatePeriod tmpl →
      ∃ k : Nat, finalTime ≤ startTime + k * templatePeriod tmpl ∧
        (∀ j : Nat, j < k → startTime + j * templatePeriod tmpl < finalTime) ∧
        (finalTime ≤ startTime → k = 0) ∧
        ∀ fuel, k + 1 ≤ fuel →
          rounded.tileModeSequenceTemplate (fun x => x) E fuel self tmpl startTime finalTime =
            some (.returned (pushed self (tiledModes tmpl k ++ [E.STANCE])
              (startTime :: tiledEventTimes tmpl startTime k)))) := by
  refine ⟨?_, ?_, ?_⟩
  · intro k hmin hk fuel hfuel
    exact rounded_tileModeSequenceTemplate_running fl E self tmpl startTime finalTime last hne
      hwf hlast hlt k hmin hk fuel hfuel
  · intro hfs fuel hfuel
    have h := rounded_tileModeSequenceTemplate_running fl E self tmpl startTime finalTime last
      hne hwf hlast hlt 0 (fun j hj => absurd hj (Nat.not_lt_zero j)) (by simpa using hfs) fuel
      (by omega)
    simpa [tiledModes, runningTimes] using h
  · intro hT
    obtain ⟨k, hk, hmin, h0, hrun⟩ := tile_closed_form_exact E self tmpl startTime finalTime
      last hne hwf hT hlast hlt
    refine ⟨k, hk, hmin, h0, fun fuel hfuel => ?_⟩
    rw [rounded_tileModeSequenceTemplate_id]
    exact hrun fuel hfuel

theorem C19_tile_running_sums_witness :
    exampleTenthTemplate.templateSubsystemsSequence_ ≠ [] ∧
      WellFormedTemplate exampleTenthTemplate ∧
      exampleRules.eventTimes_.getLast? = some (-1) ∧ (-1 : scalar_t) < 0 ∧
      rounded.tileModeSequenceTemplate round64 exampleCollaborators 10 exampleRules
          exampleTenthTemplate 0 (3602879701896397 / 4503599627370496) =
        some (.returned (pushed exampleRules
          (tiledModes exampleTenthTemplate 9 ++ [exampleCollaborators.STANCE])
          (0 :: runningTimes round64 exampleTenthTemplate 9 0))) :=
  ⟨by decide, by decide, getLast?_exampleRules, by norm_num,
    (C19_tile_running_sums round64 exampleCollaborators exampleRules exampleTenthTemplate 0
      (3602879701896397 / 4503599627370496) (-1) (by decide) (by decide) getLast?_exampleRules
      (by norm_num)).1 9 tenth_iterate_lt tenth_iterate_ge 10 (by norm_num)⟩


/-! ### C27: termination of the tiling loop -/

theorem round64_absorbed_one : round64 (2 ^ 53 + 1) = 2 ^ 53 := by
  rw [@round64_eq (2 ^ 53 + 1) 1 (2 ^ 52) (by norm_num) (by norm_num) (by norm_num)
    (Or.inr (by norm_num)) (Or.inr ⟨by norm_num [abs_eq], by norm_num⟩)]
  norm_num

theorem round64_two_pow_53 : round64 (2 ^ 53) = 2 ^ 53 := by
  have h := round64_int_mul_zpow 1 53 (by norm_num) (by norm_num)
  norm_num at h ⊢
  exact h

theorem round64_two_pow_53_add_two : round64 (2 ^ 53 + 2) = 2 ^ 53 + 2 := by
  have h := round64_int_mul_zpow (2 ^ 52 + 1) 1 (by norm_num) (by norm_num)
  norm_num at h ⊢
  exact h

theorem passEnd_exampleUnitPeriodTemplate (b : scalar_t) :
    passEnd round64 exampleUnitPeriodTemplate b = round64 (b + 1) := by
  have h : passEnd round64 exampleUnitPeriodTemplate b = round64 (b + round64 (1 - 0)) := rfl
  rw [h, sub_zero, round64_one]

theorem passEnd_exampleUnitPeriodTemplate_stalls :
    passEnd round64 exampleUnitPeriodTemplate (2 ^ 53) ≤ 2 ^ 53 := by
  rw [passEnd_exampleUnitPeriodTemplate, round64_absorbed_one]

theorem templatePeriod_exampleUnitPeriodTemplate :
    templatePeriod exampleUnitPeriodTemplate = 1 := by
  norm_num [templatePeriod, switchingTime, exampleUnitPeriodTemplate]

/-- C27 (as stated) fails in binary64 arithmetic. The template `exampleUnitPeriodTemplate` is
non-empty and well formed with the strictly positive period `1`; start time `2 ^ 53` and final
time `2 ^ 53 + 2` are binary64 numbers. The call reaches the loop, and the loop never
terminates: `2 ^ 53 + 1` is rounded to `2 ^ 53`, so a pass leaves the last event time where it
was. -/
theorem C27_counterexample :
    exampleUnitPeriodTemplate.templateSubsystemsSequence_ ≠ [] ∧
      WellFormedTemplate exampleUnitPeriodTemplate ∧
      0 < templatePeriod exampleUnitPeriodTemplate ∧
      round64 (2 ^ 53) = 2 ^ 53 ∧ round64 (2 ^ 53 + 2) = 2 ^ 53 + 2 ∧
      ∀ fuel, rounded.tileModeSequenceTemplate round64 exampleCollaborators fuel exampleRules
        exampleUnitPeriodTemplate (2 ^ 53) (2 ^ 53 + 2) = none := by
  refine ⟨by decide, by decide, ?_, round64_two_pow_53, round64_two_pow_53_add_two, ?_⟩
  · rw [templatePeriod_exampleUnitPeriodTemplate]; norm_num
  · intro fuel
    exact rounded_tileModeSequenceTemplate_diverges round64_mono exampleCollaborators
      exampleRules exampleUnitPeriodTemplate (2 ^ 53) (2 ^ 53 + 2) (-1) (by decide) (by decide)
      getLast?_exampleRules (by norm_num) (by norm_num)
      passEnd_exampleUnitPeriodTemplate_stalls fuel

/-- C27 (amended). The sums of the tiling being rounded by `fl`, the loop of
`tileModeSequenceTemplate` terminates for every input in which `startTime >= finalTime`, and
more generally whenever the last event time reaches `finalTime` after finitely many passes: from
some fuel bound on the call ends with one and the same outcome. Over exact arithmetic (`fl` the
identity) this is the case whenever the template period is strictly positive. With a monotone
rounding a strictly positive period does not suffice: for a non-empty well-formed template and
`startTime < finalTime`, when a pass from `startTime` does not advance the last event time (the
phase lengths are absorbed by rounding), a call that reaches the loop never terminates. Over
exact arithmetic, for a non-empty well-formed template whose period is `<= 0` and
`startTime < finalTime`, a call that reaches the loop never terminates. -/
theorem C27_tiling_termination (fl : scalar_t → scalar_t) {F : Type} (E : Collaborators F)
    (self : SwitchedModelLogicRulesBase F) (tmpl : logic_template_type)
    (startTime finalTime : scalar_t) :
    (finalTime ≤ startTime →
      ∃ fuel o, ∀ fuel1, fuel ≤ fuel1 →
        rounded.tileModeSequenceTemplate fl E fuel1 self tmpl startTime finalTime = some o) ∧
    ((∃ k : Nat, finalTime ≤ (passEnd fl tmpl)^[k] startTime) →
      ∃ fuel o, ∀ fuel1, fuel ≤ fuel1 →
        rounded.tileModeSequenceTemplate fl E fuel1 self tmpl startTime finalTime = some o) ∧
    (Monotone fl → tmpl.templateSubsystemsSequence_ ≠ [] → WellFormedTemplate tmpl →
      startTime < finalTime → passEnd fl tmpl startTime ≤ startTime →
      ∀ last, self.eventTimes_.getLast? = some last → last < startTime →
      ∀ fuel, rounded.tileModeSequenceTemplate fl E fuel self tmpl startTime finalTime = none) ∧
    ((finalTime ≤ startTime ∨ 0 < templatePeriod tmpl) →
      ∃ fuel o, ∀ fuel1, fuel ≤ fuel1 →
        rounded.tileModeSequenceTemplate (fun x => x) E fuel1 self tmpl startTime finalTime =
          some o) ∧
    (tmpl.templateSubsystemsSequence_ ≠ [] → WellFormedTemplate tmpl →
      templatePeriod tmpl ≤ 0 → startTime < finalTime →
      ∀ last, self.eventTimes_.getLast? = some last → last < startTime →
      ∀ fuel, rounded.tileModeSequenceTemplate (fun x => x) E fuel self tmpl startTime
        finalTime = none) := by
  refine ⟨?_, ?_, ?_, ?_, ?_⟩
  · intro h
    exact rounded_tileModeSequenceTemplate_terminates fl E self tmpl startTime finalTime
      ⟨0, by simpa using h⟩
  · exact rounded_tileModeSequenceTemplate_terminates fl E self tmpl startTime finalTime
  · intro hmono hne hwf hsf hstall last hlast hlt fuel
    exact rounded_tileModeSequenceTemplate_diverges hmono E self tmpl startTime finalTime last
      hne hwf hlast hlt hsf hstall fuel
  · intro h
    obtain ⟨fuel, o, ho⟩ := (tiling_termination_exact E self tmpl startTime finalTime).1 h
    refine ⟨fuel, o, fun fuel1 hfuel => ?_⟩
    rw [rounded_tileModeSequenceTemplate_id]
    exact ho fuel1 hfuel
  · intro hne hwf hT hsf last hlast hlt fuel
    rw [rounded_tileModeSequenceTemplate_id]
    exact (tiling_termination_exact E self tmpl startTime finalTime).2 hne hwf hT hsf last hlast
      hlt fuel

theorem C27_tiling_termination_witness :
    (∃ fuel o, ∀ fuel1, fuel ≤ fuel1 →
      rounded.tileModeSequenceTemplate round64 exampleCollaborators fuel1 exampleRules
        exampleTenthTemplate 0 (3602879701896397 / 4503599627370496) = some o) ∧
    ∀ fuel, rounded.tileModeSequenceTemplate round64 exampleCollaborators fuel exampleRules
      exampleUnitPeriodTemplate (2 ^ 53) (2 ^ 53 + 2) = none :=
  ⟨(C27_tiling_termination round64 exampleCollaborators exampleRules exampleTenthTemplate 0
      (3602879701896397 / 4503599627370496)).2.1 ⟨9, tenth_iterate_ge⟩,
    (C27_tiling_termination round64 exampleCollaborators exampleRules exampleUnitPeriodTemplate
      (2 ^ 53) (2 ^ 53 + 2)).2.2.1 round64_mono (by decide) (by decide) (by norm_num)
      passEnd_exampleUnitPeriodTemplate_stalls (-1) getLast?_exampleRules (by norm_num)⟩


/-! ### Rewinding in the rounded model -/

theorem le_getLast_of_sorted {xs : List scalar_t} {a b : scalar_t}
    (hs : xs.Pairwise (fun a b => a ≤ b)) (hb : xs.getLast? = some b) (ha : a ∈ xs) : a ≤ b := by
  obtain ⟨ys, rfl⟩ := List.getLast?_eq_some_iff.mp hb
  rw [List.pairwise_append] at hs
  rcases List.mem_append.mp ha with h1 | h1
  · exact hs.2.2 a h1 b (by simp)
  · simp only [List.mem_singleton] at h1
    exact le_of_eq h1

theorem dropLast_drop {α : Type} (xs : List α) (k : Nat) :
    (xs.drop k).dropLast = xs.dropLast.drop k := by
  apply List.ext_getElem?
  intro i
  simp only [List.getElem?_drop, List.dropLast_eq_take, List.getElem?_take, List.length_drop]
  by_cases h : i < xs.length - k - 1
  · rw [if_pos h, if_pos (by omega)]
  · rw [if_neg h, if_neg (by omega)]

theorem exists_before_last_sorted {xs : List scalar_t} {b : scalar_t}
    (hs : xs.Pairwise (fun a b => a ≤ b)) (hlen : 2 ≤ xs.length) (hb : xs.getLast? = some b) :
    ∃ p, xs.dropLast.getLast? = some p ∧ p ≤ b := by
  obtain ⟨ys, rfl⟩ := List.getLast?_eq_some_iff.mp hb
  simp only [List.length_append, List.length_singleton] at hlen
  have hys : ys ≠ [] := by
    intro hc
    rw [hc] at hlen
    simp at hlen
  refine ⟨ys.getLast hys, by simp [List.getLast?_eq_getLast _ hys], ?_⟩
  rw [List.pairwise_append] at hs
  exact hs.2.2 _ (List.getLast_mem hys) b (by simp)

theorem rounded_tileModeSequenceTemplate_fuel_ne_zero {F : Type} {fl : scalar_t → scalar_t}
    {E : Collaborators F} {fuel : Nat}
    {self self1 : SwitchedModelLogicRulesBase F} {tmpl : logic_template_type}
    {startTime finalTime : scalar_t}
    (h : rounded.tileModeSequenceTemplate fl E fuel self tmpl startTime finalTime =
      some (.returned self1))
    (hne : tmpl.templateSubsystemsSequence_ ≠ []) : fuel ≠ 0 := by
  rintro rfl
  have h0 : tmpl.templateSubsystemsSequence_.length ≠ 0 :=
    fun hc => hne (List.length_eq_zero.mp hc)
  unfold rounded.tileModeSequenceTemplate at h
  simp only [h0, ↓reduceIte, rounded.tileWhileLoop] at h
  split_ifs at h
  · cases h
  · split at h
    · cases h
    · split_ifs at h
      cases h

theorem rounded_tileModeSequenceTemplate_last {F : Type} {fl : scalar_t → scalar_t}
    {E : Collaborators F}
    {fuel : Nat} {self self1 : SwitchedModelLogicRulesBase F} {tmpl : logic_template_type}
    {startTime finalTime : scalar_t}
    (h : rounded.tileModeSequenceTemplate fl E fuel self tmpl startTime finalTime =
      some (.returned self1))
    (hne : tmpl.templateSubsystemsSequence_ ≠ []) :
    (∃ b, self1.eventTimes_.getLast? = some b ∧ finalTime ≤ b) ∧
      self1.subsystemsSequence_.getLast? = some E.STANCE := by
  rcases rounded_tileModeSequenceTemplate_returned fl E fuel self self1 tmpl startTime finalTime
    h with ⟨h0, _⟩ | ⟨_, _, last, ms, ts, _, _, rfl, _, ⟨b, hb, hfb⟩, _⟩
  · exact absurd h0 hne
  · refine ⟨⟨b, ?_, hfb⟩, ?_⟩
    · simpa [pushed, getLast?_append_cons] using hb
    · simp [pushed, ← List.append_assoc, List.getLast?_concat]

theorem lengthInvariant_rounded_insertTransition {F : Type} (fl : scalar_t → scalar_t)
    (E : Collaborators F)
    {self : SwitchedModelLogicRulesBase F} (startTime : scalar_t) (hinv : LengthInvariant self) :
    LengthInvariant (rounded.insertTransition fl E self startTime) := by
  unfold rounded.insertTransition
  split_ifs
  · unfold LengthInvariant at *
    simp [hinv]
  · exact hinv

theorem rounded_insertTransition_template {F : Type} (fl : scalar_t → scalar_t)
    (E : Collaborators F) (self : SwitchedModelLogicRulesBase F) (startTime : scalar_t) :
    (rounded.insertTransition fl E self startTime).modeSequenceTemplate_ =
      self.modeSequenceTemplate_ := by
  unfold rounded.insertTransition
  split_ifs <;> rfl

theorem lengthInvariant_rounded_tileModeSequenceTemplate {F : Type} {fl : scalar_t → scalar_t}
    {E : Collaborators F} {fuel : Nat}
    {self self1 : SwitchedModelLogicRulesBase F} {tmpl : logic_template_type}
    {startTime finalTime : scalar_t}
    (h : rounded.tileModeSequenceTemplate fl E fuel self tmpl startTime finalTime =
      some (.returned self1))
    (hinv : LengthInvariant self) : LengthInvariant self1 := by
  rcases rounded_tileModeSequenceTemplate_returned fl E fuel self self1 tmpl startTime finalTime
    h with ⟨_, rfl⟩ | ⟨_, _, last, ms, ts, _, _, rfl, hlen, _, _⟩
  · exact hinv
  · unfold LengthInvariant at *
    simp [pushed, hinv, hlen]
    omega

/-- Tiling from the last event time of a timeline that already reaches `finalTime` and ends in
stance, after that last event and mode were erased, gives the timeline back when the event time
before the last is below it, and raises the start-time error otherwise. -/
theorem rounded_tileModeSequenceTemplate_restore {F : Type} (fl : scalar_t → scalar_t)
    (E : Collaborators F) (q : SwitchedModelLogicRulesBase F) (tmpl : logic_template_type)
    (finalTime b p : scalar_t) (hne : tmpl.templateSubsystemsSequence_ ≠ [])
    (hwf : WellFormedTemplate tmpl) (hb : q.eventTimes_.getLast? = some b)
    (hp : q.eventTimes_.dropLast.getLast? = some p)
    (hm : q.subsystemsSequence_.getLast? = some E.STANCE) :
    (p < b → finalTime ≤ b → ∀ n, rounded.tileModeSequenceTemplate fl E (n + 1)
        { q with
          eventTimes_ := q.eventTimes_.dropLast
          subsystemsSequence_ := q.subsystemsSequence_.dropLast }
        tmpl b finalTime = some (.returned q)) ∧
    (b ≤ p → ∀ fuel, rounded.tileModeSequenceTemplate fl E fuel
        { q with
          eventTimes_ := q.eventTimes_.dropLast
          subsystemsSequence_ := q.subsystemsSequence_.dropLast }
        tmpl b finalTime = some (.raised .tilingStartNotGreater)) := by
  have h0 : tmpl.templateSubsystemsSequence_.length ≠ 0 :=
    fun hc => hne (List.length_eq_zero.mp hc)
  constructor
  · intro hpb hfb n
    unfold WellFormedTemplate at hwf
    have he := List.dropLast_append_getLast? b hb
    have hmm := List.dropLast_append_getLast? E.STANCE hm
    unfold rounded.tileModeSequenceTemplate
    simp only [h0, ↓reduceIte, hwf, ne_eq, not_true_eq_false, hp, not_le.mpr hpb, he]
    unfold rounded.tileWhileLoop
    simp only [hb, not_lt.mpr hfb, ↓reduceIte, hmm]
  · intro hbp fuel
    exact rounded_tileModeSequenceTemplate_tilingStartNotGreater fl E fuel _ tmpl b finalTime p
      hne hwf hp hbp

/-- The truncation step of `rewind` on a timeline with at least two event times whose last
event time is at or after `lowerBoundTime`: it returns, and keeps the last two event times and
the last mode. -/
theorem rewindTruncate_reaching {F : Type} (E : Collaborators F)
    (r : SwitchedModelLogicRulesBase F) (lowerBoundTime b p : scalar_t)
    (hinv : LengthInvariant r) (hs : r.eventTimes_.Pairwise (fun a b => a ≤ b))
    (hb : r.eventTimes_.getLast? = some b) (hlb : lowerBoundTime ≤ b)
    (hp : r.eventTimes_.dropLast.getLast? = some p)
    (hm : r.subsystemsSequence_.getLast? = some E.STANCE) :
    ∃ q, rewindTruncate E r lowerBoundTime = .returned q ∧
      q.eventTimes_.getLast? = some b ∧ q.eventTimes_.dropLast.getLast? = some p ∧
      q.subsystemsSequence_.getLast? = some E.STANCE := by
  obtain ⟨q, hq⟩ := rewindTruncate_of_lengthInvariant E r lowerBoundTime hinv
  refine ⟨q, hq, ?_⟩
  have hle := lower_bound_le_length r.eventTimes_ lowerBoundTime
  have hlen : 2 ≤ r.eventTimes_.length := by
    have := length_pos_of_getLast? hp
    rw [List.length_dropLast] at this
    omega
  have hidx : lower_bound r.eventTimes_ lowerBoundTime < r.eventTimes_.length := by
    have hget : r.eventTimes_[r.eventTimes_.length - 1]? = some b := by
      rw [← hb, List.getLast?_eq_getElem?]
    have := (lower_bound_spec hs lowerBoundTime hget).not.mp (not_lt.mpr hlb)
    omega
  rcases rewindTruncate_returned hq with ⟨_, rfl⟩ | ⟨hpos, _⟩
  · exact ⟨hb, hp, hm⟩
  · have hqeq := rewindTruncate_of_pos hq hpos
    rw [hqeq]
    refine ⟨?_, ?_, ?_⟩
    · simp only [List.getLast?_drop]
      rw [if_neg (by omega)]
      exact hb
    · show (r.eventTimes_.drop (lower_bound r.eventTimes_ lowerBoundTime - 1)).dropLast.getLast? =
        some p
      rw [dropLast_drop, List.getLast?_drop, if_neg (by
        rw [List.length_dropLast]
        omega)]
      exact hp
    · simp only [List.getLast?_cons, List.getLast?_drop]
      split_ifs
      · rfl
      · rw [hm]
        rfl

/-- In the rounded model, `rewind` on a timeline that ends in stance, whose last event time `b`
is at or after both bounds: when the event time before the last is below `b`, `rewind` does what
its truncation step does; when it equals `b` (or exceeds it), `rewind` raises the start-time
error. -/
theorem rounded_rewind_of_reaching {F : Type} (fl : scalar_t → scalar_t) (E : Collaborators F)
    (r : SwitchedModelLogicRulesBase F) (lowerBoundTime upperBoundTime b p : scalar_t)
    (hinv : LengthInvariant r) (hs : r.eventTimes_.Pairwise (fun a b => a ≤ b))
    (hne : r.modeSequenceTemplate_.templateSubsystemsSequence_ ≠ [])
    (hwf : WellFormedTemplate r.modeSequenceTemplate_)
    (hb : r.eventTimes_.getLast? = some b) (hlb : lowerBoundTime ≤ b)
    (hp : r.eventTimes_.dropLast.getLast? = some p)
    (hm : r.subsystemsSequence_.getLast? = some E.STANCE) :
    ∃ q, rewindTruncate E r lowerBoundTime = .returned q ∧
      (p < b → upperBoundTime ≤ b → ∀ n,
        rounded.rewind fl E (n + 1) r lowerBoundTime upperBoundTime =
          some (.returned (update E q))) ∧
      (b ≤ p → ∀ fuel, rounded.rewind fl E fuel r lowerBoundTime upperBoundTime =
        some (.raised .tilingStartNotGreater)) := by
  obtain ⟨q, hq, hbq, hpq, hmq⟩ := rewindTruncate_reaching E r lowerBoundTime b p hinv hs hb hlb
    hp hm
  have htmpl := rewindTruncate_template hq
  have hmne : q.subsystemsSequence_ ≠ [] := by
    intro hc
    rw [hc] at hmq
    cases hmq
  have hres := rounded_tileModeSequenceTemplate_restore fl E q q.modeSequenceTemplate_
    upperBoundTime b p (htmpl ▸ hne) (htmpl ▸ hwf) hbq hpq hmq
  refine ⟨q, hq, ?_, ?_⟩
  · intro hpb hub n
    unfold rounded.rewind
    rw [hq]
    simp only [hbq, hmne, ↓reduceIte]
    rw [hres.1 hpb hub n]
  · intro hbp fuel
    unfold rounded.rewind
    rw [hq]
    simp only [hbq, hmne, ↓reduceIte]
    rw [hres.2 hbp fuel]


/-! ### C9: an insertion followed by `rewind` -/

theorem round64_quarter : round64 (1 / 4) = 1 / 4 := by
  have h := round64_int_mul_zpow 1 (-2) (by norm_num) (by norm_num)
  norm_num at h ⊢
  exact h

theorem round64_seven_quarters : round64 (7 / 4) = 7 / 4 := by
  have h := round64_int_mul_zpow 7 (-2) (by norm_num) (by norm_num)
  norm_num at h ⊢
  exact h

theorem round64_two : round64 2 = 2 := by
  have h := round64_int_mul_zpow 2 0 (by norm_num) (by norm_num)
  simpa using h

theorem round64_ten : round64 10 = 10 := by
  have h := round64_int_mul_zpow 10 0 (by norm_num) (by norm_num)
  simpa using h

theorem insert_exampleDyadic_of (fl : scalar_t → scalar_t)
    (e1 : fl (1 / 1000) = 1152921504606847 / 1152921504606846976)
    (e2 : fl 1 = 1) (e3 : fl (1 / 4) = 1 / 4) (e4 : fl (1 / 2) = 1 / 2)
    (e5 : fl (5 / 4) = 5 / 4) (e6 : fl (7 / 4) = 7 / 4) :
    rounded.insertModeSequenceTemplate fl exampleCollaborators 2 exampleDyadic
      exampleDyadicTemplate 1 (5 / 4) = some (.returned exampleDyadicInserted) := by
  norm_num at e1 e2 e3 e4 e5 e6
  norm_num [rounded.insertModeSequenceTemplate, insertTruncate, lower_bound, lowerBoundLoop,
    exampleDyadic, mkRules, exampleDyadicTemplate, rounded.insertTransition,
    transitionStanceTime, rounded.tileModeSequenceTemplate, rounded.tileWhileLoop,
    rounded.tileForLoop, update, resize, exampleCollaborators, List.replicate,
    exampleDyadicInserted, e1, e2, e3, e4, e5, e6]

theorem insert_exampleDyadic :
    rounded.insertModeSequenceTemplate round64 exampleCollaborators 2 exampleDyadic
      exampleDyadicTemplate 1 (5 / 4) = some (.returned exampleDyadicInserted) :=
  insert_exampleDyadic_of round64 round64_thousandth round64_one round64_quarter round64_half
    round64_five_quarters round64_seven_quarters

theorem rewind_exampleUnitInserted (fl : scalar_t → scalar_t) :
    rounded.rewind fl exampleCollaborators 2 exampleUnitInserted 1 (5 / 4) =
      some (.raised .tilingStartNotGreater) := by
  norm_num [rounded.rewind, rewindTruncate, lower_bound, lowerBoundLoop,
    exampleAbsorbedTemplate, exampleUnitInserted, rounded.tileModeSequenceTemplate]
  intro hc
  cases hc

theorem insert_exampleSwingBetween_of (fl : scalar_t → scalar_t)
    (e1 : fl (1 / 1000) = 1152921504606847 / 1152921504606846976) :
    rounded.insertModeSequenceTemplate fl exampleCollaborators 2 exampleSwingBetween
      emptyTemplate 2 10 = some (.returned exampleSwingBetweenInserted) := by
  norm_num at e1
  norm_num [rounded.insertModeSequenceTemplate, insertTruncate, lower_bound, lowerBoundLoop,
    exampleSwingBetween, mkRules, emptyTemplate, rounded.insertTransition,
    transitionStanceTime, rounded.tileModeSequenceTemplate, update, resize,
    exampleCollaborators, List.replicate, exampleSwingBetweenInserted, e1]

theorem insert_exampleSwingBetween :
    rounded.insertModeSequenceTemplate round64 exampleCollaborators 2 exampleSwingBetween
      emptyTemplate 2 10 = some (.returned exampleSwingBetweenInserted) :=
  insert_exampleSwingBetween_of round64 round64_thousandth

theorem rewind_exampleSwingBetweenInserted (fl : scalar_t → scalar_t) :
    rounded.rewind fl exampleCollaborators 2 exampleSwingBetweenInserted 2 10 =
      some (.returned exampleSwingBetweenRewound) := by
  norm_num [rounded.rewind, rewindTruncate, lower_bound, lowerBoundLoop,
    emptyTemplate, exampleSwingBetweenInserted, exampleSwingBetweenRewound,
    rounded.tileModeSequenceTemplate, update, resize, exampleCollaborators, List.replicate]
  rfl

theorem representable_exampleSwingBetween :
    ∀ t ∈ exampleSwingBetween.eventTimes_, round64 t = t := by
  intro t ht
  simp only [exampleSwingBetween, mkRules, List.mem_cons, List.mem_singleton, List.not_mem_nil,
    or_false] at ht
  rcases ht with rfl | rfl
  · exact round64_one
  · have h := round64_int_mul_zpow 3 0 (by norm_num) (by norm_num)
    simpa using h


/-- C9 (as stated) fails. In binary64 arithmetic, inserting `exampleAbsorbedTemplate` (also the
last-known template) into `exampleUnit` from `1` to `1.25` returns normally with the event times
`0, 1, 1.5, 1.5`, and `rewind(1, 1.25)` after it raises the start-time error: it yields no
timeline at all. With the empty template, inserting into `exampleSwingBetween` at `2` leaves a
transition stance phase that starts at the event time `2`, and `rewind(2, 10)` after it removes
that event time and that phase: from the start time on the timelines differ. -/
theorem C9_counterexample :
    (rounded.insertModeSequenceTemplate round64 exampleCollaborators 2 exampleUnit
        exampleAbsorbedTemplate 1 (5 / 4) = some (.returned exampleUnitInserted) ∧
      exampleUnit.modeSequenceTemplate_ = exampleAbsorbedTemplate ∧
      rounded.rewind round64 exampleCollaborators 2 exampleUnitInserted 1 (5 / 4) =
        some (.raised .tilingStartNotGreater)) ∧
    (rounded.insertModeSequenceTemplate round64 exampleCollaborators 2 exampleSwingBetween
        emptyTemplate 2 10 = some (.returned exampleSwingBetweenInserted) ∧
      exampleSwingBetween.modeSequenceTemplate_ = emptyTemplate ∧
      rounded.rewind round64 exampleCollaborators 2 exampleSwingBetweenInserted 2 10 =
        some (.returned exampleSwingBetweenRewound) ∧
      exampleSwingBetweenInserted.eventTimes_ = [1, 2] ∧
      exampleSwingBetweenInserted.subsystemsSequence_ = [15, 7, 15] ∧
      exampleSwingBetweenRewound.eventTimes_ = [1] ∧
      exampleSwingBetweenRewound.subsystemsSequence_ = [15, 7]) :=
  ⟨⟨insert_exampleUnit, rfl, rewind_exampleUnitInserted round64⟩,
    insert_exampleSwingBetween, rfl, rewind_exampleSwingBetweenInserted round64, rfl, rfl, rfl,
    rfl⟩

/-- C9 (amended). Let the sums be rounded by a monotone idempotent rounding `fl` with
`fl 0 = 0`. For every valid timeline (one mode more than event times, strictly increasing
representable event times) with a non-negative `phaseTransitionStanceTime_`, every
representable `startTime` and every non-empty template with strictly increasing switching times
that is also the template stored in the object: when `insertModeSequenceTemplate(template,
startTime, finalTime)` returns, the timeline it leaves has a last event time `b` and an event
time `p <= b` before it. When `p < b`, `rewind(startTime, finalTime)` returns too and leaves the
inserted timeline from the last event before `startTime` on: with `index` the number of event
times of the inserted timeline below `startTime`, the event times at the positions before
`index - 1` and their modes are dropped, the first remaining mode is set to `STANCE` when
`index > 0`, and all later event times and modes are those of the inserted timeline. When
`index = 0`, or `index = 1` and the inserted timeline starts in `STANCE`, the object after
`rewind` equals the object after the insertion. When `p = b` (the last phase of the tiling was
absorbed by rounding), `rewind(startTime, finalTime)` raises the start-time error. -/
theorem C9_insert_then_rewind (fl : scalar_t → scalar_t) (hfl : IsRounding fl) {F : Type}
    (E : Collaborators F) (fuel : Nat)
    (self r : SwitchedModelLogicRulesBase F) (tmpl : logic_template_type)
    (startTime finalTime : scalar_t)
    (hinv : LengthInvariant self) (hs : StrictlyIncreasing self.eventTimes_)
    (hrep : ∀ t ∈ self.eventTimes_, fl t = t) (hstart : fl startTime = startTime)
    (h0 : 0 ≤ self.phaseTransitionStanceTime_)
    (hne : tmpl.templateSubsystemsSequence_ ≠ [])
    (ht : StrictlyIncreasing tmpl.templateSwitchingTimes_)
    (hstored : self.modeSequenceTemplate_ = tmpl)
    (h : rounded.insertModeSequenceTemplate fl E fuel self tmpl startTime finalTime =
      some (.returned r)) :
    ∃ p b, r.eventTimes_.dropLast.getLast? = some p ∧ r.eventTimes_.getLast? = some b ∧ p ≤ b ∧
      (p = b → rounded.rewind fl E fuel r startTime finalTime =
        some (.raised .tilingStartNotGreater)) ∧
      (p < b → ∃ r1, rounded.rewind fl E fuel r startTime finalTime = some (.returned r1) ∧
        r1.eventTimes_ = r.eventTimes_.drop (lower_bound r.eventTimes_ startTime - 1) ∧
        r1.subsystemsSequence_.tail =
          r.subsystemsSequence_.drop (lower_bound r.eventTimes_ startTime - 1 + 1) ∧
        (0 < lower_bound r.eventTimes_ startTime →
          r1.subsystemsSequence_.head? = some E.STANCE) ∧
        (lower_bound r.eventTimes_ startTime = 0 ∨
          (lower_bound r.eventTimes_ startTime = 1 ∧
            r.subsystemsSequence_.head? = some E.STANCE) → r1 = r)) := by
  have hsr := rounded_insert_sortedRepresentable hfl ⟨hs.sorted, hrep⟩ ht.sorted hstart h
  obtain ⟨self1, self2, h1, h2, rfl⟩ := rounded_insertModeSequenceTemplate_returned h
  have hs2 : self2.eventTimes_.Pairwise (fun a b => a ≤ b) := hsr.1
  have hinv0 := lengthInvariant_rounded_insertTransition fl E startTime
    (lengthInvariant_insertTruncate h1 hinv)
  have hinv2 := lengthInvariant_rounded_tileModeSequenceTemplate h2 hinv0
  obtain ⟨n, rfl⟩ := Nat.exists_eq_succ_of_ne_zero
    (rounded_tileModeSequenceTemplate_fuel_ne_zero h2 hne)
  obtain ⟨⟨b, hb, hfb⟩, hm⟩ := rounded_tileModeSequenceTemplate_last h2 hne
  rcases rounded_tileModeSequenceTemplate_returned fl E _ _ self2 _ _ _ h2 with
    ⟨hc, _⟩ | ⟨_, hwf, last, ms, ts, hlast, _, hshape, _, _, _⟩
  · exact absurd hc hne
  have htmpl2 : self2.modeSequenceTemplate_ = tmpl := by
    rw [hshape]
    show (rounded.insertTransition fl E self1 startTime).modeSequenceTemplate_ = tmpl
    rw [rounded_insertTransition_template, (insertTruncate_fields h1).1, hstored]
  have hmem : fl (startTime + transitionStanceTime E self1) ∈ self2.eventTimes_ := by
    rw [hshape]
    simp [pushed]
  have hsb : startTime ≤ b := by
    have h3 := le_getLast_of_sorted hs2 hb hmem
    have h4 := transitionStanceTime_nonneg E self1 ((insertTruncate_fields h1).2 ▸ h0)
    have h5 : fl startTime ≤ fl (startTime + transitionStanceTime E self1) :=
      hfl.1 (by linarith)
    rw [hstart] at h5
    exact le_trans h5 h3
  have hlen2 : 2 ≤ self2.eventTimes_.length := by
    have := length_pos_of_getLast? hlast
    rw [hshape]
    simp only [pushed, List.length_append, List.length_cons]
    omega
  obtain ⟨p, hp, hpb⟩ := exists_before_last_sorted hs2 hlen2 hb
  obtain ⟨q, hq, hret, hraise⟩ := rounded_rewind_of_reaching fl E (update E self2) startTime
    finalTime b p hinv2 hs2
    (by show self2.modeSequenceTemplate_.templateSubsystemsSequence_ ≠ []; rw [htmpl2]; exact hne)
    (by show WellFormedTemplate self2.modeSequenceTemplate_; rw [htmpl2]; exact hwf)
    hb hsb hp hm
  refine ⟨p, b, hp, hb, hpb, fun hc => hraise (le_of_eq hc.symm) _, fun hlt => ?_⟩
  refine ⟨update E q, hret hlt hfb n, ?_⟩
  rcases rewindTruncate_returned hq with ⟨hidx, rfl⟩ | ⟨hpos, _⟩
  · rw [hidx]
    refine ⟨rfl, ?_, fun hc => absurd hc (lt_irrefl 0), fun _ => update_update E self2⟩
    show self2.subsystemsSequence_.tail = self2.subsystemsSequence_.drop 1
    simp
  · have hqeq := rewindTruncate_of_pos hq hpos
    refine ⟨by rw [hqeq]; rfl, by rw [hqeq]; rfl, fun _ => by rw [hqeq]; rfl, ?_⟩
    rintro (hc | ⟨h1idx, hhead⟩)
    · omega
    · rw [hqeq, h1idx]
      have hmodes : E.STANCE :: (update E self2).subsystemsSequence_.drop (1 - 1 + 1) =
          (update E self2).subsystemsSequence_ := by
        rcases hml : (update E self2).subsystemsSequence_ with _ | ⟨a, l⟩
        · rw [hml] at hhead
          cases hhead
        · rw [hml] at hhead
          simp only [List.head?_cons, Option.some.injEq] at hhead
          rw [hhead]
          rfl
      simp only [Nat.sub_self, List.drop_zero]
      rw [hmodes]
      exact update_update E self2

theorem strictlyIncreasing_exampleDyadicTemplate :
    StrictlyIncreasing exampleDyadicTemplate.templateSwitchingTimes_ := by
  norm_num [StrictlyIncreasing, exampleDyadicTemplate]

theorem strictlyIncreasing_exampleDyadic : StrictlyIncreasing exampleDyadic.eventTimes_ := by
  norm_num [StrictlyIncreasing, exampleDyadic, mkRules]

theorem representable_exampleDyadic : ∀ t ∈ exampleDyadic.eventTimes_, round64 t = t := by
  intro t ht
  simp only [exampleDyadic, mkRules, List.mem_singleton] at ht
  subst ht
  exact round64_zero

theorem C9_insert_then_rewind_witness :
    (∃ p b, exampleDyadicInserted.eventTimes_.dropLast.getLast? = some p ∧
      exampleDyadicInserted.eventTimes_.getLast? = some b ∧ p ≤ b ∧
      (p = b → rounded.rewind round64 exampleCollaborators 2 exampleDyadicInserted 1 (5 / 4) =
        some (.raised .tilingStartNotGreater)) ∧
      (p < b → ∃ r1,
        rounded.rewind round64 exampleCollaborators 2 exampleDyadicInserted 1 (5 / 4) =
          some (.returned r1) ∧
        r1.eventTimes_ = exampleDyadicInserted.eventTimes_.drop
          (lower_bound exampleDyadicInserted.eventTimes_ 1 - 1) ∧
        r1.subsystemsSequence_.tail = exampleDyadicInserted.subsystemsSequence_.drop
          (lower_bound exampleDyadicInserted.eventTimes_ 1 - 1 + 1) ∧
        (0 < lower_bound exampleDyadicInserted.eventTimes_ 1 →
          r1.subsystemsSequence_.head? = some exampleCollaborators.STANCE) ∧
        (lower_bound exampleDyadicInserted.eventTimes_ 1 = 0 ∨
          (lower_bound exampleDyadicInserted.eventTimes_ 1 = 1 ∧
            exampleDyadicInserted.subsystemsSequence_.head? =
              some exampleCollaborators.STANCE) → r1 = exampleDyadicInserted))) :=
  C9_insert_then_rewind round64 isRounding_round64 exampleCollaborators 2 exampleDyadic
    exampleDyadicInserted exampleDyadicTemplate 1 (5 / 4) (by decide)
    strictlyIncreasing_exampleDyadic representable_exampleDyadic round64_one
    (by norm_num [exampleDyadic, mkRules]) (by decide) strictlyIncreasing_exampleDyadicTemplate
    rfl insert_exampleDyadic


/-! ### C29: rewinding twice -/

theorem rewindTruncate_fixed {F : Type} {E : Collaborators F}
    {r q : SwitchedModelLogicRulesBase F} {lowerBoundTime : scalar_t}
    (hq : rewindTruncate E r lowerBoundTime = .returned q)
    (hidx : lower_bound r.eventTimes_ lowerBoundTime = 0 ∨
      (lower_bound r.eventTimes_ lowerBoundTime = 1 ∧
        r.subsystemsSequence_.head? = some E.STANCE)) : q = r := by
  rcases rewindTruncate_returned hq with ⟨_, rfl⟩ | ⟨hpos, _⟩
  · rfl
  · have hqeq := rewindTruncate_of_pos hq hpos
    rcases hidx with hc | ⟨h1idx, hhead⟩
    · omega
    · rw [hqeq, h1idx]
      rcases hml : r.subsystemsSequence_ with _ | ⟨a, l⟩
      · rw [hml] at hhead
        cases hhead
      · rw [hml] at hhead
        simp only [List.head?_cons, Option.some.injEq] at hhead
        cases r
        simp only at hml
        subst hml
        subst hhead
        rfl

theorem rewind_exampleUnitRewound (fl : scalar_t → scalar_t) :
    rounded.rewind fl exampleCollaborators 2 exampleUnitRewound (1 / 2) (5 / 4) =
      some (.raised .tilingStartNotGreater) := by
  norm_num [rounded.rewind, rewindTruncate, lower_bound, lowerBoundLoop,
    exampleAbsorbedTemplate, exampleUnitRewound, rounded.tileModeSequenceTemplate]
  intro hc
  cases hc

theorem rewind_exampleDyadicInserted (fl : scalar_t → scalar_t) :
    rounded.rewind fl exampleCollaborators 2 exampleDyadicInserted 1 (5 / 4) =
      some (.returned exampleDyadicInserted) := by
  norm_num [rounded.rewind, rewindTruncate, lower_bound, lowerBoundLoop,
    exampleDyadicTemplate, exampleDyadicInserted, rounded.tileModeSequenceTemplate,
    rounded.tileWhileLoop, rounded.tileForLoop, update, resize, exampleCollaborators,
    List.replicate]
  rfl

/-- C29 (as stated) fails in binary64 arithmetic. The event times `0, 1` of `exampleUnitGait`
and the switching times of its last-known template `exampleAbsorbedTemplate` are strictly
increasing binary64 numbers; `rewind(0.5, 1.25)` returns normally with the event times
`0, 1, 1.5, 1.5`, and the second `rewind(0.5, 1.25)` raises the start-time error. -/
theorem C29_counterexample :
    StrictlyIncreasing exampleUnitGait.eventTimes_ ∧
      (∀ t ∈ exampleUnitGait.eventTimes_, round64 t = t) ∧
      exampleUnitGait.modeSequenceTemplate_.templateSubsystemsSequence_ ≠ [] ∧
      StrictlyIncreasing exampleUnitGait.modeSequenceTemplate_.templateSwitchingTimes_ ∧
      (∀ t ∈ exampleUnitGait.modeSequenceTemplate_.templateSwitchingTimes_, round64 t = t) ∧
      round64 (1 / 2) = 1 / 2 ∧ round64 (5 / 4) = 5 / 4 ∧
      rounded.rewind round64 exampleCollaborators 2 exampleUnitGait (1 / 2) (5 / 4) =
        some (.returned exampleUnitRewound) ∧
      exampleUnitRewound.eventTimes_ = [0, 1, 3 / 2, 3 / 2] ∧
      rounded.rewind round64 exampleCollaborators 2 exampleUnitRewound (1 / 2) (5 / 4) =
        some (.raised .tilingStartNotGreater) :=
  ⟨strictlyIncreasing_exampleUnitGait, representable_exampleUnitGait, by decide,
    strictlyIncreasing_exampleAbsorbedTemplate, representable_exampleAbsorbedTemplate,
    round64_half, round64_five_quarters, rewind_exampleUnitGait, rfl,
    rewind_exampleUnitRewound round64⟩

/-- C29 (amended). Let the sums be rounded by a monotone idempotent rounding `fl` with
`fl 0 = 0`. For every valid timeline (one mode more than event times, strictly increasing
representable event times) on which `rewind(lowerBound, upperBound)` returns, with a non-empty
last-known template of strictly increasing switching times: the timeline left has a last event
time `b` and an event time `p <= b` before it. When `p < b`, a second
`rewind(lowerBound, upperBound)` returns as well and leaves the object, its event times and its
mode sequence in particular, exactly as it was after the first. When `p = b` (the last phase of
the tiling was absorbed by rounding), the second `rewind(lowerBound, upperBound)` raises the
start-time error. -/
theorem C29_rewind_idempotent (fl : scalar_t → scalar_t) (hfl : IsRounding fl) {F : Type}
    (E : Collaborators F) (fuel : Nat)
    (self r : SwitchedModelLogicRulesBase F) (lowerBoundTime upperBoundTime : scalar_t)
    (hinv : LengthInvariant self) (hs : StrictlyIncreasing self.eventTimes_)
    (hrep : ∀ t ∈ self.eventTimes_, fl t = t)
    (hne : self.modeSequenceTemplate_.templateSubsystemsSequence_ ≠ [])
    (ht : StrictlyIncreasing self.modeSequenceTemplate_.templateSwitchingTimes_)
    (h : rounded.rewind fl E fuel self lowerBoundTime upperBoundTime = some (.returned r)) :
    ∃ p b, r.eventTimes_.dropLast.getLast? = some p ∧ r.eventTimes_.getLast? = some b ∧ p ≤ b ∧
      (p = b → rounded.rewind fl E fuel r lowerBoundTime upperBoundTime =
        some (.raised .tilingStartNotGreater)) ∧
      (p < b → ∃ r2, rounded.rewind fl E fuel r lowerBoundTime upperBoundTime =
          some (.returned r2) ∧
        r2.eventTimes_ = r.eventTimes_ ∧ r2.subsystemsSequence_ = r.subsystemsSequence_ ∧
        r2 = r) := by
  have hsr := rounded_rewind_sortedRepresentable hfl ⟨hs.sorted, hrep⟩ ht.sorted h
  obtain ⟨self1, tilingStart, self2, h1, hts, hm1, h2, rfl⟩ := rounded_rewind_returned h
  have hs2 : self2.eventTimes_.Pairwise (fun a b => a ≤ b) := hsr.1
  have hinv1 := lengthInvariant_rewindTruncate h1 hinv
  have htmpl1 := rewindTruncate_template h1
  have hev1 := rewindTruncate_eventTimes h1
  have hne1 : self1.modeSequenceTemplate_.templateSubsystemsSequence_ ≠ [] := htmpl1 ▸ hne
  have hlen1pos := length_pos_of_getLast? hts
  have hinvd : LengthInvariant
      { self1 with
        eventTimes_ := self1.eventTimes_.dropLast
        subsystemsSequence_ := self1.subsystemsSequence_.dropLast } := by
    unfold LengthInvariant at hinv1 ⊢
    simp only [List.length_dropLast]
    omega
  have hinv2 := lengthInvariant_rounded_tileModeSequenceTemplate h2 hinvd
  obtain ⟨n, rfl⟩ := Nat.exists_eq_succ_of_ne_zero
    (rounded_tileModeSequenceTemplate_fuel_ne_zero h2 hne1)
  obtain ⟨⟨b, hb, hfb⟩, hm⟩ := rounded_tileModeSequenceTemplate_last h2 hne1
  rcases rounded_tileModeSequenceTemplate_returned fl E _ _ self2 _ _ _ h2 with
    ⟨hc, _⟩ | ⟨_, hwf, last, ms, ts, hlast, _, hshape, _, _, _⟩
  · exact absurd hc hne1
  have hdl : self1.eventTimes_.dropLast.getLast? = some last := hlast
  have hlend : 0 < self1.eventTimes_.dropLast.length := length_pos_of_getLast? hdl
  have hlen1 : 2 ≤ self1.eventTimes_.length := by
    rw [List.length_dropLast] at hlend
    omega
  have hev2 : self2.eventTimes_ = self1.eventTimes_ ++ ts := by
    rw [hshape]
    show self1.eventTimes_.dropLast ++ tilingStart :: ts = self1.eventTimes_ ++ ts
    have := List.dropLast_append_getLast? tilingStart (by rw [hts]; rfl)
    rw [← List.singleton_append, ← List.append_assoc, this]
  have hmodes2 : self2.subsystemsSequence_ =
      self1.subsystemsSequence_.dropLast ++ (ms ++ [E.STANCE]) := by
    rw [hshape]
    rfl
  have htmpl2 : self2.modeSequenceTemplate_ = self1.modeSequenceTemplate_ := by
    rw [hshape]
    rfl
  have hlen2 : 2 ≤ self2.eventTimes_.length := by
    rw [hev2, List.length_append]
    omega
  have hle := lower_bound_le_length self.eventTimes_ lowerBoundTime
  have hlenself : self1.eventTimes_.length =
      self.eventTimes_.length - (lower_bound self.eventTimes_ lowerBoundTime - 1) := by
    rw [hev1, List.length_drop]
  have hidxlt : lower_bound self.eventTimes_ lowerBoundTime < self.eventTimes_.length := by
    omega
  -- the event at position `index` of the old timeline is not below the lower bound
  obtain ⟨e1, he1⟩ : ∃ e1, self.eventTimes_[lower_bound self.eventTimes_ lowerBoundTime]? =
      some e1 := ⟨_, List.getElem?_eq_getElem hidxlt⟩
  have he1ge : lowerBoundTime ≤ e1 :=
    not_lt.mp ((lower_bound_spec hs.sorted lowerBoundTime he1).not.mpr (lt_irrefl _))
  have hmem1 : e1 ∈ self2.eventTimes_ := by
    rw [hev2, hev1]
    apply List.mem_append_left
    have hmem := List.getElem?_mem he1
    obtain ⟨j, hj, hje⟩ := List.getElem_of_mem hmem
    have hj2 : self.eventTimes_[j]? = some e1 := by
      rw [List.getElem?_eq_getElem hj, hje]
    have hjidx : ¬ j < lower_bound self.eventTimes_ lowerBoundTime :=
      (lower_bound_spec hs.sorted lowerBoundTime hj2).not.mp (not_lt.mpr he1ge)
    have hx : (self.eventTimes_.drop (lower_bound self.eventTimes_ lowerBoundTime - 1))[
        j - (lower_bound self.eventTimes_ lowerBoundTime - 1)]? = some e1 := by
      rw [List.getElem?_drop, ← hj2]
      congr 1
      omega
    exact List.getElem?_mem hx
  have hlb : lowerBoundTime ≤ b := le_trans he1ge (le_getLast_of_sorted hs2 hb hmem1)
  have hidx : lower_bound self2.eventTimes_ lowerBoundTime = 0 ∨
      (lower_bound self2.eventTimes_ lowerBoundTime = 1 ∧
        self2.subsystemsSequence_.head? = some E.STANCE) := by
    by_cases hi0 : lower_bound self.eventTimes_ lowerBoundTime = 0
    · left
      have hget : self2.eventTimes_[0]? = some e1 := by
        rw [hev2, List.getElem?_append_left (by omega), hev1, List.getElem?_drop, ← he1, hi0]
      have := (lower_bound_spec hs2 lowerBoundTime hget).not.mp (not_lt.mpr he1ge)
      omega
    · right
      have hpos : 0 < lower_bound self.eventTimes_ lowerBoundTime := Nat.pos_of_ne_zero hi0
      obtain ⟨g, hg⟩ : ∃ g, self.eventTimes_[lower_bound self.eventTimes_ lowerBoundTime - 1]? =
          some g := ⟨_, List.getElem?_eq_getElem (by omega)⟩
      have hglt : g < lowerBoundTime :=
        (lower_bound_spec hs.sorted lowerBoundTime hg).mpr (by omega)
      have hget0 : self2.eventTimes_[0]? = some g := by
        rw [hev2, List.getElem?_append_left (by omega), hev1, List.getElem?_drop, ← hg]
        rfl
      have hget1 : self2.eventTimes_[1]? = some e1 := by
        rw [hev2, List.getElem?_append_left (by omega), hev1, List.getElem?_drop, ← he1]
        congr 1
        omega
      have h0 := (lower_bound_spec hs2 lowerBoundTime hget0).mp hglt
      have h1n := (lower_bound_spec hs2 lowerBoundTime hget1).not.mp (not_lt.mpr he1ge)
      refine ⟨by omega, ?_⟩
      have hself1 := rewindTruncate_of_pos h1 hpos
      have hmodes1 : self1.subsystemsSequence_ = E.STANCE ::
          self.subsystemsSequence_.drop
            (lower_bound self.eventTimes_ lowerBoundTime - 1 + 1) := by
        rw [hself1]
      have hrest : self.subsystemsSequence_.drop
          (lower_bound self.eventTimes_ lowerBoundTime - 1 + 1) ≠ [] := by
        intro hc
        have := congrArg List.length hc
        unfold LengthInvariant at hinv
        simp only [List.length_drop, List.length_nil] at this
        omega
      rw [hmodes2, hmodes1]
      rcases hd : self.subsystemsSequence_.drop
          (lower_bound self.eventTimes_ lowerBoundTime - 1 + 1) with _ | ⟨a, l⟩
      · exact absurd hd hrest
      · rfl
  obtain ⟨p, hp, hpb⟩ := exists_before_last_sorted hs2 hlen2 hb
  obtain ⟨q, hq, hret, hraise⟩ := rounded_rewind_of_reaching fl E (update E self2)
    lowerBoundTime upperBoundTime b p hinv2 hs2
    (by show self2.modeSequenceTemplate_.templateSubsystemsSequence_ ≠ []
        rw [htmpl2]; exact hne1)
    (by show WellFormedTemplate self2.modeSequenceTemplate_
        rw [htmpl2]; exact hwf)
    hb hlb hp hm
  refine ⟨p, b, hp, hb, hpb, fun hc => hraise (le_of_eq hc.symm) _, fun hlt => ?_⟩
  have hqr : q = update E self2 := rewindTruncate_fixed hq hidx
  have hfix := hret hlt hfb n
  rw [hqr, update_update] at hfix
  exact ⟨update E self2, hfix, rfl, rfl, rfl⟩

theorem strictlyIncreasing_exampleDyadicInserted :
    StrictlyIncreasing exampleDyadicInserted.eventTimes_ := by
  norm_num [StrictlyIncreasing, exampleDyadicInserted]

theorem representable_exampleDyadicInserted :
    ∀ t ∈ exampleDyadicInserted.eventTimes_, round64 t = t := by
  intro t ht
  simp only [exampleDyadicInserted, List.mem_cons, List.mem_singleton, List.not_mem_nil,
    or_false] at ht
  rcases ht with rfl | rfl | rfl | rfl
  · exact round64_zero
  · exact round64_one
  · exact round64_five_quarters
  · exact round64_seven_quarters

theorem C29_rewind_idempotent_witness :
    (∃ p b, exampleDyadicInserted.eventTimes_.dropLast.getLast? = some p ∧
      exampleDyadicInserted.eventTimes_.getLast? = some b ∧ p ≤ b ∧
      (p = b → rounded.rewind round64 exampleCollaborators 2 exampleDyadicInserted 1 (5 / 4) =
        some (.raised .tilingStartNotGreater)) ∧
      (p < b → ∃ r2,
        rounded.rewind round64 exampleCollaborators 2 exampleDyadicInserted 1 (5 / 4) =
          some (.returned r2) ∧
        r2.eventTimes_ = exampleDyadicInserted.eventTimes_ ∧
        r2.subsystemsSequence_ = exampleDyadicInserted.subsystemsSequence_ ∧
        r2 = exampleDyadicInserted)) ∧
    (∃ p b, exampleUnitRewound.eventTimes_.dropLast.getLast? = some p ∧
      exampleUnitRewound.eventTimes_.getLast? = some b ∧ p ≤ b ∧
      (p = b →
        rounded.rewind round64 exampleCollaborators 2 exampleUnitRewound (1 / 2) (5 / 4) =
          some (.raised .tilingStartNotGreater)) ∧
      (p < b → ∃ r2,
        rounded.rewind round64 exampleCollaborators 2 exampleUnitRewound (1 / 2) (5 / 4) =
          some (.returned r2) ∧
        r2.eventTimes_ = exampleUnitRewound.eventTimes_ ∧
        r2.subsystemsSequence_ = exampleUnitRewound.subsystemsSequence_ ∧
        r2 = exampleUnitRewound)) :=
  ⟨C29_rewind_idempotent round64 isRounding_round64 exampleCollaborators 2 exampleDyadicInserted
      exampleDyadicInserted 1 (5 / 4) (by decide) strictlyIncreasing_exampleDyadicInserted
      representable_exampleDyadicInserted (by decide) strictlyIncreasing_exampleDyadicTemplate
      (rewind_exampleDyadicInserted round64),
    C29_rewind_idempotent round64 isRounding_round64 exampleCollaborators 2 exampleUnitGait
      exampleUnitRewound (1 / 2) (5 / 4) (by decide) strictlyIncreasing_exampleUnitGait
      representable_exampleUnitGait (by decide) strictlyIncreasing_exampleAbsorbedTemplate
      rewind_exampleUnitGait⟩

end switched_model
